import Mathlib

/-!
# Data replication engine: shallow embedding of `service/sync.go`

The development embeds the table sync engine of the repository
(`SyncService` in `service/sync.go`): the value normalizer, the value
comparison used by conflict detection, the canonical primary-key encoding,
the per-dialect statement builders and the single-table sync loop.

Conventions of the embedding

* A Go `string` / `[]byte` is a list of bytes (`GoString`); text constants
  are written with `lit`, which produces the UTF-8 bytes of a Lean string.
* A Go `interface{}` holding a driver value is `Value`.
* A Go `map[string]interface{}` is an association list with distinct keys
  (`GoMap`, `Row`), written with `GoMap.set`; Go's unspecified iteration order
  is the list order.
* Library code that the engine calls (`unicode/utf8`, `time.Parse`,
  `encoding/json`, `encoding/hex`) is transcribed from the Go standard
  library as far as the engine depends on it.
* The target database executes statements through `TargetDB`; failures of
  the target and of the metadata store are part of the state, so that the
  error paths of the engine can be followed.
-/

namespace DBSync

deriving instance DecidableEq for Except

/-! ## Bytes and strings -/

/-- One Go `byte`. -/
abbrev Byte := Fin 256

/-- Go `string` (and `[]byte`): an arbitrary byte sequence, not necessarily
valid UTF-8. -/
abbrev GoString := List Byte

/-- Conversion `byte(n)`: the low eight bits of `n`. -/
def byteOf (n : Nat) : Byte := ⟨n % 256, Nat.mod_lt n (by decide)⟩

/-- The constant `utf8.RuneError` (U+FFFD). -/
def RuneError : Nat := 0xFFFD

/-- Go `utf8.AppendRune` on an empty buffer, which is also what the conversion
`string(rune)` produces: the UTF-8 encoding of `r`, and the encoding of
U+FFFD for a surrogate or a value above U+10FFFF. Shifts and masks of the
library code are written as division and remainder. -/
def encodeRune (r : Nat) : GoString :=
  if r ≤ 0x7F then [byteOf r]
  else if r ≤ 0x7FF then [byteOf (0xC0 + r / 64), byteOf (0x80 + r % 64)]
  else if r < 0xD800 ∨ (0xDFFF < r ∧ r ≤ 0xFFFF) then
    [byteOf (0xE0 + r / 4096), byteOf (0x80 + r / 64 % 64), byteOf (0x80 + r % 64)]
  else if 0xFFFF < r ∧ r ≤ 0x10FFFF then
    [byteOf (0xF0 + r / 262144), byteOf (0x80 + r / 4096 % 64),
     byteOf (0x80 + r / 64 % 64), byteOf (0x80 + r % 64)]
  else [byteOf 0xEF, byteOf 0xBF, byteOf 0xBD]

/-- The bytes of a text constant of the source. -/
def lit (s : String) : GoString := s.toList.flatMap (fun c => encodeRune c.toNat)

/-- Whether the byte is an ASCII decimal digit. -/
def isDigitByte (b : Byte) : Bool := decide (48 ≤ b.val ∧ b.val ≤ 57)

/-- Go `strings.HasSuffix`. -/
def hasSuffix (s suffix : GoString) : Bool :=
  decide (suffix.length ≤ s.length) && (s.drop (s.length - suffix.length) == suffix)

/-- Go `strings.HasPrefix`. -/
def hasPrefix (s pre : GoString) : Bool := s.take pre.length == pre

/-- Go `strings.Contains`: `sub` occurs in `s` as a contiguous run. -/
def containsStr : GoString → GoString → Bool
  | [], sub => sub == []
  | c :: s, sub => hasPrefix (c :: s) sub || containsStr s sub

/-! ## Driver values -/

/-- A Go `float64`, given by its 64 IEEE-754 bits. -/
abbrev Float64 := Fin (2 ^ 64)

/-- IEEE-754 not-a-number: exponent bits all set and a non-zero fraction. -/
def Float64.isNaN (f : Float64) : Bool :=
  decide (f.val / 2 ^ 52 % 2048 = 2047 ∧ f.val % 2 ^ 52 ≠ 0)

/-- Positive or negative zero. -/
def Float64.isZero (f : Float64) : Bool := decide (f.val % 2 ^ 63 = 0)

/-- Go `==` on two `float64`: a NaN equals nothing, the two zeros are equal,
and otherwise the bits decide. -/
def Float64.eq (a b : Float64) : Bool :=
  !a.isNaN && !b.isNaN && (decide (a = b) || (a.isZero && b.isZero))

/-- A Go `time.Time`, as far as the engine observes it: the instant, as whole
seconds since the Unix epoch (`t.Unix()`) and the nanoseconds within the
second. The location is not modelled; `t.UTC()` leaves both fields alone. -/
structure Time where
  unix : Int
  nsec : Nat
deriving DecidableEq, Repr

/-- A value held in an `interface{}` as `database/sql` delivers it when
scanning into `*interface{}`: nil, `int64`, `float64`, `bool`, `string`,
`[]byte` or `time.Time`. -/
inductive Value where
  | null
  | int (i : Int)
  | float (f : Float64)
  | bool (b : Bool)
  | str (s : GoString)
  | bytes (b : GoString)
  | time (t : Time)
deriving DecidableEq, Repr

/-- Whether the value is a `[]byte`. -/
def Value.isBytes : Value → Bool
  | .bytes _ => true
  | _ => false

/-- Go `v1 == v2` on two non-nil interface values: equal dynamic types and
equal values. For two `[]byte` the Go runtime panics (slices are not
comparable); that case is given the value `false` here and never arises on the
paths of the engine, which compare normalized values only. -/
def Value.goEq : Value → Value → Bool
  | .null, .null => true
  | .int a, .int b => decide (a = b)
  | .float a, .float b => Float64.eq a b
  | .bool a, .bool b => decide (a = b)
  | .str a, .str b => decide (a = b)
  | .time a, .time b => decide (a = b)
  | _, _ => false

/-! ## `time.Parse`, for the layouts that `parseTimeValue` uses

The parser of the Go `time` package is transcribed for the layout elements
that occur in the thirteen layouts of `parseTimeValue`. A layout is given as
the sequence of chunks into which `time.nextStdChunk` cuts the layout string:
literal text and standard elements. -/

/-- Go `time.commaOrPeriod`. -/
def commaOrPeriod (b : Byte) : Bool := decide (b.val = 46 ∨ b.val = 44)

/-- Go `time.getnum`: a leading number of one or two digits, exactly two when
`fixed`; the value and the rest of the input. -/
def getnum (s : GoString) (fixed : Bool) : Option (Nat × GoString) :=
  match s with
  | [] => none
  | [a] =>
    if isDigitByte a then (if fixed then none else some (a.val - 48, [])) else none
  | a :: b :: rest =>
    if isDigitByte a then
      if isDigitByte b then some ((a.val - 48) * 10 + (b.val - 48), rest)
      else if fixed then none else some (a.val - 48, b :: rest)
    else none

/-- Go `time.leadingInt`: the value of the leading run of digits, continuing
from `acc`, and the rest of the input. (The overflow guard of the library is
left out: the callers pass at most nine digits.) -/
def leadingInt : GoString → Nat → Nat × GoString
  | [], acc => (acc, [])
  | c :: s, acc =>
    if isDigitByte c then leadingInt s (acc * 10 + (c.val - 48)) else (acc, c :: s)

/-- Go `time.atoi`: an optional sign, then digits up to the end of the input. -/
def atoi (s : GoString) : Option Int :=
  let neg : Bool := match s with
    | c :: _ => decide (c.val = 45)
    | [] => false
  let s1 : GoString := match s with
    | c :: r => if c.val = 45 ∨ c.val = 43 then r else c :: r
    | [] => []
  match leadingInt s1 0 with
  | (q, []) => some (if neg then -(q : Int) else (q : Int))
  | (_, _ :: _) => none

/-- Go `time.parseNanoseconds`: `value` starts with a comma or period followed
by digits; `nbytes` is the length of that run, separator included. `none` is
an error or a range error. -/
def parseNanoseconds (value : GoString) (nbytes : Nat) : Option Nat :=
  match value with
  | [] => none
  | c :: _ =>
    if commaOrPeriod c then
      let n := if nbytes > 10 then 10 else nbytes
      match atoi ((value.take n).drop 1) with
      | none => none
      | some ns => if ns < 0 then none else some (ns.toNat * 10 ^ (10 - n))
    else none

/-- Length of the leading run of ASCII digits. -/
def digitRun : GoString → Nat
  | [] => 0
  | c :: s => if isDigitByte c then digitRun s + 1 else 0

/-- Go `time.cutspace`: drop leading spaces. -/
def cutspace : GoString → GoString
  | [] => []
  | c :: s => if c.val = 32 then cutspace s else c :: s

/-- Go `time.skip`: remove the literal `pre` from the front of `value`, a run
of spaces in `pre` matching a run of spaces (or the end) in `value`. The flag
tells that a run of spaces of `pre` is being cut, which the library does with
`cutspace(prefix)` in one step. -/
def skip : GoString → GoString → Bool → Option GoString
  | value, [], _ => some value
  | value, p :: pre, cutting =>
    if p.val = 32 then
      if cutting then skip value pre true
      else
        match value with
        | [] => skip [] pre true
        | v :: rest => if v.val = 32 then skip (cutspace rest) pre true else none
    else
      match value with
      | [] => none
      | v :: rest => if v = p then skip rest pre false else none

/-- The chunks of a layout, after `time.nextStdChunk`. -/
inductive Chunk where
  | text (s : GoString)
  | stdLongYear
  | stdZeroMonth
  | stdZeroDay
  | stdHour
  | stdZeroMinute
  | stdZeroSecond
  | stdFracSecond0 (digits : Nat)
  | stdFracSecond9 (digits : Nat)
  | stdISO8601ColonTZ
  | stdNumColonTZ
deriving DecidableEq, Repr

/-- The fields that `time.Parse` collects. -/
structure Fields where
  year : Nat
  month : Nat
  day : Nat
  hour : Nat
  min : Nat
  sec : Nat
  nsec : Nat
  zoneOffset : Int
deriving DecidableEq, Repr

/-- The fields before parsing: January 1 of year 0, midnight, UTC. -/
def Fields.init : Fields :=
  { year := 0, month := 1, day := 1, hour := 0, min := 0, sec := 0, nsec := 0, zoneOffset := 0 }

/-- Whether the next standard element of the rest of the layout is a
fractional second (`nextStdChunk(layout)` in the seconds case of `Parse`). -/
def nextIsFrac : List Chunk → Bool
  | Chunk.text _ :: rest => nextIsFrac rest
  | Chunk.stdFracSecond0 _ :: _ => true
  | Chunk.stdFracSecond9 _ :: _ => true
  | _ => false

/-- The numeric zone offset `±hh:mm` (`stdNumColonTZ`, and `stdISO8601ColonTZ`
after its `Z` test). -/
def parseNumColonTZ (value : GoString) (f : Fields) : Option (GoString × Fields) :=
  match value with
  | sign :: h1 :: h2 :: colon :: m1 :: m2 :: rest =>
    if colon.val ≠ 58 then none
    else
      match getnum [h1, h2] true, getnum [m1, m2] true with
      | some (hr, _), some (mm, _) =>
        if hr > 24 ∨ mm > 60 then none
        else if sign.val = 43 then some (rest, { f with zoneOffset := ((hr * 60 + mm) * 60 : Nat) })
        else if sign.val = 45 then
          some (rest, { f with zoneOffset := -(((hr * 60 + mm) * 60 : Nat) : Int) })
        else none
      | _, _ => none
  | _ => none

/-- One round of the loop of `time.Parse`: consume the chunk `c` from the
front of `value`; `rest` is the layout after `c`. `none` is a parse error or a
range error. -/
def parseChunk (c : Chunk) (rest : List Chunk) (value : GoString) (f : Fields) :
    Option (GoString × Fields) :=
  match c with
  | Chunk.text s => (skip value s false).map (fun v => (v, f))
  | Chunk.stdLongYear =>
    match value with
    | a :: _ =>
      if value.length < 4 ∨ ¬ isDigitByte a then none
      else
        match atoi (value.take 4) with
        | some y => some (value.drop 4, { f with year := y.toNat })
        | none => none
    | [] => none
  | Chunk.stdZeroMonth =>
    match getnum value true with
    | some (m, v) => if m = 0 ∨ 12 < m then none else some (v, { f with month := m })
    | none => none
  | Chunk.stdZeroDay =>
    match getnum value true with
    | some (d, v) => some (v, { f with day := d })
    | none => none
  | Chunk.stdHour =>
    match getnum value false with
    | some (h, v) => if 24 ≤ h then none else some (v, { f with hour := h })
    | none => none
  | Chunk.stdZeroMinute =>
    match getnum value true with
    | some (m, v) => if 60 ≤ m then none else some (v, { f with min := m })
    | none => none
  | Chunk.stdZeroSecond =>
    match getnum value true with
    | some (s, v) =>
      if 60 ≤ s then none
      else
        match v with
        | p :: d :: more =>
          if commaOrPeriod p ∧ isDigitByte d ∧ ¬ nextIsFrac rest then
            -- a fractional second in the input that the layout does not have
            let n := 2 + digitRun more
            match parseNanoseconds v n with
            | some ns => some (v.drop n, { f with sec := s, nsec := ns })
            | none => none
          else some (v, { f with sec := s })
        | _ => some (v, { f with sec := s })
    | none => none
  | Chunk.stdFracSecond0 digits =>
    let ndigit := 1 + digits
    if value.length < ndigit then none
    else
      match parseNanoseconds value ndigit with
      | some ns => some (value.drop ndigit, { f with nsec := ns })
      | none => none
  | Chunk.stdFracSecond9 _ =>
    match value with
    | p :: d :: more =>
      if commaOrPeriod p ∧ isDigitByte d then
        let n := 2 + digitRun more
        match parseNanoseconds value n with
        | some ns => some (value.drop n, { f with nsec := ns })
        | none => none
      else some (value, f)
    | _ => some (value, f)
  | Chunk.stdISO8601ColonTZ =>
    match value with
    | z :: more => if z.val = 90 then some (more, { f with zoneOffset := 0 })
                   else parseNumColonTZ value f
    | [] => parseNumColonTZ value f
  | Chunk.stdNumColonTZ => parseNumColonTZ value f

/-- The loop of `time.Parse` over the chunks of the layout. -/
def parseChunks : List Chunk → GoString → Fields → Option (GoString × Fields)
  | [], v, f => some (v, f)
  | c :: rest, v, f =>
    match parseChunk c rest v f with
    | some (v1, f1) => parseChunks rest v1 f1
    | none => none

/-- Go `time.isLeap`. -/
def isLeap (year : Nat) : Bool := decide (year % 4 = 0 ∧ (year % 100 ≠ 0 ∨ year % 400 = 0))

/-- Days of a non-leap year before the first day of month `m` (1 to 12): the
table `time.daysBefore`. -/
def daysBefore (m : Nat) : Nat :=
  [0, 31, 59, 90, 120, 151, 181, 212, 243, 273, 304, 334].getD (m - 1) 0

/-- Go `time.daysIn`. -/
def daysIn (m year : Nat) : Nat :=
  if m = 2 then (if isLeap year then 29 else 28)
  else if m = 4 ∨ m = 6 ∨ m = 9 ∨ m = 11 then 30 else 31

/-- Days from 0000-01-01 to the first day of `year` in the proleptic Gregorian
calendar. -/
def daysBeforeYear (year : Nat) : Nat :=
  365 * year + (year + 3) / 4 - (year + 99) / 100 + (year + 399) / 400

/-- Days from 1970-01-01 to the given date (negative before). -/
def daysSinceEpoch (year month day : Nat) : Int :=
  ((daysBeforeYear year + daysBefore month
      + (if isLeap year ∧ 2 < month then 1 else 0) + (day - 1) : Nat) : Int) - 719528

/-- The instant that `time.Parse` returns for the collected fields:
`Date(year, month, day, hour, min, sec, nsec, UTC)` moved back by the zone
offset. -/
def Fields.toTime (f : Fields) : Time :=
  { unix := daysSinceEpoch f.year f.month f.day * 86400
      + ((f.hour * 3600 + f.min * 60 + f.sec : Nat) : Int) - f.zoneOffset,
    nsec := f.nsec }

/-- Go `time.Parse(layout, value)` on a layout given by its chunks: all of
`value` must be consumed and the day must exist in the month. `none` is the
error result. -/
def timeParse (layout : List Chunk) (value : GoString) : Option Time :=
  match parseChunks layout value Fields.init with
  | some ([], f) =>
    if f.day < 1 ∨ f.day > daysIn f.month f.year then none else some f.toTime
  | _ => none

/-- The date and time of day `2006-01-02?15:04:05`, with the given separator. -/
def layoutDateTime (sep : String) : List Chunk :=
  [Chunk.stdLongYear, Chunk.text (lit "-"), Chunk.stdZeroMonth, Chunk.text (lit "-"),
   Chunk.stdZeroDay, Chunk.text (lit sep), Chunk.stdHour, Chunk.text (lit ":"),
   Chunk.stdZeroMinute, Chunk.text (lit ":"), Chunk.stdZeroSecond]

/-- Layout `time.RFC3339`, `2006-01-02T15:04:05Z07:00`. -/
def RFC3339 : List Chunk := layoutDateTime "T" ++ [Chunk.stdISO8601ColonTZ]

/-- Layout `time.RFC3339Nano`, `2006-01-02T15:04:05.999999999Z07:00`. -/
def RFC3339Nano : List Chunk :=
  layoutDateTime "T" ++ [Chunk.stdFracSecond9 9, Chunk.stdISO8601ColonTZ]

/-- The slice `timeFormats` of `parseTimeValue`, in its order. -/
def timeFormats : List (List Chunk) :=
  [ RFC3339,
    RFC3339Nano,
    layoutDateTime " ",                                                   -- 2006-01-02 15:04:05
    layoutDateTime "T",                                                   -- 2006-01-02T15:04:05
    layoutDateTime "T" ++ [Chunk.text (lit "Z")],                         -- 2006-01-02T15:04:05Z
    layoutDateTime "T" ++ [Chunk.stdFracSecond0 3, Chunk.text (lit "Z")], -- ...05.000Z
    layoutDateTime "T" ++ [Chunk.stdFracSecond0 6, Chunk.text (lit "Z")], -- ...05.000000Z
    layoutDateTime "T" ++ [Chunk.stdFracSecond0 9, Chunk.text (lit "Z")], -- ...05.000000000Z
    layoutDateTime " " ++ [Chunk.stdFracSecond0 6],                       -- 2006-01-02 15:04:05.000000
    layoutDateTime " " ++ [Chunk.stdFracSecond0 3] ]                      -- 2006-01-02 15:04:05.000

/-- The layouts tried for a string that contains `+` or ends in `Z`. -/
def offsetFormats : List (List Chunk) :=
  [ RFC3339,
    layoutDateTime "T" ++ [Chunk.stdNumColonTZ],                          -- 2006-01-02T15:04:05-07:00
    layoutDateTime "T" ++ [Chunk.stdFracSecond0 3, Chunk.stdNumColonTZ] ] -- ...05.000-07:00

/-! ## Value comparison (`valuesEqual`, `parseTimeValue`) -/

/-- Go `SyncService.parseTimeValue`: `some t` when the value is recognised as
a timestamp (the `ok` result), `none` otherwise. -/
def parseTimeValue (v : Value) : Option Time :=
  match v with
  | Value.str str =>
    match timeFormats.findSome? (fun format => timeParse format str) with
    | some t => some t
    | none =>
      if containsStr str (lit "+") ∨ hasSuffix str (lit "Z") then
        offsetFormats.findSome? (fun format => timeParse format str)
      else none
  | Value.time t => some t
  | _ => none

/-- Go `SyncService.valuesEqual`. -/
def valuesEqual (v1 v2 : Value) : Bool :=
  if v1 = Value.null ∧ v2 = Value.null then true
  else if v1 = Value.null ∨ v2 = Value.null then false
  else
    match parseTimeValue v1, parseTimeValue v2 with
    | some t1, some t2 => decide (t1.unix = t2.unix)
    | some _, none => false
    | none, some _ => false
    | none, none => Value.goEq v1 v2

/-! ## UTF-8 (`unicode/utf8`) -/

/-- Go `utf8.DecodeRuneInString` (and `utf8.DecodeRune`): the first rune of
`s` and its width in bytes; `(RuneError, 0)` for the empty string and
`(RuneError, 1)` for an invalid or truncated encoding. The tables `first` and
`acceptRanges` of the library are written as range tests on the first byte,
masks and shifts as remainder and multiplication. -/
def decodeRune (s : GoString) : Nat × Nat :=
  match s with
  | [] => (RuneError, 0)
  | s0 :: t =>
    if s0.val < 0x80 then (s0.val, 1)
    else if s0.val < 0xC2 ∨ 0xF4 < s0.val then (RuneError, 1)
    else
      let sz : Nat := if s0.val < 0xE0 then 2 else if s0.val < 0xF0 then 3 else 4
      let lo : Nat := if s0.val = 0xE0 then 0xA0 else if s0.val = 0xF0 then 0x90 else 0x80
      let hi : Nat := if s0.val = 0xED then 0x9F else if s0.val = 0xF4 then 0x8F else 0xBF
      if s.length < sz then (RuneError, 1)
      else
        match t with
        | [] => (RuneError, 1)
        | s1 :: t1 =>
          if s1.val < lo ∨ hi < s1.val then (RuneError, 1)
          else if sz ≤ 2 then (s0.val % 32 * 64 + s1.val % 64, 2)
          else
            match t1 with
            | [] => (RuneError, 1)
            | s2 :: t2 =>
              if s2.val < 0x80 ∨ 0xBF < s2.val then (RuneError, 1)
              else if sz ≤ 3 then
                (s0.val % 16 * 4096 + s1.val % 64 * 64 + s2.val % 64, 3)
              else
                match t2 with
                | [] => (RuneError, 1)
                | s3 :: _ =>
                  if s3.val < 0x80 ∨ 0xBF < s3.val then (RuneError, 1)
                  else
                    (s0.val % 8 * 262144 + s1.val % 64 * 4096 + s2.val % 64 * 64
                      + s3.val % 64, 4)

/-- The loop of `utf8.ValidString`: every position reached decodes to
something other than `(RuneError, 1)`. The fuel bounds the number of rounds;
the length of the input is enough. -/
def utf8ValidLoop : Nat → GoString → Bool
  | 0, _ => true
  | _ + 1, [] => true
  | n + 1, c :: s =>
    let d := decodeRune (c :: s)
    if d.1 = RuneError ∧ d.2 = 1 then false else utf8ValidLoop n ((c :: s).drop d.2)

/-- Go `utf8.ValidString` and `utf8.Valid`. -/
def utf8Valid (s : GoString) : Bool := utf8ValidLoop s.length s

/-! ## Value normalizer -/

/-- Whether the rune is an ASCII hexadecimal digit, either case. -/
def isHexRune (r : Nat) : Bool :=
  decide ((48 ≤ r ∧ r ≤ 57) ∨ (97 ≤ r ∧ r ≤ 102) ∨ (65 ≤ r ∧ r ≤ 70))

/-- The loop `for i, r := range str` of `isValidUUIDString`: `i` is the byte
offset of the rune `r`, and `s` the string from that offset on. -/
def isValidUUIDLoop : Nat → Nat → GoString → Bool
  | 0, _, _ => true
  | _ + 1, _, [] => true
  | n + 1, i, c :: s =>
    let d := decodeRune (c :: s)
    if i = 8 ∨ i = 13 ∨ i = 18 ∨ i = 23 then
      if d.1 ≠ 45 then false else isValidUUIDLoop n (i + d.2) ((c :: s).drop d.2)
    else
      if ¬ isHexRune d.1 then false else isValidUUIDLoop n (i + d.2) ((c :: s).drop d.2)

/-- Go `SyncService.isValidUUIDString`. -/
def isValidUUIDString (str : GoString) : Bool :=
  if str.length ≠ 36 then false
  else if str.get? 8 ≠ some 45 ∨ str.get? 13 ≠ some 45 ∨ str.get? 18 ≠ some 45
      ∨ str.get? 23 ≠ some 45 then false
  else isValidUUIDLoop str.length 0 str

/-- The lowercase hexadecimal digit of a value below 16. -/
def hexDigit (n : Nat) : Byte := if n < 10 then byteOf (48 + n) else byteOf (87 + n)

/-- The verb `%0wx` of `fmt.Sprintf` for a number below `16 ^ w`: its `w`
lowercase hexadecimal digits, most significant first. -/
def hexFixed : Nat → Nat → GoString
  | 0, _ => []
  | w + 1, n => hexFixed w (n / 16) ++ [hexDigit (n % 16)]

/-- Go `hex.EncodeToString`. -/
def hexEncode (b : GoString) : GoString := b.flatMap (fun x => hexFixed 2 x.val)

/-- Go `SyncService.binaryToUUID`. The fields are assembled from the bytes as
in the source: `timeLow` is a `uint32`, `timeMid` and `timeHi` are `uint16`. -/
def binaryToUUID (b : GoString) : GoString :=
  match b with
  | [b0, b1, b2, b3, b4, b5, b6, b7, b8, b9, b10, b11, b12, b13, b14, b15] =>
    let timeLow := b0.val * 2 ^ 24 + b1.val * 2 ^ 16 + b2.val * 2 ^ 8 + b3.val
    let timeMid := b4.val * 2 ^ 8 + b5.val
    let timeHi := b6.val * 2 ^ 8 + b7.val
    let clockSeqHi := b8.val
    let clockSeqLow := b9.val
    let node := hexFixed 2 b10.val ++ hexFixed 2 b11.val ++ hexFixed 2 b12.val
      ++ hexFixed 2 b13.val ++ hexFixed 2 b14.val ++ hexFixed 2 b15.val
    hexFixed 8 timeLow ++ lit "-" ++ hexFixed 4 timeMid ++ lit "-" ++ hexFixed 4 timeHi
      ++ lit "-" ++ hexFixed 2 clockSeqHi ++ hexFixed 2 clockSeqLow ++ lit "-" ++ node
  | _ => hexEncode b

/-- The loop of `ensureUTF8`: the runes of the string, an invalid byte giving
U+FFFD. The fuel bounds the number of rounds; the length of the input is
enough. -/
def ensureUTF8Loop : Nat → GoString → List Nat
  | 0, _ => []
  | _ + 1, [] => []
  | n + 1, c :: s =>
    let d := decodeRune (c :: s)
    if d.1 = RuneError ∧ d.2 = 1 then 0xFFFD :: ensureUTF8Loop n s
    else d.1 :: ensureUTF8Loop n ((c :: s).drop d.2)

/-- Go `SyncService.ensureUTF8`; the final `string(v)` encodes each rune. -/
def ensureUTF8 (str : GoString) : GoString :=
  if utf8Valid str then str
  else (ensureUTF8Loop str.length str).flatMap encodeRune

/-- Go `SyncService.normalizeValue`. -/
def normalizeValue (val : Value) : Value :=
  match val with
  | Value.null => Value.null
  | Value.bytes b =>
    if utf8Valid b then
      if isValidUUIDString b then Value.str b else Value.str (ensureUTF8 b)
    else if b.length = 16 then Value.str (binaryToUUID b)
    else Value.str (hexEncode b)
  | Value.str str =>
    if ¬ utf8Valid str then
      if str.length = 16 then Value.str (binaryToUUID str) else Value.str (ensureUTF8 str)
    else if isValidUUIDString str then Value.str str
    else Value.str (ensureUTF8 str)
  | v => v

/-- Go `SyncService.sanitizeValueForPostgres`. -/
def sanitizeValueForPostgres (val : Value) : Value :=
  match val with
  | Value.null => Value.null
  | Value.str str => if isValidUUIDString str then Value.str str else Value.str (ensureUTF8 str)
  | v => normalizeValue v

/-! ## Go maps with string keys -/

/-- A Go `map[string]T`: an association list with distinct keys. -/
abbrev GoMap (β : Type) := List (GoString × β)

/-- Map read `v, ok := m[k]`. -/
def GoMap.get? {β : Type} (m : GoMap β) (k : GoString) : Option β :=
  match m with
  | [] => none
  | (k1, v1) :: rest => if k1 = k then some v1 else GoMap.get? rest k

/-- Map write `m[k] = v`. -/
def GoMap.set {β : Type} (m : GoMap β) (k : GoString) (v : β) : GoMap β :=
  match m with
  | [] => [(k, v)]
  | (k1, v1) :: rest => if k1 = k then (k, v) :: rest else (k1, v1) :: GoMap.set rest k v

/-- Go `delete(m, k)`. -/
def GoMap.delete {β : Type} (m : GoMap β) (k : GoString) : GoMap β :=
  match m with
  | [] => []
  | (k1, v1) :: rest => if k1 = k then rest else (k1, v1) :: GoMap.delete rest k

/-- A scanned row, `map[string]interface{}`: column name to value. -/
abbrev Row := GoMap Value

/-! ## JSON encoding (`encoding/json`) of a row -/

/-- The scalar encoders of the Go library that the embedding takes as given:
`strconv.AppendFloat` as `encoding/json` calls it for a finite `float64`,
`Time.MarshalJSON` (which can fail), and the base64 text of a `[]byte`. -/
structure JsonScalars where
  float : Float64 → GoString
  time : Time → Option GoString
  bytes : GoString → GoString

/-- The set `htmlSafeSet` of `encoding/json`: printable ASCII other than
the double quote, the backslash, `<`, `>` and `&`. -/
def htmlSafe (b : Byte) : Bool :=
  decide (0x20 ≤ b.val ∧ b.val < 0x80 ∧ b.val ≠ 34 ∧ b.val ≠ 92 ∧ b.val ≠ 60 ∧ b.val ≠ 62
    ∧ b.val ≠ 38)

/-- The escape that `encoding/json` writes for an ASCII byte outside
`htmlSafeSet` (the short forms for backspace and form feed are those of Go 1.22
and later; older versions write `\u0008` and `\u000c`). -/
def jsonEscape (b : Byte) : GoString :=
  if b.val = 92 ∨ b.val = 34 then [92, b]
  else if b.val = 8 then [92, 98]
  else if b.val = 12 then [92, 102]
  else if b.val = 10 then [92, 110]
  else if b.val = 13 then [92, 114]
  else if b.val = 9 then [92, 116]
  else [92, 117, 48, 48, hexDigit (b.val / 16), hexDigit (b.val % 16)]

/-- The loop of `appendString` of `encoding/json` (with HTML escaping, the
default of `json.Marshal`): the text between the quotes. The fuel bounds the
number of rounds; the length of the input is enough. -/
def jsonStringLoop : Nat → GoString → GoString
  | 0, _ => []
  | _ + 1, [] => []
  | n + 1, b :: s =>
    if b.val < 0x80 then
      (if htmlSafe b then [b] else jsonEscape b) ++ jsonStringLoop n s
    else
      let d := decodeRune (b :: s)
      if d.1 = RuneError ∧ d.2 = 1 then
        [92, 117, 102, 102, 102, 100] ++ jsonStringLoop n s
      else if d.1 = 0x2028 ∨ d.1 = 0x2029 then
        [92, 117, 50, 48, 50, hexDigit (d.1 % 16)] ++ jsonStringLoop n ((b :: s).drop d.2)
      else (b :: s).take d.2 ++ jsonStringLoop n ((b :: s).drop d.2)

/-- A Go string as a JSON string. -/
def jsonString (s : GoString) : GoString := [34] ++ jsonStringLoop s.length s ++ [34]

/-- Decimal text of a natural number (`strconv`). -/
def itoaNat (n : Nat) : GoString := (Nat.toDigits 10 n).map (fun c => byteOf c.toNat)

/-- Decimal text of an integer. -/
def itoa (i : Int) : GoString :=
  match i with
  | Int.ofNat n => itoaNat n
  | Int.negSucc n => 45 :: itoaNat (n + 1)

/-- Positive or negative infinity. -/
def Float64.isInf (f : Float64) : Bool :=
  decide (f.val / 2 ^ 52 % 2048 = 2047 ∧ f.val % 2 ^ 52 = 0)

/-- The JSON text of one value; `none` when `json.Marshal` reports an error
(a NaN or an infinity, or a time that cannot be formatted). -/
def jsonValue (js : JsonScalars) (v : Value) : Option GoString :=
  match v with
  | Value.null => some (lit "null")
  | Value.int i => some (itoa i)
  | Value.float f => if f.isNaN ∨ f.isInf then none else some (js.float f)
  | Value.bool b => some (if b then lit "true" else lit "false")
  | Value.str s => some (jsonString s)
  | Value.bytes b => some ([34] ++ js.bytes b ++ [34])
  | Value.time t => js.time t

/-- Go `strings.Compare(a, b) <= 0`: byte-wise lexicographic order. -/
def bytesLe : GoString → GoString → Bool
  | [], _ => true
  | _ :: _, [] => false
  | a :: s, b :: t =>
    if a.val < b.val then true else if b.val < a.val then false else bytesLe s t

/-- The members `"key":value` of the object, for the keys in the given order;
`none` as soon as one value cannot be encoded. -/
def jsonMembers (js : JsonScalars) (m : Row) : List GoString → Option (List GoString)
  | [] => some []
  | k :: ks =>
    match jsonValue js ((GoMap.get? m k).getD Value.null), jsonMembers js m ks with
    | some e, some rest => some ((jsonString k ++ [58] ++ e) :: rest)
    | _, _ => none

/-- Go `json.Marshal` of a `map[string]interface{}`: an object whose members
are sorted by key. `none` is the error result. -/
def jsonMarshal (js : JsonScalars) (m : Row) : Option GoString :=
  let keys := (m.map Prod.fst).insertionSort (fun a b => bytesLe a b = true)
  (jsonMembers js m keys).map (fun members => [123] ++ [44].intercalate members ++ [125])

/-- The idiom `data, _ := json.Marshal(m); string(data)`: the JSON text, and
the empty string when marshalling fails. -/
def jsonText (js : JsonScalars) (m : Row) : GoString := (jsonMarshal js m).getD []

/-! ## Canonical primary-key value and row comparison -/

/-- The body of the loop of `buildPrimaryKeyValue`:
`if val, ok := row[key]; ok { pkMap[key] = val }`. -/
def pkMapStep (row : Row) (pkMap : Row) (key : GoString) : Row :=
  match GoMap.get? row key with
  | some val => GoMap.set pkMap key val
  | none => pkMap

/-- Go `SyncService.buildPrimaryKeyValue`. -/
def buildPrimaryKeyValue (js : JsonScalars) (row : Row) (primaryKeys : List GoString) :
    GoString :=
  let pkMap : Row := primaryKeys.foldl (pkMapStep row) []
  jsonText js pkMap

/-- Go `SyncService.compareRows`. -/
def compareRows (row1 row2 : Row) : Bool :=
  if row1.length ≠ row2.length then false
  else row1.all (fun kv =>
    match GoMap.get? row2 kv.1 with
    | none => false
    | some v2 => valuesEqual kv.2 v2)

/-- The scan of one result row, as `syncSingleTable` and `checkConflicts` do
it: `rowData[col] = s.normalizeValue(values[i])` for the columns in the order
in which the driver delivers them. -/
def scanRow (columns : List GoString) (values : List Value) : Row :=
  (columns.zip values).foldl
    (fun rowData cv => GoMap.set rowData cv.1 (normalizeValue cv.2)) []

/-! ## Metadata store: conflicts and logs -/

/-- The record `models.DataConflict` (associations and `UpdatedAt` left out). -/
structure DataConflict where
  ID : Nat
  TaskID : Nat
  TableName : GoString
  PrimaryKey : GoString
  SourceData : GoString
  TargetData : GoString
  ConflictType : GoString
  Status : GoString
  ResolvedBy : Option Nat
  Resolution : GoString
  ResolvedAt : Option Time
  CreatedAt : Time
deriving DecidableEq, Repr

/-- The record `models.SyncLog` (identifier, details and time left out). -/
structure SyncLog where
  TaskID : Nat
  LogType : GoString
  Message : GoString
deriving DecidableEq, Repr

/-- The metadata store behind `database.DB`, as far as the sync engine writes
to it: the conflict and log tables, the clock that stamps new records, and
whether writes fail (`failure` holds the error text then). -/
structure Store where
  conflicts : List DataConflict
  logs : List SyncLog
  now : Time
  failure : Option GoString
deriving DecidableEq, Repr

/-- Go `SyncService.logError`: the result of `database.DB.Create` is ignored. -/
def logError (st : Store) (taskID : Nat) (message : GoString) : Store :=
  match st.failure with
  | some _ => st
  | none =>
    { st with logs := st.logs ++ [{ TaskID := taskID, LogType := lit "error", Message := message }] }

/-- Go `SyncService.logInfo`. -/
def logInfo (st : Store) (taskID : Nat) (message : GoString) : Store :=
  match st.failure with
  | some _ => st
  | none =>
    { st with logs := st.logs ++ [{ TaskID := taskID, LogType := lit "info", Message := message }] }

/-- The record that `createConflict` builds before it is stored. -/
def newConflict (js : JsonScalars) (taskID : Nat) (tableName primaryKey : GoString)
    (sourceData targetData : Row) (conflictType : GoString) (id : Nat) (now : Time) :
    DataConflict :=
  { ID := id,
    TaskID := taskID,
    TableName := tableName,
    PrimaryKey := primaryKey,
    SourceData := jsonText js sourceData,
    TargetData := jsonText js targetData,
    ConflictType := conflictType,
    Status := lit "pending",
    ResolvedBy := none,
    Resolution := [],
    ResolvedAt := none,
    CreatedAt := now }

/-- Go `SyncService.createConflict`, up to the stored record: the conflict is
inserted with status `pending`, the store assigning the next identifier and
the creation time. The mails to the administrators that follow the insert go
to an external collaborator and are not modelled. -/
def createConflict (js : JsonScalars) (st : Store) (taskID : Nat)
    (tableName primaryKey : GoString) (sourceData targetData : Row) (conflictType : GoString) :
    Except GoString Unit × Store :=
  match st.failure with
  | some err => (Except.error err, st)
  | none =>
    (Except.ok (),
      { st with conflicts := st.conflicts ++
          [newConflict js taskID tableName primaryKey sourceData targetData conflictType
            (st.conflicts.length + 1) st.now] })

/-! ## Conflict detection -/

/-- The result of `SELECT * FROM table`: the column names and the rows, each
row holding one value per column. -/
structure Table where
  columns : List GoString
  rows : List (List Value)
deriving DecidableEq, Repr

/-- The first loop of `checkConflicts`: `sourceDataMap`, the scanned source
rows under their canonical key. -/
def loadSourceMap (js : JsonScalars) (source : Table) (primaryKeys : List GoString) :
    GoMap Row :=
  source.rows.foldl
    (fun sourceDataMap values =>
      let rowData := scanRow source.columns values
      GoMap.set sourceDataMap (buildPrimaryKeyValue js rowData primaryKeys) rowData) []

/-- The body of the second loop of `checkConflicts`, for one target row; the
state is `sourceDataMap` and the metadata store. -/
def checkTargetRow (js : JsonScalars) (taskID : Nat) (tableName : GoString)
    (primaryKeys : List GoString) (targetCols : List GoString)
    (state : GoMap Row × Store) (values : List Value) : GoMap Row × Store :=
  let rowData := scanRow targetCols values
  let pkValue := buildPrimaryKeyValue js rowData primaryKeys
  match GoMap.get? state.1 pkValue with
  | some sourceRow =>
    let st1 :=
      if ¬ compareRows sourceRow rowData then
        match createConflict js state.2 taskID tableName pkValue sourceRow rowData
            (lit "update_conflict") with
        | (Except.error err, st) => logError st taskID (lit "创建冲突记录失败: " ++ err)
        | (Except.ok _, st) => st
      else state.2
    (GoMap.delete state.1 pkValue, st1)
  | none => state

/-- Go `SyncService.checkConflicts`. `source` and `target` are the results of
the two `SELECT *` queries (an error when the query fails); the result is the
returned error, if any, and the metadata store afterwards. -/
def checkConflicts (js : JsonScalars) (source target : Except GoString Table) (taskID : Nat)
    (tableName : GoString) (primaryKeys : List GoString) (st : Store) :
    Except GoString Unit × Store :=
  if primaryKeys.length = 0 then (Except.ok (), st)
  else
    match source with
    | Except.error err => (Except.error err, st)
    | Except.ok src =>
      match target with
      | Except.error err => (Except.error err, st)
      | Except.ok tgt =>
        (Except.ok (),
          (tgt.rows.foldl (checkTargetRow js taskID tableName primaryKeys tgt.columns)
            (loadSourceMap js src primaryKeys, st)).2)

/-- The scanned rows of a table, in order. -/
def Table.scanned (t : Table) : List Row := t.rows.map (scanRow t.columns)

/-- What the comparison step of `checkConflicts` finds for the scanned target
row `t`, given `sourceDataMap`: the key, the source row and the target row
when the key is in the map and the rows differ under `compareRows`. -/
def mismatch (js : JsonScalars) (primaryKeys : List GoString) (sourceDataMap : GoMap Row)
    (t : Row) : Option (GoString × Row × Row) :=
  match GoMap.get? sourceDataMap (buildPrimaryKeyValue js t primaryKeys) with
  | some s =>
    if compareRows s t then none else some (buildPrimaryKeyValue js t primaryKeys, s, t)
  | none => none

/-- The conflict records stored for a list of mismatches by a store whose
conflict table holds `base` records already. -/
def records (js : JsonScalars) (taskID : Nat) (tableName : GoString) (now : Time) :
    Nat → List (GoString × Row × Row) → List DataConflict
  | _, [] => []
  | base, m :: ms =>
    newConflict js taskID tableName m.1 m.2.1 m.2.2 (lit "update_conflict") (base + 1) now
      :: records js taskID tableName now (base + 1) ms

/-! ## The target database

The engine talks to the target through `database/sql`: it sends statement text
with bound arguments and reads back a result. A statement of the embedding
carries the text and the arguments exactly as the source builds them and, next
to them, the operation that the text denotes (`SqlOp`), which is what the model
of the target database executes. -/

/-- The operation denoted by a statement that the engine sends. -/
inductive SqlOp where
  /-- Upsert: `INSERT ... ON DUPLICATE KEY UPDATE` (key `none`: the key declared
  on the target table) and `INSERT ... ON CONFLICT (key) DO UPDATE`. -/
  | upsertRows (columns : List GoString) (key : Option (List GoString))
      (rows : List (List Value))
  /-- Plain insert: `INSERT INTO ... VALUES ...`. -/
  | insertRows (columns : List GoString) (rows : List (List Value))
  /-- Count: `SELECT COUNT(*) FROM ... WHERE k1 = a1 AND ...`. -/
  | countWhere (keyCols : List GoString) (keyArgs : List Value)
  /-- Update: `UPDATE ... SET c1 = v1, ... WHERE k1 = a1 AND ...`. -/
  | updateWhere (columns : List GoString) (values : List Value) (keyCols : List GoString)
      (keyArgs : List Value)
  /-- Text that is not a statement of the dialect. -/
  | invalid
deriving DecidableEq, Repr

/-- A statement as handed to `Exec` or `QueryRow`. -/
structure Stmt where
  sql : GoString
  args : List Value
  op : SqlOp
deriving DecidableEq, Repr

/-- The target database as the engine sees it: the table being synced (`none`
when it does not exist), the primary key declared on it, and the statements
received so far, oldest first. -/
structure TargetDB where
  table : Option Table
  primaryKey : List GoString
  received : List Stmt
deriving DecidableEq, Repr

/-- Error text of the target for a statement naming a missing table. -/
def errNoTable : GoString := lit "table does not exist"

/-- Error text of the target for a statement naming a missing column. -/
def errNoColumn : GoString := lit "unknown column"

/-- Error text of the target for a statement it cannot parse. -/
def errSyntax : GoString := lit "syntax error"

/-- Error text of the target for a violated unique key. -/
def errDuplicate : GoString := lit "duplicate key"

/-- Error text of the target for an `ON CONFLICT` target without a matching
unique key. -/
def errNoConstraint : GoString := lit "no unique constraint matching the conflict target"

/-- Whether the stored row holds, at every key column, the non-null value that
`assign` gives to that column (SQL `k1 = a1 AND ...`). -/
def rowMatches (columns : List GoString) (stored : List Value) (keyCols : List GoString)
    (assign : GoMap Value) : Bool :=
  keyCols.all (fun k =>
    match GoMap.get? assign k, GoMap.get? (columns.zip stored) k with
    | some a, some v => decide (a ≠ Value.null ∧ v = a)
    | _, _ => false)

/-- The stored row with the assigned columns overwritten. -/
def updateCells (columns : List GoString) (stored : List Value) (assign : GoMap Value) :
    List Value :=
  (columns.zip stored).map (fun cv => (GoMap.get? assign cv.1).getD cv.2)

/-- A new stored row: the assigned columns, null elsewhere. -/
def insertCells (columns : List GoString) (assign : GoMap Value) : List Value :=
  columns.map (fun c => (GoMap.get? assign c).getD Value.null)

/-- Update-or-insert of one row by the key columns `key`: the rows that match
on the key are overwritten; without a match, or without a key, the row is
added at the end. -/
def upsertRow (key : List GoString) (t : Table) (assign : GoMap Value) : Table :=
  if key = [] ∨ ¬ t.rows.any (fun stored => rowMatches t.columns stored key assign) then
    { t with rows := t.rows ++ [insertCells t.columns assign] }
  else
    { t with rows := t.rows.map (fun stored =>
        if rowMatches t.columns stored key assign then updateCells t.columns stored assign
        else stored) }

/-- Plain insert of rows, in order; a row that repeats a stored value of the
declared key is rejected and ends the statement. -/
def insertAll (key : List GoString) (columns : List GoString) :
    Table → List (List Value) → Except GoString Table
  | t, [] => Except.ok t
  | t, values :: more =>
    if key ≠ [] ∧ t.rows.any (fun stored => rowMatches t.columns stored key (columns.zip values))
    then Except.error errDuplicate
    else insertAll key columns
      { t with rows := t.rows ++ [insertCells t.columns (columns.zip values)] } more

/-- The effect of an operation on the table of a target whose declared key is
`primaryKey`: the new table, or the error of the target. -/
def applyOp (primaryKey : List GoString) (t : Table) (op : SqlOp) : Except GoString Table :=
  match op with
  | SqlOp.upsertRows columns key rows =>
    if ¬ columns.all (fun c => decide (c ∈ t.columns)) then Except.error errNoColumn
    else
      match key with
      | none =>
        Except.ok (rows.foldl (fun t values => upsertRow primaryKey t (columns.zip values)) t)
      | some k =>
        if ¬ (k.all (fun c => decide (c ∈ primaryKey)) ∧ primaryKey.all (fun c => decide (c ∈ k)))
        then Except.error errNoConstraint
        else Except.ok (rows.foldl (fun t values => upsertRow k t (columns.zip values)) t)
  | SqlOp.insertRows columns rows =>
    if ¬ columns.all (fun c => decide (c ∈ t.columns)) then Except.error errNoColumn
    else insertAll primaryKey columns t rows
  | SqlOp.updateWhere columns values keyCols keyArgs =>
    if ¬ (columns.all (fun c => decide (c ∈ t.columns))
        ∧ keyCols.all (fun c => decide (c ∈ t.columns))) then Except.error errNoColumn
    else
      Except.ok { t with rows := t.rows.map (fun stored =>
        if rowMatches t.columns stored keyCols (keyCols.zip keyArgs) then
          updateCells t.columns stored (columns.zip values)
        else stored) }
  | SqlOp.countWhere _ _ => Except.ok t
  | SqlOp.invalid => Except.error errSyntax

/-- Go `targetDB.Exec(sql, args...)`: the statement is recorded as received and
its operation applied; the result is the error, if any, and the target
afterwards. -/
def TargetDB.exec (db : TargetDB) (stmt : Stmt) : Except GoString Unit × TargetDB :=
  let db1 := { db with received := db.received ++ [stmt] }
  match db.table with
  | none => (Except.error errNoTable, db1)
  | some t =>
    match applyOp db.primaryKey t stmt.op with
    | Except.error err => (Except.error err, db1)
    | Except.ok t1 => (Except.ok (), { db1 with table := some t1 })

/-- Go `targetDB.QueryRow(sql, args...).Scan(&count)` for a counting query. -/
def TargetDB.queryCount (db : TargetDB) (stmt : Stmt) : Except GoString Nat × TargetDB :=
  let db1 := { db with received := db.received ++ [stmt] }
  match db.table with
  | none => (Except.error errNoTable, db1)
  | some t =>
    match stmt.op with
    | SqlOp.countWhere keyCols keyArgs =>
      if ¬ keyCols.all (fun c => decide (c ∈ t.columns)) then (Except.error errNoColumn, db1)
      else
        (Except.ok (t.rows.filter (fun stored =>
            rowMatches t.columns stored keyCols (keyCols.zip keyArgs))).length, db1)
    | _ => (Except.error errSyntax, db1)

/-- Go `targetDB.Query("SELECT * FROM table")`: the current content. -/
def TargetDB.selectAll (db : TargetDB) : Except GoString Table :=
  match db.table with
  | none => Except.error errNoTable
  | some t => Except.ok t

/-! ## Batch upsert (`syncBatch` and the three dialect paths) -/

/-- The loops `if i > 0 { s += sep }; s += part`. -/
def joinWith (sep : String) (parts : List GoString) : GoString := (lit sep).intercalate parts

/-- Map read `row[col]` without the `ok` result: nil for a missing key. -/
def Row.at (row : Row) (col : GoString) : Value := (GoMap.get? row col).getD Value.null

/-- Go `SyncService.quoteIdentifier`. -/
def quoteIdentifier (name dbType : GoString) : GoString :=
  if dbType = lit "mysql" then lit "`" ++ name ++ lit "`"
  else if dbType = lit "postgres" then lit "\"" ++ name ++ lit "\""
  else if dbType = lit "oracle" then lit "\"" ++ name ++ lit "\""
  else name

/-- Go `SyncService.syncBatchMySQL`. -/
def syncBatchMySQL (db : TargetDB) (tableName : GoString) (batch : List Row)
    (columns : List GoString) (_primaryKeys : List GoString) : Except GoString Unit × TargetDB :=
  if batch.length = 0 then (Except.ok (), db)
  else
    let placeholders := joinWith "," (columns.map (fun _ => lit "?"))
    let columnList := joinWith "," (columns.map (fun col => lit "`" ++ col ++ lit "`"))
    let updateClause := joinWith ","
      (columns.map (fun col => lit "`" ++ col ++ lit "`=VALUES(`" ++ col ++ lit "`)"))
    let batchPlaceholders := joinWith ","
      (batch.map (fun _ => lit "(" ++ placeholders ++ lit ")"))
    let sql := lit "INSERT INTO " ++ tableName ++ lit " (" ++ columnList ++ lit ") VALUES "
      ++ batchPlaceholders ++ lit " ON DUPLICATE KEY UPDATE " ++ updateClause
    let rows := batch.map (fun row => columns.map (fun col => sanitizeValueForPostgres (row.at col)))
    db.exec { sql := sql, args := rows.flatten, op := SqlOp.upsertRows columns none rows }

/-- The state of the loop over the batch in the PostgreSQL paths. -/
structure ValuesState where
  valuesClauses : List GoString
  args : List Value
  argIndex : Nat
deriving DecidableEq, Repr

/-- The inner loop over the columns of one row in the PostgreSQL paths: the
state is the placeholder text of the row, the arguments and `argIndex`. -/
def rowPlaceholders (row : Row) (columns : List GoString) (args : List Value) (argIndex : Nat) :
    GoString × List Value × Nat :=
  columns.enum.foldl
    (fun acc ic =>
      ((if ic.1 > 0 then acc.1 ++ lit "," else acc.1) ++ lit "$" ++ itoaNat acc.2.2,
        acc.2.1 ++ [sanitizeValueForPostgres (row.at ic.2)],
        acc.2.2 + 1))
    ([], args, argIndex)

/-- The loop `for _, row := range batch` of the PostgreSQL paths. -/
def valuesLoop (batch : List Row) (columns : List GoString) : ValuesState :=
  batch.foldl
    (fun st row =>
      let r := rowPlaceholders row columns st.args st.argIndex
      { valuesClauses := st.valuesClauses ++ [lit "(" ++ r.1 ++ lit ")"],
        args := r.2.1,
        argIndex := r.2.2 })
    { valuesClauses := [], args := [], argIndex := 1 }

/-- The rows of a statement: its arguments in groups of one per column. -/
def chunkRows (m : Nat) : Nat → List Value → List (List Value)
  | 0, _ => []
  | n + 1, args => args.take m :: chunkRows m n (args.drop m)

/-- Go `SyncService.syncBatchPostgresSimpleInsert`. -/
def syncBatchPostgresSimpleInsert (db : TargetDB) (tableName : GoString) (batch : List Row)
    (columns : List GoString) : Except GoString Unit × TargetDB :=
  let columnList := joinWith "," (columns.map (fun col => lit "\"" ++ col ++ lit "\""))
  let st := valuesLoop batch columns
  let valuesClause := joinWith "," st.valuesClauses
  let sql := lit "INSERT INTO " ++ tableName ++ lit " (" ++ columnList ++ lit ") VALUES "
    ++ valuesClause
  db.exec { sql := sql, args := st.args,
            op := SqlOp.insertRows columns (chunkRows columns.length batch.length st.args) }

/-- Go `SyncService.syncBatchPostgres`. -/
def syncBatchPostgres (db : TargetDB) (tableName : GoString) (batch : List Row)
    (columns : List GoString) (primaryKeys : List GoString) : Except GoString Unit × TargetDB :=
  if batch.length = 0 then (Except.ok (), db)
  else
    let columnList := joinWith "," (columns.map (fun col => lit "\"" ++ col ++ lit "\""))
    if primaryKeys.length = 0 then syncBatchPostgresSimpleInsert db tableName batch columns
    else
      let conflictTarget := joinWith "," (primaryKeys.map (fun pk => lit "\"" ++ pk ++ lit "\""))
      let updateClause := joinWith ","
        (columns.map (fun col => lit "\"" ++ col ++ lit "\"=EXCLUDED.\"" ++ col ++ lit "\""))
      let st := valuesLoop batch columns
      let valuesClause := joinWith "," st.valuesClauses
      let sql := lit "INSERT INTO " ++ tableName ++ lit " (" ++ columnList ++ lit ") VALUES "
        ++ valuesClause ++ lit " ON CONFLICT (" ++ conflictTarget ++ lit ") DO UPDATE SET "
        ++ updateClause
      db.exec { sql := sql, args := st.args,
                op := SqlOp.upsertRows columns (some primaryKeys)
                  (chunkRows columns.length batch.length st.args) }

/-- The body of the loop of `syncBatchOracle` for one row: the existence check,
then the update or the insert. -/
def syncOracleRow (db : TargetDB) (tableName : GoString) (columns : List GoString)
    (primaryKeys : List GoString) (row : Row) : Except GoString Unit × TargetDB :=
  let whereClause := joinWith " AND "
    (primaryKeys.enum.map (fun ipk => lit "\"" ++ ipk.2 ++ lit "\"=:pk" ++ itoaNat (ipk.1 + 1)))
  let whereArgs := primaryKeys.map (fun pk => row.at pk)
  let checkSQL := lit "SELECT COUNT(*) FROM " ++ tableName ++ lit " WHERE " ++ whereClause
  let checkOp := if primaryKeys.length > 0 then SqlOp.countWhere primaryKeys whereArgs
    else SqlOp.invalid
  match db.queryCount { sql := checkSQL, args := whereArgs, op := checkOp } with
  | (Except.error err, db1) => (Except.error (lit "检查记录是否存在失败: " ++ err), db1)
  | (Except.ok count, db1) =>
    if count > 0 then
      let setClause := joinWith ","
        (columns.enum.map (fun ic => lit "\"" ++ ic.2 ++ lit "\"=:val" ++ itoaNat (ic.1 + 1)))
      let values := columns.map (fun col => row.at col)
      let updateArgs := values ++ whereArgs
      let updateSQL := lit "UPDATE " ++ tableName ++ lit " SET " ++ setClause ++ lit " WHERE "
        ++ whereClause
      match db1.exec { sql := updateSQL, args := updateArgs,
                       op := SqlOp.updateWhere columns values primaryKeys whereArgs } with
      | (Except.error err, db2) => (Except.error (lit "更新记录失败: " ++ err), db2)
      | (Except.ok _, db2) => (Except.ok (), db2)
    else
      let columnList := joinWith "," (columns.map (fun col => lit "\"" ++ col ++ lit "\""))
      let placeholders := joinWith ","
        (columns.enum.map (fun ic => lit ":val" ++ itoaNat (ic.1 + 1)))
      let insertArgs := columns.map (fun col => row.at col)
      let insertSQL := lit "INSERT INTO " ++ tableName ++ lit " (" ++ columnList
        ++ lit ") VALUES (" ++ placeholders ++ lit ")"
      match db1.exec { sql := insertSQL, args := insertArgs,
                       op := SqlOp.insertRows columns [insertArgs] } with
      | (Except.error err, db2) => (Except.error (lit "插入记录失败: " ++ err), db2)
      | (Except.ok _, db2) => (Except.ok (), db2)

/-- Go `SyncService.syncBatchOracle`: the rows one by one, stopping at the
first error. -/
def syncBatchOracle (db : TargetDB) (tableName : GoString) (batch : List Row)
    (columns : List GoString) (primaryKeys : List GoString) : Except GoString Unit × TargetDB :=
  match batch with
  | [] => (Except.ok (), db)
  | row :: rest =>
    match syncOracleRow db tableName columns primaryKeys row with
    | (Except.error err, db1) => (Except.error err, db1)
    | (Except.ok _, db1) => syncBatchOracle db1 tableName rest columns primaryKeys

/-- The check of `syncBatch` that every record has the columns of the first
one: the error for the first offending record `i`, if any. -/
def validateBatch (columns : List GoString) : Nat → List Row → Option GoString
  | _, [] => none
  | i, row :: rest =>
    if row.length ≠ columns.length then
      some (lit "记录 " ++ itoaNat i ++ lit " 的列数与第一条记录不匹配")
    else
      match row.find? (fun kv => decide (kv.1 ∉ columns)) with
      | some kv => some (lit "记录 " ++ itoaNat i ++ lit " 包含未知列: " ++ kv.1)
      | none => validateBatch columns (i + 1) rest

/-- Go `SyncService.syncBatch`; `dbType` is `targetConn.Type`. -/
def syncBatch (db : TargetDB) (dbType : GoString) (tableName : GoString) (batch : List Row)
    (primaryKeys : List GoString) : Except GoString Unit × TargetDB :=
  match batch with
  | [] => (Except.ok (), db)
  | first :: _ =>
    let columns := first.map Prod.fst
    match validateBatch columns 0 batch with
    | some err => (Except.error err, db)
    | none =>
      let quotedTableName := quoteIdentifier tableName dbType
      if dbType = lit "mysql" then syncBatchMySQL db quotedTableName batch columns primaryKeys
      else if dbType = lit "postgres" then
        syncBatchPostgres db quotedTableName batch columns primaryKeys
      else if dbType = lit "oracle" then
        syncBatchOracle db quotedTableName batch columns primaryKeys
      else (Except.error (lit "不支持的数据库类型: " ++ dbType), db)

/-! ## Single-table sync (`syncSingleTable`) -/

/-- What a table sync reads and writes besides the source: the target
database and the metadata store. The fields `handed` and `rejected` are traces
that the program does not hold: the batches passed to `syncBatch` so far,
oldest first, and those of them for which `syncBatch` returned an error. Both
are written by `handOver`, through which `syncSingleTable` makes its two calls
of `syncBatch`. -/
structure World where
  target : TargetDB
  store : Store
  handed : List (List Row)
  rejected : List (List Row)
deriving DecidableEq, Repr

/-- The constant `batchSize` of `syncSingleTable`. -/
def batchSize : Nat := 100

/-- A call `s.syncBatch(targetDB, targetConn, tableName, batch, primaryKeys)`
of `syncSingleTable`: the result of `syncBatch` and the target as it leaves it,
with the batch added to the trace `handed`, and to the trace `rejected` when
the result is an error. -/
def handOver (dbType tableName : GoString) (primaryKeys : List GoString) (w : World)
    (batch : List Row) : Except GoString Unit × World :=
  match syncBatch w.target dbType tableName batch primaryKeys with
  | (Except.error err, db) =>
    (Except.error err,
      { target := db, store := w.store, handed := w.handed ++ [batch],
        rejected := w.rejected ++ [batch] })
  | (Except.ok u, db) =>
    (Except.ok u,
      { target := db, store := w.store, handed := w.handed ++ [batch],
        rejected := w.rejected })

/-- The body of the loop `for sourceRows.Next()` of `syncSingleTable` for one
source row (scanning into `interface{}` cells, which does not fail): the row is
normalized and added to the batch; a full batch is applied, its error logged,
and the batch emptied. -/
def batchStep (dbType tableName : GoString) (primaryKeys columns : List GoString) (taskID : Nat)
    (state : List Row × World) (values : List Value) : List Row × World :=
  let rowData := scanRow columns values
  let batch := state.1 ++ [rowData]
  if batch.length ≥ batchSize then
    match handOver dbType tableName primaryKeys state.2 batch with
    | (Except.error err, w) =>
      ([], { w with store := logError w.store taskID (lit "批量同步失败: " ++ err) })
    | (Except.ok _, w) => ([], w)
  else (batch, state.2)

/-- Go `SyncService.syncTableStructure`, on a target whose catalog can be
read: a missing table is only logged (with task identifier 0). -/
def syncTableStructure (w : World) (tableName : GoString) : World :=
  if w.target.table.isNone then
    { w with store := logInfo w.store 0 (lit "目标表 " ++ tableName ++ lit " 不存在，需要创建") }
  else w

/-- Go `SyncService.syncSingleTable`. `primaryKeys` is the result of
`getPrimaryKeys` on the source and `source` the result of `SELECT *` on the
source table, which is the same when `checkConflicts` reads it again;
`dbType` is the dialect of the target. The result is the returned error, if
any, and the target and the metadata store afterwards. -/
def syncSingleTable (js : JsonScalars) (primaryKeys : Except GoString (List GoString))
    (source : Except GoString Table) (dbType : GoString) (taskID : Nat) (tableName : GoString)
    (w : World) : Except GoString Unit × World :=
  let w1 := syncTableStructure w tableName
  match primaryKeys with
  | Except.error err => (Except.error (lit "获取主键失败: " ++ err), w1)
  | Except.ok pks =>
    match source with
    | Except.error err => (Except.error (lit "查询源表数据失败: " ++ err), w1)
    | Except.ok src =>
      let looped := src.rows.foldl (batchStep dbType tableName pks src.columns taskID) ([], w1)
      let batch := looped.1
      let w2 := looped.2
      let last := if batch.length > 0 then handOver dbType tableName pks w2 batch
        else (Except.ok (), w2)
      match last with
      | (Except.error err, w3) => (Except.error err, w3)
      | (Except.ok _, w3) =>
        let r := checkConflicts js (Except.ok src) w3.target.selectAll taskID tableName pks
          w3.store
        (r.1, { w3 with store := r.2 })

/-! ## Conflict resolution (`ConflictHandler.ResolveConflict`) -/

/-- What `ApplyConflictResolution` reads outside the conflict record: whether
the task of a conflict can be loaded, whether `json.Unmarshal` accepts a text
as a JSON object, and the error of `dbconn.GetConnection` for the target of the
task (`none` when the connection is obtained). -/
structure ResolveEnv where
  taskExists : Nat → Bool
  unmarshalOk : GoString → Bool
  connectError : Option GoString

/-- Go `SyncService.ApplyConflictResolution`: the task is loaded, the data of
the chosen side and the primary key are parsed, and a connection to the target
is obtained; nothing is written (the update of the target is not implemented
in the source). -/
def ApplyConflictResolution (env : ResolveEnv) (conflict : DataConflict) :
    Except GoString Unit :=
  if ¬ env.taskExists conflict.TaskID then Except.error (lit "record not found")
  else
    let dataToApply :=
      if conflict.Resolution = lit "source" then conflict.SourceData else conflict.TargetData
    if ¬ env.unmarshalOk dataToApply then Except.error (lit "invalid JSON")
    else if ¬ env.unmarshalOk conflict.PrimaryKey then Except.error (lit "invalid JSON")
    else
      match env.connectError with
      | some err => Except.error err
      | none => Except.ok ()

/-- Go `ConflictHandler.ResolveConflict`, for the authenticated user `userID`,
the path parameter `id` and the field `resolution` of the request body. The
result is the HTTP status of the response and the metadata store afterwards.
`database.DB.Save` writes every field of the loaded record back to the record
with its identifier. -/
def ResolveConflict (env : ResolveEnv) (st : Store) (userID : Nat) (id : Nat)
    (resolution : GoString) : Nat × Store :=
  if ¬ (resolution = lit "source" ∨ resolution = lit "target") then (400, st)
  else
    match st.conflicts.find? (fun c => decide (c.ID = id)) with
    | none => (404, st)
    | some conflict =>
      if conflict.Status = lit "resolved" then (400, st)
      else
        let resolved : DataConflict :=
          { conflict with
            Resolution := resolution,
            ResolvedBy := some userID,
            Status := lit "resolved",
            ResolvedAt := some conflict.CreatedAt }
        match st.failure with
        | some _ => (500, st)
        | none =>
          let st1 : Store :=
            { st with
              conflicts := st.conflicts.map (fun c => if c.ID = id then resolved else c) }
          match ApplyConflictResolution env resolved with
          | Except.error _ => (500, st1)
          | Except.ok _ => (200, st1)

/-- The shape test of a canonical UUID on the bytes of a string from offset
`i` on: a hyphen at the offsets 8, 13, 18 and 23 and a hexadecimal digit at
every other offset. -/
def uuidShapeFrom : Nat → GoString → Bool
  | _, [] => true
  | i, b :: s =>
    (if i = 8 ∨ i = 13 ∨ i = 18 ∨ i = 23 then decide (b.val = 45) else isHexRune b.val)
      && uuidShapeFrom (i + 1) s

/-- A string in canonical UUID shape: 36 characters, hyphens at the offsets 8,
13, 18 and 23, every other character a hexadecimal digit. -/
def isCanonicalUUID (s : GoString) : Bool := decide (s.length = 36) && uuidShapeFrom 0 s

/-- Go `hex` package, `fromHexChar`: the value of a hexadecimal digit. -/
def fromHexChar (c : Byte) : Option Nat :=
  if 48 ≤ c.val ∧ c.val ≤ 57 then some (c.val - 48)
  else if 97 ≤ c.val ∧ c.val ≤ 102 then some (c.val - 87)
  else if 65 ≤ c.val ∧ c.val ≤ 70 then some (c.val - 55)
  else none

/-- Go `hex.DecodeString`: the bytes written by pairs of hexadecimal digits;
`none` for an odd length or a character that is not a digit. -/
def hexDecode : GoString → Option GoString
  | [] => some []
  | [_] => none
  | a :: b :: rest =>
    match fromHexChar a, fromHexChar b, hexDecode rest with
    | some x, some y, some r => some (byteOf (x * 16 + y) :: r)
    | _, _, _ => none

/-- The string without its hyphens. -/
def removeHyphens (s : GoString) : GoString := s.filter (fun c => decide (c.val ≠ 45))

/-- The loop behind `replaceInvalid`. The fuel bounds the number of rounds;
the length of the input is enough. -/
def replaceInvalidLoop : Nat → GoString → GoString
  | 0, _ => []
  | _ + 1, [] => []
  | n + 1, c :: s =>
    let d := decodeRune (c :: s)
    if d.1 = RuneError ∧ d.2 = 1 then [0xEF, 0xBF, 0xBD] ++ replaceInvalidLoop n s
    else (c :: s).take d.2 ++ replaceInvalidLoop n ((c :: s).drop d.2)

/-- The string with each invalid byte replaced by one U+FFFD replacement
character (the bytes `EF BF BD`) and every validly encoded character kept as it
is, in order; what is validly encoded is decided by `utf8.DecodeRune`. -/
def replaceInvalid (s : GoString) : GoString := replaceInvalidLoop s.length s

/-! ## The batches of `syncSingleTable` -/

/-- What the loop of `syncSingleTable` does with one full batch: the call of
`syncBatch` on it, an error being logged. -/
def applyFullBatch (dbType tableName : GoString) (primaryKeys : List GoString) (taskID : Nat)
    (w : World) (batch : List Row) : World :=
  match handOver dbType tableName primaryKeys w batch with
  | (Except.error err, w1) =>
    { w1 with store := logError w1.store taskID (lit "批量同步失败: " ++ err) }
  | (Except.ok _, w1) => w1

/-- The batches that the loop of `syncSingleTable` fills, read off its body
`batchStep`: starting with `batch` pending, the full batches in the order in
which they are handed to `syncBatch`, and the batch left pending after the
last row. -/
def splitLoop (columns : List GoString) : List Row → List (List Value) → List (List Row) × List Row
  | batch, [] => ([], batch)
  | batch, values :: rest =>
    if (batch ++ [scanRow columns values]).length ≥ batchSize then
      ((batch ++ [scanRow columns values]) :: (splitLoop columns [] rest).1,
        (splitLoop columns [] rest).2)
    else splitLoop columns (batch ++ [scanRow columns values]) rest

/-! ## Reading a primary-key encoding back

The readers below undo `jsonString` and `jsonValue` on the values that a key
column usually holds. They are not part of the engine; they serve to show that
the encoding of such values determines them. -/

/-- A value whose JSON text determines it: nil, a boolean, an integer, or a
string that is valid UTF-8. -/
def Value.plain : Value → Bool
  | Value.null => true
  | Value.int _ => true
  | Value.bool _ => true
  | Value.str s => utf8Valid s
  | _ => false

/-- The byte named by a one-letter escape of `jsonEscape`. -/
def unescapeLetter (e : Byte) : Byte :=
  if e.val = 98 then 8 else if e.val = 102 then 12 else if e.val = 110 then 10
  else if e.val = 114 then 13 else if e.val = 116 then 9 else e

/-- The bytes named by an escape `\uXXXX` of `jsonStringLoop`. -/
def unescapeUnicode (r : Nat) : GoString := if r < 0x80 then [byteOf r] else encodeRune r

/-- Reads the body of a JSON string up to the closing quote: the bytes it
stands for and the text after the quote. -/
def jsonUnquote : GoString → Option (GoString × GoString)
  | [] => none
  | b :: t =>
    if b.val = 34 then some ([], t)
    else if b.val = 92 then
      match t with
      | [] => none
      | e :: t1 =>
        if e.val = 117 then
          match t1 with
          | h1 :: h2 :: h3 :: h4 :: t2 =>
            match fromHexChar h1, fromHexChar h2, fromHexChar h3, fromHexChar h4 with
            | some x1, some x2, some x3, some x4 =>
              (jsonUnquote t2).map (fun r =>
                (unescapeUnicode (x1 * 4096 + x2 * 256 + x3 * 16 + x4) ++ r.1, r.2))
            | _, _, _, _ => none
          | _ => none
        else (jsonUnquote t1).map (fun r => (unescapeLetter e :: r.1, r.2))
    else (jsonUnquote t).map (fun r => (b :: r.1, r.2))

/-- Reads a run of decimal digits: the number they denote after `acc`, and the
text from the first byte that is not a digit. -/
def readNat (acc : Nat) : GoString → Nat × GoString
  | [] => (acc, [])
  | b :: t => if isDigitByte b then readNat (acc * 10 + (b.val - 48)) t else (acc, b :: t)

/-- Reads the JSON text of a plain value and gives the text after it. -/
def readValue : GoString → Option (Value × GoString)
  | [] => none
  | b :: t =>
    if b.val = 34 then (jsonUnquote t).map (fun r => (Value.str r.1, r.2))
    else if b.val = 110 then some (Value.null, t.drop 3)
    else if b.val = 116 then some (Value.bool true, t.drop 3)
    else if b.val = 102 then some (Value.bool false, t.drop 4)
    else if b.val = 45 then some (Value.int (-((readNat 0 t).1 : Int)), (readNat 0 t).2)
    else some (Value.int ((readNat 0 (b :: t)).1 : Int), (readNat 0 (b :: t)).2)

/-! ## Object definitions (`DatabaseObjectService.convertDefinition`) -/

/-- The loop of `strings.ReplaceAll` for a non-empty `old`, read from left to
right: where `old` occurs (`strings.Index`) `new` is written and the search
goes on after the occurrence; other bytes are copied. The fuel bounds the
number of rounds; the length of the input is enough. -/
def replaceAllLoop (old new : GoString) : Nat → GoString → GoString
  | 0, s => s
  | _ + 1, [] => []
  | n + 1, c :: t =>
    if hasPrefix (c :: t) old then new ++ replaceAllLoop old new n ((c :: t).drop old.length)
    else c :: replaceAllLoop old new n t

/-- Go `strings.ReplaceAll(s, old, new)` for a non-empty `old`. -/
def replaceAll (s old new : GoString) : GoString :=
  if old = new then s else replaceAllLoop old new s.length s

/-- Go `DatabaseObjectService.convertDefinition`. -/
def convertDefinition (definition sourceType targetType _objType : GoString) : GoString :=
  if sourceType = targetType then definition
  else
    let converted := definition
    let converted :=
      if sourceType = lit "mysql" ∧ targetType = lit "postgres" then
        replaceAll (replaceAll converted (lit "`") (lit "\"")) (lit "AUTO_INCREMENT")
          (lit "SERIAL")
      else converted
    let converted :=
      if sourceType = lit "postgres" ∧ targetType = lit "mysql" then
        replaceAll (replaceAll converted (lit "\"") (lit "`")) (lit "SERIAL")
          (lit "AUTO_INCREMENT")
      else converted
    converted

/-- One pass over a text from left to right in which every byte `a` becomes
`b` and every occurrence of `old` becomes `new`. The fuel bounds the number of
rounds; the length of the input is enough. -/
def replaceBothLoop (a b : Byte) (old new : GoString) : Nat → GoString → GoString
  | 0, _ => []
  | _ + 1, [] => []
  | n + 1, c :: t =>
    if c = a then b :: replaceBothLoop a b old new n t
    else if hasPrefix (c :: t) old then
      new ++ replaceBothLoop a b old new n ((c :: t).drop old.length)
    else c :: replaceBothLoop a b old new n t

/-- The reference for `convertDefinition`, following the words of the
specification: the text itself for identical dialects; from MySQL to
PostgreSQL the text with every backtick replaced by a double quote and every
occurrence of `AUTO_INCREMENT` replaced by `SERIAL`; from PostgreSQL to MySQL
the text with every double quote replaced by a backtick and every occurrence
of `SERIAL` replaced by `AUTO_INCREMENT`. Other pairs of dialects are not
described and are given as the code gives them. -/
def convertReference (definition sourceType targetType : GoString) : GoString :=
  if sourceType = targetType then definition
  else if sourceType = lit "mysql" ∧ targetType = lit "postgres" then
    replaceBothLoop 96 34 (lit "AUTO_INCREMENT") (lit "SERIAL") definition.length definition
  else if sourceType = lit "postgres" ∧ targetType = lit "mysql" then
    replaceBothLoop 34 96 (lit "SERIAL") (lit "AUTO_INCREMENT") definition.length definition
  else definition

/-- Whether two texts differ at a position that both have: then neither is a
prefix of the other, whatever follows. -/
def textsDiffer : GoString → GoString → Bool
  | c :: s, e :: p => c != e || textsDiffer s p
  | _, _ => false

/-! ## Connection manager (`dbconn`) and connection handlers -/

/-- The record `models.DatabaseConnection` (timestamps left out); `DBType` is
the field `Type`. -/
structure DatabaseConnection where
  ID : Nat
  Name : GoString
  DBType : GoString
  Host : GoString
  Port : GoString
  Username : GoString
  Password : GoString
  Database : GoString
  Description : GoString
  Status : GoString
deriving DecidableEq, Repr

/-- A database client (`*gorm.DB` or `*sql.DB`): the driver and the data
source name it was opened with. -/
structure Client where
  driver : GoString
  dsn : GoString
deriving DecidableEq, Repr

/-- What the manager reads outside its pool: the error of `gorm.Open` and of
`sql.Open` for a driver and a data source name (`none` when the client is
obtained). -/
structure Dialer where
  gormOpen : GoString → GoString → Option GoString
  sqlOpen : GoString → GoString → Option GoString

/-- The package variable `connectionPool`, and the clients that `gorm.Open`
was asked for so far, oldest first. -/
structure PoolState where
  pool : GoMap Client
  opened : List Client
deriving DecidableEq, Repr

/-- The data source name of the MySQL branches. -/
def mysqlDSN (dbConn : DatabaseConnection) : GoString :=
  dbConn.Username ++ lit ":" ++ dbConn.Password ++ lit "@tcp(" ++ dbConn.Host ++ lit ":"
    ++ dbConn.Port ++ lit ")/" ++ dbConn.Database
    ++ lit "?charset=utf8mb4&parseTime=True&loc=Local"

/-- The data source name of the PostgreSQL branches. -/
def postgresDSN (dbConn : DatabaseConnection) : GoString :=
  lit "host=" ++ dbConn.Host ++ lit " user=" ++ dbConn.Username ++ lit " password="
    ++ dbConn.Password ++ lit " dbname=" ++ dbConn.Database ++ lit " port=" ++ dbConn.Port
    ++ lit " sslmode=disable TimeZone=Asia/Shanghai"

/-- The end of `GetConnection` after the `switch`: `gorm.Open`, and on success
the store into the pool. -/
def openAndStore (env : Dialer) (st : PoolState) (key : GoString) (c : Client) :
    Except GoString Client × PoolState :=
  let st1 : PoolState := { st with opened := st.opened ++ [c] }
  match env.gormOpen c.driver c.dsn with
  | some err => (Except.error err, st1)
  | none => (Except.ok c, { st1 with pool := GoMap.set st1.pool key c })

/-- Go `dbconn.GetConnection`. -/
def GetConnection (env : Dialer) (st : PoolState) (dbConn : DatabaseConnection) :
    Except GoString Client × PoolState :=
  let key := itoaNat dbConn.ID
  match GoMap.get? st.pool key with
  | some conn => (Except.ok conn, st)
  | none =>
    if dbConn.DBType = lit "mysql" then
      openAndStore env st key { driver := lit "mysql", dsn := mysqlDSN dbConn }
    else if dbConn.DBType = lit "oracle" then
      (Except.error (lit "Oracle数据库暂不支持GORM，请使用原生连接"), st)
    else if dbConn.DBType = lit "postgres" then
      openAndStore env st key { driver := lit "postgres", dsn := postgresDSN dbConn }
    else (Except.error (lit "unsupported database type: " ++ dbConn.DBType), st)

/-- Go `dbconn.GetRawConnection`: the result, and the clients that `sql.Open`
was asked for. -/
def GetRawConnection (env : Dialer) (dbConn : DatabaseConnection) :
    Except GoString Client × List Client :=
  let sqlOpen := fun (c : Client) =>
    match env.sqlOpen c.driver c.dsn with
    | some err => ((Except.error err : Except GoString Client), [c])
    | none => (Except.ok c, [c])
  if dbConn.DBType = lit "mysql" then
    sqlOpen { driver := lit "mysql", dsn := mysqlDSN dbConn }
  else if dbConn.DBType = lit "oracle" then
    (Except.error (lit "Oracle驱动未配置，请安装godror或oci8驱动"), [])
  else if dbConn.DBType = lit "postgres" then
    sqlOpen { driver := lit "postgres", dsn := postgresDSN dbConn }
  else (Except.error (lit "unsupported database type: " ++ dbConn.DBType), [])

/-- The body of a connection test request. -/
structure ConnectionRequest where
  Name : GoString
  DBType : GoString
  Host : GoString
  Port : GoString
  Username : GoString
  Password : GoString
  Database : GoString
  Description : GoString
deriving DecidableEq, Repr

/-- The binding rules shared by `TestConnection` and `CreateConnection`:
`required` on the six connection fields and `oneof=mysql oracle postgres` on
the type. -/
def ConnectionRequest.bound (req : ConnectionRequest) : Bool :=
  decide (req.DBType ≠ [] ∧ req.Host ≠ [] ∧ req.Port ≠ [] ∧ req.Username ≠ []
    ∧ req.Password ≠ [] ∧ req.Database ≠ []
    ∧ (req.DBType = lit "mysql" ∨ req.DBType = lit "oracle" ∨ req.DBType = lit "postgres"))

/-- The descriptor `testConn` that both handlers build from the request; its
`ID` is left at zero. -/
def testConn (req : ConnectionRequest) : DatabaseConnection :=
  { ID := 0, Name := [], DBType := req.DBType, Host := req.Host, Port := req.Port,
    Username := req.Username, Password := req.Password, Database := req.Database,
    Description := [], Status := [] }

/-- Go `DBConnectionHandler.TestConnection`: the HTTP status, the field
`success` of the answer (`none` when binding fails), and the pool afterwards. -/
def TestConnection (env : Dialer) (st : PoolState) (req : ConnectionRequest) :
    Nat × Option Bool × PoolState :=
  if ¬ req.bound then (400, none, st)
  else
    match GetConnection env st (testConn req) with
    | (Except.error _, st1) => (200, some false, st1)
    | (Except.ok _, st1) => (200, some true, st1)

/-- The table of connection records of the metadata store: the records, and
whether writes fail. -/
structure ConnectionStore where
  records : List DatabaseConnection
  failure : Option GoString
deriving DecidableEq, Repr

/-- Go `DBConnectionHandler.CreateConnection`: the HTTP status, the pool and
the connection records afterwards. The new record gets the next free `ID`. -/
def CreateConnection (env : Dialer) (st : PoolState) (store : ConnectionStore)
    (req : ConnectionRequest) : Nat × PoolState × ConnectionStore :=
  if ¬ (req.bound ∧ req.Name ≠ []) then (400, st, store)
  else
    match GetConnection env st (testConn req) with
    | (Except.error _, st1) => (400, st1, store)
    | (Except.ok _, st1) =>
      match store.failure with
      | some _ => (500, st1, store)
      | none =>
        let dbConn : DatabaseConnection :=
          { ID := (store.records.map (fun r => r.ID)).foldl max 0 + 1, Name := req.Name,
            DBType := req.DBType, Host := req.Host, Port := req.Port,
            Username := req.Username, Password := req.Password, Database := req.Database,
            Description := req.Description, Status := lit "active" }
        (200, st1, { store with records := store.records ++ [dbConn] })

/-! ## Tasks, whole-database sync and the scheduler -/

/-- The record `models.SyncTask` (associations, creator and timestamps left
out). -/
structure SyncTask where
  ID : Nat
  Name : GoString
  SourceDBID : Nat
  TargetDBID : Nat
  TableName : GoString
  SyncType : GoString
  CronExpr : GoString
  Status : GoString
  LastSyncAt : Option Time
deriving DecidableEq, Repr

/-- What `SyncTable` and `syncDatabase` call, over a state `σ` of the
databases and the logs: `connect` is the error of the first part of
`SyncTable` (loading the two connection records, `GetRawConnection` and `Ping`
on both sides; `none` when all succeed), `getTables` the table list of the
source, `syncSingleTable` the sync of the table named by the task, `logError`
the log writer.
Modelled from the spec: `SyncObjectsByType`, which `syncDatabase` calls on the
object service, is not among the sources (they hold `syncObjectsByType`); it
is taken as the sync of all objects of one kind. -/
structure SyncOps (σ : Type) where
  connect : SyncTask → σ → Option GoString
  getTables : σ → Except GoString (List GoString)
  syncSingleTable : SyncTask → σ → Except GoString Unit × σ
  SyncObjectsByType : SyncTask → GoString → σ → Except GoString Unit × σ
  logError : Nat → GoString → σ → σ

/-- The body of the loop over the tables in `syncDatabase`: the table name is
written into the task, the table is synced, and an error is logged. -/
def tableStep {σ : Type} (ops : SyncOps σ) (state : SyncTask × σ) (tableName : GoString) :
    SyncTask × σ :=
  let task := { state.1 with TableName := tableName }
  match ops.syncSingleTable task state.2 with
  | (Except.error err, s) =>
    (task, ops.logError task.ID (lit "同步表 " ++ tableName ++ lit " 失败: " ++ err) s)
  | (Except.ok _, s) => (task, s)

/-- One of the four calls of the object service in `syncDatabase`: the objects
of the kind are synced and an error is logged under the given label. -/
def objectStep {σ : Type} (ops : SyncOps σ) (task : SyncTask) (kind label : String) (s : σ) :
    σ :=
  match ops.SyncObjectsByType task (lit kind) s with
  | (Except.error err, s1) => ops.logError task.ID (lit label ++ err) s1
  | (Except.ok _, s1) => s1

/-- Go `SyncService.syncDatabase`: the returned error, the task record
afterwards (it is passed by pointer), and the state afterwards. -/
def syncDatabase {σ : Type} (ops : SyncOps σ) (task : SyncTask) (s : σ) :
    Except GoString Unit × SyncTask × σ :=
  match ops.getTables s with
  | Except.error err => (Except.error err, task, s)
  | Except.ok tables =>
    let looped := tables.foldl (tableStep ops) (task, s)
    let s1 := objectStep ops looped.1 "view" "同步视图失败: " looped.2
    let s2 := objectStep ops looped.1 "procedure" "同步存储过程失败: " s1
    let s3 := objectStep ops looped.1 "function" "同步函数失败: " s2
    let s4 := objectStep ops looped.1 "trigger" "同步触发器失败: " s3
    (Except.ok (), looped.1, s4)

/-- Go `SyncService.SyncTable`: the returned error, the task record afterwards
and the state afterwards. -/
def SyncTable {σ : Type} (ops : SyncOps σ) (task : SyncTask) (s : σ) :
    Except GoString Unit × SyncTask × σ :=
  match ops.connect task s with
  | some err => (Except.error err, task, s)
  | none =>
    if task.TableName = [] then syncDatabase ops task s
    else
      let r := ops.syncSingleTable task s
      (r.1, task, r.2)

/-- The table of tasks of the metadata store: the records, and the error of
writes (`none` when they succeed). -/
structure TaskStore where
  tasks : List SyncTask
  failure : Option GoString
deriving DecidableEq, Repr

/-- The query `database.DB.First(&task, id)`. -/
def TaskStore.first (st : TaskStore) (id : Nat) : Option SyncTask :=
  st.tasks.find? (fun t => decide (t.ID = id))

/-- The write `database.DB.Save(&task)`: the stored record with the same `ID`
is replaced, or the record is added; the result is the error. -/
def TaskStore.save (st : TaskStore) (task : SyncTask) : Option GoString × TaskStore :=
  match st.failure with
  | some err => (some err, st)
  | none =>
    if st.tasks.any (fun t => decide (t.ID = task.ID)) then
      (none, { st with tasks := st.tasks.map (fun t => if t.ID = task.ID then task else t) })
    else (none, { st with tasks := st.tasks ++ [task] })

/-- A job registered with `cronManager.AddFunc`: its schedule expression and
the variable `task` that the function literal of `StartScheduledSync` keeps. -/
structure CronEntry where
  spec : GoString
  task : SyncTask
deriving DecidableEq, Repr

/-- The metadata store, the jobs of `cronManager` in the order of their
registration, and the state of the databases and logs. -/
structure Scheduler (σ : Type) where
  store : TaskStore
  entries : List CronEntry
  world : σ

/-- Go `service.StartScheduledSync`; `parseSpec` gives the error of
`cronManager.AddFunc` for a schedule expression. The assignment
`task.Status = "running"` after `AddFunc` is to the variable that the job
keeps. -/
def StartScheduledSync {σ : Type} (parseSpec : GoString → Option GoString) (sch : Scheduler σ)
    (taskID : Nat) : Option GoString × Scheduler σ :=
  match sch.store.first taskID with
  | none => (some (lit "任务不存在: record not found"), sch)
  | some task =>
    if task.SyncType ≠ lit "scheduled" then (some (lit "任务不是定时任务类型"), sch)
    else if task.CronExpr = [] then (some (lit "定时任务缺少cron表达式"), sch)
    else
      match parseSpec task.CronExpr with
      | some err => (some (lit "添加定时任务失败: " ++ err), sch)
      | none =>
        let running := { task with Status := lit "running" }
        (none, { sch with
          entries := sch.entries ++ [{ spec := task.CronExpr, task := running }],
          store := (sch.store.save running).2 })

/-- Go `service.StopScheduledSync`. -/
def StopScheduledSync {σ : Type} (sch : Scheduler σ) (taskID : Nat) :
    Option GoString × Scheduler σ :=
  match sch.store.first taskID with
  | none => (some (lit "任务不存在: record not found"), sch)
  | some task =>
    let r := sch.store.save { task with Status := lit "stopped" }
    (r.1, { sch with store := r.2 })

/-- One run of the function literal registered by `StartScheduledSync`, at the
time `now`, for the job at position `i`: the sync, the update of the kept
variable `task`, and `database.DB.Save(&task)`. -/
def fire {σ : Type} (ops : SyncOps σ) (now : Time) (i : Nat) (sch : Scheduler σ) :
    Scheduler σ :=
  match sch.entries.get? i with
  | none => sch
  | some entry =>
    let r := SyncTable ops entry.task sch.world
    let task :=
      match r.1 with
      | Except.error _ => { r.2.1 with Status := lit "error" }
      | Except.ok _ => { r.2.1 with LastSyncAt := some now }
    { store := (sch.store.save task).2,
      entries := sch.entries.set i { entry with task := task },
      world := r.2.2 }

/-- Go `SyncHandler.ExecuteSyncTask` at the time `now`: the HTTP status and
the scheduler state afterwards. -/
def ExecuteSyncTask {σ : Type} (ops : SyncOps σ) (now : Time) (sch : Scheduler σ) (id : Nat) :
    Nat × Scheduler σ :=
  match sch.store.first id with
  | none => (404, sch)
  | some task =>
    let r := SyncTable ops task sch.world
    match r.1 with
    | Except.error _ => (500, { sch with world := r.2.2 })
    | Except.ok _ =>
      (200, { sch with
        store := (sch.store.save { r.2.1 with LastSyncAt := some now }).2,
        world := r.2.2 })

/-! ## Object sync (`DatabaseObjectService`) -/

/-- The record `DatabaseObjectInfo`. -/
structure DatabaseObjectInfo where
  Name : GoString
  TableName : GoString
  Schema : GoString
deriving DecidableEq, Repr

/-- The record `models.ObjectSyncLog` as `logObjectSync` fills it. -/
structure ObjectSyncLog where
  TaskID : Nat
  ObjectType : GoString
  ObjectName : GoString
  Action : GoString
  Status : GoString
  Message : GoString
deriving DecidableEq, Repr

/-- What the object service reads outside the target catalog: `strings.ToLower`;
for the source, the result of the listing query of a kind and of
`getObjectDefinition` for an object of a kind; for the target, the error of
the listing query of a kind and of `Exec` for a statement text (`none` when
they succeed), and the object that a definition creates, as the target lists
it afterwards. -/
structure ObjectEnv where
  toLower : GoString → GoString
  sourceObjects : GoString → Except GoString (List DatabaseObjectInfo)
  definition : GoString → DatabaseObjectInfo → Except GoString GoString
  targetQueryError : GoString → Option GoString
  execError : GoString → Option GoString
  defined : GoString → DatabaseObjectInfo

/-- The target and the metadata store as the object service changes them: the
objects of the target with their kinds; the object sync logs, oldest first;
the kinds for which the source was asked for its objects, in order; and the
statements that the target received, in order. -/
structure ObjectWorld where
  catalog : List (GoString × DatabaseObjectInfo)
  logs : List ObjectSyncLog
  visited : List GoString
  received : List GoString
deriving DecidableEq, Repr

/-- The object kinds for which `getObjects` has a query. -/
def objectKinds : List GoString :=
  [lit "procedure", lit "function", lit "view", lit "trigger"]

/-- Go `DatabaseObjectService.logObjectSync`. -/
def logObjectSync (w : ObjectWorld) (taskID : Nat)
    (objType objName action status message : GoString) : ObjectWorld :=
  { w with logs := w.logs ++ [{ TaskID := taskID, ObjectType := objType, ObjectName := objName,
                                Action := action, Status := status, Message := message }] }

/-- Go `DatabaseObjectService.getObjects` on the source. -/
def getSourceObjects (env : ObjectEnv) (objType : GoString) (w : ObjectWorld) :
    Except GoString (List DatabaseObjectInfo) × ObjectWorld :=
  if objType ∈ objectKinds then
    (env.sourceObjects objType, { w with visited := w.visited ++ [objType] })
  else (Except.error (lit "不支持的对象类型: " ++ objType), w)

/-- Go `DatabaseObjectService.getObjects` on the target. -/
def getTargetObjects (env : ObjectEnv) (objType : GoString) (w : ObjectWorld) :
    Except GoString (List DatabaseObjectInfo) :=
  if objType ∈ objectKinds then
    match env.targetQueryError objType with
    | some err => Except.error err
    | none => Except.ok ((w.catalog.filter (fun p => decide (p.1 = objType))).map Prod.snd)
  else Except.error (lit "不支持的对象类型: " ++ objType)

/-- The statement text `dropSQL` of `dropObject`; empty when the dialect or the
kind is not covered. `strings.ToUpper(objType)` is written out for the two
kinds of its branch. -/
def dropStatement (dbType objType objName tableName : GoString) : GoString :=
  let upper := if objType = lit "procedure" then lit "PROCEDURE" else lit "FUNCTION"
  if dbType = lit "mysql" then
    if objType = lit "procedure" ∨ objType = lit "function" then
      lit "DROP " ++ upper ++ lit " IF EXISTS " ++ quoteIdentifier objName dbType
    else if objType = lit "view" then lit "DROP VIEW IF EXISTS " ++ quoteIdentifier objName dbType
    else if objType = lit "trigger" then
      lit "DROP TRIGGER IF EXISTS " ++ quoteIdentifier objName dbType
    else []
  else if dbType = lit "postgres" then
    if objType = lit "procedure" ∨ objType = lit "function" then
      lit "DROP " ++ upper ++ lit " IF EXISTS " ++ quoteIdentifier objName dbType
        ++ lit " CASCADE"
    else if objType = lit "view" then
      lit "DROP VIEW IF EXISTS " ++ quoteIdentifier objName dbType ++ lit " CASCADE"
    else if objType = lit "trigger" then
      lit "DROP TRIGGER IF EXISTS " ++ quoteIdentifier objName dbType ++ lit " ON "
        ++ quoteIdentifier tableName dbType ++ lit " CASCADE"
    else []
  else if dbType = lit "oracle" then
    if objType = lit "procedure" ∨ objType = lit "function" then
      lit "DROP " ++ upper ++ lit " " ++ quoteIdentifier objName dbType
    else if objType = lit "view" then lit "DROP VIEW " ++ quoteIdentifier objName dbType
    else if objType = lit "trigger" then lit "DROP TRIGGER " ++ quoteIdentifier objName dbType
    else []
  else []

/-- Go `DatabaseObjectService.dropObject`: the error, and the target
afterwards. A statement that succeeds removes the object of that kind and
name. -/
def dropObject (env : ObjectEnv) (dbType objType objName tableName : GoString)
    (w : ObjectWorld) : Option GoString × ObjectWorld :=
  let dropSQL := dropStatement dbType objType objName tableName
  if dropSQL = [] then (some (lit "不支持删除" ++ objType), w)
  else
    let w1 := { w with received := w.received ++ [dropSQL] }
    match env.execError dropSQL with
    | some err => (some err, w1)
    | none =>
      (none, { w1 with
        catalog := w1.catalog.filter (fun p => ¬ (p.1 = objType ∧ p.2.Name = objName)) })

/-- Go `DatabaseObjectService.createObject`: the error, and the target
afterwards. A statement that succeeds leaves the defined object in the
catalog. -/
def createObject (env : ObjectEnv) (definition objType : GoString) (w : ObjectWorld) :
    Option GoString × ObjectWorld :=
  let w1 := { w with received := w.received ++ [definition] }
  match env.execError definition with
  | some err => (some err, w1)
  | none =>
    if (objType, env.defined definition) ∈ w1.catalog then (none, w1)
    else (none, { w1 with catalog := w1.catalog ++ [(objType, env.defined definition)] })

/-- The block `if targetMap[objNameLower]` of the loop of `syncObjectsByType`:
an object that the target listed is dropped first, a failure being logged. -/
def dropExisting (env : ObjectEnv) (targetType : GoString) (taskID : Nat)
    (objType : GoString) (targetMap : List GoString) (w : ObjectWorld)
    (sourceObj : DatabaseObjectInfo) : ObjectWorld :=
  if env.toLower sourceObj.Name ∈ targetMap then
    match dropObject env targetType objType sourceObj.Name sourceObj.TableName w with
    | (some err, wd) =>
      logObjectSync wd taskID objType sourceObj.Name (lit "delete") (lit "failed")
        (lit "删除旧" ++ sourceObj.Name ++ lit "失败: " ++ err)
    | (none, wd) => wd
  else w

/-- The end of the body of the loop of `syncObjectsByType`: the definition is
converted and executed, and the outcome logged. -/
def createAndLog (env : ObjectEnv) (sourceType targetType : GoString) (taskID : Nat)
    (objType : GoString) (targetMap : List GoString) (definition : GoString) (w : ObjectWorld)
    (sourceObj : DatabaseObjectInfo) : ObjectWorld :=
  let convertedDefinition := convertDefinition definition sourceType targetType objType
  match createObject env convertedDefinition objType w with
  | (some err, w2) =>
    logObjectSync w2 taskID objType sourceObj.Name (lit "create") (lit "failed")
      (lit "创建" ++ sourceObj.Name ++ lit "失败: " ++ err)
  | (none, w2) =>
    let action :=
      if ¬ (env.toLower sourceObj.Name ∈ targetMap) then lit "create" else lit "update"
    logObjectSync w2 taskID objType sourceObj.Name action (lit "success")
      (sourceObj.Name ++ lit "同步成功")

/-- The body of the loop over the source objects in `syncObjectsByType`;
`targetMap` holds the lower-cased names that the target listed. -/
def syncObjectStep (env : ObjectEnv) (sourceType targetType : GoString) (taskID : Nat)
    (objType : GoString) (targetMap : List GoString) (w : ObjectWorld)
    (sourceObj : DatabaseObjectInfo) : ObjectWorld :=
  match env.definition objType sourceObj with
  | Except.error err =>
    logObjectSync w taskID objType sourceObj.Name (lit "sync") (lit "failed")
      (lit "获取" ++ sourceObj.Name ++ lit "定义失败: " ++ err)
  | Except.ok definition =>
    createAndLog env sourceType targetType taskID objType targetMap definition
      (dropExisting env targetType taskID objType targetMap w sourceObj) sourceObj

/-- Go `DatabaseObjectService.syncObjectsByType`. -/
def syncObjectsByType (env : ObjectEnv) (sourceType targetType : GoString) (taskID : Nat)
    (objType : GoString) (w : ObjectWorld) : Except GoString Unit × ObjectWorld :=
  match getSourceObjects env objType w with
  | (Except.error err, w1) =>
    (Except.error (lit "获取源数据库" ++ objType ++ lit "列表失败: " ++ err), w1)
  | (Except.ok sourceObjects, w1) =>
    match getTargetObjects env objType w1 with
    | Except.error err =>
      (Except.error (lit "获取目标数据库" ++ objType ++ lit "列表失败: " ++ err), w1)
    | Except.ok targetObjects =>
      let targetMap := targetObjects.map (fun obj => env.toLower obj.Name)
      (Except.ok (),
        sourceObjects.foldl (syncObjectStep env sourceType targetType taskID objType targetMap)
          w1)

/-- The body of the loop over the kinds in `SyncDatabaseObjects`: the objects
of the kind are synced, and an error is logged. -/
def objectKindStep (env : ObjectEnv) (sourceType targetType : GoString) (taskID : Nat)
    (w : ObjectWorld) (objType : GoString) : ObjectWorld :=
  match syncObjectsByType env sourceType targetType taskID objType w with
  | (Except.error err, w1) =>
    logObjectSync w1 taskID objType [] (lit "sync") (lit "failed")
      (lit "同步" ++ objType ++ lit "失败: " ++ err)
  | (Except.ok _, w1) => w1

/-- Go `DatabaseObjectService.SyncDatabaseObjects`. -/
def SyncDatabaseObjects (env : ObjectEnv) (sourceType targetType : GoString) (taskID : Nat)
    (w : ObjectWorld) : Except GoString Unit × ObjectWorld :=
  let objectTypes := [lit "procedure", lit "function", lit "view", lit "trigger"]
  (Except.ok (), objectTypes.foldl (objectKindStep env sourceType targetType taskID) w)

/-- The log entry of `syncObjectsByType` for an object that was synced. -/
def successLog (taskID : Nat) (objType : GoString) (sourceObj : DatabaseObjectInfo)
    (action : GoString) : ObjectSyncLog :=
  { TaskID := taskID, ObjectType := objType, ObjectName := sourceObj.Name, Action := action,
    Status := lit "success", Message := sourceObj.Name ++ lit "同步成功" }

/-- The lower-cased names of the objects of a kind that the target lists: the
keys of `targetMap` in `syncObjectsByType`. -/
def targetNames (env : ObjectEnv) (objType : GoString) (w : ObjectWorld) : List GoString :=
  ((w.catalog.filter (fun p => decide (p.1 = objType))).map Prod.snd).map
    (fun obj => env.toLower obj.Name)

/-! ## Rows carried by the target -/

/-- The ASCII digit of a number below ten. -/
def digitByte (d : Nat) : Byte := byteOf (48 + d)

/-- A number below one hundred in two digits. -/
def twoDigits (n : Nat) : GoString := [digitByte (n / 10 % 10), digitByte (n % 10)]

/-- A number below ten thousand in four digits. -/
def fourDigits (n : Nat) : GoString :=
  [digitByte (n / 1000 % 10), digitByte (n / 100 % 10), digitByte (n / 10 % 10),
    digitByte (n % 10)]

/-- How the zone of a timestamp is written: not at all, `Z`, `+hh:mm` or
`-hh:mm`. -/
inductive ZoneText where
  | absent
  | utc
  | east (hh mm : Nat)
  | west (hh mm : Nat)
deriving DecidableEq, Repr

/-- The text of the zone. -/
def ZoneText.text : ZoneText → GoString
  | ZoneText.absent => []
  | ZoneText.utc => lit "Z"
  | ZoneText.east hh mm => lit "+" ++ twoDigits hh ++ lit ":" ++ twoDigits mm
  | ZoneText.west hh mm => lit "-" ++ twoDigits hh ++ lit ":" ++ twoDigits mm

/-- The offset of the zone in seconds east of UTC; a timestamp without a zone
is read as UTC. -/
def ZoneText.seconds : ZoneText → Int
  | ZoneText.absent => 0
  | ZoneText.utc => 0
  | ZoneText.east hh mm => (((hh * 60 + mm) * 60 : Nat) : Int)
  | ZoneText.west hh mm => -(((hh * 60 + mm) * 60 : Nat) : Int)

/-- Whether the offset is one of a zone: hours below 24, minutes below 60. -/
def ZoneText.valid : ZoneText → Bool
  | ZoneText.east hh mm => decide (hh < 24 ∧ mm < 60)
  | ZoneText.west hh mm => decide (hh < 24 ∧ mm < 60)
  | _ => true

/-- A timestamp as written: the date, the time of day, the digits of the
fraction of the second (none when the list is empty), whether a space stands
between date and time instead of `T`, and the zone. -/
structure Stamp where
  year : Nat
  month : Nat
  day : Nat
  hour : Nat
  min : Nat
  sec : Nat
  frac : List Nat
  space : Bool
  zone : ZoneText
deriving DecidableEq, Repr

/-- The text of the fraction: a period and the digits, or nothing. -/
def fracText (frac : List Nat) : GoString :=
  if frac = [] then [] else lit "." ++ frac.map digitByte

/-- The text of the timestamp, such as `2024-01-01T02:00:00.500Z`. -/
def Stamp.text (st : Stamp) : GoString :=
  fourDigits st.year ++ lit "-" ++ twoDigits st.month ++ lit "-" ++ twoDigits st.day
    ++ (if st.space then lit " " else lit "T")
    ++ twoDigits st.hour ++ lit ":" ++ twoDigits st.min ++ lit ":" ++ twoDigits st.sec
    ++ fracText st.frac ++ st.zone.text

/-- Whether the fields are those of a date and time of the calendar, written
in one of the forms that the databases deliver: a year of four digits, an
existing day, a time of day, decimal digits, a zone offset below a day, and no
zone after the form with a space. -/
def Stamp.valid (st : Stamp) : Bool :=
  decide (st.year ≤ 9999 ∧ 1 ≤ st.month ∧ st.month ≤ 12 ∧ 1 ≤ st.day
      ∧ st.day ≤ daysIn st.month st.year ∧ st.hour < 24 ∧ st.min < 60 ∧ st.sec < 60)
    && st.frac.all (fun d => decide (d < 10)) && st.zone.valid
    && (!st.space || decide (st.zone = ZoneText.absent))

/-- The instant that the timestamp denotes, in whole seconds since the Unix
epoch: the seconds from the epoch to the date and time of day, less the
offset of the zone. -/
def Stamp.unix (st : Stamp) : Int :=
  daysSinceEpoch st.year st.month st.day * 86400
    + ((st.hour * 3600 + st.min * 60 + st.sec : Nat) : Int) - st.zone.seconds

/-- The fields that the parser has collected when it reaches the seconds. -/
def Stamp.beforeSeconds (st : Stamp) : Fields :=
  { Fields.init with year := st.year, month := st.month, day := st.day, hour := st.hour,
                     min := st.min }

/-! ## JSON decoding (`encoding/json`) into a `map[string]interface{}` -/

/-- What `json.Unmarshal` stores in an `interface{}`. A JSON number is a
`float64` in Go; the model keeps the integer `int64(x)` it converts to, the
only use the token code makes of it. An array or an object is kept as its JSON
text. -/
inductive JValue where
  | null
  | bool (b : Bool)
  | number (n : Int)
  | str (s : GoString)
  | composite (text : GoString)
  deriving DecidableEq, Repr

/-- The ways in which `json.Unmarshal` does not give a map: the text is not
valid JSON (`*json.SyntaxError`), or a value does not fit the Go value it is
decoded into (`*json.UnmarshalTypeError`); the messages are left out. The third
is the `panic(phasePanicMsg)` of the decoder on a text that it cannot read,
which the scanner rules out before the decoder runs. -/
inductive JsonError where
  | SyntaxError
  | UnmarshalTypeError
  | phasePanic
  deriving DecidableEq, Repr

/-- The conversion of a number literal that the embedding takes as given:
`strconv.ParseFloat(text, 64)` followed by `int64(x)`, and `none` when
`ParseFloat` reports an error (the literal is out of range). -/
structure JsonNumbers where
  toInt64 : GoString → Option Int

/-- Go `isSpace` of the JSON scanner: space, tab, carriage return, newline. -/
def isJsonSpace (c : Byte) : Bool := decide (c.val = 32 ∨ c.val = 9 ∨ c.val = 13 ∨ c.val = 10)

/-- The constants `parseObjectKey`, `parseObjectValue`, `parseArrayValue`. -/
inductive ParseState where
  | parseObjectKey
  | parseObjectValue
  | parseArrayValue
  deriving DecidableEq, Repr

/-- The step functions of the scanner, as the values of its field `step`. -/
inductive ScanStep where
  | stateBeginValueOrEmpty
  | stateBeginValue
  | stateBeginStringOrEmpty
  | stateBeginString
  | stateEndValue
  | stateEndTop
  | stateInString
  | stateInStringEsc
  | stateInStringEscU
  | stateInStringEscU1
  | stateInStringEscU12
  | stateInStringEscU123
  | stateNeg
  | state1
  | state0
  | stateDot
  | stateDot0
  | stateE
  | stateESign
  | stateE0
  | stateT
  | stateTr
  | stateTru
  | stateF
  | stateFa
  | stateFal
  | stateFals
  | stateN
  | stateNu
  | stateNul
  | stateError
  deriving DecidableEq, Repr

/-- Go `scanner` of `encoding/json`. The stack `parseState` has its top at the
head of the list. The field `err` is set exactly when `step` is `stateError`. -/
structure Scanner where
  step : ScanStep
  endTop : Bool
  parseState : List ParseState
  deriving DecidableEq, Repr

/-- The constant `maxNestingDepth` of the scanner. -/
def maxNestingDepth : Nat := 10000

/-- Go `scanner.reset`. -/
def Scanner.reset : Scanner :=
  { step := ScanStep.stateBeginValue, endTop := false, parseState := [] }

/-- Go `scanner.error`: the error is recorded and the scanner stays in
`stateError`. -/
def Scanner.error (s : Scanner) : Scanner := { s with step := ScanStep.stateError }

/-- The assignment `s.step = next`. -/
def Scanner.goto (s : Scanner) (next : ScanStep) : Scanner := { s with step := next }

/-- Go `scanner.pushParseState`: an error past `maxNestingDepth`. -/
def Scanner.pushParseState (s : Scanner) (newParseState : ParseState) : Scanner :=
  if s.parseState.length + 1 ≤ maxNestingDepth then
    { s with parseState := newParseState :: s.parseState }
  else { s with parseState := newParseState :: s.parseState, step := ScanStep.stateError }

/-- Go `scanner.popParseState`. -/
def Scanner.popParseState (s : Scanner) : Scanner :=
  if s.parseState.tail.length = 0 then
    { step := ScanStep.stateEndTop, endTop := true, parseState := s.parseState.tail }
  else { s with step := ScanStep.stateEndValue, parseState := s.parseState.tail }

/-- Go `stateEndTop`. -/
def stateEndTop (s : Scanner) (c : Byte) : Scanner :=
  if isJsonSpace c then s else s.error

/-- Go `stateEndValue`. -/
def stateEndValue (s : Scanner) (c : Byte) : Scanner :=
  match s.parseState with
  | [] => stateEndTop { s with step := ScanStep.stateEndTop, endTop := true } c
  | ps :: below =>
    if isJsonSpace c then s.goto ScanStep.stateEndValue
    else
      match ps with
      | ParseState.parseObjectKey =>
        if c.val = 58 then
          { s with parseState := ParseState.parseObjectValue :: below,
                   step := ScanStep.stateBeginValue }
        else s.error
      | ParseState.parseObjectValue =>
        if c.val = 44 then
          { s with parseState := ParseState.parseObjectKey :: below,
                   step := ScanStep.stateBeginString }
        else if c.val = 125 then s.popParseState
        else s.error
      | ParseState.parseArrayValue =>
        if c.val = 44 then s.goto ScanStep.stateBeginValue
        else if c.val = 93 then s.popParseState
        else s.error

/-- Go `stateBeginValue`. -/
def stateBeginValue (s : Scanner) (c : Byte) : Scanner :=
  if isJsonSpace c then s
  else if c.val = 123 then
    (s.goto ScanStep.stateBeginStringOrEmpty).pushParseState ParseState.parseObjectKey
  else if c.val = 91 then
    (s.goto ScanStep.stateBeginValueOrEmpty).pushParseState ParseState.parseArrayValue
  else if c.val = 34 then s.goto ScanStep.stateInString
  else if c.val = 45 then s.goto ScanStep.stateNeg
  else if c.val = 48 then s.goto ScanStep.state0
  else if c.val = 116 then s.goto ScanStep.stateT
  else if c.val = 102 then s.goto ScanStep.stateF
  else if c.val = 110 then s.goto ScanStep.stateN
  else if 49 ≤ c.val ∧ c.val ≤ 57 then s.goto ScanStep.state1
  else s.error

/-- Go `stateBeginString`. -/
def stateBeginString (s : Scanner) (c : Byte) : Scanner :=
  if isJsonSpace c then s
  else if c.val = 34 then s.goto ScanStep.stateInString
  else s.error

/-- Go `stateBeginStringOrEmpty`. -/
def stateBeginStringOrEmpty (s : Scanner) (c : Byte) : Scanner :=
  if isJsonSpace c then s
  else if c.val = 125 then
    stateEndValue { s with parseState := ParseState.parseObjectValue :: s.parseState.tail } c
  else stateBeginString s c

/-- Go `stateBeginValueOrEmpty`. -/
def stateBeginValueOrEmpty (s : Scanner) (c : Byte) : Scanner :=
  if isJsonSpace c then s
  else if c.val = 93 then stateEndValue s c
  else stateBeginValue s c

/-- Go `stateInString`. -/
def stateInString (s : Scanner) (c : Byte) : Scanner :=
  if c.val = 34 then s.goto ScanStep.stateEndValue
  else if c.val = 92 then s.goto ScanStep.stateInStringEsc
  else if c.val < 32 then s.error
  else s

/-- Go `stateInStringEsc`. -/
def stateInStringEsc (s : Scanner) (c : Byte) : Scanner :=
  if c.val = 98 ∨ c.val = 102 ∨ c.val = 110 ∨ c.val = 114 ∨ c.val = 116 ∨ c.val = 92
      ∨ c.val = 47 ∨ c.val = 34 then s.goto ScanStep.stateInString
  else if c.val = 117 then s.goto ScanStep.stateInStringEscU
  else s.error

/-- The body shared by `stateInStringEscU`, `stateInStringEscU1`,
`stateInStringEscU12` and `stateInStringEscU123`: a hexadecimal digit leads to
the next of them. -/
def stateHexDigit (next : ScanStep) (s : Scanner) (c : Byte) : Scanner :=
  if (48 ≤ c.val ∧ c.val ≤ 57) ∨ (97 ≤ c.val ∧ c.val ≤ 102) ∨ (65 ≤ c.val ∧ c.val ≤ 70) then
    s.goto next
  else s.error

/-- Go `state0`. -/
def state0 (s : Scanner) (c : Byte) : Scanner :=
  if c.val = 46 then s.goto ScanStep.stateDot
  else if c.val = 101 ∨ c.val = 69 then s.goto ScanStep.stateE
  else stateEndValue s c

/-- Go `state1`. -/
def state1 (s : Scanner) (c : Byte) : Scanner :=
  if isDigitByte c then s.goto ScanStep.state1 else state0 s c

/-- Go `stateNeg`. -/
def stateNeg (s : Scanner) (c : Byte) : Scanner :=
  if c.val = 48 then s.goto ScanStep.state0
  else if 49 ≤ c.val ∧ c.val ≤ 57 then s.goto ScanStep.state1
  else s.error

/-- Go `stateDot`. -/
def stateDot (s : Scanner) (c : Byte) : Scanner :=
  if isDigitByte c then s.goto ScanStep.stateDot0 else s.error

/-- Go `stateDot0`. -/
def stateDot0 (s : Scanner) (c : Byte) : Scanner :=
  if isDigitByte c then s
  else if c.val = 101 ∨ c.val = 69 then s.goto ScanStep.stateE
  else stateEndValue s c

/-- Go `stateESign`. -/
def stateESign (s : Scanner) (c : Byte) : Scanner :=
  if isDigitByte c then s.goto ScanStep.stateE0 else s.error

/-- Go `stateE`. -/
def stateE (s : Scanner) (c : Byte) : Scanner :=
  if c.val = 43 ∨ c.val = 45 then s.goto ScanStep.stateESign else stateESign s c

/-- Go `stateE0`. -/
def stateE0 (s : Scanner) (c : Byte) : Scanner :=
  if isDigitByte c then s else stateEndValue s c

/-- The body shared by the states of the literals `true`, `false` and `null`
(`stateT` to `stateNul`): the expected letter leads to the next state. -/
def stateLetter (letter : Nat) (next : ScanStep) (s : Scanner) (c : Byte) : Scanner :=
  if c.val = letter then s.goto next else s.error

/-- The call `s.step(s, c)`. -/
def Scanner.feed (s : Scanner) (c : Byte) : Scanner :=
  match s.step with
  | ScanStep.stateBeginValueOrEmpty => stateBeginValueOrEmpty s c
  | ScanStep.stateBeginValue => stateBeginValue s c
  | ScanStep.stateBeginStringOrEmpty => stateBeginStringOrEmpty s c
  | ScanStep.stateBeginString => stateBeginString s c
  | ScanStep.stateEndValue => stateEndValue s c
  | ScanStep.stateEndTop => stateEndTop s c
  | ScanStep.stateInString => stateInString s c
  | ScanStep.stateInStringEsc => stateInStringEsc s c
  | ScanStep.stateInStringEscU => stateHexDigit ScanStep.stateInStringEscU1 s c
  | ScanStep.stateInStringEscU1 => stateHexDigit ScanStep.stateInStringEscU12 s c
  | ScanStep.stateInStringEscU12 => stateHexDigit ScanStep.stateInStringEscU123 s c
  | ScanStep.stateInStringEscU123 => stateHexDigit ScanStep.stateInString s c
  | ScanStep.stateNeg => stateNeg s c
  | ScanStep.state1 => state1 s c
  | ScanStep.state0 => state0 s c
  | ScanStep.stateDot => stateDot s c
  | ScanStep.stateDot0 => stateDot0 s c
  | ScanStep.stateE => stateE s c
  | ScanStep.stateESign => stateESign s c
  | ScanStep.stateE0 => stateE0 s c
  | ScanStep.stateT => stateLetter 114 ScanStep.stateTr s c
  | ScanStep.stateTr => stateLetter 117 ScanStep.stateTru s c
  | ScanStep.stateTru => stateLetter 101 ScanStep.stateEndValue s c
  | ScanStep.stateF => stateLetter 97 ScanStep.stateFa s c
  | ScanStep.stateFa => stateLetter 108 ScanStep.stateFal s c
  | ScanStep.stateFal => stateLetter 115 ScanStep.stateFals s c
  | ScanStep.stateFals => stateLetter 101 ScanStep.stateEndValue s c
  | ScanStep.stateN => stateLetter 117 ScanStep.stateNu s c
  | ScanStep.stateNu => stateLetter 108 ScanStep.stateNul s c
  | ScanStep.stateNul => stateLetter 108 ScanStep.stateEndValue s c
  | ScanStep.stateError => s

/-- Go `checkValid`: the scanner reads every byte, and `scanner.eof` accepts
when no error is recorded and the top-level value has ended, at the latest on
the space that `eof` feeds. -/
def checkValid (data : GoString) : Bool :=
  let s := data.foldl Scanner.feed Scanner.reset
  if s.step = ScanStep.stateError then false
  else if s.endTop then true
  else (s.feed 32).endTop

/-- The scanner is inside a string literal. -/
def ScanStep.inString (step : ScanStep) : Bool :=
  decide (step = ScanStep.stateInString ∨ step = ScanStep.stateInStringEsc
    ∨ step = ScanStep.stateInStringEscU ∨ step = ScanStep.stateInStringEscU1
    ∨ step = ScanStep.stateInStringEscU12 ∨ step = ScanStep.stateInStringEscU123)

/-- The scanner is inside a number literal. -/
def ScanStep.inNumber (step : ScanStep) : Bool :=
  decide (step = ScanStep.stateNeg ∨ step = ScanStep.state1 ∨ step = ScanStep.state0
    ∨ step = ScanStep.stateDot ∨ step = ScanStep.stateDot0 ∨ step = ScanStep.stateE
    ∨ step = ScanStep.stateESign ∨ step = ScanStep.stateE0)

/-- The reading of a text in pieces: the scanner, the piece being read, and
the pieces read, in the order of the text. -/
structure Pieces where
  scan : Scanner
  current : GoString
  done : List GoString
  deriving DecidableEq, Repr

/-- One byte of the text for the keys and values that `decodeState.object`
reads in the top-level object. Outside that object nothing is kept. Inside a
nested array or object, and inside a string, the byte belongs to the piece
being read. Directly in the top-level object white space is passed over, a
colon, a comma and the closing brace end the piece being read, and any other
byte belongs to it. -/
def Pieces.feed (p : Pieces) (c : Byte) : Pieces :=
  if p.scan.parseState.length = 0 then { p with scan := p.scan.feed c }
  else if 2 ≤ p.scan.parseState.length ∨ p.scan.step.inString then
    { p with scan := p.scan.feed c, current := p.current ++ [c] }
  else if isJsonSpace c then { p with scan := p.scan.feed c }
  else if c.val = 58 ∨ c.val = 44 ∨ c.val = 125 then
    { scan := p.scan.feed c, current := [],
      done := if p.current = [] then p.done else p.done ++ [p.current] }
  else { p with scan := p.scan.feed c, current := p.current ++ [c] }

/-- The texts of the keys and values of the top-level object, key and value in
turn. -/
def objectPieces (data : GoString) : List GoString :=
  (data.foldl Pieces.feed { scan := Scanner.reset, current := [], done := [] }).done

/-- One byte of the text for its number literals: a byte that leaves the
scanner inside a number belongs to the literal being read, any other byte ends
it. -/
def numberFeed (p : Pieces) (c : Byte) : Pieces :=
  if (p.scan.feed c).step.inNumber then
    { p with scan := p.scan.feed c, current := p.current ++ [c] }
  else
    { scan := p.scan.feed c, current := [],
      done := if p.current = [] then p.done else p.done ++ [p.current] }

/-- The number literals of the text, in order; the space of `scanner.eof` ends
a literal at the end of the text. -/
def numberLiterals (data : GoString) : List GoString :=
  (numberFeed (data.foldl numberFeed { scan := Scanner.reset, current := [], done := [] })
    32).done

/-- Go `getu4`: the number written by the four hexadecimal digits of an escape
`\uXXXX` at the start of the text; `none` is the result `-1`. -/
def getu4 (s : GoString) : Option Nat :=
  match s with
  | b :: u :: h1 :: h2 :: h3 :: h4 :: _ =>
    if b.val = 92 ∧ u.val = 117 then
      match fromHexChar h1, fromHexChar h2, fromHexChar h3, fromHexChar h4 with
      | some x1, some x2, some x3, some x4 => some (x1 * 4096 + x2 * 256 + x3 * 16 + x4)
      | _, _, _, _ => none
    else none
  | _ => none

/-- The loop of `unquoteBytes` over the text between the quotes. The first
argument counts the bytes still to pass over, those of an escape or of a
character that has been written. An escape `\u` of a surrogate pair gives the
character of the pair, any other surrogate gives U+FFFD, and so does a byte
that is not UTF-8. `none` is the result `ok = false`. -/
def unquoteLoop : Nat → GoString → Option GoString
  | _, [] => some []
  | pass + 1, _ :: t => unquoteLoop pass t
  | 0, c :: t =>
    if c.val = 92 then
      match t with
      | [] => none
      | e :: _ =>
        if e.val = 117 then
          match getu4 (c :: t) with
          | none => none
          | some rr =>
            if 0xD800 ≤ rr ∧ rr < 0xE000 then
              match getu4 (t.drop 5) with
              | some rr1 =>
                if rr < 0xDC00 ∧ 0xDC00 ≤ rr1 ∧ rr1 < 0xE000 then
                  (unquoteLoop 11 t).map (fun r =>
                    encodeRune ((rr - 0xD800) * 1024 + (rr1 - 0xDC00) + 0x10000) ++ r)
                else (unquoteLoop 5 t).map (fun r => encodeRune RuneError ++ r)
              | none => (unquoteLoop 5 t).map (fun r => encodeRune RuneError ++ r)
            else (unquoteLoop 5 t).map (fun r => encodeRune rr ++ r)
        else if e.val = 98 ∨ e.val = 102 ∨ e.val = 110 ∨ e.val = 114 ∨ e.val = 116
            ∨ e.val = 92 ∨ e.val = 47 ∨ e.val = 34 ∨ e.val = 39 then
          (unquoteLoop 1 t).map (fun r => unescapeLetter e :: r)
        else none
    else if c.val = 34 ∨ c.val < 32 then none
    else if c.val < 0x80 then (unquoteLoop 0 t).map (fun r => c :: r)
    else
      (unquoteLoop ((decodeRune (c :: t)).2 - 1) t).map
        (fun r => encodeRune (decodeRune (c :: t)).1 ++ r)

/-- Go `unquoteBytes`: the bytes that a quoted string literal stands for. -/
def unquoteBytes (s : GoString) : Option GoString :=
  if s.length < 2 ∨ s.head? ≠ some 34 ∨ s.getLast? ≠ some 34 then none
  else unquoteLoop 0 (s.drop 1).dropLast

/-- The value that the decoder stores in an `interface{}` for a piece of the
text (`literalInterface`, and `arrayInterface` and `objectInterface` for an
array and an object). A number that cannot be converted leaves nil. -/
def valueInterface (nums : JsonNumbers) (item : GoString) : Option JValue :=
  match item with
  | [] => none
  | c :: _ =>
    if c.val = 34 then (unquoteBytes item).map JValue.str
    else if c.val = 123 ∨ c.val = 91 then some (JValue.composite item)
    else if c.val = 116 then some (JValue.bool true)
    else if c.val = 102 then some (JValue.bool false)
    else if c.val = 110 then some JValue.null
    else
      match nums.toInt64 item with
      | some n => some (JValue.number n)
      | none => some JValue.null

/-- The loop of `decodeState.object` for a map: each value is stored under its
key, a later member replacing an earlier one of the same key. -/
def objectMembers (nums : JsonNumbers) : List GoString → GoMap JValue → Option (GoMap JValue)
  | key :: value :: rest, acc =>
    match unquoteBytes key, valueInterface nums value with
    | some k, some v => objectMembers nums rest (GoMap.set acc k v)
    | _, _ => none
  | [], acc => some acc
  | [_], _ => none

/-- The text from its first byte that is not white space:
`d.scanWhile(scanSkipSpace)` at the start of `decodeState.unmarshal`. -/
def skipSpace : GoString → GoString
  | [] => []
  | c :: t => if isJsonSpace c then skipSpace t else c :: t

/-- Go `json.Unmarshal(data, &result)` for a nil `result` of type
`map[string]interface{}`. The text must pass `checkValid`. The literal `null`
leaves the map nil (the empty map here). An object gives its members, unless
one of its numbers cannot be converted, which is an `UnmarshalTypeError`. Any
other value is an `UnmarshalTypeError`. -/
def jsonUnmarshal (nums : JsonNumbers) (data : GoString) : Except JsonError (GoMap JValue) :=
  if ¬ checkValid data then Except.error JsonError.SyntaxError
  else
    match skipSpace data with
    | [] => Except.error JsonError.phasePanic
    | c :: _ =>
      if c.val = 110 then Except.ok []
      else if c.val = 123 then
        if (numberLiterals data).all (fun item => (nums.toInt64 item).isSome) then
          match objectMembers nums (objectPieces data) [] with
          | some result => Except.ok result
          | none => Except.error JsonError.phasePanic
        else Except.error JsonError.UnmarshalTypeError
      else Except.error JsonError.UnmarshalTypeError

/-! ## States of the scanner and of the reading in pieces -/

/-- The alphabet of `base64.URLEncoding`. -/
def encodeURL : GoString :=
  lit "ABCDEFGHIJKLMNOPQRSTUVWXYZabcdefghijklmnopqrstuvwxyz0123456789-_"

/-- The symbol `enc.encode[i & 0x3F]`. -/
def encodeSymbol (i : Nat) : Byte := encodeURL.getD (i % 64) 0

/-- The table `enc.decodeMap`: the six bits a symbol stands for, `none` for a
byte outside the alphabet (the entry `0xff`). -/
def decodeURL (c : Byte) : Option Nat :=
  if encodeURL.indexOf c < 64 then some (encodeURL.indexOf c) else none

/-- Go `base64.URLEncoding.EncodeToString`: three bytes give four symbols, and
a last group of one or two bytes is padded with `=`. -/
def base64Encode : GoString → GoString
  | [] => []
  | [a] =>
    [encodeSymbol (a.val * 65536 / 262144), encodeSymbol (a.val * 65536 / 4096), 61, 61]
  | [a, b] =>
    [encodeSymbol ((a.val * 65536 + b.val * 256) / 262144),
      encodeSymbol ((a.val * 65536 + b.val * 256) / 4096),
      encodeSymbol ((a.val * 65536 + b.val * 256) / 64), 61]
  | a :: b :: c :: t =>
    [encodeSymbol ((a.val * 65536 + b.val * 256 + c.val) / 262144),
      encodeSymbol ((a.val * 65536 + b.val * 256 + c.val) / 4096),
      encodeSymbol ((a.val * 65536 + b.val * 256 + c.val) / 64),
      encodeSymbol (a.val * 65536 + b.val * 256 + c.val)] ++ base64Encode t

/-- The loops `for si < len(src) && (src[si] == '\n' || src[si] == '\r')` of
`decodeQuantum`. -/
def skipNewlines : GoString → GoString
  | [] => []
  | c :: t => if c.val = 10 ∨ c.val = 13 then skipNewlines t else c :: t

/-- The end of `decodeQuantum`: the symbols read, of which there are `dlen`,
give `dlen - 1` bytes (the encoding is not strict, so the bits left over are
dropped). -/
def quantumBytes (dbuf : List Nat) : GoString :=
  let val := dbuf.getD 0 0 * 262144 + dbuf.getD 1 0 * 4096 + dbuf.getD 2 0 * 64 + dbuf.getD 3 0
  [byteOf (val / 65536), byteOf (val / 256), byteOf val].take (dbuf.length - 1)

/-- The padding branch of `decodeQuantum`, entered after a first `=`: padding
is not allowed after fewer than two symbols, after two symbols a second `=` is
required, and only newlines may follow. -/
def decodePadding (dbuf : List Nat) (t : GoString) : Option GoString :=
  if dbuf.length < 2 then none
  else
    let after : Option GoString :=
      if dbuf.length = 2 then
        match skipNewlines t with
        | [] => none
        | c :: t1 => if c.val = 61 then some t1 else none
      else some t
    match after with
    | none => none
    | some t2 => if skipNewlines t2 = [] then some (quantumBytes dbuf) else none

/-- The loop of `Encoding.Decode` over `decodeQuantum` (the fast paths of
`Decode` give the same bytes): `dbuf` holds the symbols of the quantum read so
far. `none` is a `CorruptInputError`. -/
def decodeFrom (dbuf : List Nat) : GoString → Option GoString
  | [] => if dbuf.length = 0 then some [] else none
  | c :: t =>
    match decodeURL c with
    | some v =>
      if dbuf.length = 3 then (decodeFrom [] t).map (fun r => quantumBytes (dbuf ++ [v]) ++ r)
      else decodeFrom (dbuf ++ [v]) t
    | none =>
      if c.val = 10 ∨ c.val = 13 then decodeFrom dbuf t
      else if c.val ≠ 61 then none
      else decodePadding dbuf t

/-- Go `base64.URLEncoding.DecodeString`; `none` is the error result. -/
def base64Decode (s : GoString) : Option GoString := decodeFrom [] s

/-- The errors of `ParseConflictViewToken`: that of `base64`, those of
`encoding/json`, and the variable `ErrTokenExpired`. -/
inductive TokenError where
  | CorruptInputError
  | json (err : JsonError)
  | ErrTokenExpired
  deriving DecidableEq, Repr

/-- Go `GenerateConflictViewToken` at the Unix time `now`: the expiry
`data["exp"] = time.Now().Add(24 * time.Hour).Unix()`, `json.Marshal`, and the
base64 text. The encoder `marshal` is that of `encoding/json`. -/
def GenerateConflictViewToken (marshal : GoMap JValue → Except GoString GoString) (now : Int)
    (data : GoMap JValue) : Except GoString GoString :=
  match marshal (GoMap.set data (lit "exp") (JValue.number (now + 86400))) with
  | Except.error err => Except.error err
  | Except.ok jsonData => Except.ok (base64Encode jsonData)

/-- Go `ParseConflictViewToken` at the Unix time `now`. -/
def ParseConflictViewToken (nums : JsonNumbers) (now : Int) (token : GoString) :
    Except TokenError (GoMap JValue) :=
  match base64Decode token with
  | none => Except.error TokenError.CorruptInputError
  | some data =>
    match jsonUnmarshal nums data with
    | Except.error err => Except.error (TokenError.json err)
    | Except.ok result =>
      match GoMap.get? result (lit "exp") with
      | some (JValue.number exp) =>
        if now > exp then Except.error TokenError.ErrTokenExpired else Except.ok result
      | _ => Except.ok result

/-! ## Sample data -/

/-- A quiet NaN of `float64` (bits `0x7FF8000000000000`). -/
def nanBits : Float64 := ⟨0x7FF8000000000000, by decide⟩

/-- Scalar encoders for evaluating the model on data without floating-point,
time or byte-sequence values, where they are never called. -/
def sampleScalars : JsonScalars :=
  { float := fun _ => lit "0", time := fun _ => none, bytes := fun b => b }

/-- The source table `users(id, email)` of the scenario, holding
`(1, "a@x.com")`. -/
def usersSource : Table :=
  { columns := [lit "id", lit "email"], rows := [[Value.int 1, Value.str (lit "a@x.com")]] }

/-- The target table `users(id, email)` of the scenario before the sync,
holding `(1, "b@x.com")`. -/
def usersTarget : Table :=
  { columns := [lit "id", lit "email"], rows := [[Value.int 1, Value.str (lit "b@x.com")]] }

/-- A metadata store without records that accepts writes. -/
def emptyStore : Store := { conflicts := [], logs := [], now := ⟨0, 0⟩, failure := none }

/-- The scenario before the sync: the target holds `usersTarget`, keyed by
`id`, and no conflict is recorded. -/
def usersWorld : World :=
  { target := { table := some usersTarget, primaryKey := [lit "id"], received := [] },
    store := emptyStore, handed := [], rejected := [] }

/-- One run of `syncSingleTable` on the scenario, for a target of the given
dialect: table `users` with primary key `id`, task 1. -/
def scenarioRun (dbType : GoString) : Except GoString Unit × World :=
  syncSingleTable sampleScalars (Except.ok [lit "id"]) (Except.ok usersSource) dbType 1
    (lit "users") usersWorld

/-- An environment in which `ApplyConflictResolution` succeeds. -/
def sampleEnv : ResolveEnv :=
  { taskExists := fun _ => true, unmarshalOk := fun _ => true, connectError := none }

/-- The conflict of the scenario as stored at time 1000 (seconds since the
epoch), still pending. -/
def pendingConflict : DataConflict :=
  { ID := 1, TaskID := 1, TableName := lit "users",
    PrimaryKey := lit "\x7b\"id\":1\x7d",
    SourceData := lit "\x7b\"email\":\"a@x.com\",\"id\":1\x7d",
    TargetData := lit "\x7b\"email\":\"b@x.com\",\"id\":1\x7d",
    ConflictType := lit "update_conflict", Status := lit "pending",
    ResolvedBy := none, Resolution := [], ResolvedAt := none, CreatedAt := ⟨1000, 0⟩ }

/-- A metadata store holding the pending conflict, at time 5000. -/
def conflictStore : Store :=
  { conflicts := [pendingConflict], logs := [], now := ⟨5000, 0⟩, failure := none }

/-- A target whose table `users` has the column `id` only and holds the row
`(1)`, with an empty metadata store. -/
def narrowUsersWorld : World :=
  { target := { table := some { columns := [lit "id"], rows := [[Value.int 1]] },
                primaryKey := [lit "id"], received := [] },
    store := emptyStore, handed := [], rejected := [] }

/-- A target without the table `users`, with an empty metadata store. -/
def noTableWorld : World :=
  { target := { table := none, primaryKey := [lit "id"], received := [] },
    store := emptyStore, handed := [], rejected := [] }

/-- A batch of two normalized rows over the columns `id` and `email`. -/
def twoRowBatch : List Row :=
  [scanRow [lit "id", lit "email"] [Value.int 1, Value.str (lit "a@x.com")],
   scanRow [lit "id", lit "email"] [Value.int 2, Value.str (lit "b@x.com")]]

/-- Positive infinity of `float64` (bits `0x7FF0000000000000`). -/
def infBits : Float64 := ⟨0x7FF0000000000000, by decide⟩

/-- A scanned row whose key column `id` holds a NaN. -/
def nanKeyRow : Row := scanRow [lit "id"] [Value.float nanBits]

/-- A scanned row whose key column `id` holds positive infinity. -/
def infKeyRow : Row := scanRow [lit "id"] [Value.float infBits]

/-- Source rows with one column `id`, 0 to 249: two full batches and a half. -/
def manyRows : List (List Value) := (List.range 250).map (fun i => [Value.int i])

/-- A dialer that reaches the MySQL server on `db1` only. -/
def oneHostDialer : Dialer :=
  { gormOpen := fun _ dsn =>
      if dsn = lit "app:secret@tcp(db1:3306)/shop?charset=utf8mb4&parseTime=True&loc=Local"
      then none else some (lit "dial tcp: connection refused"),
    sqlOpen := fun _ _ => none }

/-- A test request for the MySQL server on `db1`, which can be reached. -/
def goodRequest : ConnectionRequest :=
  { Name := lit "shop", DBType := lit "mysql", Host := lit "db1", Port := lit "3306",
    Username := lit "app", Password := lit "secret", Database := lit "shop",
    Description := [] }

/-- A test request for a MySQL server on `nowhere`, which cannot be reached. -/
def badRequest : ConnectionRequest :=
  { Name := lit "lost", DBType := lit "mysql", Host := lit "nowhere", Port := lit "3306",
    Username := lit "app", Password := lit "wrong", Database := lit "shop",
    Description := [] }

/-- An empty pool. -/
def emptyPool : PoolState := { pool := [], opened := [] }

/-- A descriptor of the Oracle dialect. -/
def oracleConn : DatabaseConnection :=
  { ID := 3, Name := lit "ora", DBType := lit "oracle", Host := lit "db2", Port := lit "1521",
    Username := lit "app", Password := lit "secret", Database := lit "XE",
    Description := [], Status := lit "active" }

/-- Operations that only record what is synced: the state is the list of
events. The source has the tables `orders` and `users`. -/
def traceOps : SyncOps (List GoString) :=
  { connect := fun _ _ => none,
    getTables := fun _ => Except.ok [lit "orders", lit "users"],
    syncSingleTable := fun task s => (Except.ok (), s ++ [lit "table " ++ task.TableName]),
    SyncObjectsByType := fun _ kind s => (Except.ok (), s ++ [lit "objects " ++ kind]),
    logError := fun _ msg s => s ++ [lit "error " ++ msg] }

/-- Operations whose table sync fails as long as nothing has been recorded and
succeeds afterwards. -/
def flakyOps : SyncOps (List GoString) :=
  { traceOps with
    syncSingleTable := fun task s =>
      if s = [] then (Except.error (lit "connection reset"), s ++ [lit "failed " ++ task.TableName])
      else (Except.ok (), s ++ [lit "table " ++ task.TableName]) }

/-- A scheduled whole-database task: its table name is empty. -/
def wholeTask : SyncTask :=
  { ID := 1, Name := lit "nightly", SourceDBID := 1, TargetDBID := 2, TableName := [],
    SyncType := lit "scheduled", CronExpr := lit "0 0 * * * *", Status := lit "stopped",
    LastSyncAt := none }

/-- A scheduled task for the table `users`. -/
def usersTask : SyncTask := { wholeTask with ID := 2, Name := lit "users", TableName := lit "users" }

/-- A scheduler without jobs whose store holds the two tasks. -/
def idleScheduler : Scheduler (List GoString) :=
  { store := { tasks := [wholeTask, usersTask], failure := none }, entries := [], world := [] }

/-- The scheduler after `StartScheduledSync` and then `StopScheduledSync` for
the whole-database task. -/
def stoppedScheduler : Scheduler (List GoString) :=
  (StopScheduledSync (StartScheduledSync (fun _ => none) idleScheduler 1).2 1).2

/-- The scheduler after `StartScheduledSync` for the task of table `users`. -/
def usersScheduler : Scheduler (List GoString) :=
  (StartScheduledSync (fun _ => none) idleScheduler 2).2

/-- Go `strings.ToLower` on ASCII text: the letters `A` to `Z` become `a` to
`z`. -/
def asciiLower (s : GoString) : GoString :=
  s.map (fun b => if 65 ≤ b.val ∧ b.val ≤ 90 then byteOf (b.val + 32) else b)

/-- The text after the last blank of a text. -/
def lastWord (s : GoString) : GoString := (s.reverse.takeWhile (fun b => b.val ≠ 32)).reverse

/-- A source with the views `V_Orders` and `v_users` and the procedure
`refresh`, and a target that accepts every statement and lists a created
object under the lower-cased last word of its definition. -/
def sampleObjectEnv : ObjectEnv :=
  { toLower := asciiLower,
    sourceObjects := fun kind =>
      if kind = lit "view" then
        Except.ok [{ Name := lit "V_Orders", TableName := [], Schema := lit "shop" },
                   { Name := lit "v_users", TableName := [], Schema := lit "shop" }]
      else if kind = lit "procedure" then
        Except.ok [{ Name := lit "refresh", TableName := [], Schema := lit "shop" }]
      else Except.ok [],
    definition := fun kind obj => Except.ok (lit "CREATE " ++ kind ++ lit " " ++ obj.Name),
    targetQueryError := fun _ => none,
    execError := fun _ => none,
    defined := fun d => { Name := asciiLower (lastWord d), TableName := [], Schema := [] } }

/-- A target without objects and an empty log. -/
def emptyObjects : ObjectWorld := { catalog := [], logs := [], visited := [], received := [] }

/-- The operations of `syncDatabase` for a source without tables, the objects
being synced by `syncObjectsByType`. -/
def objectOps (env : ObjectEnv) (sourceType targetType : GoString) : SyncOps ObjectWorld :=
  { connect := fun _ _ => none,
    getTables := fun _ => Except.ok [],
    syncSingleTable := fun _ w => (Except.ok (), w),
    SyncObjectsByType := fun task kind w =>
      syncObjectsByType env sourceType targetType task.ID kind w,
    logError := fun _ _ w => w }

/-- The timestamp `2024-01-01T10:00:00+08:00`. -/
def stampEast : Stamp :=
  { year := 2024, month := 1, day := 1, hour := 10, min := 0, sec := 0, frac := [],
    space := false, zone := ZoneText.east 8 0 }

/-- The timestamp `2024-01-01T02:00:00.500Z`. -/
def stampUtc : Stamp :=
  { year := 2024, month := 1, day := 1, hour := 2, min := 0, sec := 0, frac := [5, 0, 0],
    space := false, zone := ZoneText.utc }

/-- The timestamp `2024-01-01 02:00:00.000000` of a MySQL `datetime(6)`. -/
def stampPlain : Stamp :=
  { year := 2024, month := 1, day := 1, hour := 2, min := 0, sec := 0,
    frac := [0, 0, 0, 0, 0, 0], space := true, zone := ZoneText.absent }

/-- The number that a run of decimal digits writes. -/
def digitsValue (s : GoString) : Nat := s.foldl (fun acc c => acc * 10 + (c.val - 48)) 0

/-- A number literal of JSON read as a fraction: the sign, and the numerator
and denominator of the absolute value that the literal writes. -/
def readDecimal (s : GoString) : Bool × Nat × Nat :=
  let negative := decide (s.head? = some 45)
  let body := if negative then s.drop 1 else s
  let whole := body.takeWhile isDigitByte
  let afterWhole := body.drop whole.length
  let fraction :=
    if afterWhole.head? = some 46 then (afterWhole.drop 1).takeWhile isDigitByte else []
  let afterFraction :=
    if afterWhole.head? = some 46 then afterWhole.drop (1 + fraction.length) else afterWhole
  let power : Int :=
    match afterFraction.drop 1 with
    | [] => 0
    | sign :: ds =>
      if sign.val = 45 then -(digitsValue ds : Int)
      else if sign.val = 43 then (digitsValue ds : Int)
      else (digitsValue (sign :: ds) : Int)
  let exponent : Int := power - fraction.length
  if 0 ≤ exponent then (negative, digitsValue (whole ++ fraction) * 10 ^ exponent.toNat, 1)
  else (negative, digitsValue (whole ++ fraction), 10 ^ (-exponent).toNat)

/-- The whole number nearest to `p / q`, the even one of two that are equally
near. -/
def roundHalfEven (p q : Nat) : Nat :=
  if 2 * (p % q) < q then p / q
  else if q < 2 * (p % q) then p / q + 1
  else if p / q % 2 = 0 then p / q
  else p / q + 1

/-- The fraction `p / q` divided by the power `2 ^ u`. -/
def scaleBy (p q : Nat) (u : Int) : Nat × Nat :=
  if 0 ≤ u then (p, q * 2 ^ u.toNat) else (p * 2 ^ (-u).toNat, q)

/-- The number of binary digits of `n`. -/
def bitLength (n : Nat) : Nat := if n = 0 then 0 else (Nat.toDigits 2 n).length

/-- The `float64` nearest to the positive fraction `p / q`, as a pair
`(m, u)` that stands for `m * 2 ^ u`: `u` is the exponent of the last binary
digit of a `float64` of that size, not below that of the subnormal numbers, and
`m` has at most 53 binary digits, or is `2 ^ 53`. -/
def nearestFloat64 (p q : Nat) : Nat × Int :=
  let e0 : Int := (bitLength p : Int) - (bitLength q : Int)
  let e : Int := if (scaleBy p q e0).1 < (scaleBy p q e0).2 then e0 - 1 else e0
  let u : Int := max (e - 52) (-1074)
  (roundHalfEven (scaleBy p q u).1 (scaleBy p q u).2, u)

/-- The conversion of a number literal on amd64. `strconv.ParseFloat` gives the
`float64` nearest to the number written, and a range error when that is beyond
the largest finite `float64`. The conversion `int64(x)` drops the fraction, and
gives the smallest `int64` for a number outside the range of `int64`. -/
def float64Numbers : JsonNumbers :=
  { toInt64 := fun text =>
      let d := readDecimal text
      if d.2.1 = 0 then some 0
      else
        let x := nearestFloat64 d.2.1 d.2.2
        if 0 ≤ x.2 ∧ 2 ^ 1024 ≤ x.1 * 2 ^ x.2.toNat then none
        else
          let whole : Nat := if 0 ≤ x.2 then x.1 * 2 ^ x.2.toNat else x.1 / 2 ^ (-x.2).toNat
          if d.1 then (if whole ≤ 2 ^ 63 then some (-(whole : Int)) else some (-(2 ^ 63 : Int)))
          else (if whole < 2 ^ 63 then some (whole : Int) else some (-(2 ^ 63 : Int))) }

/-- The JSON text of a decoded value, as `encoding/json` writes it. -/
def JValue.text : JValue → GoString
  | JValue.null => lit "null"
  | JValue.bool b => if b then lit "true" else lit "false"
  | JValue.number n => itoa n
  | JValue.str s => jsonString s
  | JValue.composite t => t

/-- An encoder for the examples: `json.Marshal` of a map of strings and whole
numbers, an object whose members are sorted by key. -/
def sampleMarshal (m : GoMap JValue) : Except GoString GoString :=
  let keys := (m.map Prod.fst).insertionSort (fun a b => bytesLe a b = true)
  Except.ok ([123] ++ [44].intercalate
    (keys.map (fun k => jsonString k ++ [58] ++ ((GoMap.get? m k).getD JValue.null).text))
    ++ [125])

/-- The attributes of a conflict token, as `GenerateConflictToken` collects
them, for conflict 1. -/
def conflictToken : GoMap JValue :=
  [(lit "conflict_id", JValue.number 1), (lit "user_id", JValue.number 7),
   (lit "username", JValue.str (lit "ann")), (lit "type", JValue.str (lit "conflict_view"))]

theorem Float64.eq_comm (a b : Float64) : Float64.eq a b = Float64.eq b a := by
  unfold Float64.eq
  by_cases h : a = b
  · subst h; rfl
  · have h' : ¬ b = a := fun e => h e.symm
    simp only [h, h', decide_False, Bool.false_or]
    cases a.isNaN <;> cases b.isNaN <;> cases a.isZero <;> cases b.isZero <;> rfl

theorem Float64.eq_self (a : Float64) : Float64.eq a a = !a.isNaN := by
  unfold Float64.eq
  cases a.isNaN <;> simp

theorem Value.goEq_comm (a b : Value) : Value.goEq a b = Value.goEq b a := by
  cases a <;> cases b <;> simp only [Value.goEq, Float64.eq_comm, eq_comm]

/-- The comparison of two non-nil values, by what `parseTimeValue` makes of
them. -/
theorem valuesEqual_of_ne_null (a b : Value) (ha : a ≠ Value.null) (hb : b ≠ Value.null) :
    valuesEqual a b =
      match parseTimeValue a, parseTimeValue b with
      | some t1, some t2 => decide (t1.unix = t2.unix)
      | some _, none => false
      | none, some _ => false
      | none, none => Value.goEq a b := by
  unfold valuesEqual
  rw [if_neg (fun h => ha h.1), if_neg (fun h => h.elim ha hb)]

theorem parseTimeValue_null : parseTimeValue Value.null = none := rfl

/-- C6, as stated, fails: `valuesEqual` is not reflexive at the floating-point
value NaN, because the final comparison is Go's `==`, under which NaN differs
from itself. -/
theorem valuesEqual_nan_not_refl :
    valuesEqual (Value.float nanBits) (Value.float nanBits) = false := by
  decide

/-- C6, amended: for every normalized column value `v` (nil, integer,
floating-point number, boolean, string or time value, that is, any value that
is not a byte sequence), `valuesEqual(v, v)` is true exactly when `v` is not a
floating-point NaN. -/
theorem valuesEqual_refl_iff (v : Value) (hv : v.isBytes = false) :
    valuesEqual v v = true ↔ ∀ f, v = Value.float f → f.isNaN = false := by
  cases v with
  | null => simp [valuesEqual]
  | int i => simp [valuesEqual, parseTimeValue, Value.goEq]
  | float f =>
    rw [valuesEqual_of_ne_null _ _ (by simp) (by simp)]
    simp [parseTimeValue, Value.goEq, Float64.eq_self]
  | bool b => simp [valuesEqual, parseTimeValue, Value.goEq]
  | str s =>
    rw [valuesEqual_of_ne_null _ _ (by simp) (by simp)]
    cases h : parseTimeValue (Value.str s) <;> simp [Value.goEq]
  | bytes b => simp [Value.isBytes] at hv
  | time t => simp [valuesEqual, parseTimeValue]

theorem valuesEqual_refl_iff_witness :
    valuesEqual (Value.str (lit "a@x.com")) (Value.str (lit "a@x.com")) = true ↔
      ∀ f, Value.str (lit "a@x.com") = Value.float f → f.isNaN = false :=
  valuesEqual_refl_iff (Value.str (lit "a@x.com")) rfl

/-- C7: `valuesEqual` is symmetric: `valuesEqual(a, b) = valuesEqual(b, a)`
for all values `a` and `b`. -/
theorem valuesEqual_symm (a b : Value) : valuesEqual a b = valuesEqual b a := by
  by_cases ha : a = Value.null
  · by_cases hb : b = Value.null
    · rw [ha, hb]
    · simp [valuesEqual, ha, hb]
  · by_cases hb : b = Value.null
    · simp [valuesEqual, ha, hb]
    · rw [valuesEqual_of_ne_null a b ha hb, valuesEqual_of_ne_null b a hb ha]
      cases parseTimeValue a <;> cases parseTimeValue b <;>
        simp only [Value.goEq_comm a b, eq_comm]

/-- A string that `time.Parse` accepts under one of the ten layouts of
`timeFormats` is recognised as a timestamp by `parseTimeValue`. -/
theorem parseTimeValue_of_known_format (s : GoString) (format : List Chunk) (t : Time)
    (hf : format ∈ timeFormats) (h : timeParse format s = some t) :
    (parseTimeValue (Value.str s)).isSome = true := by
  have hsome : (timeFormats.findSome? (fun format => timeParse format s)).isSome = true :=
    List.findSome?_isSome_iff.2 ⟨format, hf, by simp [h]⟩
  cases hfs : timeFormats.findSome? (fun format => timeParse format s) with
  | none => simp [hfs] at hsome
  | some t' => simp [parseTimeValue, hfs]

/-- A string that `time.Parse` accepts under one of the three offset layouts
is recognised as a timestamp by `parseTimeValue` when it contains `+` or ends
in `Z`, the condition under which those layouts are tried. -/
theorem parseTimeValue_of_offset_format (s : GoString) (format : List Chunk) (t : Time)
    (hf : format ∈ offsetFormats) (h : timeParse format s = some t)
    (hgate : containsStr s (lit "+") = true ∨ hasSuffix s (lit "Z") = true) :
    (parseTimeValue (Value.str s)).isSome = true := by
  have hsome : (offsetFormats.findSome? (fun format => timeParse format s)).isSome = true :=
    List.findSome?_isSome_iff.2 ⟨format, hf, by simp [h]⟩
  cases hfs : timeFormats.findSome? (fun format => timeParse format s) with
  | none => simpa [parseTimeValue, hfs, hgate] using hsome
  | some t' => simp [parseTimeValue, hfs]

/-- C9: for non-nil values of which exactly one is recognised as a timestamp
by `parseTimeValue`, `valuesEqual` is false; nil equals nil and differs from
every non-nil value, on either side. -/
theorem valuesEqual_timestamp_vs_other :
    (∀ a b : Value, a ≠ Value.null → b ≠ Value.null →
        (parseTimeValue a).isSome ≠ (parseTimeValue b).isSome → valuesEqual a b = false) ∧
      valuesEqual Value.null Value.null = true ∧
      (∀ v : Value, v ≠ Value.null →
        valuesEqual Value.null v = false ∧ valuesEqual v Value.null = false) := by
  refine ⟨?_, rfl, ?_⟩
  · intro a b ha hb hne
    rw [valuesEqual_of_ne_null a b ha hb]
    cases h1 : parseTimeValue a <;> cases h2 : parseTimeValue b <;> simp [h1, h2] at hne ⊢
  · intro v hv
    simp [valuesEqual, hv]

theorem valuesEqual_timestamp_vs_other_witness :
    valuesEqual (Value.str (lit "2024-01-01 10:00:00")) (Value.str (lit "2024")) = false ∧
      valuesEqual Value.null (Value.int 0) = false :=
  ⟨valuesEqual_timestamp_vs_other.1 (Value.str (lit "2024-01-01 10:00:00"))
      (Value.str (lit "2024")) (by decide) (by decide) (by decide),
    (valuesEqual_timestamp_vs_other.2.2 (Value.int 0) (by decide)).1⟩

/-! ## Maps -/

theorem GoMap.get?_set {β : Type} (m : GoMap β) (k k' : GoString) (v : β) :
    GoMap.get? (GoMap.set m k v) k' = if k = k' then some v else GoMap.get? m k' := by
  induction m with
  | nil => simp [GoMap.set, GoMap.get?]
  | cons p rest ih =>
    obtain ⟨k1, v1⟩ := p
    by_cases h : k1 = k
    · subst h
      by_cases h' : k1 = k' <;> simp [GoMap.set, GoMap.get?, h']
    · by_cases h' : k1 = k'
      · subst h'
        have : ¬ k = k1 := fun e => h e.symm
        simp [GoMap.set, GoMap.get?, h, this]
      · simp [GoMap.set, GoMap.get?, h, h', ih]

theorem GoMap.keys_set {β : Type} (m : GoMap β) (k : GoString) (v : β) :
    (GoMap.set m k v).map Prod.fst =
      if k ∈ m.map Prod.fst then m.map Prod.fst else m.map Prod.fst ++ [k] := by
  induction m with
  | nil => simp [GoMap.set]
  | cons p rest ih =>
    obtain ⟨k1, v1⟩ := p
    by_cases h : k1 = k
    · subst h; simp [GoMap.set]
    · have h' : ¬ k = k1 := fun e => h e.symm
      simp only [GoMap.set, h, if_false, List.map_cons, ih, List.mem_cons, h', false_or]
      split <;> simp

theorem GoMap.mem_keys_set {β : Type} (m : GoMap β) (k k' : GoString) (v : β) :
    k' ∈ (GoMap.set m k v).map Prod.fst ↔ k' = k ∨ k' ∈ m.map Prod.fst := by
  rw [GoMap.keys_set]
  split
  · constructor
    · exact Or.inr
    · rintro (h | h)
      · subst h; assumption
      · exact h
  · simp [or_comm]

theorem GoMap.nodup_keys_set {β : Type} (m : GoMap β) (k : GoString) (v : β)
    (h : (m.map Prod.fst).Nodup) : ((GoMap.set m k v).map Prod.fst).Nodup := by
  rw [GoMap.keys_set]
  split
  · exact h
  · rename_i hk
    exact List.Nodup.append h (List.nodup_singleton k) (by simpa using hk)

theorem GoMap.get?_eq_none_iff {β : Type} (m : GoMap β) (k : GoString) :
    GoMap.get? m k = none ↔ k ∉ m.map Prod.fst := by
  induction m with
  | nil => simp [GoMap.get?]
  | cons p rest ih =>
    obtain ⟨k1, v1⟩ := p
    by_cases h : k1 = k
    · simp [GoMap.get?, h]
    · have h' : ¬ k = k1 := fun e => h e.symm
      simp [GoMap.get?, h, h', ih]

theorem GoMap.get?_isSome_iff {β : Type} (m : GoMap β) (k : GoString) :
    (GoMap.get? m k).isSome = true ↔ k ∈ m.map Prod.fst := by
  rw [← not_iff_not, ← GoMap.get?_eq_none_iff]
  cases GoMap.get? m k <;> simp

/-! ## Key order and JSON objects -/

theorem bytesLe_total (a b : GoString) : bytesLe a b = true ∨ bytesLe b a = true := by
  induction a generalizing b with
  | nil => simp [bytesLe]
  | cons x s ih =>
    cases b with
    | nil => simp [bytesLe]
    | cons y t =>
      simp only [bytesLe]
      by_cases h1 : x.val < y.val
      · simp [h1]
      · by_cases h2 : y.val < x.val
        · simp [h2]
        · simpa [h1, h2] using ih t

theorem bytesLe_antisymm (a b : GoString) (h1 : bytesLe a b = true) (h2 : bytesLe b a = true) :
    a = b := by
  induction a generalizing b with
  | nil => cases b <;> simp_all [bytesLe]
  | cons x s ih =>
    cases b with
    | nil => simp [bytesLe] at h1
    | cons y t =>
      simp only [bytesLe] at h1 h2
      by_cases hxy : x.val < y.val
      · have : ¬ y.val < x.val := by omega
        simp [hxy, this] at h2
      · by_cases hyx : y.val < x.val
        · simp [hxy, hyx] at h1
        · simp only [hxy, hyx, if_false] at h1 h2
          have hv : x = y := Fin.ext (by omega)
          rw [hv, ih t h1 h2]

theorem bytesLe_trans (a b c : GoString) (h1 : bytesLe a b = true) (h2 : bytesLe b c = true) :
    bytesLe a c = true := by
  induction a generalizing b c with
  | nil => simp [bytesLe]
  | cons x s ih =>
    cases b with
    | nil => simp [bytesLe] at h1
    | cons y t =>
      cases c with
      | nil => simp [bytesLe] at h2
      | cons z u =>
        simp only [bytesLe] at h1 h2 ⊢
        by_cases hxy : x.val < y.val
        · by_cases hyz : y.val < z.val
          · have : x.val < z.val := by omega
            simp [this]
          · by_cases hzy : z.val < y.val
            · simp [hyz, hzy] at h2
            · have : x.val < z.val := by omega
              simp [this]
        · by_cases hyx : y.val < x.val
          · simp [hxy, hyx] at h1
          · simp only [hxy, hyx, if_false] at h1
            by_cases hyz : y.val < z.val
            · have : x.val < z.val := by omega
              simp [this]
            · by_cases hzy : z.val < y.val
              · simp [hyz, hzy] at h2
              · simp only [hyz, hzy, if_false] at h2
                have a1 : ¬ x.val < z.val := by omega
                have a2 : ¬ z.val < x.val := by omega
                simp only [a1, a2, if_false]
                exact ih t u h1 h2

instance bytesLe_isTotal : IsTotal GoString (fun a b => bytesLe a b = true) :=
  ⟨bytesLe_total⟩

instance bytesLe_isAntisymm : IsAntisymm GoString (fun a b => bytesLe a b = true) :=
  ⟨bytesLe_antisymm⟩

instance bytesLe_isTrans : IsTrans GoString (fun a b => bytesLe a b = true) :=
  ⟨bytesLe_trans⟩

/-- Sorting by key gives the same list for two lists with the same entries. -/
theorem sortKeys_perm (l1 l2 : List GoString) (h : l1.Perm l2) :
    l1.insertionSort (fun a b => bytesLe a b = true)
      = l2.insertionSort (fun a b => bytesLe a b = true) :=
  List.eq_of_perm_of_sorted
    (((List.perm_insertionSort _ l1).trans h).trans (List.perm_insertionSort _ l2).symm)
    (List.sorted_insertionSort _ l1) (List.sorted_insertionSort _ l2)

theorem jsonMembers_congr (js : JsonScalars) (m m' : Row)
    (h : ∀ k, GoMap.get? m k = GoMap.get? m' k) (ks : List GoString) :
    jsonMembers js m ks = jsonMembers js m' ks := by
  induction ks with
  | nil => rfl
  | cons k ks ih => simp only [jsonMembers, h k, ih]

/-- The JSON text of a map depends on the set of its keys and on the value at
each key only, not on the order of its entries. -/
theorem jsonText_congr (js : JsonScalars) (m m' : Row)
    (hk : (m.map Prod.fst).Perm (m'.map Prod.fst))
    (h : ∀ k, GoMap.get? m k = GoMap.get? m' k) : jsonText js m = jsonText js m' := by
  unfold jsonText jsonMarshal
  simp only [sortKeys_perm _ _ hk, jsonMembers_congr js m m' h]

/-! ## Canonical primary-key value -/

theorem pkMap_get? (row : Row) (pks : List GoString) (acc : Row) (k : GoString) :
    GoMap.get? (pks.foldl (pkMapStep row) acc) k =
      if k ∈ pks ∧ (GoMap.get? row k).isSome = true then GoMap.get? row k
      else GoMap.get? acc k := by
  induction pks generalizing acc with
  | nil => simp
  | cons p ps ih =>
    rw [List.foldl_cons, ih]
    by_cases hk : k ∈ ps ∧ (GoMap.get? row k).isSome = true
    · have : k ∈ p :: ps ∧ (GoMap.get? row k).isSome = true := ⟨List.mem_cons_of_mem _ hk.1, hk.2⟩
      rw [if_pos hk, if_pos this]
    · rw [if_neg hk]
      unfold pkMapStep
      by_cases hp : p = k
      · subst hp
        cases hr : GoMap.get? row p with
        | none => simp [hr]
        | some val => simp [hr, GoMap.get?_set]
      · have hp' : ¬ k = p := fun e => hp e.symm
        have hiff : (k ∈ p :: ps ∧ (GoMap.get? row k).isSome = true) ↔
            (k ∈ ps ∧ (GoMap.get? row k).isSome = true) := by simp [hp']
        rw [if_neg (fun h => hk (hiff.1 h))]
        cases hr : GoMap.get? row p with
        | none => rfl
        | some val => simp [GoMap.get?_set, hp]

theorem pkMap_nodup (row : Row) (pks : List GoString) (acc : Row)
    (h : (acc.map Prod.fst).Nodup) :
    ((pks.foldl (pkMapStep row) acc).map Prod.fst).Nodup := by
  induction pks generalizing acc with
  | nil => exact h
  | cons p ps ih =>
    rw [List.foldl_cons]
    apply ih
    unfold pkMapStep
    cases GoMap.get? row p with
    | none => exact h
    | some val => exact GoMap.nodup_keys_set acc p val h

theorem pkMap_mem_keys (row : Row) (pks : List GoString) (k : GoString) :
    k ∈ (pks.foldl (pkMapStep row) []).map Prod.fst ↔
      k ∈ pks ∧ (GoMap.get? row k).isSome = true := by
  rw [← GoMap.get?_isSome_iff, pkMap_get?]
  by_cases h : k ∈ pks ∧ (GoMap.get? row k).isSome = true
  · simp [h]
  · rw [if_neg h]
    simp [GoMap.get?, h]

/-- The canonical key depends on the row through the values of its columns
only, and on the key columns as a set. -/
theorem buildPrimaryKeyValue_congr (js : JsonScalars) (row row' : Row)
    (pks pks' : List GoString) (hrow : ∀ k, GoMap.get? row k = GoMap.get? row' k)
    (hpks : ∀ k, k ∈ pks ↔ k ∈ pks') :
    buildPrimaryKeyValue js row pks = buildPrimaryKeyValue js row' pks' := by
  unfold buildPrimaryKeyValue
  apply jsonText_congr
  · apply (List.perm_ext_iff_of_nodup (pkMap_nodup row pks [] List.nodup_nil)
      (pkMap_nodup row' pks' [] List.nodup_nil)).2
    intro k
    rw [pkMap_mem_keys, pkMap_mem_keys, hrow k, hpks k]
  · intro k
    rw [pkMap_get?, pkMap_get?, hrow k]
    simp only [hpks k]

/-! ## Scanning a row -/

theorem scanFold_get? (l : List (GoString × Value)) (acc : Row) (k : GoString) (v : Value)
    (hnd : (l.map Prod.fst).Nodup) :
    GoMap.get? (l.foldl (fun rowData cv => GoMap.set rowData cv.1 (normalizeValue cv.2)) acc) k
        = some v ↔
      (∃ x, (k, x) ∈ l ∧ normalizeValue x = v) ∨
        (k ∉ l.map Prod.fst ∧ GoMap.get? acc k = some v) := by
  induction l generalizing acc with
  | nil => simp
  | cons p l ih =>
    obtain ⟨k1, x1⟩ := p
    have hnd' : k1 ∉ l.map Prod.fst ∧ (l.map Prod.fst).Nodup := by
      simpa using hnd
    rw [List.foldl_cons, ih _ hnd'.2, GoMap.get?_set]
    by_cases hk : k1 = k
    · subst hk
      have hno : ∀ x, (k1, x) ∉ l := fun x hx =>
        hnd'.1 (List.mem_map.2 ⟨(k1, x), hx, rfl⟩)
      simp [hno, hnd'.1]
    · have hk' : ¬ k = k1 := fun e => hk e.symm
      simp [hk, hk']

theorem zip_map_fst_snd {α β : Type} (l : List (α × β)) :
    (l.map Prod.fst).zip (l.map Prod.snd) = l := by
  induction l with
  | nil => rfl
  | cons p l ih => simp [ih]

/-- The scanned row holds, at each column, the normalized value delivered for
that column. -/
theorem scanRow_get? (cvs : List (GoString × Value)) (k : GoString) (v : Value)
    (hnd : (cvs.map Prod.fst).Nodup) :
    GoMap.get? (scanRow (cvs.map Prod.fst) (cvs.map Prod.snd)) k = some v ↔
      ∃ x, (k, x) ∈ cvs ∧ normalizeValue x = v := by
  unfold scanRow
  rw [zip_map_fst_snd, scanFold_get? cvs [] k v hnd]
  simp [GoMap.get?]

/-- Rows scanned from the same columns delivered in two orders agree at every
column. -/
theorem scanRow_perm (cvs cvs' : List (GoString × Value)) (hnd : (cvs.map Prod.fst).Nodup)
    (h : cvs'.Perm cvs) (k : GoString) :
    GoMap.get? (scanRow (cvs'.map Prod.fst) (cvs'.map Prod.snd)) k
      = GoMap.get? (scanRow (cvs.map Prod.fst) (cvs.map Prod.snd)) k := by
  have hnd' : (cvs'.map Prod.fst).Nodup := ((h.map Prod.fst).nodup_iff).2 hnd
  apply Option.ext
  intro v
  rw [Option.mem_def, Option.mem_def, scanRow_get? cvs' k v hnd', scanRow_get? cvs k v hnd]
  constructor
  · rintro ⟨x, hx, e⟩
    exact ⟨x, h.mem_iff.1 hx, e⟩
  · rintro ⟨x, hx, e⟩
    exact ⟨x, h.mem_iff.2 hx, e⟩

/-- C10: `buildPrimaryKeyValue` does not depend on ordering: for a row of a
table (distinct column names), the key string is the same for every
permutation of the primary-key column list and for every order in which the
driver delivers the columns of the row. -/
theorem buildPrimaryKeyValue_order_independent (js : JsonScalars)
    (cvs cvs' : List (GoString × Value)) (pks pks' : List GoString)
    (hnd : (cvs.map Prod.fst).Nodup) (hrow : cvs'.Perm cvs) (hpks : pks'.Perm pks) :
    buildPrimaryKeyValue js (scanRow (cvs'.map Prod.fst) (cvs'.map Prod.snd)) pks'
      = buildPrimaryKeyValue js (scanRow (cvs.map Prod.fst) (cvs.map Prod.snd)) pks :=
  buildPrimaryKeyValue_congr js _ _ pks' pks (scanRow_perm cvs cvs' hnd hrow)
    (fun _ => hpks.mem_iff)

theorem buildPrimaryKeyValue_order_independent_witness :
    buildPrimaryKeyValue sampleScalars
        (scanRow [lit "email", lit "id", lit "org"]
          [Value.str (lit "a@x.com"), Value.int 1, Value.int 7]) [lit "org", lit "id"]
      = buildPrimaryKeyValue sampleScalars
        (scanRow [lit "id", lit "org", lit "email"]
          [Value.int 1, Value.int 7, Value.str (lit "a@x.com")]) [lit "id", lit "org"] :=
  buildPrimaryKeyValue_order_independent sampleScalars
    [(lit "id", Value.int 1), (lit "org", Value.int 7), (lit "email", Value.str (lit "a@x.com"))]
    [(lit "email", Value.str (lit "a@x.com")), (lit "id", Value.int 1), (lit "org", Value.int 7)]
    [lit "id", lit "org"] [lit "org", lit "id"] (by decide) (by decide) (by decide)

/-! ## Conflict detection -/

theorem GoMap.get?_delete_ne {β : Type} (m : GoMap β) (k k' : GoString) (h : k ≠ k') :
    GoMap.get? (GoMap.delete m k) k' = GoMap.get? m k' := by
  induction m with
  | nil => rfl
  | cons p rest ih =>
    obtain ⟨k1, v1⟩ := p
    by_cases h1 : k1 = k
    · subst h1
      simp [GoMap.delete, GoMap.get?, h]
    · by_cases h2 : k1 = k'
      · subst h2
        simp [GoMap.delete, GoMap.get?, h1]
      · simp [GoMap.delete, GoMap.get?, h1, h2, ih]

theorem setFold_get? {α β : Type} (f : α → GoString) (g : α → β) (l : List α) (acc : GoMap β)
    (k : GoString) (v : β) (hnd : (l.map f).Nodup) :
    GoMap.get? (l.foldl (fun m x => GoMap.set m (f x) (g x)) acc) k = some v ↔
      (∃ x, x ∈ l ∧ f x = k ∧ g x = v) ∨ (k ∉ l.map f ∧ GoMap.get? acc k = some v) := by
  induction l generalizing acc with
  | nil => simp
  | cons a l ih =>
    have hnd' : f a ∉ l.map f ∧ (l.map f).Nodup := by simpa using hnd
    rw [List.foldl_cons, ih _ hnd'.2, GoMap.get?_set]
    by_cases hk : f a = k
    · subst hk
      have hno : ∀ x, x ∈ l → ¬ f x = f a := fun x hx e =>
        hnd'.1 (List.mem_map.2 ⟨x, hx, e⟩)
      constructor
      · rintro (⟨x, hx, e, _⟩ | ⟨_, h2⟩)
        · exact absurd e (hno x hx)
        · exact Or.inl ⟨a, List.mem_cons_self _ _, rfl, by simpa using h2⟩
      · rintro (⟨x, hx, e, hg⟩ | ⟨h1, _⟩)
        · rcases List.mem_cons.1 hx with rfl | hx'
          · exact Or.inr ⟨hnd'.1, by simp [hg]⟩
          · exact absurd e (hno x hx')
        · exact absurd (List.mem_cons_self (f a) (l.map f)) h1
    · have hk' : ¬ k = f a := fun e => hk e.symm
      simp [hk, hk']

/-- The source map holds, under each canonical key, the scanned source row
with that key (keys being distinct among the source rows). -/
theorem loadSourceMap_get? (js : JsonScalars) (src : Table) (pks : List GoString)
    (k : GoString) (s : Row)
    (hnd : (src.scanned.map (fun r => buildPrimaryKeyValue js r pks)).Nodup) :
    GoMap.get? (loadSourceMap js src pks) k = some s ↔
      s ∈ src.scanned ∧ buildPrimaryKeyValue js s pks = k := by
  have hnd' : (src.rows.map
      (fun values => buildPrimaryKeyValue js (scanRow src.columns values) pks)).Nodup := by
    simpa [Table.scanned, List.map_map, Function.comp_def] using hnd
  unfold loadSourceMap
  rw [setFold_get? (fun values => buildPrimaryKeyValue js (scanRow src.columns values) pks)
    (fun values => scanRow src.columns values) src.rows [] k s hnd']
  simp only [GoMap.get?, Table.scanned, List.mem_map]
  constructor
  · rintro (⟨x, hx, e1, e2⟩ | ⟨_, h⟩)
    · exact ⟨⟨x, hx, e2⟩, by rw [← e2]; exact e1⟩
    · exact absurd h (by simp)
  · rintro ⟨⟨x, hx, e2⟩, e1⟩
    exact Or.inl ⟨x, hx, by rw [e2]; exact e1, e2⟩

theorem mismatch_delete (js : JsonScalars) (pks : List GoString) (m : GoMap Row)
    (k : GoString) (t : Row) (h : k ≠ buildPrimaryKeyValue js t pks) :
    mismatch js pks (GoMap.delete m k) t = mismatch js pks m t := by
  unfold mismatch
  rw [GoMap.get?_delete_ne m k _ h]

theorem createConflict_ok (js : JsonScalars) (st : Store) (taskID : Nat)
    (tableName k : GoString) (s t : Row) (ct : GoString) (h : st.failure = none) :
    createConflict js st taskID tableName k s t ct =
      (Except.ok (),
        { st with conflicts := st.conflicts ++
            [newConflict js taskID tableName k s t ct (st.conflicts.length + 1) st.now] }) := by
  unfold createConflict
  rw [h]

/-- The second loop of `checkConflicts` on a store that accepts writes: one
record per target row whose key is in the source map and whose content
differs, in the order of the target rows; logs are left alone. -/
theorem checkTargetRows_conflicts (js : JsonScalars) (taskID : Nat) (tableName : GoString)
    (pks cols : List GoString) (vs : List (List Value)) (m : GoMap Row) (st : Store)
    (hst : st.failure = none)
    (hnd : (vs.map (fun values => buildPrimaryKeyValue js (scanRow cols values) pks)).Nodup) :
    (vs.foldl (checkTargetRow js taskID tableName pks cols) (m, st)).2 =
      { st with
        conflicts := st.conflicts ++
          records js taskID tableName st.now st.conflicts.length
            ((vs.map (scanRow cols)).filterMap (mismatch js pks m)) } := by
  induction vs generalizing m st with
  | nil => simp [records]
  | cons v vs ih =>
    have hnd' : buildPrimaryKeyValue js (scanRow cols v) pks ∉
          vs.map (fun values => buildPrimaryKeyValue js (scanRow cols values) pks) ∧
        (vs.map (fun values => buildPrimaryKeyValue js (scanRow cols values) pks)).Nodup := by
      simpa using hnd
    have hcongr : ∀ (m' : GoMap Row),
        (∀ t, buildPrimaryKeyValue js (scanRow cols v) pks ≠ buildPrimaryKeyValue js t pks →
          mismatch js pks m' t = mismatch js pks m t) →
        (vs.map (scanRow cols)).filterMap (mismatch js pks m')
          = (vs.map (scanRow cols)).filterMap (mismatch js pks m) := by
      intro m' hm'
      apply List.filterMap_congr
      intro t ht
      obtain ⟨values, hv, rfl⟩ := List.mem_map.1 ht
      apply hm'
      intro e
      exact hnd'.1 (List.mem_map.2 ⟨values, hv, e.symm⟩)
    rw [List.foldl_cons, List.map_cons, List.filterMap_cons]
    cases hget : GoMap.get? m (buildPrimaryKeyValue js (scanRow cols v) pks) with
    | none =>
      have h1 : checkTargetRow js taskID tableName pks cols (m, st) v = (m, st) := by
        simp [checkTargetRow, hget]
      have h2 : mismatch js pks m (scanRow cols v) = none := by simp [mismatch, hget]
      rw [h1, h2, ih m st hst hnd'.2]
    | some s =>
      by_cases hc : compareRows s (scanRow cols v) = true
      · have h1 : checkTargetRow js taskID tableName pks cols (m, st) v
            = (GoMap.delete m (buildPrimaryKeyValue js (scanRow cols v) pks), st) := by
          simp [checkTargetRow, hget, hc]
        have h2 : mismatch js pks m (scanRow cols v) = none := by simp [mismatch, hget, hc]
        rw [h1, h2, ih _ st hst hnd'.2, hcongr _ (fun t ht => mismatch_delete js pks m _ t ht)]
      · have h1 : checkTargetRow js taskID tableName pks cols (m, st) v
            = (GoMap.delete m (buildPrimaryKeyValue js (scanRow cols v) pks),
                { st with
                  conflicts := st.conflicts ++
                    [newConflict js taskID tableName
                      (buildPrimaryKeyValue js (scanRow cols v) pks)
                      s (scanRow cols v) (lit "update_conflict") (st.conflicts.length + 1)
                      st.now] }) := by
          simp [checkTargetRow, hget, hc, createConflict_ok js st _ _ _ _ _ _ hst]
        have h2 : mismatch js pks m (scanRow cols v)
            = some (buildPrimaryKeyValue js (scanRow cols v) pks, s, scanRow cols v) := by
          simp [mismatch, hget, hc]
        rw [h1, h2, ih _ _ (by exact hst) hnd'.2,
          hcongr _ (fun t ht => mismatch_delete js pks m _ t ht)]
        simp [records]

theorem records_keys (js : JsonScalars) (taskID : Nat) (tableName : GoString) (now : Time)
    (base : Nat) (ms : List (GoString × Row × Row)) :
    (records js taskID tableName now base ms).map (fun c => c.PrimaryKey)
      = ms.map (fun x => x.1) := by
  induction ms generalizing base with
  | nil => rfl
  | cons x ms ih => simp [records, newConflict, ih]

theorem mem_records (js : JsonScalars) (taskID : Nat) (tableName : GoString) (now : Time)
    (base : Nat) (ms : List (GoString × Row × Row)) (c : DataConflict)
    (h : c ∈ records js taskID tableName now base ms) :
    ∃ x, x ∈ ms ∧ ∃ id, c = newConflict js taskID tableName x.1 x.2.1 x.2.2
      (lit "update_conflict") id now := by
  induction ms generalizing base with
  | nil => simp [records] at h
  | cons x ms ih =>
    simp only [records, List.mem_cons] at h
    rcases h with h | h
    · exact ⟨x, List.mem_cons_self _ _, _, h⟩
    · obtain ⟨y, hy, id, e⟩ := ih _ h
      exact ⟨y, List.mem_cons_of_mem _ hy, id, e⟩

theorem mismatch_eq_some (js : JsonScalars) (pks : List GoString) (m : GoMap Row) (t : Row)
    (x : GoString × Row × Row) :
    mismatch js pks m t = some x ↔
      x.1 = buildPrimaryKeyValue js t pks ∧ x.2.2 = t ∧
        GoMap.get? m (buildPrimaryKeyValue js t pks) = some x.2.1 ∧
        compareRows x.2.1 t = false := by
  obtain ⟨k, s, t'⟩ := x
  unfold mismatch
  cases hget : GoMap.get? m (buildPrimaryKeyValue js t pks) with
  | none => simp
  | some s' =>
    by_cases hc : compareRows s' t = true
    · simp only [hc, if_true, Option.some.injEq]
      constructor
      · intro h; cases h
      · rintro ⟨_, _, e, h⟩
        rw [← e, hc] at h
        cases h
    · have hc' : compareRows s' t = false := by simpa using hc
      simp only [hc, if_false, Option.some.injEq, Prod.mk.injEq]
      constructor
      · intro h
        cases h
        exact ⟨rfl, rfl, rfl, hc'⟩
      · intro h
        obtain ⟨e1, e2, e3, _⟩ := h
        rw [e1, e2, e3]
        simp

theorem mismatch_keys_nodup (js : JsonScalars) (pks : List GoString) (m : GoMap Row)
    (ts : List Row) (h : (ts.map (fun r => buildPrimaryKeyValue js r pks)).Nodup) :
    ((ts.filterMap (mismatch js pks m)).map (fun x => x.1)).Nodup := by
  induction ts with
  | nil => simp
  | cons t ts ih =>
    have h' : buildPrimaryKeyValue js t pks ∉ ts.map (fun r => buildPrimaryKeyValue js r pks) ∧
        (ts.map (fun r => buildPrimaryKeyValue js r pks)).Nodup := by simpa using h
    rw [List.filterMap_cons]
    cases hm : mismatch js pks m t with
    | none => exact ih h'.2
    | some x =>
      simp only [List.map_cons, List.nodup_cons]
      refine ⟨?_, ih h'.2⟩
      intro hx
      obtain ⟨y, hy, e⟩ := List.mem_map.1 hx
      obtain ⟨t', ht', hy'⟩ := List.mem_filterMap.1 hy
      have e1 := ((mismatch_eq_some js pks m t x).1 hm).1
      have e2 := ((mismatch_eq_some js pks m t' y).1 hy').1
      apply h'.1
      apply List.mem_map.2
      refine ⟨t', ht', ?_⟩
      show buildPrimaryKeyValue js t' pks = buildPrimaryKeyValue js t pks
      rw [← e1, ← e2]
      exact e

/-- C3: for a non-empty primary-key list and source and target rows whose
canonical primary-key values are distinct within each side, `checkConflicts`
(writing to a store that accepts the records) succeeds and adds to the stored
conflicts a list `new` such that: every record in it is a pending
`update_conflict` of the task and table, for a key that occurs on both sides
with rows that differ under `compareRows`, holding the two rows as source and
target data; every key on both sides with differing rows has a record; and no
key has two. A key on one side only has no record. -/
theorem checkConflicts_exact (js : JsonScalars) (src tgt : Table) (taskID : Nat)
    (tableName : GoString) (pks : List GoString) (st : Store)
    (hpk : pks ≠ []) (hst : st.failure = none)
    (hs : (src.scanned.map (fun r => buildPrimaryKeyValue js r pks)).Nodup)
    (ht : (tgt.scanned.map (fun r => buildPrimaryKeyValue js r pks)).Nodup) :
    (checkConflicts js (Except.ok src) (Except.ok tgt) taskID tableName pks st).1
        = Except.ok () ∧
      ∃ new : List DataConflict,
        (checkConflicts js (Except.ok src) (Except.ok tgt) taskID tableName pks st).2
            = { st with conflicts := st.conflicts ++ new } ∧
          (∀ c, c ∈ new →
            c.ConflictType = lit "update_conflict" ∧ c.Status = lit "pending" ∧
              c.TaskID = taskID ∧ c.TableName = tableName ∧
              ∃ s, s ∈ src.scanned ∧ ∃ t, t ∈ tgt.scanned ∧
                buildPrimaryKeyValue js s pks = c.PrimaryKey ∧
                buildPrimaryKeyValue js t pks = c.PrimaryKey ∧
                compareRows s t = false ∧
                c.SourceData = jsonText js s ∧ c.TargetData = jsonText js t) ∧
          (∀ s, s ∈ src.scanned → ∀ t, t ∈ tgt.scanned →
            buildPrimaryKeyValue js s pks = buildPrimaryKeyValue js t pks →
            compareRows s t = false →
            ∃ c, c ∈ new ∧ c.PrimaryKey = buildPrimaryKeyValue js t pks) ∧
          (new.map (fun c => c.PrimaryKey)).Nodup := by
  have hlen : ¬ pks.length = 0 := by
    intro h
    exact hpk (List.length_eq_zero.1 h)
  have ht' : (tgt.rows.map
      (fun values => buildPrimaryKeyValue js (scanRow tgt.columns values) pks)).Nodup := by
    simpa [Table.scanned, List.map_map, Function.comp_def] using ht
  have hrun : checkConflicts js (Except.ok src) (Except.ok tgt) taskID tableName pks st
      = (Except.ok (),
          { st with
            conflicts := st.conflicts ++
              records js taskID tableName st.now st.conflicts.length
                (tgt.scanned.filterMap (mismatch js pks (loadSourceMap js src pks))) }) := by
    unfold checkConflicts
    rw [if_neg hlen]
    simp only []
    rw [checkTargetRows_conflicts js taskID tableName pks tgt.columns tgt.rows _ st hst ht']
    rfl
  rw [hrun]
  refine ⟨rfl, _, rfl, ?_, ?_, ?_⟩
  · intro c hc
    obtain ⟨x, hx, id, e⟩ := mem_records _ _ _ _ _ _ c hc
    obtain ⟨t, htm, hm⟩ := List.mem_filterMap.1 hx
    obtain ⟨e1, e2, e3, e4⟩ := (mismatch_eq_some js pks _ t x).1 hm
    obtain ⟨hsm, hsk⟩ := (loadSourceMap_get? js src pks _ _ hs).1 e3
    subst e
    refine ⟨rfl, rfl, rfl, rfl, x.2.1, hsm, t, htm, ?_, ?_, ?_, rfl, ?_⟩
    · simp [newConflict, hsk, e1]
    · simp [newConflict, e1]
    · exact e4
    · simp [newConflict, e2]
  · intro s hsm t htm hk hc
    have hget : GoMap.get? (loadSourceMap js src pks) (buildPrimaryKeyValue js t pks)
        = some s := (loadSourceMap_get? js src pks _ _ hs).2 ⟨hsm, hk⟩
    have hmem : buildPrimaryKeyValue js t pks ∈
        (records js taskID tableName st.now st.conflicts.length
          (tgt.scanned.filterMap (mismatch js pks (loadSourceMap js src pks)))).map
            (fun c => c.PrimaryKey) := by
      rw [records_keys]
      apply List.mem_map.2
      refine ⟨(buildPrimaryKeyValue js t pks, s, t), ?_, rfl⟩
      apply List.mem_filterMap.2
      exact ⟨t, htm, (mismatch_eq_some js pks _ t _).2 ⟨rfl, rfl, hget, hc⟩⟩
    obtain ⟨c, hc1, hc2⟩ := List.mem_map.1 hmem
    exact ⟨c, hc1, hc2⟩
  · rw [records_keys]
    exact mismatch_keys_nodup js pks _ _ ht

/-- C4: for a table with no primary-key column, `checkConflicts` returns
success and leaves the metadata store as it was, whatever the source and target
hold and whether or not they can be read: no conflict is created. -/
theorem checkConflicts_no_primary_key (js : JsonScalars) (source target : Except GoString Table)
    (taskID : Nat) (tableName : GoString) (st : Store) :
    checkConflicts js source target taskID tableName [] st = (Except.ok (), st) := by
  rfl

/-- Whatever the target holds, the Oracle path of `syncBatch` fails on a
non-empty batch when the primary-key list is empty: the first row's existence
check is sent with an empty `WHERE` condition and its error is returned. -/
theorem syncBatchOracle_empty_where (db : TargetDB) (tableName : GoString) (row : Row)
    (rest : List Row) (columns : List GoString) :
    ∃ err,
      syncBatchOracle db tableName (row :: rest) columns []
        = (Except.error err,
            { db with received := db.received ++
                [{ sql := lit "SELECT COUNT(*) FROM " ++ tableName ++ lit " WHERE ",
                   args := [], op := SqlOp.invalid }] }) := by
  cases ht : db.table with
  | none =>
    refine ⟨lit "检查记录是否存在失败: " ++ errNoTable, ?_⟩
    simp [syncBatchOracle, syncOracleRow, TargetDB.queryCount, ht, joinWith, List.intercalate]
  | some t =>
    refine ⟨lit "检查记录是否存在失败: " ++ errSyntax, ?_⟩
    simp [syncBatchOracle, syncOracleRow, TargetDB.queryCount, ht, joinWith, List.intercalate]

/-! ## Single-table sync -/

theorem logError_failure (st : Store) (taskID : Nat) (msg : GoString) :
    (logError st taskID msg).failure = st.failure ∧
      (logError st taskID msg).conflicts = st.conflicts := by
  unfold logError
  cases h : st.failure <;> simp [h]

/-- The body of the loop, with the call of `syncBatch` written out. -/
theorem batchStep_eq (dbType tableName : GoString) (primaryKeys columns : List GoString)
    (taskID : Nat) (state : List Row × World) (values : List Value) :
    batchStep dbType tableName primaryKeys columns taskID state values
      = if (state.1 ++ [scanRow columns values]).length ≥ batchSize then
          match syncBatch state.2.target dbType tableName (state.1 ++ [scanRow columns values])
              primaryKeys with
          | (Except.error err, db) =>
            ([], { target := db,
                   store := logError state.2.store taskID (lit "批量同步失败: " ++ err),
                   handed := state.2.handed ++ [state.1 ++ [scanRow columns values]],
                   rejected := state.2.rejected ++ [state.1 ++ [scanRow columns values]] })
          | (Except.ok _, db) =>
            ([], { target := db, store := state.2.store,
                   handed := state.2.handed ++ [state.1 ++ [scanRow columns values]],
                   rejected := state.2.rejected })
        else (state.1 ++ [scanRow columns values], state.2) := by
  unfold batchStep handOver
  simp only []
  split
  · rcases syncBatch state.2.target dbType tableName (state.1 ++ [scanRow columns values])
      primaryKeys with ⟨r, db⟩
    cases r <;> rfl
  · rfl

/-- What the loop does with one full batch, with the call of `syncBatch`
written out. -/
theorem applyFullBatch_eq (dbType tableName : GoString) (primaryKeys : List GoString)
    (taskID : Nat) (w : World) (batch : List Row) :
    applyFullBatch dbType tableName primaryKeys taskID w batch
      = match syncBatch w.target dbType tableName batch primaryKeys with
        | (Except.error err, db) =>
          { target := db, store := logError w.store taskID (lit "批量同步失败: " ++ err),
            handed := w.handed ++ [batch], rejected := w.rejected ++ [batch] }
        | (Except.ok _, db) =>
          { target := db, store := w.store, handed := w.handed ++ [batch],
            rejected := w.rejected } := by
  unfold applyFullBatch handOver
  rcases syncBatch w.target dbType tableName batch primaryKeys with ⟨r, db⟩
  cases r <;> rfl

/-- The run of `syncSingleTable` on a source that can be read, with the last
call of `syncBatch` written out. -/
theorem syncSingleTable_eq (js : JsonScalars) (pks : List GoString) (src : Table)
    (dbType : GoString) (taskID : Nat) (tableName : GoString) (w : World) :
    syncSingleTable js (Except.ok pks) (Except.ok src) dbType taskID tableName w
      = (let w1 := syncTableStructure w tableName
         let looped := src.rows.foldl (batchStep dbType tableName pks src.columns taskID) ([], w1)
         let batch := looped.1
         let w2 := looped.2
         let last := if batch.length > 0 then syncBatch w2.target dbType tableName batch pks
           else (Except.ok (), w2.target)
         let handed := if batch.length > 0 then w2.handed ++ [batch] else w2.handed
         match last with
         | (Except.error err, db) =>
           (Except.error err,
             { target := db, store := w2.store, handed := handed,
               rejected := w2.rejected ++ [batch] })
         | (Except.ok _, db) =>
           let r := checkConflicts js (Except.ok src) db.selectAll taskID tableName pks w2.store
           (r.1, { target := db, store := r.2, handed := handed, rejected := w2.rejected })) := by
  unfold syncSingleTable handOver
  simp only []
  generalize List.foldl (batchStep dbType tableName pks src.columns taskID)
    ([], syncTableStructure w tableName) src.rows = looped
  by_cases hp : looped.1.length > 0
  · simp only [hp, if_true]
    rcases syncBatch looped.2.target dbType tableName looped.1 pks with ⟨r, db⟩
    cases r <;> rfl
  · simp only [hp, if_false]

theorem batchStep_store (dbType tableName : GoString) (pks columns : List GoString)
    (taskID : Nat) (state : List Row × World) (values : List Value) :
    (batchStep dbType tableName pks columns taskID state values).2.store.failure
        = state.2.store.failure ∧
      (batchStep dbType tableName pks columns taskID state values).2.store.conflicts
        = state.2.store.conflicts := by
  rw [batchStep_eq]
  split
  · split
    · exact logError_failure _ _ _
    · exact ⟨rfl, rfl⟩
  · exact ⟨rfl, rfl⟩

theorem batchLoop_store (dbType tableName : GoString) (pks columns : List GoString)
    (taskID : Nat) (rows : List (List Value)) (state : List Row × World) :
    (rows.foldl (batchStep dbType tableName pks columns taskID) state).2.store.failure
        = state.2.store.failure ∧
      (rows.foldl (batchStep dbType tableName pks columns taskID) state).2.store.conflicts
        = state.2.store.conflicts := by
  induction rows generalizing state with
  | nil => exact ⟨rfl, rfl⟩
  | cons v vs ih =>
    rw [List.foldl_cons]
    have h := batchStep_store dbType tableName pks columns taskID state v
    exact ⟨(ih _).1.trans h.1, (ih _).2.trans h.2⟩

/-- The rows are equal under `compareRows` exactly when they have the same
number of columns and every column of the first is present in the second with
a value equal under `valuesEqual`. -/
theorem compareRows_iff (row1 row2 : Row) :
    compareRows row1 row2 = true ↔
      row1.length = row2.length ∧
        ∀ kv, kv ∈ row1 → ∃ v2, GoMap.get? row2 kv.1 = some v2 ∧ valuesEqual kv.2 v2 = true := by
  unfold compareRows
  by_cases hlen : row1.length = row2.length
  · simp only [hlen, ne_eq, not_true_eq_false, if_false, List.all_eq_true, true_and]
    constructor
    · intro h kv hkv
      have := h kv hkv
      cases hg : GoMap.get? row2 kv.1 with
      | none => simp [hg] at this
      | some v2 => exact ⟨v2, rfl, by simpa [hg] using this⟩
    · intro h kv hkv
      obtain ⟨v2, hg, hv⟩ := h kv hkv
      simp [hg, hv]
  · simp [hlen]

theorem checkConflicts_exact_witness :
    (checkConflicts sampleScalars (Except.ok usersSource) (Except.ok usersTarget) 1 (lit "users")
        [lit "id"] emptyStore).1 = Except.ok () ∧
      ∃ new : List DataConflict,
        (checkConflicts sampleScalars (Except.ok usersSource) (Except.ok usersTarget) 1
            (lit "users") [lit "id"] emptyStore).2
          = { emptyStore with conflicts := emptyStore.conflicts ++ new } ∧
        (new.map (fun c => c.PrimaryKey)).Nodup := by
  obtain ⟨h1, new, h2, _, _, h5⟩ := checkConflicts_exact sampleScalars usersSource usersTarget 1
    (lit "users") [lit "id"] emptyStore (by decide) rfl (by decide) (by decide)
  exact ⟨h1, new, h2, h5⟩

/-- Conflict detection applied to the scenario before any upsert records the
one conflict of the scenario: pending, `update_conflict`, with the source row
and the target row `(1, "b@x.com")` as data. -/
theorem checkConflicts_scenario_before_upsert :
    (checkConflicts sampleScalars (Except.ok usersSource) (Except.ok usersTarget) 1 (lit "users")
        [lit "id"] emptyStore).2.conflicts
      = [{ ID := 1, TaskID := 1, TableName := lit "users",
           PrimaryKey := lit "\x7b\"id\":1\x7d",
           SourceData := lit "\x7b\"email\":\"a@x.com\",\"id\":1\x7d",
           TargetData := lit "\x7b\"email\":\"b@x.com\",\"id\":1\x7d",
           ConflictType := lit "update_conflict", Status := lit "pending",
           ResolvedBy := none, Resolution := [], ResolvedAt := none, CreatedAt := ⟨0, 0⟩ }] := by
  decide

/-- C1, as stated, fails: in the scenario (MySQL target, the upsert succeeds)
the run does not both leave the target row equal to `(1, "a@x.com")` and
record exactly one pending `update_conflict` holding the source row and the
pre-sync target row `(1, "b@x.com")`: no conflict is recorded at all. -/
theorem scenario_conflict_not_recorded :
    ¬ ((scenarioRun (lit "mysql")).2.target.table = some usersSource ∧
        ∃ c, (scenarioRun (lit "mysql")).2.store.conflicts = [c] ∧
          c.Status = lit "pending" ∧ c.ConflictType = lit "update_conflict" ∧
          c.SourceData = jsonText sampleScalars
            (scanRow usersSource.columns [Value.int 1, Value.str (lit "a@x.com")]) ∧
          c.TargetData = jsonText sampleScalars
            (scanRow usersTarget.columns [Value.int 1, Value.str (lit "b@x.com")])) := by
  have h : (scenarioRun (lit "mysql")).2.store.conflicts = [] := by decide
  rintro ⟨_, c, hc, _⟩
  rw [h] at hc
  cases hc

/-- C1, amended: in the scenario, for each of the three target dialects, one
run of `syncSingleTable` succeeds, leaves the target row equal to
`(1, "a@x.com")` and records no DataConflict, since conflict detection compares
the source with the target as the upsert left it: on a target that holds
`(1, "a@x.com")`, `checkConflicts` leaves the store as it was. -/
theorem scenario_target_overwritten_without_conflict :
    checkConflicts sampleScalars (Except.ok usersSource) (Except.ok usersSource) 1 (lit "users")
        [lit "id"] emptyStore = (Except.ok (), emptyStore) ∧
      ((scenarioRun (lit "mysql")).1 = Except.ok () ∧
        (scenarioRun (lit "mysql")).2.target.table = some usersSource ∧
        (scenarioRun (lit "mysql")).2.store.conflicts = []) ∧
      ((scenarioRun (lit "postgres")).1 = Except.ok () ∧
        (scenarioRun (lit "postgres")).2.target.table = some usersSource ∧
        (scenarioRun (lit "postgres")).2.store.conflicts = []) ∧
      ((scenarioRun (lit "oracle")).1 = Except.ok () ∧
        (scenarioRun (lit "oracle")).2.target.table = some usersSource ∧
        (scenarioRun (lit "oracle")).2.store.conflicts = []) := by
  decide

theorem decodeRune_ascii (c : Byte) (s : GoString) (h : c.val < 0x80) :
    decodeRune (c :: s) = (c.val, 1) := by
  simp [decodeRune, h]

theorem utf8ValidLoop_ascii (n : Nat) (s : GoString) (h : ∀ b, b ∈ s → b.val < 0x80) :
    utf8ValidLoop n s = true := by
  induction s generalizing n with
  | nil => cases n <;> rfl
  | cons c s ih =>
    cases n with
    | zero => rfl
    | succ n =>
      have hc : c.val < 0x80 := h c (List.mem_cons_self _ _)
      have hne : ¬ (c.val = RuneError ∧ True) := by
        intro ⟨e, _⟩
        simp only [RuneError] at e
        omega
      simp only [utf8ValidLoop, decodeRune_ascii c s hc, List.drop_succ_cons,
        List.drop_zero]
      rw [if_neg hne]
      exact ih n (fun b hb => h b (List.mem_cons_of_mem _ hb))

/-- A string of ASCII bytes is valid UTF-8. -/
theorem utf8Valid_ascii (s : GoString) (h : ∀ b, b ∈ s → b.val < 0x80) : utf8Valid s = true :=
  utf8ValidLoop_ascii s.length s h

/-- On a valid UTF-8 string `ensureUTF8` and `normalizeValue` are the
identity. -/
theorem normalizeValue_valid (s : GoString) (h : utf8Valid s = true) :
    ensureUTF8 s = s ∧ normalizeValue (Value.str s) = Value.str s ∧
      normalizeValue (Value.bytes s) = Value.str s := by
  have he : ensureUTF8 s = s := by simp [ensureUTF8, h]
  refine ⟨he, ?_, ?_⟩
  · unfold normalizeValue
    simp only [h, not_true_eq_false, if_false, he]
    split <;> rfl
  · unfold normalizeValue
    simp only [h, if_true, he]
    split <;> rfl

/-! ## UUID strings -/

theorem isHexRune_lt (r : Nat) (h : isHexRune r = true) : r < 0x80 := by
  simp only [isHexRune, decide_eq_true_eq] at h
  omega

theorem uuidShapeFrom_ascii (i : Nat) (s : GoString) (h : uuidShapeFrom i s = true) :
    ∀ b, b ∈ s → b.val < 0x80 := by
  induction s generalizing i with
  | nil => intro b hb; cases hb
  | cons c s ih =>
    simp only [uuidShapeFrom, Bool.and_eq_true] at h
    intro b hb
    rcases List.mem_cons.1 hb with rfl | hb
    · by_cases hi : i = 8 ∨ i = 13 ∨ i = 18 ∨ i = 23
      · have := h.1
        simp only [hi, if_true, decide_eq_true_eq] at this
        omega
      · have := h.1
        simp only [hi, if_false] at this
        exact isHexRune_lt _ this
    · exact ih (i + 1) h.2 b hb

theorem uuidShapeFrom_get (i : Nat) (s : GoString) (h : uuidShapeFrom i s = true) (j : Nat)
    (b : Byte) (hj : s.get? j = some b)
    (hpos : i + j = 8 ∨ i + j = 13 ∨ i + j = 18 ∨ i + j = 23) : b = 45 := by
  induction s generalizing i j with
  | nil => simp at hj
  | cons c s ih =>
    simp only [uuidShapeFrom, Bool.and_eq_true] at h
    cases j with
    | zero =>
      simp only [List.get?_cons_zero, Option.some.injEq] at hj
      subst hj
      have := h.1
      simp only [Nat.add_zero] at hpos
      simp only [hpos, if_true, decide_eq_true_eq] at this
      exact Fin.ext this
    | succ j =>
      simp only [List.get?_cons_succ] at hj
      exact ih (i + 1) h.2 j hj (by omega)

theorem isValidUUIDLoop_of_shape (n i : Nat) (s : GoString) (h : uuidShapeFrom i s = true) :
    isValidUUIDLoop n i s = true := by
  induction s generalizing n i with
  | nil => cases n <;> rfl
  | cons c s ih =>
    cases n with
    | zero => rfl
    | succ n =>
      have hc : c.val < 0x80 := uuidShapeFrom_ascii i (c :: s) h c (List.mem_cons_self _ _)
      simp only [uuidShapeFrom, Bool.and_eq_true] at h
      simp only [isValidUUIDLoop, decodeRune_ascii c s hc, List.drop_succ_cons, List.drop_zero]
      by_cases hi : i = 8 ∨ i = 13 ∨ i = 18 ∨ i = 23
      · have h1 := h.1
        simp only [hi, if_true, decide_eq_true_eq] at h1
        simp only [hi, if_true, h1, ne_eq, not_true_eq_false, if_false]
        exact ih n (i + 1) h.2
      · have h1 := h.1
        simp only [hi, if_false] at h1
        simp only [hi, if_false, h1, not_true_eq_false]
        exact ih n (i + 1) h.2

/-- A string in canonical UUID shape passes `isValidUUIDString`. -/
theorem isValidUUIDString_of_canonical (s : GoString) (h : isCanonicalUUID s = true) :
    isValidUUIDString s = true := by
  simp only [isCanonicalUUID, Bool.and_eq_true, decide_eq_true_eq] at h
  obtain ⟨hlen, hshape⟩ := h
  have hget : ∀ j, j < 36 → (j = 8 ∨ j = 13 ∨ j = 18 ∨ j = 23) → s.get? j = some 45 := by
    intro j hj hpos
    have hlt : j < s.length := by omega
    rw [List.get?_eq_get hlt]
    congr 1
    exact uuidShapeFrom_get 0 s hshape j _ (List.get?_eq_get hlt) (by omega)
  unfold isValidUUIDString
  rw [if_neg (by simp [hlen])]
  have h8 := hget 8 (by omega) (by omega)
  have h13 := hget 13 (by omega) (by omega)
  have h18 := hget 18 (by omega) (by omega)
  have h23 := hget 23 (by omega) (by omega)
  rw [if_neg (by simp only [h8, h13, h18, h23, ne_eq, not_true_eq_false, or_self,
    not_false_eq_true])]
  exact isValidUUIDLoop_of_shape s.length 0 s hshape

/-- C12: a string `s` in canonical UUID shape (36 characters, hyphens at the
offsets 8, 13, 18 and 23, every other character a hexadecimal digit) passes
`isValidUUIDString`, and `normalizeValue` returns the string `s` for it,
whether it is delivered as a string or as a byte sequence. -/
theorem normalizeValue_canonical_uuid (s : GoString) (h : isCanonicalUUID s = true) :
    isValidUUIDString s = true ∧ normalizeValue (Value.str s) = Value.str s ∧
      normalizeValue (Value.bytes s) = Value.str s := by
  have hshape : uuidShapeFrom 0 s = true := by
    simp only [isCanonicalUUID, Bool.and_eq_true] at h
    exact h.2
  have hv : utf8Valid s = true := utf8Valid_ascii s (uuidShapeFrom_ascii 0 s hshape)
  exact ⟨isValidUUIDString_of_canonical s h, (normalizeValue_valid s hv).2.1,
    (normalizeValue_valid s hv).2.2⟩

theorem normalizeValue_canonical_uuid_witness :
    isValidUUIDString (lit "123e4567-e89b-12d3-A456-426614174000") = true ∧
      normalizeValue (Value.str (lit "123e4567-e89b-12d3-A456-426614174000"))
        = Value.str (lit "123e4567-e89b-12d3-A456-426614174000") ∧
      normalizeValue (Value.bytes (lit "123e4567-e89b-12d3-A456-426614174000"))
        = Value.str (lit "123e4567-e89b-12d3-A456-426614174000") :=
  normalizeValue_canonical_uuid (lit "123e4567-e89b-12d3-A456-426614174000") (by decide)

/-! ## Hexadecimal text and binary UUIDs -/

theorem hexFixed_two (x : Nat) : hexFixed 2 x = [hexDigit (x / 16 % 16), hexDigit (x % 16)] := by
  simp [hexFixed]

theorem hexFixed_add_two (a x y : Nat) (hy : y < 256) :
    hexFixed (a + 2) (x * 256 + y) = hexFixed a x ++ hexFixed 2 y := by
  have h1 : (x * 256 + y) / 16 / 16 = x := by omega
  have h2 : (x * 256 + y) / 16 % 16 = y / 16 % 16 := by omega
  have h3 : (x * 256 + y) % 16 = y % 16 := by omega
  simp only [hexFixed, h1, h2, h3, List.nil_append, List.append_assoc, List.singleton_append]

theorem hexEncode_cons (x : Byte) (s : GoString) :
    hexEncode (x :: s) = hexFixed 2 x.val ++ hexEncode s := by
  simp [hexEncode]

theorem hexEncode_append (s t : GoString) : hexEncode (s ++ t) = hexEncode s ++ hexEncode t := by
  simp [hexEncode]

theorem hexDigit_val (n : Nat) (h : n < 16) :
    (hexDigit n).val = if n < 10 then 48 + n else 87 + n := by
  unfold hexDigit byteOf
  split
  · show (48 + n) % 256 = 48 + n
    omega
  · show (87 + n) % 256 = 87 + n
    omega

theorem fromHexChar_hexDigit (n : Nat) (h : n < 16) : fromHexChar (hexDigit n) = some n := by
  unfold fromHexChar
  rw [hexDigit_val n h]
  by_cases h10 : n < 10
  · simp only [h10, if_true]
    rw [if_pos (by omega)]
    congr 1
    omega
  · simp only [h10, if_false]
    rw [if_neg (by omega), if_pos (by omega)]
    congr 1
    omega

theorem hexDigit_ne_hyphen (n : Nat) (h : n < 16) : (hexDigit n).val ≠ 45 := by
  rw [hexDigit_val n h]
  split <;> omega

theorem removeHyphens_hexEncode (s : GoString) : removeHyphens (hexEncode s) = hexEncode s := by
  induction s with
  | nil => rfl
  | cons x s ih =>
    have h1 := hexDigit_ne_hyphen (x.val / 16 % 16) (Nat.mod_lt _ (by decide))
    have h2 := hexDigit_ne_hyphen (x.val % 16) (Nat.mod_lt _ (by decide))
    unfold removeHyphens at ih ⊢
    rw [hexEncode_cons, hexFixed_two, List.filter_append, ih]
    simp [List.filter, h1, h2]

/-- Decoding the hexadecimal text of a byte sequence gives the sequence
back. -/
theorem hexDecode_hexEncode (s : GoString) : hexDecode (hexEncode s) = some s := by
  induction s with
  | nil => rfl
  | cons x s ih =>
    have hx : x.val / 16 < 16 := by omega
    have hb : byteOf (x.val / 16 * 16 + x.val % 16) = x := by
      apply Fin.ext
      show (x.val / 16 * 16 + x.val % 16) % 256 = x.val
      omega
    rw [hexEncode_cons, hexFixed_two, Nat.mod_eq_of_lt hx]
    show hexDecode (hexDigit (x.val / 16) :: hexDigit (x.val % 16) :: hexEncode s) = some (x :: s)
    simp only [hexDecode, fromHexChar_hexDigit _ hx,
      fromHexChar_hexDigit _ (Nat.mod_lt x.val (by decide : 0 < 16)), ih, hb]

theorem hexFixed_eight (b0 b1 b2 b3 : Byte) :
    hexFixed 8 (b0.val * 2 ^ 24 + b1.val * 2 ^ 16 + b2.val * 2 ^ 8 + b3.val)
      = hexEncode [b0, b1, b2, b3] := by
  have e : b0.val * 2 ^ 24 + b1.val * 2 ^ 16 + b2.val * 2 ^ 8 + b3.val
      = ((b0.val * 256 + b1.val) * 256 + b2.val) * 256 + b3.val := by
    norm_num
    ring
  rw [e, show (8 : Nat) = 6 + 2 from rfl, hexFixed_add_two 6 _ _ b3.isLt,
    show (6 : Nat) = 4 + 2 from rfl, hexFixed_add_two 4 _ _ b2.isLt,
    show (4 : Nat) = 2 + 2 from rfl, hexFixed_add_two 2 _ _ b1.isLt]
  simp [hexEncode]

theorem hexFixed_four (b0 b1 : Byte) :
    hexFixed 4 (b0.val * 2 ^ 8 + b1.val) = hexEncode [b0, b1] := by
  have e : b0.val * 2 ^ 8 + b1.val = b0.val * 256 + b1.val := by norm_num
  rw [e, show (4 : Nat) = 2 + 2 from rfl, hexFixed_add_two 2 _ _ b1.isLt]
  simp [hexEncode]

/-- The text of `binaryToUUID` for sixteen bytes: the hexadecimal text of the
bytes in order, in groups of four, two, two, two and six bytes, with hyphens
between the groups. -/
theorem binaryToUUID_sixteen (b0 b1 b2 b3 b4 b5 b6 b7 b8 b9 b10 b11 b12 b13 b14 b15 : Byte) :
    binaryToUUID [b0, b1, b2, b3, b4, b5, b6, b7, b8, b9, b10, b11, b12, b13, b14, b15]
      = hexEncode [b0, b1, b2, b3] ++ lit "-" ++ hexEncode [b4, b5] ++ lit "-"
          ++ hexEncode [b6, b7] ++ lit "-" ++ hexEncode [b8, b9] ++ lit "-"
          ++ hexEncode [b10, b11, b12, b13, b14, b15] := by
  simp only [binaryToUUID, hexFixed_eight, hexFixed_four]
  simp [hexEncode]

theorem exists_sixteen (b : GoString) (h : b.length = 16) :
    ∃ b0 b1 b2 b3 b4 b5 b6 b7 b8 b9 b10 b11 b12 b13 b14 b15,
      b = [b0, b1, b2, b3, b4, b5, b6, b7, b8, b9, b10, b11, b12, b13, b14, b15] := by
  match b, h with
  | [b0, b1, b2, b3, b4, b5, b6, b7, b8, b9, b10, b11, b12, b13, b14, b15], _ =>
    exact ⟨b0, b1, b2, b3, b4, b5, b6, b7, b8, b9, b10, b11, b12, b13, b14, b15, rfl⟩

/-- C13: for every 16-byte buffer `b`, `binaryToUUID(b)` is the lowercase
hexadecimal text of the bytes of `b` in order, cut into groups of 8, 4, 4, 4
and 12 digits with a hyphen between the groups (36 characters); with the
hyphens removed it is the hexadecimal encoding of `b`, and decoding that gives
`b` back. -/
theorem binaryToUUID_layout (b : GoString) (h : b.length = 16) :
    binaryToUUID b
        = hexEncode (b.take 4) ++ lit "-" ++ hexEncode ((b.drop 4).take 2) ++ lit "-"
          ++ hexEncode ((b.drop 6).take 2) ++ lit "-" ++ hexEncode ((b.drop 8).take 2)
          ++ lit "-" ++ hexEncode (b.drop 10) ∧
      (binaryToUUID b).length = 36 ∧
      removeHyphens (binaryToUUID b) = hexEncode b ∧
      hexDecode (removeHyphens (binaryToUUID b)) = some b := by
  obtain ⟨b0, b1, b2, b3, b4, b5, b6, b7, b8, b9, b10, b11, b12, b13, b14, b15, rfl⟩ :=
    exists_sixteen b h
  have hform := binaryToUUID_sixteen b0 b1 b2 b3 b4 b5 b6 b7 b8 b9 b10 b11 b12 b13 b14 b15
  have hrem : removeHyphens
      (binaryToUUID [b0, b1, b2, b3, b4, b5, b6, b7, b8, b9, b10, b11, b12, b13, b14, b15])
      = hexEncode [b0, b1, b2, b3, b4, b5, b6, b7, b8, b9, b10, b11, b12, b13, b14, b15] := by
    have hy : removeHyphens (lit "-") = [] := by decide
    have happ : ∀ s t, removeHyphens (s ++ t) = removeHyphens s ++ removeHyphens t := by
      intro s t
      simp [removeHyphens]
    rw [hform]
    simp only [happ, hy, removeHyphens_hexEncode, List.append_nil, ← hexEncode_append]
    rfl
  refine ⟨hform, ?_, hrem, ?_⟩
  · rw [hform]
    have hl : (lit "-").length = 1 := by decide
    simp [hexEncode, hexFixed, hl]
  · rw [hrem]
    exact hexDecode_hexEncode _

theorem binaryToUUID_layout_witness :
    binaryToUUID [0x12, 0x3e, 0x45, 0x67, 0xe8, 0x9b, 0x12, 0xd3, 0xa4, 0x56, 0x42, 0x66, 0x14,
        0x17, 0x40, 0x00] = lit "123e4567-e89b-12d3-a456-426614174000" ∧
      hexDecode (removeHyphens (binaryToUUID [0x12, 0x3e, 0x45, 0x67, 0xe8, 0x9b, 0x12, 0xd3,
        0xa4, 0x56, 0x42, 0x66, 0x14, 0x17, 0x40, 0x00]))
        = some [0x12, 0x3e, 0x45, 0x67, 0xe8, 0x9b, 0x12, 0xd3, 0xa4, 0x56, 0x42, 0x66, 0x14,
            0x17, 0x40, 0x00] :=
  ⟨by decide,
    (binaryToUUID_layout [0x12, 0x3e, 0x45, 0x67, 0xe8, 0x9b, 0x12, 0xd3, 0xa4, 0x56, 0x42,
      0x66, 0x14, 0x17, 0x40, 0x00] (by decide)).2.2.2⟩

/-- The possible results of `decodeRune` on a non-empty string: an invalid
byte, an ASCII byte, or a well-formed sequence of two, three or four bytes. -/
theorem decodeRune_cases (c : Byte) (s : GoString) :
    decodeRune (c :: s) = (RuneError, 1) ∨
      (c.val < 0x80 ∧ decodeRune (c :: s) = (c.val, 1)) ∨
      (∃ s1 t, s = s1 :: t ∧ 0xC2 ≤ c.val ∧ c.val ≤ 0xDF ∧ 0x80 ≤ s1.val ∧ s1.val ≤ 0xBF ∧
        decodeRune (c :: s) = (c.val % 32 * 64 + s1.val % 64, 2)) ∨
      (∃ s1 s2 t, s = s1 :: s2 :: t ∧ 0xE0 ≤ c.val ∧ c.val ≤ 0xEF ∧
        (if c.val = 0xE0 then 0xA0 else 0x80) ≤ s1.val ∧
        s1.val ≤ (if c.val = 0xED then 0x9F else 0xBF) ∧ 0x80 ≤ s2.val ∧ s2.val ≤ 0xBF ∧
        decodeRune (c :: s) = (c.val % 16 * 4096 + s1.val % 64 * 64 + s2.val % 64, 3)) ∨
      (∃ s1 s2 s3 t, s = s1 :: s2 :: s3 :: t ∧ 0xF0 ≤ c.val ∧ c.val ≤ 0xF4 ∧
        (if c.val = 0xF0 then 0x90 else 0x80) ≤ s1.val ∧
        s1.val ≤ (if c.val = 0xF4 then 0x8F else 0xBF) ∧ 0x80 ≤ s2.val ∧ s2.val ≤ 0xBF ∧
        0x80 ≤ s3.val ∧ s3.val ≤ 0xBF ∧
        decodeRune (c :: s)
          = (c.val % 8 * 262144 + s1.val % 64 * 4096 + s2.val % 64 * 64 + s3.val % 64, 4)) := by
  by_cases h1 : c.val < 0x80
  · right; left
    exact ⟨h1, by simp [decodeRune, h1]⟩
  by_cases h2 : c.val < 0xC2 ∨ 0xF4 < c.val
  · left
    simp [decodeRune, h1, h2]
  have h2a : 0xC2 ≤ c.val := by omega
  have h2b : c.val ≤ 0xF4 := by omega
  cases s with
  | nil =>
    left
    simp only [decodeRune, h1, h2, if_false]
    split_ifs <;> rfl
  | cons s1 t1 =>
    by_cases h3 : c.val < 0xE0
    · -- two bytes
      have e0 : ¬ c.val = 0xE0 := by omega
      have e1 : ¬ c.val = 0xF0 := by omega
      have e2 : ¬ c.val = 0xED := by omega
      have e3 : ¬ c.val = 0xF4 := by omega
      by_cases hr : s1.val < 0x80 ∨ 0xBF < s1.val
      · left
        simp [decodeRune, h1, h2, h3, e0, e1, e2, e3, hr]
      · right; right; left
        refine ⟨s1, t1, rfl, h2a, by omega, by omega, by omega, ?_⟩
        simp [decodeRune, h1, h2, h3, e0, e1, e2, e3, hr]
    · by_cases h4 : c.val < 0xF0
      · -- three bytes
        have e1 : ¬ c.val = 0xF0 := by omega
        have e3 : ¬ c.val = 0xF4 := by omega
        by_cases hr : s1.val < (if c.val = 0xE0 then 0xA0 else 0x80) ∨
            (if c.val = 0xED then 0x9F else 0xBF) < s1.val
        · left
          cases t1 with
          | nil => simp [decodeRune, h1, h2, h3, h4]
          | cons s2 t2 =>
            simp only [decodeRune, h1, h2, h3, h4, e1, e3, if_false, if_true]
            simp [hr]
        · cases t1 with
          | nil =>
            left
            simp [decodeRune, h1, h2, h3, h4]
          | cons s2 t2 =>
            by_cases hr2 : s2.val < 0x80 ∨ 0xBF < s2.val
            · left
              simp only [decodeRune, h1, h2, h3, h4, e1, e3, if_false, if_true]
              simp [hr, hr2]
            · right; right; right; left
              refine ⟨s1, s2, t2, rfl, by omega, by omega, by omega, by omega, by omega, by omega,
                ?_⟩
              simp only [decodeRune, h1, h2, h3, h4, e1, e3, if_false, if_true]
              simp [hr, hr2]
      · -- four bytes
        have e0 : ¬ c.val = 0xE0 := by omega
        have e2 : ¬ c.val = 0xED := by omega
        by_cases hr : s1.val < (if c.val = 0xF0 then 0x90 else 0x80) ∨
            (if c.val = 0xF4 then 0x8F else 0xBF) < s1.val
        · left
          cases t1 with
          | nil => simp [decodeRune, h1, h2, h3, h4]
          | cons s2 t2 =>
            cases t2 with
            | nil => simp [decodeRune, h1, h2, h3, h4]
            | cons s3 t3 =>
              simp only [decodeRune, h1, h2, h3, h4, e0, e2, if_false, if_true]
              simp [hr]
        · cases t1 with
          | nil =>
            left
            simp [decodeRune, h1, h2, h3, h4]
          | cons s2 t2 =>
            cases t2 with
            | nil =>
              left
              simp [decodeRune, h1, h2, h3, h4]
            | cons s3 t3 =>
              by_cases hr2 : s2.val < 0x80 ∨ 0xBF < s2.val
              · left
                simp only [decodeRune, h1, h2, h3, h4, e0, e2, if_false, if_true]
                simp [hr, hr2]
              · by_cases hr3 : s3.val < 0x80 ∨ 0xBF < s3.val
                · left
                  simp only [decodeRune, h1, h2, h3, h4, e0, e2, if_false, if_true]
                  simp [hr, hr2, hr3]
                · right; right; right; right
                  refine ⟨s1, s2, s3, t3, rfl, by omega, by omega, by omega, by omega, by omega,
                    by omega, by omega, by omega, ?_⟩
                  simp only [decodeRune, h1, h2, h3, h4, e0, e2, if_false, if_true]
                  simp [hr, hr2, hr3]

/-- A decoded rune consumes at least one byte and no more than the string has. -/
theorem decodeRune_size (c : Byte) (s : GoString) :
    1 ≤ (decodeRune (c :: s)).2 ∧ (decodeRune (c :: s)).2 ≤ (c :: s).length := by
  rcases decodeRune_cases c s with h | ⟨_, h⟩ | ⟨s1, t, rfl, _, _, _, _, h⟩ |
    ⟨s1, s2, t, rfl, _, _, _, _, _, _, h⟩ | ⟨s1, s2, s3, t, rfl, _, _, _, _, _, _, _, _, h⟩ <;>
  rw [h] <;> simp

/-- Encoding the rune that `decodeRune` found gives back the bytes it was
decoded from, unless the position held an invalid byte. -/
theorem encodeRune_decodeRune (c : Byte) (s : GoString)
    (h : ¬ ((decodeRune (c :: s)).1 = RuneError ∧ (decodeRune (c :: s)).2 = 1)) :
    encodeRune (decodeRune (c :: s)).1 = (c :: s).take (decodeRune (c :: s)).2 := by
  rcases decodeRune_cases c s with h0 | ⟨h1, h0⟩ | ⟨s1, t, rfl, a1, a2, a3, a4, h0⟩ |
    ⟨s1, s2, t, rfl, a1, a2, a3, a4, a5, a6, h0⟩ |
    ⟨s1, s2, s3, t, rfl, a1, a2, a3, a4, a5, a6, a7, a8, h0⟩
  · rw [h0] at h
    exact absurd ⟨rfl, rfl⟩ h
  · rw [h0]
    have : c.val ≤ 0x7F := by omega
    simp only [encodeRune, this, if_true, List.take_succ_cons, List.take_zero]
    congr 1
    apply Fin.ext
    simp only [byteOf]
    omega
  · rw [h0]
    have b1 : ¬ (c.val % 32 * 64 + s1.val % 64 ≤ 0x7F) := by omega
    have b2 : c.val % 32 * 64 + s1.val % 64 ≤ 0x7FF := by omega
    simp only [encodeRune, b1, b2, if_true, if_false, List.take_succ_cons, List.take_zero]
    have e1 : byteOf (0xC0 + (c.val % 32 * 64 + s1.val % 64) / 64) = c := by
      apply Fin.ext
      simp only [byteOf]
      omega
    have e2 : byteOf (0x80 + (c.val % 32 * 64 + s1.val % 64) % 64) = s1 := by
      apply Fin.ext
      simp only [byteOf]
      omega
    rw [e1, e2]
  · rw [h0]
    have hc := c.isLt
    have b1 : ¬ (c.val % 16 * 4096 + s1.val % 64 * 64 + s2.val % 64 ≤ 0x7F) := by
      split_ifs at a3 a4 <;> omega
    have b2 : ¬ (c.val % 16 * 4096 + s1.val % 64 * 64 + s2.val % 64 ≤ 0x7FF) := by
      split_ifs at a3 a4 <;> omega
    have b3 : c.val % 16 * 4096 + s1.val % 64 * 64 + s2.val % 64 < 0xD800 ∨
        (0xDFFF < c.val % 16 * 4096 + s1.val % 64 * 64 + s2.val % 64 ∧
          c.val % 16 * 4096 + s1.val % 64 * 64 + s2.val % 64 ≤ 0xFFFF) := by
      split_ifs at a3 a4 <;> omega
    simp only [encodeRune, b1, b2, b3, if_true, if_false, List.take_succ_cons, List.take_zero]
    have e1 : byteOf (0xE0 + (c.val % 16 * 4096 + s1.val % 64 * 64 + s2.val % 64) / 4096)
        = c := by
      apply Fin.ext
      simp only [byteOf]
      omega
    have e2 : byteOf (0x80 + (c.val % 16 * 4096 + s1.val % 64 * 64 + s2.val % 64) / 64 % 64)
        = s1 := by
      apply Fin.ext
      simp only [byteOf]
      split_ifs at a3 a4 <;> omega
    have e3 : byteOf (0x80 + (c.val % 16 * 4096 + s1.val % 64 * 64 + s2.val % 64) % 64)
        = s2 := by
      apply Fin.ext
      simp only [byteOf]
      omega
    rw [e1, e2, e3]
  · rw [h0]
    have hc := c.isLt
    have b1 : ¬ (c.val % 8 * 262144 + s1.val % 64 * 4096 + s2.val % 64 * 64 + s3.val % 64
        ≤ 0x7F) := by
      split_ifs at a3 a4 <;> omega
    have b2 : ¬ (c.val % 8 * 262144 + s1.val % 64 * 4096 + s2.val % 64 * 64 + s3.val % 64
        ≤ 0x7FF) := by
      split_ifs at a3 a4 <;> omega
    have b3 : ¬ (c.val % 8 * 262144 + s1.val % 64 * 4096 + s2.val % 64 * 64 + s3.val % 64
          < 0xD800 ∨
        (0xDFFF < c.val % 8 * 262144 + s1.val % 64 * 4096 + s2.val % 64 * 64 + s3.val % 64 ∧
          c.val % 8 * 262144 + s1.val % 64 * 4096 + s2.val % 64 * 64 + s3.val % 64
            ≤ 0xFFFF)) := by
      split_ifs at a3 a4 <;> omega
    have b4 : 0xFFFF < c.val % 8 * 262144 + s1.val % 64 * 4096 + s2.val % 64 * 64 + s3.val % 64 ∧
        c.val % 8 * 262144 + s1.val % 64 * 4096 + s2.val % 64 * 64 + s3.val % 64
          ≤ 0x10FFFF := by
      split_ifs at a3 a4 <;> omega
    simp only [encodeRune, b1, b2, b3, b4, and_self, if_true, if_false, List.take_succ_cons,
      List.take_zero]
    have e1 : byteOf (0xF0 +
        (c.val % 8 * 262144 + s1.val % 64 * 4096 + s2.val % 64 * 64 + s3.val % 64) / 262144)
        = c := by
      apply Fin.ext
      simp only [byteOf]
      omega
    have e2 : byteOf (0x80 +
        (c.val % 8 * 262144 + s1.val % 64 * 4096 + s2.val % 64 * 64 + s3.val % 64) / 4096 % 64)
        = s1 := by
      apply Fin.ext
      simp only [byteOf]
      split_ifs at a3 a4 <;> omega
    have e3 : byteOf (0x80 +
        (c.val % 8 * 262144 + s1.val % 64 * 4096 + s2.val % 64 * 64 + s3.val % 64) / 64 % 64)
        = s2 := by
      apply Fin.ext
      simp only [byteOf]
      omega
    have e4 : byteOf (0x80 +
        (c.val % 8 * 262144 + s1.val % 64 * 4096 + s2.val % 64 * 64 + s3.val % 64) % 64)
        = s3 := by
      apply Fin.ext
      simp only [byteOf]
      omega
    rw [e1, e2, e3, e4]

/-- The runes collected by the loop of `ensureUTF8`, encoded, are the bytes of
the input with every invalid byte replaced by the encoding of U+FFFD. -/
theorem ensureUTF8Loop_flatMap (n : Nat) (s : GoString) :
    (ensureUTF8Loop n s).flatMap encodeRune = replaceInvalidLoop n s := by
  induction n generalizing s with
  | zero => simp [ensureUTF8Loop, replaceInvalidLoop]
  | succ n ih =>
    cases s with
    | nil => simp [ensureUTF8Loop, replaceInvalidLoop]
    | cons c s =>
      by_cases h : (decodeRune (c :: s)).1 = RuneError ∧ (decodeRune (c :: s)).2 = 1
      · simp only [ensureUTF8Loop, replaceInvalidLoop, h, and_self, if_true,
          List.flatMap_cons, ih]
        rfl
      · simp only [ensureUTF8Loop, replaceInvalidLoop, h, if_false, List.flatMap_cons, ih,
          encodeRune_decodeRune c s h]

/-- Fuel beyond the length of the string does not change the replacement loop. -/
theorem replaceInvalidLoop_fuel (n : Nat) (s : GoString) (h : s.length ≤ n) :
    replaceInvalidLoop n s = replaceInvalidLoop s.length s := by
  induction n using Nat.strong_induction_on generalizing s with
  | _ n ih =>
    cases s with
    | nil => cases n <;> simp [replaceInvalidLoop]
    | cons c s =>
      cases n with
      | zero => simp at h
      | succ n =>
        have hs : s.length ≤ n := by simpa using h
        have hd := decodeRune_size c s
        have hlen : ((c :: s).drop (decodeRune (c :: s)).2).length ≤ s.length := by
          simp only [List.length_drop, List.length_cons]
          omega
        have e1 : replaceInvalidLoop n s = replaceInvalidLoop s.length s :=
          ih n (Nat.lt_succ_self n) s hs
        have e2 : replaceInvalidLoop n ((c :: s).drop (decodeRune (c :: s)).2)
            = replaceInvalidLoop s.length ((c :: s).drop (decodeRune (c :: s)).2) := by
          rw [ih n (Nat.lt_succ_self n) _ (le_trans hlen hs),
            ih s.length (by omega) _ hlen]
        simp only [replaceInvalidLoop, List.length_cons, e1, e2]

/-- The replacement of invalid bytes, without fuel: the empty string stays
empty. -/
theorem replaceInvalid_nil : replaceInvalid [] = [] := rfl

/-- The replacement of invalid bytes, without fuel: an invalid byte becomes
the three bytes of U+FFFD and the rest is treated from the next byte; a valid
encoding is copied and the rest is treated from the byte after it. -/
theorem replaceInvalid_cons (c : Byte) (s : GoString) :
    replaceInvalid (c :: s) =
      if (decodeRune (c :: s)).1 = RuneError ∧ (decodeRune (c :: s)).2 = 1 then
        [0xEF, 0xBF, 0xBD] ++ replaceInvalid s
      else (c :: s).take (decodeRune (c :: s)).2
        ++ replaceInvalid ((c :: s).drop (decodeRune (c :: s)).2) := by
  have hd := decodeRune_size c s
  have hlen : ((c :: s).drop (decodeRune (c :: s)).2).length ≤ s.length := by
    simp only [List.length_drop, List.length_cons]
    omega
  simp only [replaceInvalid, List.length_cons, replaceInvalidLoop]
  rw [replaceInvalidLoop_fuel s.length _ hlen]

/-! ## Conflict resolution -/

/-- C19: for every stored DataConflict whose status is already `resolved`,
`ResolveConflict` answers with the error status 400 and leaves the metadata
store, and so every field of the stored conflict, unchanged. -/
theorem ResolveConflict_resolved_rejected (env : ResolveEnv) (st : Store) (userID id : Nat)
    (resolution : GoString) (conflict : DataConflict)
    (hfind : st.conflicts.find? (fun c => decide (c.ID = id)) = some conflict)
    (hres : conflict.Status = lit "resolved") :
    ResolveConflict env st userID id resolution = (400, st) := by
  unfold ResolveConflict
  split
  · rfl
  · simp only [hfind, hres, if_true]

/-- A successful resolution stores the loaded record with the four resolution
fields set, the time of resolution being the creation time of the conflict. -/
theorem ResolveConflict_pending (env : ResolveEnv) (st : Store) (userID id : Nat)
    (resolution : GoString) (conflict : DataConflict)
    (hr : resolution = lit "source" ∨ resolution = lit "target")
    (hfind : st.conflicts.find? (fun c => decide (c.ID = id)) = some conflict)
    (hpend : conflict.Status ≠ lit "resolved") (hst : st.failure = none) :
    (ResolveConflict env st userID id resolution).2 =
      { st with
        conflicts := st.conflicts.map (fun c =>
          if c.ID = id then
            { conflict with
              Resolution := resolution, ResolvedBy := some userID,
              Status := lit "resolved", ResolvedAt := some conflict.CreatedAt }
          else c) } := by
  unfold ResolveConflict
  rw [if_neg (not_not.2 hr)]
  simp only [hfind, hpend, if_false, hst]
  split <;> rfl

/-- C20, at the failing input: the pending conflict created at time 1000 is
resolved with `target` by user 7 at time 5000. The stored record gets status
`resolved`, resolution `target` and resolver 7 and keeps its other fields, but
its time of resolution is the creation time 1000 and not the time of the
request. -/
theorem ResolveConflict_resolved_at_is_creation_time :
    ResolveConflict sampleEnv conflictStore 7 1 (lit "target")
        = (200,
            { conflictStore with
              conflicts :=
                [{ pendingConflict with
                   Status := lit "resolved", Resolution := lit "target",
                   ResolvedBy := some 7, ResolvedAt := some ⟨1000, 0⟩ }] }) ∧
      conflictStore.now = ⟨5000, 0⟩ := by
  decide

theorem ResolveConflict_resolved_rejected_witness :
    ResolveConflict sampleEnv
        (ResolveConflict sampleEnv conflictStore 7 1 (lit "target")).2 8 1 (lit "source")
      = (400, (ResolveConflict sampleEnv conflictStore 7 1 (lit "target")).2) :=
  ResolveConflict_resolved_rejected sampleEnv
    (ResolveConflict sampleEnv conflictStore 7 1 (lit "target")).2 8 1 (lit "source")
    { pendingConflict with
      Status := lit "resolved", Resolution := lit "target",
      ResolvedBy := some 7, ResolvedAt := some ⟨1000, 0⟩ }
    (by decide) (by decide)

/-! ## Batch failures -/

/-- C16, at the failing input: the source holds one row, so the only batch is
the final, partial one, and the target rejects its upsert (the table lacks the
column `email`). `syncSingleTable` returns the error of the batch to its
caller, logs nothing and does not run conflict detection: no conflict is
recorded, although `checkConflicts` on the same source and target records
one. -/
theorem final_batch_failure_aborts :
    (syncSingleTable sampleScalars (Except.ok [lit "id"]) (Except.ok usersSource) (lit "mysql") 1
        (lit "users") narrowUsersWorld).1 = Except.error errNoColumn ∧
      (syncSingleTable sampleScalars (Except.ok [lit "id"]) (Except.ok usersSource) (lit "mysql") 1
        (lit "users") narrowUsersWorld).2.store = emptyStore ∧
      (checkConflicts sampleScalars (Except.ok usersSource)
        (Except.ok { columns := [lit "id"], rows := [[Value.int 1]] }) 1 (lit "users")
        [lit "id"] emptyStore).2.conflicts.length = 1 := by
  decide

/-! ## Value normalizer -/

/-- C14: for a byte sequence `b`, `normalizeValue` gives the text `b` itself
when `b` is valid UTF-8, otherwise `binaryToUUID(b)` when `b` has exactly 16
bytes, otherwise the lowercase hexadecimal encoding of `b` (two digits per
byte); nil is returned as nil, and an integer, a floating-point number, a
boolean and a time value are returned unchanged. -/
theorem normalizeValue_bytes_and_others :
    (∀ b : GoString,
        normalizeValue (Value.bytes b) =
          if utf8Valid b then Value.str b
          else if b.length = 16 then Value.str (binaryToUUID b)
          else Value.str (hexEncode b)) ∧
      (∀ b : GoString,
        hexEncode b = b.flatMap (fun x => [hexDigit (x.val / 16), hexDigit (x.val % 16)])) ∧
      normalizeValue Value.null = Value.null ∧
      (∀ i, normalizeValue (Value.int i) = Value.int i) ∧
      (∀ f, normalizeValue (Value.float f) = Value.float f) ∧
      (∀ x, normalizeValue (Value.bool x) = Value.bool x) ∧
      (∀ t, normalizeValue (Value.time t) = Value.time t) := by
  refine ⟨?_, ?_, rfl, fun _ => rfl, fun _ => rfl, fun _ => rfl, fun _ => rfl⟩
  · intro b
    unfold normalizeValue
    by_cases hv : utf8Valid b = true
    · simp only [hv, if_true, ensureUTF8]
      split <;> rfl
    · simp only [hv]
      rfl
  · intro b
    unfold hexEncode
    congr 1
    funext x
    have hx : x.val / 16 < 16 := by omega
    simp only [hexFixed, List.nil_append, List.singleton_append]
    rw [Nat.mod_eq_of_lt hx]

/-- Claim C15. For a string that is not valid UTF-8, `normalizeValue` gives
`binaryToUUID` of its bytes when it has exactly 16 bytes, and otherwise the
string with every invalid byte replaced by U+FFFD and every valid encoding
copied in order (`replaceInvalid`, which obeys its defining equations
whatever the length). For a valid UTF-8 string `ensureUTF8` and
`normalizeValue` give the string itself. -/
theorem normalizeValue_string (s : GoString) :
    (utf8Valid s = false → s.length = 16 →
        normalizeValue (Value.str s) = Value.str (binaryToUUID s)) ∧
      (utf8Valid s = false → s.length ≠ 16 →
        normalizeValue (Value.str s) = Value.str (replaceInvalid s)) ∧
      (utf8Valid s = true → ensureUTF8 s = s ∧ normalizeValue (Value.str s) = Value.str s) ∧
      replaceInvalid [] = [] ∧
      (∀ (c : Byte) (t : GoString), replaceInvalid (c :: t) =
        if (decodeRune (c :: t)).1 = RuneError ∧ (decodeRune (c :: t)).2 = 1 then
          [0xEF, 0xBF, 0xBD] ++ replaceInvalid t
        else (c :: t).take (decodeRune (c :: t)).2
          ++ replaceInvalid ((c :: t).drop (decodeRune (c :: t)).2)) := by
  refine ⟨?_, ?_, ?_, replaceInvalid_nil, replaceInvalid_cons⟩
  · intro hv hl
    simp [normalizeValue, hv, hl]
  · intro hv hl
    simp [normalizeValue, hv, hl, ensureUTF8, replaceInvalid, ensureUTF8Loop_flatMap]
  · intro hv
    exact ⟨(normalizeValue_valid s hv).1, (normalizeValue_valid s hv).2.1⟩

/-- Claim C15 at the strings `a ÿ b` (one invalid byte), sixteen bytes `ÿ`, and
`ab`. -/
theorem normalizeValue_string_witness :
    normalizeValue (Value.str [0x61, 0xFF, 0x62])
        = Value.str [0x61, 0xEF, 0xBF, 0xBD, 0x62] ∧
      normalizeValue (Value.str (List.replicate 16 0xFF))
        = Value.str (lit "ffffffff-ffff-ffff-ffff-ffffffffffff") ∧
      normalizeValue (Value.str (lit "ab")) = Value.str (lit "ab") :=
  ⟨(normalizeValue_string [0x61, 0xFF, 0x62]).2.1 (by decide) (by decide),
    (normalizeValue_string (List.replicate 16 0xFF)).1 (by decide) (by decide),
    ((normalizeValue_string (lit "ab")).2.2.1 (by decide)).2⟩

/-- The loop of `syncSingleTable` hands exactly the full batches of
`splitLoop` to `syncBatch`, in order, and leaves its pending batch. -/
theorem batchStep_foldl (dbType tableName : GoString) (primaryKeys columns : List GoString)
    (taskID : Nat) (rows : List (List Value)) (batch : List Row) (w : World) :
    rows.foldl (batchStep dbType tableName primaryKeys columns taskID) (batch, w)
      = ((splitLoop columns batch rows).2,
          (splitLoop columns batch rows).1.foldl
            (applyFullBatch dbType tableName primaryKeys taskID) w) := by
  induction rows generalizing batch w with
  | nil => rfl
  | cons values rest ih =>
    rw [List.foldl_cons]
    by_cases h : (batch ++ [scanRow columns values]).length ≥ batchSize
    · have hs : batchStep dbType tableName primaryKeys columns taskID (batch, w) values
          = ([], applyFullBatch dbType tableName primaryKeys taskID w
              (batch ++ [scanRow columns values])) := by
        rw [batchStep_eq, applyFullBatch_eq]
        simp only [h, if_true]
        rcases hsb : syncBatch w.target dbType tableName (batch ++ [scanRow columns values])
          primaryKeys with ⟨r, db⟩
        cases r <;> rfl
      rw [hs, ih]
      simp only [splitLoop, h, if_true, List.foldl_cons]
    · have hs : batchStep dbType tableName primaryKeys columns taskID (batch, w) values
          = (batch ++ [scanRow columns values], w) := by
        rw [batchStep_eq]
        simp only [h, if_false]
      rw [hs, ih]
      simp only [splitLoop, h, if_false]

/-- The batches of `splitLoop` hold the pending rows followed by the scanned
rows, in order; each full batch has `batchSize` rows and fewer stay pending. -/
theorem splitLoop_spec (columns : List GoString) (rows : List (List Value)) (batch : List Row)
    (hb : batch.length < batchSize) :
    (splitLoop columns batch rows).1.flatten ++ (splitLoop columns batch rows).2
        = batch ++ rows.map (scanRow columns) ∧
      (∀ b ∈ (splitLoop columns batch rows).1, b.length = batchSize) ∧
      (splitLoop columns batch rows).2.length < batchSize := by
  induction rows generalizing batch with
  | nil => simp [splitLoop, hb]
  | cons values rest ih =>
    by_cases h : (batch ++ [scanRow columns values]).length ≥ batchSize
    · have h0 := ih [] (by decide)
      simp only [splitLoop, h, if_true, List.flatten_cons, List.map_cons, List.mem_cons]
      refine ⟨?_, ?_, h0.2.2⟩
      · rw [List.append_assoc, h0.1]
        simp
      · intro b hb2
        rcases hb2 with rfl | hb2
        · simp only [List.length_append, List.length_singleton] at h ⊢
          omega
        · exact h0.2.1 b hb2
    · have h1 := ih (batch ++ [scanRow columns values]) (by omega)
      simp only [splitLoop, h, if_false, List.map_cons]
      refine ⟨?_, h1.2.1, h1.2.2⟩
      rw [h1.1]
      simp

/-- The loop over the full batches records each of them as handed over. -/
theorem applyFullBatch_foldl_handed (dbType tableName : GoString) (primaryKeys : List GoString)
    (taskID : Nat) (batches : List (List Row)) (w : World) :
    (batches.foldl (applyFullBatch dbType tableName primaryKeys taskID) w).handed
      = w.handed ++ batches := by
  induction batches generalizing w with
  | nil => simp
  | cons b bs ih =>
    rw [List.foldl_cons, ih]
    have h : (applyFullBatch dbType tableName primaryKeys taskID w b).handed
        = w.handed ++ [b] := by
      rw [applyFullBatch_eq]
      rcases syncBatch w.target dbType tableName b primaryKeys with ⟨r, db⟩
      cases r <;> rfl
    rw [h]
    simp

/-- The batches that `syncSingleTable` has passed to `syncBatch` when it
returns: those recorded before the run, then the full batches of the loop and
the pending batch when it is not empty. -/
theorem syncSingleTable_handed (js : JsonScalars) (pks : List GoString) (src : Table)
    (dbType : GoString) (taskID : Nat) (tableName : GoString) (w : World) :
    (syncSingleTable js (Except.ok pks) (Except.ok src) dbType taskID tableName w).2.handed
      = w.handed ++ ((splitLoop src.columns [] src.rows).1 ++
          (if (splitLoop src.columns [] src.rows).2.length > 0
            then [(splitLoop src.columns [] src.rows).2] else [])) := by
  have hw1 : (syncTableStructure w tableName).handed = w.handed := by
    unfold syncTableStructure
    split <;> rfl
  rw [syncSingleTable_eq]
  simp only []
  rw [batchStep_foldl]
  simp only []
  have hh := applyFullBatch_foldl_handed dbType tableName pks taskID
    (splitLoop src.columns [] src.rows).1 (syncTableStructure w tableName)
  rw [hw1] at hh
  by_cases hp : (splitLoop src.columns [] src.rows).2.length > 0
  · simp only [hp, if_true]
    rcases syncBatch _ dbType tableName (splitLoop src.columns [] src.rows).2 pks with ⟨r, db⟩
    cases r <;> simp only [hh, List.append_assoc]
  · simp only [hp, if_false]
    simp only [hh, List.append_nil]

/-- Claim C17. For every source table, the batches that one run of
`syncSingleTable` passes to `syncBatch`, in the order of the calls and
whatever the outcome of each call, are such that: concatenated they are the
normalized source rows in order; every batch but the last has exactly 100
rows; every batch has between 1 and 100 rows, so none is empty. -/
theorem syncSingleTable_batches (js : JsonScalars) (pks : List GoString) (src : Table)
    (dbType : GoString) (taskID : Nat) (tableName : GoString) (w : World) :
    ∃ H : List (List Row),
      (syncSingleTable js (Except.ok pks) (Except.ok src) dbType taskID tableName w).2.handed
          = w.handed ++ H ∧
        H.flatten = src.rows.map (scanRow src.columns) ∧
        (∀ b ∈ H.dropLast, b.length = 100) ∧
        (∀ b ∈ H, 1 ≤ b.length ∧ b.length ≤ 100) := by
  have hs := splitLoop_spec src.columns src.rows [] (by decide)
  have hsz : batchSize = 100 := rfl
  rw [hsz] at hs
  refine ⟨_, syncSingleTable_handed js pks src dbType taskID tableName w, ?_, ?_, ?_⟩
  · have h1 := hs.1
    simp only [List.nil_append] at h1
    rw [← h1]
    split_ifs with hp
    · simp
    · have : (splitLoop src.columns [] src.rows).2 = [] := by
        cases hq : (splitLoop src.columns [] src.rows).2 with
        | nil => rfl
        | cons x xs => simp [hq] at hp
      simp [this]
  · intro b hb
    apply hs.2.1
    split_ifs at hb with hp
    · rw [List.dropLast_concat] at hb
      exact hb
    · rw [List.append_nil] at hb
      exact List.mem_of_mem_dropLast hb
  · intro b hb
    rw [List.mem_append] at hb
    rcases hb with hb | hb
    · have := hs.2.1 b hb
      omega
    · split_ifs at hb with hp
      · rw [List.mem_singleton] at hb
        subst hb
        have := hs.2.2
        omega
      · simp at hb

/-- Joining a non-empty list: the first part, then every further part after
a separator. -/
theorem joinWith_cons (sep : String) (p : GoString) (rest : List GoString) :
    joinWith sep (p :: rest) = p ++ rest.flatMap (fun q => lit sep ++ q) := by
  unfold joinWith
  induction rest generalizing p with
  | nil => simp [List.intercalate]
  | cons q rest ih =>
    have := ih q
    simp only [List.intercalate, List.intersperse_cons₂, List.flatten_cons, List.flatMap_cons]
      at this ⊢
    rw [this]
    simp

/-- The inner loop of the PostgreSQL paths, continued after at least one
column: every further column adds a comma and its placeholder, one argument
and one to `argIndex`. -/
theorem rowPlaceholders_loop (row : Row) (columns : List GoString) (i : Nat) (hi : 0 < i)
    (text : GoString) (args : List Value) (argIndex : Nat) :
    (columns.enumFrom i).foldl
        (fun (acc : GoString × List Value × Nat) (ic : Nat × GoString) =>
          ((if ic.1 > 0 then acc.1 ++ lit "," else acc.1) ++ lit "$" ++ itoaNat acc.2.2,
            acc.2.1 ++ [sanitizeValueForPostgres (row.at ic.2)],
            acc.2.2 + 1))
        (text, args, argIndex)
      = (text ++ (List.range' argIndex columns.length).flatMap
            (fun n => lit "," ++ (lit "$" ++ itoaNat n)),
          args ++ columns.map (fun col => sanitizeValueForPostgres (row.at col)),
          argIndex + columns.length) := by
  induction columns generalizing i text args argIndex with
  | nil => simp
  | cons c cs ih =>
    simp only [List.enumFrom_cons, List.foldl_cons, hi, if_true, List.length_cons,
      List.range'_succ, List.flatMap_cons, List.map_cons]
    rw [ih (i + 1) (Nat.succ_pos i)]
    simp only [List.append_assoc, List.cons_append, List.nil_append, Prod.mk.injEq, true_and]
    omega

/-- The inner loop of the PostgreSQL paths in closed form: the placeholders
`$argIndex`, … joined with commas, one sanitized argument per column, and
`argIndex` advanced by the number of columns. -/
theorem rowPlaceholders_eq (row : Row) (columns : List GoString) (args : List Value)
    (argIndex : Nat) :
    rowPlaceholders row columns args argIndex
      = (joinWith "," ((List.range' argIndex columns.length).map
            (fun n => lit "$" ++ itoaNat n)),
          args ++ columns.map (fun col => sanitizeValueForPostgres (row.at col)),
          argIndex + columns.length) := by
  cases columns with
  | nil => simp [rowPlaceholders, joinWith, List.intercalate]
  | cons c cs =>
    simp only [rowPlaceholders, List.enum, List.enumFrom_cons, List.foldl_cons, lt_irrefl,
      gt_iff_lt, if_false, List.length_cons, List.range'_succ, List.map_cons, joinWith_cons]
    rw [rowPlaceholders_loop row cs 1 Nat.one_pos]
    simp only [List.nil_append, List.append_assoc, List.cons_append, List.flatMap_map,
      List.map_cons, Prod.mk.injEq, true_and, zero_add]
    omega

/-- The loop over the batch of the PostgreSQL paths, from any state: row `i`
adds the clause with the placeholders numbered from `argIndex + i * m`, and its
sanitized cells as arguments. -/
theorem valuesLoop_from (batch : List Row) (columns : List GoString) (st : ValuesState) :
    batch.foldl
        (fun (st : ValuesState) (row : Row) =>
          ({ valuesClauses := st.valuesClauses ++
                [lit "(" ++ (rowPlaceholders row columns st.args st.argIndex).1 ++ lit ")"],
             args := (rowPlaceholders row columns st.args st.argIndex).2.1,
             argIndex := (rowPlaceholders row columns st.args st.argIndex).2.2 } : ValuesState))
        st
      = { valuesClauses := st.valuesClauses ++ (List.range batch.length).map (fun i =>
            lit "(" ++ joinWith "," ((List.range' (st.argIndex + i * columns.length)
              columns.length).map (fun n => lit "$" ++ itoaNat n)) ++ lit ")"),
          args := st.args ++ batch.flatMap (fun row =>
            columns.map (fun col => sanitizeValueForPostgres (row.at col))),
          argIndex := st.argIndex + batch.length * columns.length } := by
  induction batch generalizing st with
  | nil => simp
  | cons row rest ih =>
    rw [List.foldl_cons, ih]
    simp only [rowPlaceholders_eq, List.length_cons, List.range_succ_eq_map, List.map_cons,
      List.map_map, List.flatMap_cons, List.append_assoc, List.cons_append, List.nil_append,
      zero_mul, add_zero]
    congr 1
    · congr 2
      apply List.map_congr_left
      intro i _
      simp only [Function.comp]
      congr 5
      rw [Nat.succ_mul]
      omega
    · rw [Nat.succ_mul]
      omega

/-- The loop over the batch of the PostgreSQL paths in closed form. -/
theorem valuesLoop_eq (batch : List Row) (columns : List GoString) :
    valuesLoop batch columns
      = { valuesClauses := (List.range batch.length).map (fun i =>
            lit "(" ++ joinWith "," ((List.range' (1 + i * columns.length)
              columns.length).map (fun n => lit "$" ++ itoaNat n)) ++ lit ")"),
          args := batch.flatMap (fun row =>
            columns.map (fun col => sanitizeValueForPostgres (row.at col))),
          argIndex := 1 + batch.length * columns.length } := by
  unfold valuesLoop
  rw [valuesLoop_from]
  simp

/-- Position `k` of the concatenation of lists of the same length `m` is
position `k % m` of list `k / m`. -/
theorem flatMap_uniform_getElem? {α β : Type} (f : α → List β) (m : Nat) (xs : List α)
    (hf : ∀ x ∈ xs, (f x).length = m) (k : Nat) (hk : k < xs.length * m) :
    ∃ x, xs[k / m]? = some x ∧ (xs.flatMap f)[k]? = (f x)[k % m]? := by
  induction xs generalizing k with
  | nil => simp at hk
  | cons x rest ih =>
    have hm : 0 < m := by
      rcases Nat.eq_zero_or_pos m with h | h
      · subst h
        simp at hk
      · exact h
    have hx : (f x).length = m := hf x (List.mem_cons_self x rest)
    by_cases hlt : k < m
    · refine ⟨x, ?_, ?_⟩
      · rw [Nat.div_eq_of_lt hlt]
        simp
      · rw [List.flatMap_cons, List.getElem?_append_left (by omega), Nat.mod_eq_of_lt hlt]
    · have hge : m ≤ k := Nat.le_of_not_lt hlt
      have hk2 : k - m < rest.length * m := by
        simp only [List.length_cons, Nat.succ_mul] at hk
        omega
      obtain ⟨y, hy1, hy2⟩ := ih (fun z hz => hf z (List.mem_cons_of_mem x hz)) (k - m) hk2
      have hdiv : k / m = (k - m) / m + 1 := by
        rw [← Nat.add_div_right (k - m) hm, Nat.sub_add_cancel hge]
      have hmod : k % m = (k - m) % m := by
        rw [← Nat.add_mod_right (k - m) m, Nat.sub_add_cancel hge]
      refine ⟨y, ?_, ?_⟩
      · rw [hdiv, List.getElem?_cons_succ]
        exact hy1
      · rw [List.flatMap_cons, List.getElem?_append_right (by omega), hx, hy2, hmod]

/-- Executing a statement records it as received, whatever the outcome. -/
theorem exec_received (db : TargetDB) (stmt : Stmt) :
    (db.exec stmt).2.received = db.received ++ [stmt] := by
  unfold TargetDB.exec
  cases db.table with
  | none => rfl
  | some t =>
    simp only []
    cases applyOp db.primaryKey t stmt.op <;> rfl

/-- Claim C18. For a non-empty batch `syncBatchPostgres` sends one statement:
`INSERT INTO <table> ("c1",…) VALUES` with one parenthesised group per row
holding the placeholders `$(i*m+1)`, …, `$(i*m+m)`, followed by the
`ON CONFLICT (…) DO UPDATE SET "c"=EXCLUDED."c",…` clause when there are
primary keys and by nothing when there are none; it binds `r * m` arguments,
the argument of placeholder `$n` being the sanitized cell of column
`(n-1) % m` in row `(n-1) / m` (counted from 0). -/
theorem syncBatchPostgres_statement (db : TargetDB) (tableName : GoString) (batch : List Row)
    (columns primaryKeys : List GoString) (hb : batch ≠ []) :
    ∃ stmt : Stmt,
      (syncBatchPostgres db tableName batch columns primaryKeys).2.received
          = db.received ++ [stmt] ∧
        stmt.sql =
          (lit "INSERT INTO " ++ tableName ++ lit " ("
              ++ joinWith "," (columns.map (fun col => lit "\"" ++ col ++ lit "\""))
              ++ lit ") VALUES "
              ++ joinWith "," ((List.range batch.length).map (fun i =>
                  lit "(" ++ joinWith "," ((List.range columns.length).map (fun j =>
                    lit "$" ++ itoaNat (i * columns.length + j + 1))) ++ lit ")")))
            ++ (if primaryKeys = [] then []
                else lit " ON CONFLICT ("
                  ++ joinWith "," (primaryKeys.map (fun pk => lit "\"" ++ pk ++ lit "\""))
                  ++ lit ") DO UPDATE SET "
                  ++ joinWith "," (columns.map (fun col =>
                      lit "\"" ++ col ++ lit "\"=EXCLUDED.\"" ++ col ++ lit "\""))) ∧
        stmt.args.length = batch.length * columns.length ∧
        ∀ n, 1 ≤ n → n ≤ batch.length * columns.length →
          ∃ row col, batch[(n - 1) / columns.length]? = some row ∧
            columns[(n - 1) % columns.length]? = some col ∧
            stmt.args[n - 1]? = some (sanitizeValueForPostgres (row.at col)) := by
  have hlen : ¬ batch.length = 0 := by
    intro h
    exact hb (List.length_eq_zero.mp h)
  have hclause : (valuesLoop batch columns).valuesClauses
      = (List.range batch.length).map (fun i =>
          lit "(" ++ joinWith "," ((List.range columns.length).map (fun j =>
            lit "$" ++ itoaNat (i * columns.length + j + 1))) ++ lit ")") := by
    rw [valuesLoop_eq]
    apply List.map_congr_left
    intro i _
    congr 3
    rw [List.range'_eq_map_range, List.map_map]
    apply List.map_congr_left
    intro j _
    simp only [Function.comp]
    congr 2
    omega
  have hargs : (valuesLoop batch columns).args = batch.flatMap (fun row =>
      columns.map (fun col => sanitizeValueForPostgres (row.at col))) := by
    rw [valuesLoop_eq]
  have hal : (valuesLoop batch columns).args.length = batch.length * columns.length := by
    rw [hargs]
    clear hb hlen hclause hargs
    induction batch with
    | nil => simp
    | cons row rest ih =>
      rw [List.flatMap_cons, List.length_append, ih, List.length_map, List.length_cons,
        Nat.succ_mul]
      omega
  have hget : ∀ n, 1 ≤ n → n ≤ batch.length * columns.length →
      ∃ row col, batch[(n - 1) / columns.length]? = some row ∧
        columns[(n - 1) % columns.length]? = some col ∧
        (valuesLoop batch columns).args[n - 1]?
          = some (sanitizeValueForPostgres (row.at col)) := by
    intro n h1 h2
    have hm : 0 < columns.length := by
      rcases Nat.eq_zero_or_pos columns.length with h | h
      · rw [h] at h2
        omega
      · exact h
    obtain ⟨row, hr1, hr2⟩ := flatMap_uniform_getElem?
      (fun row : Row => columns.map (fun col => sanitizeValueForPostgres (row.at col)))
      columns.length batch (fun _ _ => List.length_map _ _) (n - 1) (by omega)
    have hlt : (n - 1) % columns.length < columns.length := Nat.mod_lt _ hm
    refine ⟨row, columns[(n - 1) % columns.length], hr1, List.getElem?_eq_getElem hlt, ?_⟩
    rw [hargs, hr2, List.getElem?_map, List.getElem?_eq_getElem hlt]
    rfl
  by_cases hpk : primaryKeys = []
  · subst hpk
    refine ⟨⟨?stmtSql, (valuesLoop batch columns).args, ?stmtOp⟩, ?hrecv, ?hsql, hal, hget⟩
    case hrecv =>
      simp only [syncBatchPostgres, hlen, if_false, List.length_nil, if_true,
        syncBatchPostgresSimpleInsert]
      exact exec_received _ _
    case hsql => simp only [if_true, List.append_nil, hclause]
  · have hpl : ¬ primaryKeys.length = 0 := by
      intro h
      exact hpk (List.length_eq_zero.mp h)
    refine ⟨⟨?upsertSql, (valuesLoop batch columns).args, ?upsertOp⟩, ?hrecv2, ?hsql2, hal, hget⟩
    case hrecv2 =>
      simp only [syncBatchPostgres, hlen, if_false, hpl]
      exact exec_received _ _
    case hsql2 => simp only [hpk, if_false, hclause, List.append_assoc]

/-- Claim C18 at a batch of two rows over `id`, `email` with primary key `id`:
the statement text and its four arguments. -/
theorem syncBatchPostgres_statement_witness :
    ∃ stmt : Stmt,
      (syncBatchPostgres usersWorld.target (lit "users") twoRowBatch [lit "id", lit "email"]
          [lit "id"]).2.received = [stmt] ∧
        stmt.sql = lit ("INSERT INTO users (\"id\",\"email\") VALUES ($1,$2),($3,$4)"
          ++ " ON CONFLICT (\"id\") DO UPDATE SET"
          ++ " \"id\"=EXCLUDED.\"id\",\"email\"=EXCLUDED.\"email\"") ∧
        stmt.args.length = 4 ∧
        stmt.args[2]? = some (Value.int 2) := by
  obtain ⟨stmt, h1, h2, h3, h4⟩ := syncBatchPostgres_statement usersWorld.target (lit "users")
    twoRowBatch [lit "id", lit "email"] [lit "id"] (by decide)
  obtain ⟨row, col, hr, hc, ha⟩ := h4 3 (by decide) (by decide)
  have hr2 : row = scanRow [lit "id", lit "email"] [Value.int 2, Value.str (lit "b@x.com")] :=
    (Option.some.inj hr).symm
  have hc2 : col = lit "id" := (Option.some.inj hc).symm
  subst hr2
  subst hc2
  exact ⟨stmt, h1, h2.trans (by decide), h3, ha.trans (by decide)⟩

/-! ## The primary-key encoding determines plain key values -/

/-- One round of the loop of `utf8.ValidString`. -/
theorem utf8ValidLoop_cons (m : Nat) (c : Byte) (s : GoString)
    (h : utf8ValidLoop (m + 1) (c :: s) = true) :
    ¬ ((decodeRune (c :: s)).1 = RuneError ∧ (decodeRune (c :: s)).2 = 1) ∧
      utf8ValidLoop m ((c :: s).drop (decodeRune (c :: s)).2) = true := by
  simp only [utf8ValidLoop] at h
  by_cases hd : (decodeRune (c :: s)).1 = RuneError ∧ (decodeRune (c :: s)).2 = 1
  · rw [if_pos hd] at h
    cases h
  · rw [if_neg hd] at h
    exact ⟨hd, h⟩

/-- The reader copies a byte that is neither a quote nor a backslash. -/
theorem jsonUnquote_copy (b : Byte) (t : GoString) (h1 : b.val ≠ 34) (h2 : b.val ≠ 92) :
    jsonUnquote (b :: t) = (jsonUnquote t).map (fun r => (b :: r.1, r.2)) := by
  rw [jsonUnquote.eq_def]
  simp only [h1, h2, if_false]

/-- The reader stops at a quote. -/
theorem jsonUnquote_quote (b : Byte) (t : GoString) (h1 : b.val = 34) :
    jsonUnquote (b :: t) = some ([], t) := by
  rw [jsonUnquote.eq_def]
  simp only [h1, if_true]

/-- The reader on a one-letter escape. -/
theorem jsonUnquote_letter (b e : Byte) (t : GoString) (h1 : b.val = 92) (h2 : e.val ≠ 117) :
    jsonUnquote (b :: e :: t) = (jsonUnquote t).map (fun r => (unescapeLetter e :: r.1, r.2)) := by
  rw [jsonUnquote.eq_def]
  simp [h1, h2]

/-- The reader on an escape with four hexadecimal digits. -/
theorem jsonUnquote_unicode (b e h1 h2 h3 h4 : Byte) (t : GoString) (x1 x2 x3 x4 : Nat)
    (hb : b.val = 92) (he : e.val = 117)
    (e1 : fromHexChar h1 = some x1) (e2 : fromHexChar h2 = some x2)
    (e3 : fromHexChar h3 = some x3) (e4 : fromHexChar h4 = some x4) :
    jsonUnquote (b :: e :: h1 :: h2 :: h3 :: h4 :: t) = (jsonUnquote t).map (fun r =>
      (unescapeUnicode (x1 * 4096 + x2 * 256 + x3 * 16 + x4) ++ r.1, r.2)) := by
  rw [jsonUnquote.eq_def]
  simp [hb, he, e1, e2, e3, e4]

/-- The reader undoes `jsonEscape`. -/
theorem jsonUnquote_escape (b : Byte) (t : GoString) (hb : b.val < 0x80) :
    jsonUnquote (jsonEscape b ++ t) = (jsonUnquote t).map (fun r => (b :: r.1, r.2)) := by
  unfold jsonEscape
  split_ifs with h1 h2 h3 h4 h5 h6
  · have e2 : unescapeLetter b = b := by
      unfold unescapeLetter
      rw [if_neg (by omega), if_neg (by omega), if_neg (by omega), if_neg (by omega),
        if_neg (by omega)]
    show jsonUnquote ((92 : Byte) :: b :: t) = _
    rw [jsonUnquote_letter 92 b t rfl (by omega), e2]
  · have : b = 8 := Fin.ext h2
    subst this
    exact jsonUnquote_letter 92 98 t rfl (by decide)
  · have : b = 12 := Fin.ext h3
    subst this
    exact jsonUnquote_letter 92 102 t rfl (by decide)
  · have : b = 10 := Fin.ext h4
    subst this
    exact jsonUnquote_letter 92 110 t rfl (by decide)
  · have : b = 13 := Fin.ext h5
    subst this
    exact jsonUnquote_letter 92 114 t rfl (by decide)
  · have : b = 9 := Fin.ext h6
    subst this
    exact jsonUnquote_letter 92 116 t rfl (by decide)
  · have hq : b.val / 16 < 16 := by omega
    have hr : b.val % 16 < 16 := Nat.mod_lt _ (by decide)
    have h0 : fromHexChar (48 : Byte) = some 0 := by decide
    have hb2 : byteOf (b.val / 16 * 16 + b.val % 16) = b := by
      apply Fin.ext
      simp only [byteOf]
      omega
    have hlt : b.val / 16 * 16 + b.val % 16 < 128 := by omega
    show jsonUnquote ((92 : Byte) :: 117 :: 48 :: 48 :: hexDigit (b.val / 16)
      :: hexDigit (b.val % 16) :: t) = _
    rw [jsonUnquote_unicode 92 117 48 48 _ _ t 0 0 _ _ rfl rfl h0 h0
      (fromHexChar_hexDigit _ hq) (fromHexChar_hexDigit _ hr)]
    simp only [unescapeUnicode, hlt, if_true, zero_mul, zero_add, hb2, List.singleton_append]

/-- The reader undoes `jsonStringLoop` on valid UTF-8: reading the body of a
JSON string followed by the closing quote gives back the string and the text
after the quote. -/
theorem jsonUnquote_loop (t : GoString) (n m : Nat) (s : GoString) (hn : s.length ≤ n)
    (hm : s.length ≤ m) (hv : utf8ValidLoop m s = true) :
    jsonUnquote (jsonStringLoop n s ++ 34 :: t) = some (s, t) := by
  induction n generalizing m s with
  | zero =>
    have : s = [] := List.length_eq_zero.mp (Nat.le_zero.mp hn)
    subst this
    exact jsonUnquote_quote 34 t rfl
  | succ n ih =>
    cases s with
    | nil => exact jsonUnquote_quote 34 t rfl
    | cons b r =>
      cases m with
      | zero => simp at hm
      | succ m =>
        have hr : r.length ≤ n := by simpa using hn
        have hr2 : r.length ≤ m := by simpa using hm
        obtain ⟨hd, hrest⟩ := utf8ValidLoop_cons m b r hv
        have hsz := decodeRune_size b r
        have hdl : ((b :: r).drop (decodeRune (b :: r)).2).length ≤ r.length := by
          simp only [List.length_drop, List.length_cons]
          omega
        have ihd := ih m _ (le_trans hdl hr) (le_trans hdl hr2) hrest
        by_cases hb : b.val < 0x80
        · have hd1 : (decodeRune (b :: r)).2 = 1 := by rw [decodeRune_ascii b r hb]
          rw [hd1] at ihd
          simp only [List.drop_succ_cons, List.drop_zero] at ihd
          simp only [jsonStringLoop, hb, if_true]
          by_cases hs : htmlSafe b = true
          · simp only [htmlSafe, decide_eq_true_eq] at hs
            simp only [htmlSafe, hs, and_self, decide_True, if_true, ne_eq, not_false_eq_true,
              List.singleton_append, List.cons_append, List.nil_append]
            rw [jsonUnquote_copy b _ (by omega) (by omega), ihd]
            rfl
          · have hs2 : htmlSafe b = false := by simpa using hs
            simp only [hs2, Bool.false_eq_true, if_false, List.append_assoc]
            rw [jsonUnquote_escape b _ hb, ihd]
            rfl
        · simp only [jsonStringLoop, hb, if_false, hd]
          by_cases h28 : (decodeRune (b :: r)).1 = 0x2028 ∨ (decodeRune (b :: r)).1 = 0x2029
          · simp only [h28, if_true, List.append_assoc]
            have hx : fromHexChar (hexDigit ((decodeRune (b :: r)).1 % 16))
                = some ((decodeRune (b :: r)).1 % 16) :=
              fromHexChar_hexDigit _ (Nat.mod_lt _ (by decide))
            have h0 : fromHexChar (48 : Byte) = some 0 := by decide
            have h2 : fromHexChar (50 : Byte) = some 2 := by decide
            show jsonUnquote ((92 : Byte) :: 117 :: 50 :: 48 :: 50
              :: hexDigit ((decodeRune (b :: r)).1 % 16) :: _) = _
            rw [jsonUnquote_unicode 92 117 50 48 50 _ _ 2 0 2 _ rfl rfl h2 h0 h2 hx]
            show Option.map _ (jsonUnquote (jsonStringLoop n _ ++ 34 :: t)) = _
            rw [ihd]
            have hval : 2 * 4096 + 0 * 256 + 2 * 16 + (decodeRune (b :: r)).1 % 16
                = (decodeRune (b :: r)).1 := by
              rcases h28 with h | h <;> rw [h]
            have hge : ¬ (decodeRune (b :: r)).1 < 0x80 := by
              rcases h28 with h | h <;> rw [h] <;> decide
            simp only [Option.map_some', hval, unescapeUnicode, hge, if_false,
              encodeRune_decodeRune b r hd, List.take_append_drop]
          · simp only [h28, if_false, List.append_assoc]
            have hcopy : ∀ (l : GoString) (x : GoString), (∀ y ∈ l, 0x80 ≤ y.val) →
                jsonUnquote (l ++ x) = (jsonUnquote x).map (fun q => (l ++ q.1, q.2)) := by
              intro l x hl
              induction l with
              | nil => simp
              | cons y l ihl =>
                have hy := hl y (List.mem_cons_self y l)
                rw [List.cons_append, jsonUnquote_copy y _ (by omega) (by omega),
                  ihl (fun z hz => hl z (List.mem_cons_of_mem y hz))]
                cases jsonUnquote x <;> rfl
            have hhigh : ∀ y ∈ (b :: r).take (decodeRune (b :: r)).2, 0x80 ≤ y.val := by
              rcases decodeRune_cases b r with h0 | ⟨h1, _⟩ | ⟨s1, t1, rfl, _, _, _, _, h0⟩ |
                ⟨s1, s2, t1, rfl, _, _, a3, _, _, _, h0⟩ |
                ⟨s1, s2, s3, t1, rfl, _, _, a3, _, _, _, _, _, h0⟩
              · rw [h0] at hd
                exact absurd ⟨rfl, rfl⟩ hd
              · exact absurd h1 hb
              · rw [h0]
                intro y hy
                simp only [List.take_succ_cons, List.take_zero, List.mem_cons,
                  List.mem_nil_iff, or_false] at hy
                rcases hy with rfl | rfl <;> omega
              · rw [h0]
                intro y hy
                simp only [List.take_succ_cons, List.take_zero, List.mem_cons,
                  List.mem_nil_iff, or_false] at hy
                rcases hy with rfl | rfl | rfl
                · omega
                · split_ifs at a3 <;> omega
                · omega
              · rw [h0]
                intro y hy
                simp only [List.take_succ_cons, List.take_zero, List.mem_cons,
                  List.mem_nil_iff, or_false] at hy
                rcases hy with rfl | rfl | rfl | rfl
                · omega
                · split_ifs at a3 <;> omega
                · omega
                · omega
            rw [hcopy _ _ hhigh, ihd]
            simp only [Option.map_some', List.take_append_drop]

/-- Reading a JSON string written for valid UTF-8 gives the string back. -/
theorem jsonUnquote_jsonString (s t : GoString) (hv : utf8Valid s = true) :
    ∃ body, jsonString s ++ t = 34 :: body ∧ jsonUnquote body = some (s, t) :=
  ⟨jsonStringLoop s.length s ++ 34 :: t, by simp [jsonString],
    jsonUnquote_loop t s.length s.length s (le_refl _) (le_refl _) hv⟩

/-- Two JSON strings written for valid UTF-8, each followed by some text, are
equal only if the strings and the texts are. -/
theorem jsonString_append_inj (a b x y : GoString) (ha : utf8Valid a = true)
    (hb : utf8Valid b = true) (h : jsonString a ++ x = jsonString b ++ y) : a = b ∧ x = y := by
  obtain ⟨b1, e1, r1⟩ := jsonUnquote_jsonString a x ha
  obtain ⟨b2, e2, r2⟩ := jsonUnquote_jsonString b y hb
  rw [e1, e2] at h
  have hb12 : b1 = b2 := (List.cons.inj h).2
  rw [hb12, r2] at r1
  have := Option.some.inj r1
  exact ⟨(Prod.mk.inj this).1.symm, (Prod.mk.inj this).2.symm⟩

/-- The byte of a decimal digit character. -/
theorem byteOf_digitChar (k : Nat) (h : k < 10) :
    byteOf (Nat.digitChar k).toNat = byteOf (48 + k) := by
  interval_cases k <;> rfl

/-- Reading one digit. -/
theorem readNat_digit (acc k : Nat) (h : k < 10) (t : GoString) :
    readNat acc (byteOf (Nat.digitChar k).toNat :: t) = readNat (acc * 10 + k) t := by
  rw [byteOf_digitChar k h]
  have hv : (byteOf (48 + k)).val = 48 + k := by
    simp only [byteOf]
    omega
  have hd : isDigitByte (byteOf (48 + k)) = true := by
    simp only [isDigitByte, hv, decide_eq_true_eq]
    omega
  rw [readNat, if_pos hd, hv]
  congr 2
  omega

/-- Reading the digits written by `Nat.toDigitsCore` from 0 leaves the number
written as the accumulator. -/
theorem readNat_toDigitsCore (fuel n : Nat) (ds : List Char) (rest : GoString) (h : n < fuel) :
    readNat 0 ((Nat.toDigitsCore 10 fuel n ds).map (fun c => byteOf c.toNat) ++ rest)
      = readNat n (ds.map (fun c => byteOf c.toNat) ++ rest) := by
  induction fuel generalizing n ds with
  | zero => omega
  | succ fuel ih =>
    have hmod : n % 10 < 10 := Nat.mod_lt _ (by decide)
    by_cases hz : n / 10 = 0
    · simp only [Nat.toDigitsCore, hz, if_true, List.map_cons, List.cons_append]
      rw [readNat_digit 0 _ hmod]
      congr 1
      omega
    · simp only [Nat.toDigitsCore, hz, if_false]
      rw [ih (n / 10) _ (by omega), List.map_cons, List.cons_append, readNat_digit _ _ hmod]
      congr 1
      omega

/-- The text written by `Nat.toDigitsCore` before digits starts with a digit. -/
theorem toDigitsCore_head (fuel n : Nat) (ds : List Char)
    (h : ∃ b r, ds.map (fun c => byteOf c.toNat) = b :: r ∧ isDigitByte b = true) :
    ∃ b r, (Nat.toDigitsCore 10 fuel n ds).map (fun c => byteOf c.toNat) = b :: r ∧
      isDigitByte b = true := by
  induction fuel generalizing n ds with
  | zero => exact h
  | succ fuel ih =>
    have hmod : n % 10 < 10 := Nat.mod_lt _ (by decide)
    have hd : ∃ b r, ((Nat.digitChar (n % 10)) :: ds).map (fun c => byteOf c.toNat) = b :: r ∧
        isDigitByte b = true := by
      refine ⟨_, _, List.map_cons _ _ _, ?_⟩
      rw [byteOf_digitChar _ hmod]
      have hv : (byteOf (48 + n % 10)).val = 48 + n % 10 := by
        simp only [byteOf]
        omega
      simp only [isDigitByte, hv, decide_eq_true_eq]
      omega
    by_cases hz : n / 10 = 0
    · simp only [Nat.toDigitsCore, hz, if_true]
      exact hd
    · simp only [Nat.toDigitsCore, hz, if_false]
      exact ih _ _ hd

/-- The decimal text of a number starts with a digit. -/
theorem itoaNat_head (n : Nat) : ∃ b r, itoaNat n = b :: r ∧ isDigitByte b = true := by
  unfold itoaNat Nat.toDigits
  have hmod : n % 10 < 10 := Nat.mod_lt _ (by decide)
  have hd : ∃ b r, [Nat.digitChar (n % 10)].map (fun c => byteOf c.toNat) = b :: r ∧
      isDigitByte b = true := by
    refine ⟨_, _, List.map_cons _ _ _, ?_⟩
    rw [byteOf_digitChar _ hmod]
    have hv : (byteOf (48 + n % 10)).val = 48 + n % 10 := by
      simp only [byteOf]
      omega
    simp only [isDigitByte, hv, decide_eq_true_eq]
    omega
  by_cases hz : n / 10 = 0
  · simp only [Nat.toDigitsCore, hz, if_true]
    exact hd
  · simp only [Nat.toDigitsCore, hz, if_false]
    exact toDigitsCore_head _ _ _ hd

/-- Reading the decimal text of a number, followed by text that does not start
with a digit, gives the number and that text. -/
theorem readNat_itoaNat (n : Nat) (t : GoString)
    (ht : ∀ b r, t = b :: r → isDigitByte b = false) : readNat 0 (itoaNat n ++ t) = (n, t) := by
  unfold itoaNat Nat.toDigits
  rw [readNat_toDigitsCore (n + 1) n [] t (Nat.lt_succ_self n)]
  simp only [List.map_nil, List.nil_append]
  cases t with
  | nil => rfl
  | cons b r => rw [readNat, ht b r rfl]; rfl

/-- The JSON text of a plain value, followed by text that does not start with
a digit, reads back as the value and that text. -/
theorem readValue_jsonValue (js : JsonScalars) (v : Value) (t : GoString)
    (hv : v.plain = true) (ht : ∀ b r, t = b :: r → isDigitByte b = false) :
    ∃ e, jsonValue js v = some e ∧ readValue (e ++ t) = some (v, t) := by
  cases v with
  | null => exact ⟨_, rfl, rfl⟩
  | bool b =>
    cases b
    · exact ⟨_, rfl, rfl⟩
    · exact ⟨_, rfl, rfl⟩
  | int i =>
    refine ⟨_, rfl, ?_⟩
    cases i with
    | ofNat n =>
      obtain ⟨b, r, hb, hd⟩ := itoaNat_head n
      have hr := readNat_itoaNat n t ht
      simp only [itoa]
      rw [hb] at hr ⊢
      simp only [isDigitByte, decide_eq_true_eq] at hd
      rw [List.cons_append, readValue, if_neg (by omega), if_neg (by omega), if_neg (by omega),
        if_neg (by omega), if_neg (by omega)]
      rw [List.cons_append] at hr
      rw [hr]
      rfl
    | negSucc n =>
      have hr := readNat_itoaNat (n + 1) t ht
      simp only [itoa]
      rw [List.cons_append, readValue, if_neg (by decide), if_neg (by decide),
        if_neg (by decide), if_neg (by decide), if_pos (by decide), hr]
      rfl
  | str s =>
    refine ⟨_, rfl, ?_⟩
    obtain ⟨body, e1, e2⟩ := jsonUnquote_jsonString s t hv
    rw [e1, readValue, if_pos (by decide), e2]
    rfl
  | float f => cases hv
  | bytes b => cases hv
  | time x => cases hv

/-- The JSON texts of two plain values, each followed by text that does not
start with a digit, are equal only if the values and the texts are. -/
theorem jsonValue_append_inj (js : JsonScalars) (v1 v2 : Value) (e1 e2 t1 t2 : GoString)
    (h1 : v1.plain = true) (h2 : v2.plain = true)
    (ht1 : ∀ b r, t1 = b :: r → isDigitByte b = false)
    (ht2 : ∀ b r, t2 = b :: r → isDigitByte b = false)
    (he1 : jsonValue js v1 = some e1) (he2 : jsonValue js v2 = some e2)
    (h : e1 ++ t1 = e2 ++ t2) : v1 = v2 ∧ t1 = t2 := by
  obtain ⟨x1, hx1, r1⟩ := readValue_jsonValue js v1 t1 h1 ht1
  obtain ⟨x2, hx2, r2⟩ := readValue_jsonValue js v2 t2 h2 ht2
  rw [he1] at hx1
  rw [he2] at hx2
  have q1 := Option.some.inj hx1
  have q2 := Option.some.inj hx2
  subst q1
  subst q2
  rw [h, r2] at r1
  have := Option.some.inj r1
  exact ⟨(Prod.mk.inj this).1.symm, (Prod.mk.inj this).2.symm⟩

/-- The members of a non-empty key list: the member of the first key, then
the members of the others. -/
theorem jsonMembers_cons_some (js : JsonScalars) (m : Row) (k : GoString) (ks : List GoString)
    (M : List GoString) (h : jsonMembers js m (k :: ks) = some M) :
    ∃ e M', jsonValue js (m.at k) = some e ∧ jsonMembers js m ks = some M' ∧
      M = (jsonString k ++ [58] ++ e) :: M' := by
  simp only [jsonMembers] at h
  unfold Row.at
  cases he : jsonValue js ((GoMap.get? m k).getD Value.null) with
  | none => simp [he] at h
  | some e =>
    cases hm : jsonMembers js m ks with
    | none => simp [he, hm] at h
    | some M' =>
      simp only [he, hm, Option.some.injEq] at h
      exact ⟨e, M', rfl, rfl, h.symm⟩

/-- Plain values can all be written. -/
theorem jsonMembers_plain (js : JsonScalars) (m : Row) (ks : List GoString)
    (h : ∀ k ∈ ks, (m.at k).plain = true) : ∃ M, jsonMembers js m ks = some M := by
  induction ks with
  | nil => exact ⟨[], rfl⟩
  | cons k ks ih =>
    obtain ⟨M, hM⟩ := ih (fun x hx => h x (List.mem_cons_of_mem k hx))
    obtain ⟨e, he, _⟩ := readValue_jsonValue js (m.at k) [] (h k (List.mem_cons_self k ks))
      (fun _ _ hn => by cases hn)
    unfold Row.at at he
    exact ⟨(jsonString k ++ [58] ++ e) :: M, by simp only [jsonMembers, he, hM]⟩

/-- The text after a member does not start with a digit. -/
theorem membersRest_head (M : List GoString) (b : Byte) (r : GoString)
    (h : M.flatMap (fun x => 44 :: x) ++ [125] = b :: r) : isDigitByte b = false := by
  cases M with
  | nil =>
    simp only [List.flatMap_nil, List.nil_append] at h
    rw [← (List.cons.inj h).1]
    rfl
  | cons x M =>
    simp only [List.flatMap_cons, List.cons_append] at h
    rw [← (List.cons.inj h).1]
    rfl

/-- Two lists of members of plain values under valid UTF-8 keys with the same
text have the same keys and the same values. -/
theorem jsonMembers_inj (js : JsonScalars) (m1 m2 : Row) (K1 K2 : List GoString)
    (M1 M2 : List GoString)
    (h1 : ∀ k ∈ K1, utf8Valid k = true ∧ (m1.at k).plain = true)
    (h2 : ∀ k ∈ K2, utf8Valid k = true ∧ (m2.at k).plain = true)
    (e1 : jsonMembers js m1 K1 = some M1) (e2 : jsonMembers js m2 K2 = some M2)
    (h : M1.flatMap (fun x => 44 :: x) ++ [125] = M2.flatMap (fun x => 44 :: x) ++ [125]) :
    K1 = K2 ∧ ∀ k ∈ K1, m1.at k = m2.at k := by
  induction K1 generalizing K2 M1 M2 with
  | nil =>
    cases K2 with
    | nil => exact ⟨rfl, fun _ hk => by cases hk⟩
    | cons k2 ks2 =>
      obtain ⟨x2, M2', _, _, hM2⟩ := jsonMembers_cons_some js m2 k2 ks2 M2 e2
      simp only [jsonMembers, Option.some.injEq] at e1
      subst hM2
      subst e1
      simp at h
  | cons k1 ks1 ih =>
    obtain ⟨x1, M1', hx1, hM1', hM1⟩ := jsonMembers_cons_some js m1 k1 ks1 M1 e1
    subst hM1
    cases K2 with
    | nil =>
      simp only [jsonMembers, Option.some.injEq] at e2
      subst e2
      simp at h
    | cons k2 ks2 =>
      obtain ⟨x2, M2', hx2, hM2', hM2⟩ := jsonMembers_cons_some js m2 k2 ks2 M2 e2
      subst hM2
      simp only [List.flatMap_cons, List.cons_append, List.append_assoc, List.cons.injEq,
        true_and, List.nil_append] at h
      have q1 := h1 k1 (List.mem_cons_self k1 ks1)
      have q2 := h2 k2 (List.mem_cons_self k2 ks2)
      obtain ⟨hk, hrest⟩ := jsonString_append_inj k1 k2 _ _ q1.1 q2.1 h
      subst hk
      have hrest2 := (List.cons.inj hrest).2
      obtain ⟨hv, ht⟩ := jsonValue_append_inj js (m1.at k1) (m2.at k1) x1 x2 _ _ q1.2 q2.2
        (membersRest_head M1') (membersRest_head M2') hx1 hx2 hrest2
      obtain ⟨hks, hvals⟩ := ih ks2 M1' M2'
        (fun k hk => h1 k (List.mem_cons_of_mem k1 hk))
        (fun k hk => h2 k (List.mem_cons_of_mem k1 hk)) hM1' hM2' ht
      refine ⟨by rw [hks], ?_⟩
      intro k hk
      rcases List.mem_cons.mp hk with rfl | hk
      · exact hv
      · exact hvals k hk

/-- Joining a non-empty list: the first part, then every further part after
a separator. -/
theorem intercalate_cons (sep p : GoString) (rest : List GoString) :
    sep.intercalate (p :: rest) = p ++ rest.flatMap (fun q => sep ++ q) := by
  induction rest generalizing p with
  | nil => simp [List.intercalate]
  | cons q rest ih =>
    have := ih q
    simp only [List.intercalate, List.intersperse_cons₂, List.flatten_cons, List.flatMap_cons]
      at this ⊢
    rw [this]
    simp

/-- Two maps of plain values under valid UTF-8 keys with the same JSON text
have the same sorted keys and the same values. -/
theorem jsonText_inj (js : JsonScalars) (m1 m2 : Row)
    (h1 : ∀ k ∈ m1.map Prod.fst, utf8Valid k = true ∧ (m1.at k).plain = true)
    (h2 : ∀ k ∈ m2.map Prod.fst, utf8Valid k = true ∧ (m2.at k).plain = true)
    (h : jsonText js m1 = jsonText js m2) :
    (m1.map Prod.fst).insertionSort (fun a b => bytesLe a b = true)
        = (m2.map Prod.fst).insertionSort (fun a b => bytesLe a b = true) ∧
      ∀ k ∈ m1.map Prod.fst, m1.at k = m2.at k := by
  have p1 : ∀ k ∈ (m1.map Prod.fst).insertionSort (fun a b => bytesLe a b = true),
      utf8Valid k = true ∧ (m1.at k).plain = true :=
    fun k hk => h1 k ((List.perm_insertionSort _ _).mem_iff.mp hk)
  have p2 : ∀ k ∈ (m2.map Prod.fst).insertionSort (fun a b => bytesLe a b = true),
      utf8Valid k = true ∧ (m2.at k).plain = true :=
    fun k hk => h2 k ((List.perm_insertionSort _ _).mem_iff.mp hk)
  obtain ⟨M1, e1⟩ := jsonMembers_plain js m1 _ (fun k hk => (p1 k hk).2)
  obtain ⟨M2, e2⟩ := jsonMembers_plain js m2 _ (fun k hk => (p2 k hk).2)
  have hR : M1.flatMap (fun x => 44 :: x) ++ [125] = M2.flatMap (fun x => 44 :: x) ++ [125] := by
    simp only [jsonText, jsonMarshal, e1, e2, Option.map_some', Option.getD_some,
      List.singleton_append, List.cons.injEq, true_and] at h
    cases M1 with
    | nil =>
      cases M2 with
      | nil => rfl
      | cons y M2 =>
        exfalso
        obtain ⟨k2, ks2, hK2⟩ : ∃ k2 ks2, (m2.map Prod.fst).insertionSort
            (fun a b => bytesLe a b = true) = k2 :: ks2 := by
          cases hK : (m2.map Prod.fst).insertionSort (fun a b => bytesLe a b = true) with
          | nil => rw [hK] at e2; cases e2
          | cons k2 ks2 => exact ⟨k2, ks2, rfl⟩
        rw [hK2] at e2
        obtain ⟨x2, M2', _, _, hM2⟩ := jsonMembers_cons_some js m2 k2 ks2 _ e2
        rw [hM2, intercalate_cons] at h
        simp [List.intercalate, jsonString] at h
    | cons x M1 =>
      cases M2 with
      | nil =>
        exfalso
        obtain ⟨k1, ks1, hK1⟩ : ∃ k1 ks1, (m1.map Prod.fst).insertionSort
            (fun a b => bytesLe a b = true) = k1 :: ks1 := by
          cases hK : (m1.map Prod.fst).insertionSort (fun a b => bytesLe a b = true) with
          | nil => rw [hK] at e1; cases e1
          | cons k1 ks1 => exact ⟨k1, ks1, rfl⟩
        rw [hK1] at e1
        obtain ⟨x1, M1', _, _, hM1⟩ := jsonMembers_cons_some js m1 k1 ks1 _ e1
        rw [hM1, intercalate_cons] at h
        simp [List.intercalate, jsonString] at h
      | cons y M2 =>
        rw [intercalate_cons, intercalate_cons] at h
        simp only [List.flatMap_cons, List.cons_append, List.append_assoc, List.cons.injEq,
          true_and, List.singleton_append] at h ⊢
        exact h
  obtain ⟨hK, hv⟩ := jsonMembers_inj js m1 m2 _ _ M1 M2 p1 p2 e1 e2 hR
  exact ⟨hK, fun k hk => hv k ((List.perm_insertionSort _ _).mem_iff.mpr hk)⟩

/-- Rows that agree on every primary-key column get the same encoding. -/
theorem buildPrimaryKeyValue_congr_on (js : JsonScalars) (r1 r2 : Row) (pks : List GoString)
    (h : ∀ k ∈ pks, GoMap.get? r1 k = GoMap.get? r2 k) :
    buildPrimaryKeyValue js r1 pks = buildPrimaryKeyValue js r2 pks := by
  unfold buildPrimaryKeyValue
  apply jsonText_congr
  · apply (List.perm_ext_iff_of_nodup (pkMap_nodup r1 pks [] List.nodup_nil)
      (pkMap_nodup r2 pks [] List.nodup_nil)).2
    intro k
    rw [pkMap_mem_keys, pkMap_mem_keys]
    constructor
    · rintro ⟨hk, hs⟩
      exact ⟨hk, by rw [← h k hk]; exact hs⟩
    · rintro ⟨hk, hs⟩
      exact ⟨hk, by rw [h k hk]; exact hs⟩
  · intro k
    rw [pkMap_get?, pkMap_get?]
    by_cases hk : k ∈ pks
    · rw [h k hk]
    · simp [hk]

/-- The value that the key map of `buildPrimaryKeyValue` holds under one of
its keys is the value of the row. -/
theorem pkMap_at (row : Row) (pks : List GoString) (k : GoString)
    (hk : k ∈ (pks.foldl (pkMapStep row) []).map Prod.fst) :
    k ∈ pks ∧ (GoMap.get? row k).isSome = true ∧
      Row.at (pks.foldl (pkMapStep row) []) k = row.at k := by
  have h := (pkMap_mem_keys row pks k).mp hk
  refine ⟨h.1, h.2, ?_⟩
  unfold Row.at
  rw [pkMap_get?, if_pos h]

/-- Claim C11, amended. Rows that agree on every primary-key column get the
same encoding. Conversely, when the primary-key column names are valid UTF-8
and the two rows hold only nil, booleans, integers or valid UTF-8 strings in
the primary-key columns, equal encodings mean that the rows agree on every
primary-key column (present in both with the same value, or absent from
both). -/
theorem buildPrimaryKeyValue_determines_key (js : JsonScalars) (r1 r2 : Row)
    (pks : List GoString) :
    ((∀ k ∈ pks, GoMap.get? r1 k = GoMap.get? r2 k) →
        buildPrimaryKeyValue js r1 pks = buildPrimaryKeyValue js r2 pks) ∧
      ((∀ k ∈ pks, utf8Valid k = true) →
        (∀ k ∈ pks, (r1.at k).plain = true) → (∀ k ∈ pks, (r2.at k).plain = true) →
        buildPrimaryKeyValue js r1 pks = buildPrimaryKeyValue js r2 pks →
        ∀ k ∈ pks, GoMap.get? r1 k = GoMap.get? r2 k) := by
  refine ⟨buildPrimaryKeyValue_congr_on js r1 r2 pks, ?_⟩
  intro hval h1 h2 heq k hk
  unfold buildPrimaryKeyValue at heq
  have q1 : ∀ x ∈ (pks.foldl (pkMapStep r1) []).map Prod.fst,
      utf8Valid x = true ∧ (Row.at (pks.foldl (pkMapStep r1) []) x).plain = true := by
    intro x hx
    obtain ⟨a, _, c⟩ := pkMap_at r1 pks x hx
    exact ⟨hval x a, by rw [c]; exact h1 x a⟩
  have q2 : ∀ x ∈ (pks.foldl (pkMapStep r2) []).map Prod.fst,
      utf8Valid x = true ∧ (Row.at (pks.foldl (pkMapStep r2) []) x).plain = true := by
    intro x hx
    obtain ⟨a, _, c⟩ := pkMap_at r2 pks x hx
    exact ⟨hval x a, by rw [c]; exact h2 x a⟩
  obtain ⟨hK, hv⟩ := jsonText_inj js _ _ q1 q2 heq
  have hmem : k ∈ (pks.foldl (pkMapStep r1) []).map Prod.fst ↔
      k ∈ (pks.foldl (pkMapStep r2) []).map Prod.fst := by
    rw [← (List.perm_insertionSort (fun a b => bytesLe a b = true) _).mem_iff,
      ← (List.perm_insertionSort (fun a b => bytesLe a b = true)
        ((pks.foldl (pkMapStep r2) []).map Prod.fst)).mem_iff, hK]
  by_cases hp : k ∈ (pks.foldl (pkMapStep r1) []).map Prod.fst
  · have hp2 := hmem.mp hp
    obtain ⟨_, s1, c1⟩ := pkMap_at r1 pks k hp
    obtain ⟨_, s2, c2⟩ := pkMap_at r2 pks k hp2
    have hvk := hv k hp
    rw [c1, c2] at hvk
    unfold Row.at at hvk
    cases g1 : GoMap.get? r1 k with
    | none => rw [g1] at s1; cases s1
    | some v1 =>
      cases g2 : GoMap.get? r2 k with
      | none => rw [g2] at s2; cases s2
      | some v2 =>
        rw [g1, g2] at hvk
        exact congrArg some hvk
  · have hp2 : ¬ k ∈ (pks.foldl (pkMapStep r2) []).map Prod.fst := fun hx => hp (hmem.mpr hx)
    rw [pkMap_mem_keys] at hp hp2
    have n1 : GoMap.get? r1 k = none := by
      cases g : GoMap.get? r1 k with
      | none => rfl
      | some v => exact absurd ⟨hk, by rw [g]; rfl⟩ hp
    have n2 : GoMap.get? r2 k = none := by
      cases g : GoMap.get? r2 k with
      | none => rfl
      | some v => exact absurd ⟨hk, by rw [g]; rfl⟩ hp2
    rw [n1, n2]

/-- Claim C11 at two rows with the same `id` and different `email`, key `id`:
they get the same encoding, and from the equal encodings the rows agree on
`id`. -/
theorem buildPrimaryKeyValue_determines_key_witness :
    buildPrimaryKeyValue sampleScalars
        (scanRow [lit "id", lit "email"] [Value.int 1, Value.str (lit "a@x.com")]) [lit "id"]
        = buildPrimaryKeyValue sampleScalars
          (scanRow [lit "email", lit "id"] [Value.str (lit "c@x.com"), Value.int 1])
          [lit "id"] ∧
      ∀ k ∈ [lit "id"],
        GoMap.get? (scanRow [lit "id", lit "email"] [Value.int 1, Value.str (lit "a@x.com")]) k
          = GoMap.get?
            (scanRow [lit "email", lit "id"] [Value.str (lit "c@x.com"), Value.int 1]) k :=
  ⟨(buildPrimaryKeyValue_determines_key sampleScalars _ _ [lit "id"]).1 (by decide),
    (buildPrimaryKeyValue_determines_key sampleScalars _ _ [lit "id"]).2 (by decide) (by decide)
      (by decide) (by decide)⟩

/-- Claim C11, counterexample: a row whose key column holds a NaN and a row
whose key column holds positive infinity get the same encoding (the empty
text, `json.Marshal` failing on both), whatever the scalar encoders, and hold
different values in the key column. -/
theorem buildPrimaryKeyValue_not_injective :
    (∀ js : JsonScalars, buildPrimaryKeyValue js nanKeyRow [lit "id"] = []
        ∧ buildPrimaryKeyValue js infKeyRow [lit "id"] = []) ∧
      GoMap.get? nanKeyRow (lit "id") = some (Value.float nanBits) ∧
      GoMap.get? infKeyRow (lit "id") = some (Value.float infBits) ∧
      Value.float nanBits ≠ Value.float infBits ∧
      valuesEqual (Value.float nanBits) (Value.float infBits) = false :=
  ⟨fun _ => ⟨rfl, rfl⟩, by decide, by decide, by decide, by decide⟩

set_option maxRecDepth 100000 in
/-- Claim C17 at 250 source rows and a target without the table (every call of
`syncBatch` fails): the batches passed to `syncBatch` hold 100, 100 and 50
rows and together are the normalized rows in order. -/
theorem syncSingleTable_batches_example :
    ((syncSingleTable sampleScalars (Except.ok [lit "id"])
        (Except.ok { columns := [lit "id"], rows := manyRows }) (lit "mysql") 1 (lit "users")
        noTableWorld).2.handed.map List.length = [100, 100, 50]) ∧
      (syncSingleTable sampleScalars (Except.ok [lit "id"])
        (Except.ok { columns := [lit "id"], rows := manyRows }) (lit "mysql") 1 (lit "users")
        noTableWorld).2.handed.flatten = manyRows.map (scanRow [lit "id"]) := by
  rw [syncSingleTable_handed]
  decide

/-! ## The normalizer gives valid UTF-8 and is idempotent -/

/-- A well-formed two-byte sequence decodes whatever follows it. -/
theorem decodeRune_two (c s1 : Byte) (x : GoString) (a1 : 0xC2 ≤ c.val) (a2 : c.val ≤ 0xDF)
    (a3 : 0x80 ≤ s1.val) (a4 : s1.val ≤ 0xBF) :
    decodeRune (c :: s1 :: x) = (c.val % 32 * 64 + s1.val % 64, 2) := by
  have h1 : ¬ c.val < 0x80 := by omega
  have h2 : ¬ (c.val < 0xC2 ∨ 0xF4 < c.val) := by omega
  have h3 : c.val < 0xE0 := by omega
  have e0 : ¬ c.val = 0xE0 := by omega
  have e1 : ¬ c.val = 0xF0 := by omega
  have e2 : ¬ c.val = 0xED := by omega
  have e3 : ¬ c.val = 0xF4 := by omega
  have hr : ¬ (s1.val < 0x80 ∨ 0xBF < s1.val) := by omega
  simp [decodeRune, h1, h2, h3, e0, e1, e2, e3, hr]

/-- A well-formed three-byte sequence decodes whatever follows it. -/
theorem decodeRune_three (c s1 s2 : Byte) (x : GoString) (a1 : 0xE0 ≤ c.val)
    (a2 : c.val ≤ 0xEF) (a3 : (if c.val = 0xE0 then 0xA0 else 0x80) ≤ s1.val)
    (a4 : s1.val ≤ (if c.val = 0xED then 0x9F else 0xBF)) (a5 : 0x80 ≤ s2.val)
    (a6 : s2.val ≤ 0xBF) :
    decodeRune (c :: s1 :: s2 :: x)
      = (c.val % 16 * 4096 + s1.val % 64 * 64 + s2.val % 64, 3) := by
  have h1 : ¬ c.val < 0x80 := by omega
  have h2 : ¬ (c.val < 0xC2 ∨ 0xF4 < c.val) := by omega
  have h3 : ¬ c.val < 0xE0 := by omega
  have h4 : c.val < 0xF0 := by omega
  have e1 : ¬ c.val = 0xF0 := by omega
  have e3 : ¬ c.val = 0xF4 := by omega
  have hr : ¬ (s1.val < (if c.val = 0xE0 then 0xA0 else 0x80) ∨
      (if c.val = 0xED then 0x9F else 0xBF) < s1.val) := by omega
  have hr2 : ¬ (s2.val < 0x80 ∨ 0xBF < s2.val) := by omega
  simp only [decodeRune, h1, h2, h3, h4, e1, e3, if_false, if_true]
  simp [hr, hr2]

/-- A well-formed four-byte sequence decodes whatever follows it. -/
theorem decodeRune_four (c s1 s2 s3 : Byte) (x : GoString) (a1 : 0xF0 ≤ c.val)
    (a2 : c.val ≤ 0xF4) (a3 : (if c.val = 0xF0 then 0x90 else 0x80) ≤ s1.val)
    (a4 : s1.val ≤ (if c.val = 0xF4 then 0x8F else 0xBF)) (a5 : 0x80 ≤ s2.val)
    (a6 : s2.val ≤ 0xBF) (a7 : 0x80 ≤ s3.val) (a8 : s3.val ≤ 0xBF) :
    decodeRune (c :: s1 :: s2 :: s3 :: x)
      = (c.val % 8 * 262144 + s1.val % 64 * 4096 + s2.val % 64 * 64 + s3.val % 64, 4) := by
  have h1 : ¬ c.val < 0x80 := by omega
  have h2 : ¬ (c.val < 0xC2 ∨ 0xF4 < c.val) := by omega
  have h3 : ¬ c.val < 0xE0 := by omega
  have h4 : ¬ c.val < 0xF0 := by omega
  have e0 : ¬ c.val = 0xE0 := by omega
  have e2 : ¬ c.val = 0xED := by omega
  have hr : ¬ (s1.val < (if c.val = 0xF0 then 0x90 else 0x80) ∨
      (if c.val = 0xF4 then 0x8F else 0xBF) < s1.val) := by omega
  have hr2 : ¬ (s2.val < 0x80 ∨ 0xBF < s2.val) := by omega
  have hr3 : ¬ (s3.val < 0x80 ∨ 0xBF < s3.val) := by omega
  simp only [decodeRune, h1, h2, h3, h4, e0, e2, if_false, if_true]
  simp [hr, hr2, hr3]

/-- The bytes of a validly encoded rune decode to the same rune whatever
follows them. -/
theorem decodeRune_take_append (c : Byte) (s x : GoString)
    (h : ¬ ((decodeRune (c :: s)).1 = RuneError ∧ (decodeRune (c :: s)).2 = 1)) :
    ∃ c' r, (c :: s).take (decodeRune (c :: s)).2 ++ x = c' :: r ∧
      decodeRune (c' :: r) = decodeRune (c :: s) ∧
      (c' :: r).drop (decodeRune (c :: s)).2 = x := by
  rcases decodeRune_cases c s with h0 | ⟨h1, h0⟩ | ⟨s1, t, rfl, a1, a2, a3, a4, h0⟩ |
    ⟨s1, s2, t, rfl, a1, a2, a3, a4, a5, a6, h0⟩ |
    ⟨s1, s2, s3, t, rfl, a1, a2, a3, a4, a5, a6, a7, a8, h0⟩
  · rw [h0] at h
    exact absurd ⟨rfl, rfl⟩ h
  · rw [h0]
    exact ⟨c, x, rfl, decodeRune_ascii c x h1, rfl⟩
  · rw [h0]
    exact ⟨c, s1 :: x, rfl, decodeRune_two c s1 x a1 a2 a3 a4, rfl⟩
  · rw [h0]
    exact ⟨c, s1 :: s2 :: x, rfl, decodeRune_three c s1 s2 x a1 a2 a3 a4 a5 a6, rfl⟩
  · rw [h0]
    exact ⟨c, s1 :: s2 :: s3 :: x, rfl,
      decodeRune_four c s1 s2 s3 x a1 a2 a3 a4 a5 a6 a7 a8, rfl⟩

/-- Fuel beyond the length of the string does not change the validity loop. -/
theorem utf8ValidLoop_fuel (n : Nat) (s : GoString) (h : s.length ≤ n) :
    utf8ValidLoop n s = utf8ValidLoop s.length s := by
  induction n using Nat.strong_induction_on generalizing s with
  | _ n ih =>
    cases s with
    | nil => cases n <;> simp [utf8ValidLoop]
    | cons c s =>
      cases n with
      | zero => simp at h
      | succ n =>
        have hs : s.length ≤ n := by simpa using h
        have hd := decodeRune_size c s
        have hlen : ((c :: s).drop (decodeRune (c :: s)).2).length ≤ s.length := by
          simp only [List.length_drop, List.length_cons]
          omega
        have e2 : utf8ValidLoop n ((c :: s).drop (decodeRune (c :: s)).2)
            = utf8ValidLoop s.length ((c :: s).drop (decodeRune (c :: s)).2) := by
          rw [ih n (Nat.lt_succ_self n) _ (le_trans hlen hs),
            ih s.length (by omega) _ hlen]
        simp only [utf8ValidLoop, List.length_cons, e2]

/-- The validity of a non-empty string, without fuel. -/
theorem utf8Valid_cons (c : Byte) (s : GoString) :
    utf8Valid (c :: s) =
      if (decodeRune (c :: s)).1 = RuneError ∧ (decodeRune (c :: s)).2 = 1 then false
      else utf8Valid ((c :: s).drop (decodeRune (c :: s)).2) := by
  have hd := decodeRune_size c s
  have hlen : ((c :: s).drop (decodeRune (c :: s)).2).length ≤ s.length := by
    simp only [List.length_drop, List.length_cons]
    omega
  simp only [utf8Valid, List.length_cons, utf8ValidLoop]
  rw [utf8ValidLoop_fuel s.length _ hlen]

/-- The replacement of invalid bytes gives valid UTF-8. -/
theorem utf8Valid_replaceInvalidLoop (n : Nat) (s : GoString) :
    utf8Valid (replaceInvalidLoop n s) = true := by
  induction n generalizing s with
  | zero => rfl
  | succ n ih =>
    cases s with
    | nil => rfl
    | cons c s =>
      by_cases h : (decodeRune (c :: s)).1 = RuneError ∧ (decodeRune (c :: s)).2 = 1
      · simp only [replaceInvalidLoop, h, and_self, if_true]
        show utf8Valid ((0xEF : Byte) :: 0xBF :: 0xBD :: replaceInvalidLoop n s) = true
        rw [utf8Valid_cons, decodeRune_three 0xEF 0xBF 0xBD _ (by decide) (by decide) (by decide)
          (by decide) (by decide) (by decide)]
        simp only [RuneError]
        rw [if_neg (by decide)]
        exact ih s
      · simp only [replaceInvalidLoop, h, if_false]
        obtain ⟨c', r, e1, e2, e3⟩ := decodeRune_take_append c s
          (replaceInvalidLoop n ((c :: s).drop (decodeRune (c :: s)).2)) h
        rw [e1, utf8Valid_cons, e2, if_neg h, e3]
        exact ih _

/-- What `ensureUTF8` returns is valid UTF-8. -/
theorem utf8Valid_ensureUTF8 (s : GoString) : utf8Valid (ensureUTF8 s) = true := by
  unfold ensureUTF8
  by_cases hv : utf8Valid s = true
  · simp only [hv, if_true]
  · simp only [hv, Bool.false_eq_true, if_false, ensureUTF8Loop_flatMap]
    exact utf8Valid_replaceInvalidLoop _ _

/-- A hexadecimal digit of `hexDigit` passes the digit test of
`isValidUUIDString`. -/
theorem isHexRune_hexDigit (n : Nat) (h : n < 16) : isHexRune (hexDigit n).val = true := by
  rw [hexDigit_val n h]
  simp only [isHexRune, decide_eq_true_eq]
  split <;> omega

/-- The hexadecimal text of a byte sequence is ASCII. -/
theorem hexEncode_ascii (s : GoString) : ∀ b, b ∈ hexEncode s → b.val < 0x80 := by
  induction s with
  | nil => intro b hb; cases hb
  | cons x s ih =>
    intro b hb
    rw [hexEncode_cons, hexFixed_two, List.mem_append] at hb
    rcases hb with hb | hb
    · simp only [List.mem_cons, List.mem_nil_iff, or_false] at hb
      rcases hb with rfl | rfl
      · rw [hexDigit_val _ (Nat.mod_lt _ (by decide))]
        split <;> omega
      · rw [hexDigit_val _ (Nat.mod_lt _ (by decide))]
        split <;> omega
    · exact ih b hb

/-- The text that `binaryToUUID` writes for 16 bytes is in canonical UUID
shape. -/
theorem isCanonicalUUID_binaryToUUID (b : GoString) (h : b.length = 16) :
    isCanonicalUUID (binaryToUUID b) = true := by
  obtain ⟨b0, b1, b2, b3, b4, b5, b6, b7, b8, b9, b10, b11, b12, b13, b14, b15, rfl⟩ :=
    exists_sixteen b h
  rw [binaryToUUID_sixteen]
  have hl : lit "-" = [45] := by decide
  have hd : ∀ n, isHexRune (hexDigit (n % 16)).val = true :=
    fun n => isHexRune_hexDigit _ (Nat.mod_lt _ (by decide))
  simp [isCanonicalUUID, uuidShapeFrom, hexEncode, hexFixed_two, hl, hd]
  rfl

/-- What `normalizeValue` returns for a string or a byte sequence is a string
that is valid UTF-8. -/
theorem normalizeValue_text (s : GoString) :
    (∃ x, normalizeValue (Value.str s) = Value.str x ∧ utf8Valid x = true) ∧
      (∃ x, normalizeValue (Value.bytes s) = Value.str x ∧ utf8Valid x = true) := by
  have huuid : s.length = 16 → utf8Valid (binaryToUUID s) = true := by
    intro hl
    have hc := isCanonicalUUID_binaryToUUID s hl
    simp only [isCanonicalUUID, Bool.and_eq_true] at hc
    exact utf8Valid_ascii _ (uuidShapeFrom_ascii 0 _ hc.2)
  constructor
  · by_cases hv : utf8Valid s = true
    · exact ⟨s, (normalizeValue_valid s hv).2.1, hv⟩
    · by_cases hl : s.length = 16
      · exact ⟨binaryToUUID s, by simp [normalizeValue, hv, hl], huuid hl⟩
      · exact ⟨ensureUTF8 s, by simp [normalizeValue, hv, hl], utf8Valid_ensureUTF8 s⟩
  · by_cases hv : utf8Valid s = true
    · exact ⟨s, (normalizeValue_valid s hv).2.2, hv⟩
    · by_cases hl : s.length = 16
      · exact ⟨binaryToUUID s, by simp [normalizeValue, hv, hl], huuid hl⟩
      · exact ⟨hexEncode s, by simp [normalizeValue, hv, hl],
          utf8Valid_ascii _ (hexEncode_ascii s)⟩

/-- Claim C28. `normalizeValue` applied twice gives what it gives applied once,
for every value; its result is never a byte sequence; a string result is valid
UTF-8; and `binaryToUUID` of a 16-byte buffer passes `isValidUUIDString`. -/
theorem normalizeValue_idempotent :
    (∀ v, normalizeValue (normalizeValue v) = normalizeValue v) ∧
      (∀ v b, normalizeValue v ≠ Value.bytes b) ∧
      (∀ v s, normalizeValue v = Value.str s → utf8Valid s = true) ∧
      (∀ b : GoString, b.length = 16 → isValidUUIDString (binaryToUUID b) = true) := by
  refine ⟨?_, ?_, ?_, ?_⟩
  · intro v
    cases v with
    | str s =>
      obtain ⟨x, hx, hv⟩ := (normalizeValue_text s).1
      rw [hx, (normalizeValue_valid x hv).2.1]
    | bytes s =>
      obtain ⟨x, hx, hv⟩ := (normalizeValue_text s).2
      rw [hx, (normalizeValue_valid x hv).2.1]
    | null => rfl
    | int i => rfl
    | float f => rfl
    | bool b => rfl
    | time t => rfl
  · intro v b
    cases v with
    | str s =>
      obtain ⟨x, hx, _⟩ := (normalizeValue_text s).1
      rw [hx]
      exact fun h => by cases h
    | bytes s =>
      obtain ⟨x, hx, _⟩ := (normalizeValue_text s).2
      rw [hx]
      exact fun h => by cases h
    | null => exact fun h => by cases h
    | int i => exact fun h => by cases h
    | float f => exact fun h => by cases h
    | bool b => exact fun h => by cases h
    | time t => exact fun h => by cases h
  · intro v s h
    cases v with
    | str s0 =>
      obtain ⟨x, hx, hv⟩ := (normalizeValue_text s0).1
      rw [hx] at h
      cases h
      exact hv
    | bytes s0 =>
      obtain ⟨x, hx, hv⟩ := (normalizeValue_text s0).2
      rw [hx] at h
      cases h
      exact hv
    | null => cases h
    | int i => cases h
    | float f => cases h
    | bool b => cases h
    | time t => cases h
  · intro b hb
    exact isValidUUIDString_of_canonical _ (isCanonicalUUID_binaryToUUID b hb)

/-- Claim C28 at the invalid string of sixteen bytes `ÿ` and at the invalid
bytes `a ÿ`: the second pass changes nothing, and the UUID text written for
sixteen bytes passes `isValidUUIDString`. -/
theorem normalizeValue_idempotent_witness :
    normalizeValue (normalizeValue (Value.bytes [0x61, 0xFF]))
        = normalizeValue (Value.bytes [0x61, 0xFF]) ∧
      utf8Valid (lit "61ff") = true ∧
      isValidUUIDString (binaryToUUID (List.replicate 16 0xFF)) = true :=
  ⟨normalizeValue_idempotent.1 (Value.bytes [0x61, 0xFF]),
    normalizeValue_idempotent.2.2.1 (Value.bytes [0x61, 0xFF]) (lit "61ff") (by decide),
    normalizeValue_idempotent.2.2.2 (List.replicate 16 0xFF) (by decide)⟩

/-! ## Conversion of object definitions -/

theorem hasPrefix_iff (s p : GoString) : hasPrefix s p = true ↔ p <+: s := by
  unfold hasPrefix
  rw [beq_iff_eq, List.prefix_iff_eq_take]
  exact eq_comm

/-- Texts that differ at a common position are not prefixes of each other,
whatever follows the second. -/
theorem textsDiffer_not_prefix (y w : GoString) (h : textsDiffer y w = true) (r : GoString) :
    ¬ y <+: w ++ r := by
  induction y generalizing w with
  | nil => cases w <;> cases h
  | cons c y ih =>
    cases w with
    | nil => cases h
    | cons e w =>
      simp only [textsDiffer, Bool.or_eq_true, bne_iff_ne, ne_eq] at h
      rw [List.cons_append, List.cons_prefix_cons]
      rintro ⟨hce, hp⟩
      rcases h with h | h
      · exact h hce
      · exact ih w h hp

theorem containsStr_cons (c : Byte) (s sub : GoString) :
    containsStr (c :: s) sub = (hasPrefix (c :: s) sub || containsStr s sub) := rfl

/-- A text holds the one-byte text `a` exactly when it holds the byte. -/
theorem containsStr_byte (a : Byte) (s : GoString) : containsStr s [a] = false ↔ a ∉ s := by
  induction s with
  | nil => simp [containsStr]
  | cons c s ih =>
    rw [containsStr_cons, Bool.or_eq_false_iff, ih, List.mem_cons, not_or]
    have : hasPrefix (c :: s) [a] = false ↔ ¬ a = c := by
      rw [← Bool.not_eq_true, hasPrefix_iff, List.cons_prefix_cons]
      simp
    rw [this]

/-- With a single byte for `old` and `new` the replacement maps every byte. -/
theorem replaceAllLoop_byte (a b : Byte) (n : Nat) (s : GoString) (h : s.length ≤ n) :
    replaceAllLoop [a] [b] n s = s.map (fun c => if c = a then b else c) := by
  induction n generalizing s with
  | zero =>
    have : s = [] := List.length_eq_zero.mp (Nat.le_zero.mp h)
    subst this
    rfl
  | succ n ih =>
    cases s with
    | nil => rfl
    | cons c t =>
      have ht : t.length ≤ n := by simpa using h
      by_cases hc : c = a
      · subst hc
        have hp : hasPrefix (c :: t) [c] = true := by
          rw [hasPrefix_iff, List.cons_prefix_cons]
          exact ⟨rfl, List.nil_prefix⟩
        simp only [replaceAllLoop, hp, if_true, List.length_singleton, List.drop_succ_cons,
          List.drop_zero, ih t ht, List.map_cons, List.singleton_append]
      · have hp : hasPrefix (c :: t) [a] = false := by
          rw [← Bool.not_eq_true, hasPrefix_iff, List.cons_prefix_cons]
          exact fun h => hc h.1.symm
        simp only [replaceAllLoop, hp, Bool.false_eq_true, if_false, ih t ht, List.map_cons, hc]

/-- The bytes of the result of a replacement come from the text or from
`new`. -/
theorem mem_replaceAllLoop (old new : GoString) (n : Nat) (s : GoString) (x : Byte)
    (h : x ∈ replaceAllLoop old new n s) : x ∈ s ∨ x ∈ new := by
  induction n generalizing s with
  | zero => exact Or.inl h
  | succ n ih =>
    cases s with
    | nil => exact Or.inl h
    | cons c t =>
      simp only [replaceAllLoop] at h
      split at h
      · rcases List.mem_append.mp h with h | h
        · exact Or.inr h
        · rcases ih _ h with h | h
          · exact Or.inl (List.mem_of_mem_drop h)
          · exact Or.inr h
      · rcases List.mem_cons.mp h with h | h
        · exact Or.inl (h ▸ List.mem_cons_self _ _)
        · rcases ih _ h with h | h
          · exact Or.inl (List.mem_cons_of_mem _ h)
          · exact Or.inr h

/-- A proper ending of `old` that starts the result of a replacement starts
the text too: it cannot run into a written `new`. -/
theorem prefix_of_prefix_replaceAllLoop (old new : GoString)
    (h2 : ∀ y, y ∈ old.tail.tails → y ≠ [] → textsDiffer y new = true) (y : GoString) :
    ∀ (x : GoString), x ≠ [] → old = x ++ y → ∀ (n : Nat) (s : GoString), s.length ≤ n →
      y <+: replaceAllLoop old new n s → y <+: s := by
  induction y with
  | nil => exact fun _ _ _ _ _ _ _ => List.nil_prefix
  | cons e y ih =>
    intro x hx hold n s hn hp
    cases n with
    | zero =>
      have : s = [] := List.length_eq_zero.mp (Nat.le_zero.mp hn)
      subst this
      exact hp
    | succ n =>
      cases s with
      | nil => exact hp
      | cons c t =>
        have ht : t.length ≤ n := by simpa using hn
        simp only [replaceAllLoop] at hp
        split at hp
        · exfalso
          have hmem : (e :: y) ∈ old.tail.tails := by
            rw [List.mem_tails]
            cases x with
            | nil => exact absurd rfl hx
            | cons x0 x' =>
              rw [hold]
              exact ⟨x', rfl⟩
          exact textsDiffer_not_prefix _ _ (h2 _ hmem (List.cons_ne_nil _ _)) _ hp
        · rw [List.cons_prefix_cons] at hp ⊢
          refine ⟨hp.1, ?_⟩
          exact ih (x ++ [e]) (by simp) (by rw [hold]; simp) n t ht hp.2

/-- The result of a replacement holds no occurrence of `old`, when no proper
ending of `old` can run into `new` and `old` cannot start inside `new`. -/
theorem containsStr_replaceAllLoop (old new : GoString) (hne : old ≠ [])
    (h2 : ∀ y, y ∈ old.tail.tails → y ≠ [] → textsDiffer y new = true)
    (h3 : ∀ w, w ∈ new.tails → w ≠ [] → textsDiffer old w = true) (n : Nat) (s : GoString)
    (hn : s.length ≤ n) : containsStr (replaceAllLoop old new n s) old = false := by
  have hnil : containsStr [] old = false := by
    cases old with
    | nil => exact absurd rfl hne
    | cons e o => rfl
  induction n generalizing s with
  | zero =>
    have : s = [] := List.length_eq_zero.mp (Nat.le_zero.mp hn)
    subst this
    exact hnil
  | succ n ih =>
    cases s with
    | nil => exact hnil
    | cons c t =>
      have ht : t.length ≤ n := by simpa using hn
      by_cases hp : hasPrefix (c :: t) old = true
      · have hd : ((c :: t).drop old.length).length ≤ n := by
          have : 0 < old.length := List.length_pos.mpr hne
          simp only [List.length_drop, List.length_cons]
          omega
        have hr := ih _ hd
        simp only [replaceAllLoop, hp, if_true]
        have hw : ∀ w, w <:+ new →
            containsStr (w ++ replaceAllLoop old new n ((c :: t).drop old.length)) old
              = false := by
          intro w
          induction w with
          | nil => exact fun _ => hr
          | cons e w ihw =>
            intro hs
            rw [List.cons_append, containsStr_cons, Bool.or_eq_false_iff]
            constructor
            · rw [← Bool.not_eq_true, hasPrefix_iff, ← List.cons_append]
              exact textsDiffer_not_prefix _ _
                (h3 _ ((List.mem_tails _ _).mpr hs) (List.cons_ne_nil _ _)) _
            · exact ihw ((List.suffix_cons e w).trans hs)
        exact hw new (List.suffix_refl new)
      · simp only [replaceAllLoop, hp, Bool.false_eq_true, if_false]
        rw [containsStr_cons, Bool.or_eq_false_iff]
        refine ⟨?_, ih t ht⟩
        rw [← Bool.not_eq_true, hasPrefix_iff]
        intro hq
        apply hp
        rw [hasPrefix_iff]
        cases old with
        | nil => exact absurd rfl hne
        | cons e o =>
          rw [List.cons_prefix_cons] at hq ⊢
          exact ⟨hq.1, prefix_of_prefix_replaceAllLoop (e :: o) new h2 o [e]
            (List.cons_ne_nil _ _) rfl n t ht hq.2⟩

/-- Replacing the byte `a` by `b` does not change where `old` starts, when
`old` holds neither byte. -/
theorem hasPrefix_map_byte (a b : Byte) (old : GoString) (ha : a ∉ old) (hb : b ∉ old)
    (s : GoString) :
    hasPrefix (s.map (fun c => if c = a then b else c)) old = hasPrefix s old := by
  rw [Bool.eq_iff_iff, hasPrefix_iff, hasPrefix_iff]
  induction old generalizing s with
  | nil => simp
  | cons e o ih =>
    have ha2 : a ∉ o := fun h => ha (List.mem_cons_of_mem _ h)
    have hb2 : b ∉ o := fun h => hb (List.mem_cons_of_mem _ h)
    have hea : e ≠ a := fun h => ha (h ▸ List.mem_cons_self _ _)
    have heb : e ≠ b := fun h => hb (h ▸ List.mem_cons_self _ _)
    cases s with
    | nil => simp
    | cons c t =>
      rw [List.map_cons, List.cons_prefix_cons, List.cons_prefix_cons, ih ha2 hb2 t]
      by_cases hc : c = a
      · simp only [hc, if_true]
        exact ⟨fun h => absurd h.1 heb, fun h => absurd h.1 hea⟩
      · simp only [hc, if_false]

/-- Replacing the byte first and the occurrences of `old` afterwards is the
single pass that does both, when `old` holds neither byte. -/
theorem replaceAllLoop_map_byte (a b : Byte) (old new : GoString) (hne : old ≠ [])
    (ha : a ∉ old) (hb : b ∉ old) (n : Nat) (s : GoString) (hn : s.length ≤ n) :
    replaceAllLoop old new n (s.map (fun c => if c = a then b else c))
      = replaceBothLoop a b old new n s := by
  induction n generalizing s with
  | zero =>
    have : s = [] := List.length_eq_zero.mp (Nat.le_zero.mp hn)
    subst this
    rfl
  | succ n ih =>
    cases s with
    | nil => rfl
    | cons c t =>
      have ht : t.length ≤ n := by simpa using hn
      have hmap := hasPrefix_map_byte a b old ha hb (c :: t)
      rw [List.map_cons] at hmap
      rw [List.map_cons]
      simp only [replaceAllLoop, replaceBothLoop, hmap]
      by_cases hc : c = a
      · have hp : hasPrefix (c :: t) old = false := by
          rw [← Bool.not_eq_true, hasPrefix_iff]
          cases old with
          | nil => exact absurd rfl hne
          | cons e o =>
            rw [List.cons_prefix_cons]
            exact fun h => ha (h.1 ▸ hc ▸ List.mem_cons_self _ _)
        rw [hp, if_neg Bool.false_ne_true, if_pos hc, if_pos hc, ih t ht]
      · by_cases hp : hasPrefix (c :: t) old = true
        · have hd : ((c :: t).drop old.length).length ≤ n := by
            have : 0 < old.length := List.length_pos.mpr hne
            simp only [List.length_drop, List.length_cons]
            omega
          have hdrop : List.drop old.length (c :: t.map (fun c => if c = a then b else c))
              = ((c :: t).drop old.length).map (fun c => if c = a then b else c) := by
            rw [List.map_drop, List.map_cons, if_neg hc]
          simp only [hp, if_true, hc, if_false, hdrop, ih _ hd]
        · simp only [hp, Bool.false_eq_true, if_false, hc, ih t ht]

/-- The conversion from MySQL to PostgreSQL, step by step. -/
theorem convert_mysql_postgres (d : GoString) :
    replaceAll (replaceAll d (lit "`") (lit "\"")) (lit "AUTO_INCREMENT") (lit "SERIAL")
      = replaceAllLoop (lit "AUTO_INCREMENT") (lit "SERIAL") d.length
          (d.map (fun c => if c = 96 then 34 else c)) := by
  have e1 : replaceAll d (lit "`") (lit "\"") = d.map (fun c => if c = 96 then 34 else c) := by
    unfold replaceAll
    rw [if_neg (by decide)]
    exact replaceAllLoop_byte 96 34 d.length d (le_refl _)
  rw [e1]
  unfold replaceAll
  rw [if_neg (by decide), List.length_map]

/-- The conversion from PostgreSQL to MySQL, step by step. -/
theorem convert_postgres_mysql (d : GoString) :
    replaceAll (replaceAll d (lit "\"") (lit "`")) (lit "SERIAL") (lit "AUTO_INCREMENT")
      = replaceAllLoop (lit "SERIAL") (lit "AUTO_INCREMENT") d.length
          (d.map (fun c => if c = 34 then 96 else c)) := by
  have e1 : replaceAll d (lit "\"") (lit "`") = d.map (fun c => if c = 34 then 96 else c) := by
    unfold replaceAll
    rw [if_neg (by decide)]
    exact replaceAllLoop_byte 34 96 d.length d (le_refl _)
  rw [e1]
  unfold replaceAll
  rw [if_neg (by decide), List.length_map]

/-- Claim C23. `convertDefinition` equals the reference for every definition
text and every pair of dialects: the text itself for identical dialects; from
MySQL to PostgreSQL the text with every backtick replaced by a double quote
and every `AUTO_INCREMENT` by `SERIAL`, which holds no backtick and no
`AUTO_INCREMENT`; from PostgreSQL to MySQL the text with every double quote
replaced by a backtick and every `SERIAL` by `AUTO_INCREMENT`, which holds no
double quote and no `SERIAL`. -/
theorem convertDefinition_reference (d sourceType targetType objType : GoString) :
    convertDefinition d sourceType targetType objType
        = convertReference d sourceType targetType ∧
      convertDefinition d sourceType sourceType objType = d ∧
      containsStr (convertDefinition d (lit "mysql") (lit "postgres") objType) (lit "`")
        = false ∧
      containsStr (convertDefinition d (lit "mysql") (lit "postgres") objType)
        (lit "AUTO_INCREMENT") = false ∧
      containsStr (convertDefinition d (lit "postgres") (lit "mysql") objType) (lit "\"")
        = false ∧
      containsStr (convertDefinition d (lit "postgres") (lit "mysql") objType) (lit "SERIAL")
        = false := by
  have hmp : convertDefinition d (lit "mysql") (lit "postgres") objType
      = replaceAllLoop (lit "AUTO_INCREMENT") (lit "SERIAL") d.length
          (d.map (fun c => if c = 96 then 34 else c)) := by
    have n1 : ¬ lit "mysql" = lit "postgres" := by decide
    have n2 : ¬ lit "postgres" = lit "mysql" := by decide
    simp only [convertDefinition, n1, n2, if_false, and_self, and_false, false_and, if_true]
    exact convert_mysql_postgres d
  have hpm : convertDefinition d (lit "postgres") (lit "mysql") objType
      = replaceAllLoop (lit "SERIAL") (lit "AUTO_INCREMENT") d.length
          (d.map (fun c => if c = 34 then 96 else c)) := by
    have n1 : ¬ lit "mysql" = lit "postgres" := by decide
    have n2 : ¬ lit "postgres" = lit "mysql" := by decide
    simp only [convertDefinition, n1, n2, if_false, and_self, and_false, false_and, if_true]
    exact convert_postgres_mysql d
  have hlen : ∀ f : Byte → Byte, (d.map f).length ≤ d.length := fun f => by simp
  refine ⟨?_, ?_, ?_, ?_, ?_, ?_⟩
  · by_cases hst : sourceType = targetType
    · simp only [convertDefinition, convertReference, hst, if_true]
    · by_cases h1 : sourceType = lit "mysql" ∧ targetType = lit "postgres"
      · obtain ⟨rfl, rfl⟩ := h1
        rw [hmp]
        simp only [convertReference]
        rw [if_neg (by decide), if_pos (by decide)]
        exact replaceAllLoop_map_byte 96 34 _ _ (by decide) (by decide) (by decide) _ _
          (le_refl _)
      · by_cases h2 : sourceType = lit "postgres" ∧ targetType = lit "mysql"
        · obtain ⟨rfl, rfl⟩ := h2
          rw [hpm]
          simp only [convertReference]
          rw [if_neg (by decide), if_neg (by decide), if_pos (by decide)]
          exact replaceAllLoop_map_byte 34 96 _ _ (by decide) (by decide) (by decide) _ _
            (le_refl _)
        · simp only [convertDefinition, convertReference, hst, h1, h2, if_false]
  · simp only [convertDefinition, if_true]
  · rw [hmp]
    have hl : lit "`" = [96] := by decide
    rw [hl, containsStr_byte]
    intro hx
    rcases mem_replaceAllLoop _ _ _ _ _ hx with h | h
    · rw [List.mem_map] at h
      obtain ⟨c, _, hc⟩ := h
      by_cases hc96 : c = 96
      · rw [if_pos hc96] at hc
        exact absurd hc (by decide)
      · rw [if_neg hc96] at hc
        exact hc96 hc
    · exact absurd h (by decide)
  · rw [hmp]
    exact containsStr_replaceAllLoop _ _ (by decide) (by decide) (by decide) _ _ (hlen _)
  · rw [hpm]
    have hl : lit "\"" = [34] := by decide
    rw [hl, containsStr_byte]
    intro hx
    rcases mem_replaceAllLoop _ _ _ _ _ hx with h | h
    · rw [List.mem_map] at h
      obtain ⟨c, _, hc⟩ := h
      by_cases hc34 : c = 34
      · rw [if_pos hc34] at hc
        exact absurd hc (by decide)
      · rw [if_neg hc34] at hc
        exact hc34 hc
    · exact absurd h (by decide)
  · rw [hpm]
    exact containsStr_replaceAllLoop _ _ (by decide) (by decide) (by decide) _ _ (hlen _)

/-- The conversion at a table definition, in both directions. -/
theorem convertDefinition_example :
    convertDefinition (lit "CREATE TABLE `t` (`id` INT AUTO_INCREMENT)") (lit "mysql")
        (lit "postgres") (lit "view")
      = lit "CREATE TABLE \"t\" (\"id\" INT SERIAL)" ∧
    convertDefinition (lit "CREATE TABLE \"t\" (\"id\" SERIAL)") (lit "postgres")
        (lit "mysql") (lit "view")
      = lit "CREATE TABLE `t` (`id` AUTO_INCREMENT)" := by
  decide

/-! ## Connection manager -/

/-- Claim C26, amended. On a pool that holds nothing under the descriptor's id,
`GetConnection` fails with the unsupported-dialect error exactly when the
dialect is not one of mysql, oracle, postgres, without asking for a client;
for oracle it fails with its own error, without asking for a client; for mysql
and postgres it asks `gorm.Open` for the client and returns what that gives.
`GetRawConnection` does the same with `sql.Open`, whatever the pool. On a pool
that holds a client under the descriptor's id `GetConnection` returns that
client without looking at the dialect. -/
theorem GetConnection_dialects (env : Dialer) (st : PoolState) (dbConn : DatabaseConnection) :
    (GoMap.get? st.pool (itoaNat dbConn.ID) = none →
        ((GetConnection env st dbConn
              = (Except.error (lit "unsupported database type: " ++ dbConn.DBType), st)
            ↔ ¬ (dbConn.DBType = lit "mysql" ∨ dbConn.DBType = lit "oracle"
                ∨ dbConn.DBType = lit "postgres")) ∧
          (dbConn.DBType = lit "oracle" →
            GetConnection env st dbConn
              = (Except.error (lit "Oracle数据库暂不支持GORM，请使用原生连接"), st)) ∧
          (dbConn.DBType = lit "mysql" →
            GetConnection env st dbConn = openAndStore env st (itoaNat dbConn.ID)
              { driver := lit "mysql", dsn := mysqlDSN dbConn }) ∧
          (dbConn.DBType = lit "postgres" →
            GetConnection env st dbConn = openAndStore env st (itoaNat dbConn.ID)
              { driver := lit "postgres", dsn := postgresDSN dbConn }))) ∧
      (∀ c, GoMap.get? st.pool (itoaNat dbConn.ID) = some c →
        GetConnection env st dbConn = (Except.ok c, st)) ∧
      (GetRawConnection env dbConn
          = (Except.error (lit "unsupported database type: " ++ dbConn.DBType), [])
        ↔ ¬ (dbConn.DBType = lit "mysql" ∨ dbConn.DBType = lit "oracle"
            ∨ dbConn.DBType = lit "postgres")) ∧
      (dbConn.DBType = lit "oracle" →
        GetRawConnection env dbConn
          = (Except.error (lit "Oracle驱动未配置，请安装godror或oci8驱动"), [])) ∧
      (dbConn.DBType = lit "mysql" →
        (GetRawConnection env dbConn).2 = [{ driver := lit "mysql", dsn := mysqlDSN dbConn }] ∧
        (GetRawConnection env dbConn).1
          = match env.sqlOpen (lit "mysql") (mysqlDSN dbConn) with
            | some err => Except.error err
            | none => Except.ok { driver := lit "mysql", dsn := mysqlDSN dbConn }) ∧
      (dbConn.DBType = lit "postgres" →
        (GetRawConnection env dbConn).2
          = [{ driver := lit "postgres", dsn := postgresDSN dbConn }] ∧
        (GetRawConnection env dbConn).1
          = match env.sqlOpen (lit "postgres") (postgresDSN dbConn) with
            | some err => Except.error err
            | none => Except.ok { driver := lit "postgres", dsn := postgresDSN dbConn }) := by
  have n1 : ¬ lit "oracle" = lit "mysql" := by decide
  have n2 : ¬ lit "postgres" = lit "mysql" := by decide
  have n3 : ¬ lit "postgres" = lit "oracle" := by decide
  have hopen : ∀ (key : GoString) (c : Client) (e : GoString),
      openAndStore env st key c ≠ (Except.error e, st) := by
    intro key c e h
    unfold openAndStore at h
    have hlen : ∀ r : Except GoString Client × PoolState, r = (Except.error e, st) →
        r.2.opened.length = st.opened.length := fun r hr => by rw [hr]
    cases hg : env.gormOpen c.driver c.dsn with
    | none => simp only [hg] at h; cases h
    | some err =>
      simp only [hg] at h
      have := hlen _ h
      simp at this
  have hraw : ∀ (c : Client) (e : GoString),
      (match env.sqlOpen c.driver c.dsn with
        | some err => ((Except.error err : Except GoString Client), [c])
        | none => (Except.ok c, [c])) ≠ (Except.error e, []) := by
    intro c e h
    cases hg : env.sqlOpen c.driver c.dsn with
    | none => simp only [hg] at h; cases h
    | some err => simp only [hg] at h; cases h
  refine ⟨?_, ?_, ?_, ?_, ?_, ?_⟩
  · intro hmiss
    refine ⟨?_, ?_, ?_, ?_⟩
    · by_cases h1 : dbConn.DBType = lit "mysql"
      · simp only [GetConnection, hmiss, h1, if_true, true_or, not_true_eq_false, iff_false]
        exact hopen _ _ _
      · by_cases h2 : dbConn.DBType = lit "oracle"
        · simp only [GetConnection, hmiss, h2, n1, if_false, if_true, true_or, or_true,
            not_true_eq_false, iff_false]
          intro h
          have := congrArg Prod.fst h
          exact absurd (Except.error.inj this) (by decide)
        · by_cases h3 : dbConn.DBType = lit "postgres"
          · simp only [GetConnection, hmiss, h3, n2, n3, if_false, if_true, or_true,
              not_true_eq_false, iff_false]
            exact hopen _ _ _
          · simp only [GetConnection, hmiss, h1, h2, h3, if_false, or_self, not_false_eq_true]
    · intro h
      simp only [GetConnection, hmiss, h, n1, if_false, if_true]
    · intro h
      simp only [GetConnection, hmiss, h, if_true]
    · intro h
      simp only [GetConnection, hmiss, h, n2, n3, if_false, if_true]
  · intro c hc
    simp only [GetConnection, hc]
  · by_cases h1 : dbConn.DBType = lit "mysql"
    · simp only [GetRawConnection, h1, if_true, true_or, not_true_eq_false, iff_false]
      exact hraw { driver := lit "mysql", dsn := mysqlDSN dbConn } _
    · by_cases h2 : dbConn.DBType = lit "oracle"
      · simp only [GetRawConnection, h2, n1, if_false, if_true, true_or, or_true,
          not_true_eq_false, iff_false]
        intro h
        have := congrArg Prod.fst h
        exact absurd (Except.error.inj this) (by decide)
      · by_cases h3 : dbConn.DBType = lit "postgres"
        · simp only [GetRawConnection, h3, n2, n3, if_false, if_true, or_true,
            not_true_eq_false, iff_false]
          exact hraw { driver := lit "postgres", dsn := postgresDSN dbConn } _
        · simp only [GetRawConnection, h1, h2, h3, if_false, or_self, not_false_eq_true]
  · intro h
    simp only [GetRawConnection, h, n1, if_false, if_true]
  · intro h
    simp only [GetRawConnection, h, if_true]
    cases env.sqlOpen (lit "mysql") (mysqlDSN dbConn) <;> exact ⟨rfl, rfl⟩
  · intro h
    simp only [GetRawConnection, h, n2, n3, if_false, if_true]
    cases env.sqlOpen (lit "postgres") (postgresDSN dbConn) <;> exact ⟨rfl, rfl⟩

/-- Claim C26 at the Oracle descriptor on an empty pool and at a MySQL
descriptor: the first fails with its own error, the second is what `gorm.Open`
gives. -/
theorem GetConnection_dialects_witness :
    GetConnection oneHostDialer emptyPool oracleConn
        = (Except.error (lit "Oracle数据库暂不支持GORM，请使用原生连接"), emptyPool) ∧
      GetConnection oneHostDialer emptyPool (testConn goodRequest)
        = openAndStore oneHostDialer emptyPool (itoaNat 0)
            { driver := lit "mysql", dsn := mysqlDSN (testConn goodRequest) } ∧
      GetRawConnection oneHostDialer oracleConn
        = (Except.error (lit "Oracle驱动未配置，请安装godror或oci8驱动"), []) :=
  ⟨((GetConnection_dialects oneHostDialer emptyPool oracleConn).1 (by decide)).2.1 (by decide),
    ((GetConnection_dialects oneHostDialer emptyPool (testConn goodRequest)).1
      (by decide)).2.2.1 (by decide),
    (GetConnection_dialects oneHostDialer emptyPool oracleConn).2.2.2.1 (by decide)⟩

/-- Claim C26, counterexample: for the listed dialect oracle both functions
fail although no client was asked for, with errors that are not the
unsupported-dialect error; and for a dialect that is not listed
`GetConnection` returns the client that the pool holds under the descriptor's
id, without an error. -/
theorem GetConnection_oracle_and_cached :
    GetRawConnection oneHostDialer oracleConn
        = (Except.error (lit "Oracle驱动未配置，请安装godror或oci8驱动"), []) ∧
      GetConnection oneHostDialer emptyPool oracleConn
        = (Except.error (lit "Oracle数据库暂不支持GORM，请使用原生连接"), emptyPool) ∧
      lit "Oracle驱动未配置，请安装godror或oci8驱动" ≠ lit "unsupported database type: oracle" ∧
      lit "Oracle数据库暂不支持GORM，请使用原生连接" ≠ lit "unsupported database type: oracle" ∧
      GetConnection oneHostDialer
          { pool := [(lit "3", { driver := lit "mysql", dsn := lit "x" })], opened := [] }
          { oracleConn with DBType := lit "sqlite" }
        = (Except.ok { driver := lit "mysql", dsn := lit "x" },
            { pool := [(lit "3", { driver := lit "mysql", dsn := lit "x" })], opened := [] }) := by
  decide

/-- Once the pool holds a client under the key `0`, every connection test
whose request passes the binding rules reports success and asks for no
client. -/
theorem TestConnection_cached (env : Dialer) (st : PoolState) (req : ConnectionRequest)
    (c : Client) (hb : req.bound = true) (hc : GoMap.get? st.pool (lit "0") = some c) :
    TestConnection env st req = (200, some true, st) := by
  have hk : itoaNat (testConn req).ID = lit "0" := by
    show itoaNat 0 = lit "0"
    decide
  simp only [TestConnection, hb, not_true_eq_false, if_false, GetConnection, hk, hc]

/-- Claim C30, at the failing input: on an empty pool the test of a server that
cannot be reached reports failure; but after one successful test of another
server the same request reports success, no client being asked for, and
`CreateConnection` accepts it and stores the record. -/
theorem TestConnection_reports_cached_client :
    TestConnection oneHostDialer emptyPool badRequest
        = (200, some false,
            { pool := [],
              opened := [{ driver := lit "mysql", dsn := mysqlDSN (testConn badRequest) }] }) ∧
      (TestConnection oneHostDialer emptyPool goodRequest).2.1 = some true ∧
      TestConnection oneHostDialer (TestConnection oneHostDialer emptyPool goodRequest).2.2
          badRequest
        = (200, some true, (TestConnection oneHostDialer emptyPool goodRequest).2.2) ∧
      (TestConnection oneHostDialer emptyPool goodRequest).2.2.opened
        = [{ driver := lit "mysql", dsn := mysqlDSN (testConn goodRequest) }] ∧
      (CreateConnection oneHostDialer (TestConnection oneHostDialer emptyPool goodRequest).2.2
          { records := [], failure := none } badRequest).1 = 200 ∧
      ((CreateConnection oneHostDialer (TestConnection oneHostDialer emptyPool goodRequest).2.2
          { records := [], failure := none } badRequest).2.2.records.map
            (fun r => r.Host)) = [lit "nowhere"] := by
  decide

/-! ## Scheduler and whole-database sync -/

/-- The loop over the tables leaves the name of the last table in the task. -/
theorem tableStep_foldl_TableName {σ : Type} (ops : SyncOps σ) (tables : List GoString)
    (task : SyncTask) (s : σ) :
    (tables.foldl (tableStep ops) (task, s)).1.TableName
      = (tables.getLast?).getD task.TableName := by
  induction tables generalizing task s with
  | nil => rfl
  | cons t ts ih =>
    rw [List.foldl_cons]
    have hstep : (tableStep ops (task, s) t).1 = { task with TableName := t } := by
      unfold tableStep
      simp only []
      split <;> rfl
    have hpair : tableStep ops (task, s) t
        = ({ task with TableName := t }, (tableStep ops (task, s) t).2) := by
      rw [← hstep]
    rw [hpair, ih]
    cases ts with
    | nil => rfl
    | cons u us =>
      rw [List.getLast?_cons_cons, List.getLast?_eq_getLast _ (List.cons_ne_nil u us)]
      rfl

/-- After a whole-database sync that could list the tables, the task names
the last table of the source, and keeps its name only when there is no
table. -/
theorem SyncTable_TableName {σ : Type} (ops : SyncOps σ) (task : SyncTask) (s : σ)
    (tables : List GoString) (hc : ops.connect task s = none) (hw : task.TableName = [])
    (ht : ops.getTables s = Except.ok tables) :
    (SyncTable ops task s).1 = Except.ok () ∧
      (SyncTable ops task s).2.1.TableName = (tables.getLast?).getD [] := by
  simp only [SyncTable, hc, hw, if_true, syncDatabase, ht, true_and]
  rw [tableStep_foldl_TableName, hw]

/-- `StopScheduledSync` leaves the registered jobs as they are. -/
theorem StopScheduledSync_entries {σ : Type} (sch : Scheduler σ) (taskID : Nat) :
    (StopScheduledSync sch taskID).2.entries = sch.entries := by
  unfold StopScheduledSync
  cases sch.store.first taskID <;> rfl

/-- Claim C24, at the failing input: after `StartScheduledSync` and
`StopScheduledSync` for task 1 the store says `stopped`, but the scheduler
still holds the job of task 1, and a later firing of it runs the sync of every
table and of the objects and writes the status `running` again. -/
theorem StopScheduledSync_keeps_job :
    stoppedScheduler.store.tasks.map (fun t => (t.ID, t.Status))
        = [(1, lit "stopped"), (2, lit "stopped")] ∧
      stoppedScheduler.entries.map (fun e => (e.spec, e.task.ID)) = [(lit "0 0 * * * *", 1)] ∧
      (fire traceOps ⟨100, 0⟩ 0 stoppedScheduler).world
        = [lit "table orders", lit "table users", lit "objects view", lit "objects procedure",
            lit "objects function", lit "objects trigger"] ∧
      (fire traceOps ⟨100, 0⟩ 0 stoppedScheduler).store.tasks.map (fun t => (t.ID, t.Status))
        = [(1, lit "running"), (2, lit "stopped")] := by
  decide

/-- Claim C25, at the failing input: the job of the task of table `users`
fires at time 100, when the sync fails, and at time 200, when it succeeds.
After the first firing the status is `error` and no last-run time is stored;
after the second firing, whose sync succeeded, the status is still `error`. -/
theorem fire_keeps_error_status :
    (fire flakyOps ⟨100, 0⟩ 0 usersScheduler).world = [lit "failed users"] ∧
      (fire flakyOps ⟨100, 0⟩ 0 usersScheduler).store.tasks.map
          (fun t => (t.ID, t.Status, t.LastSyncAt))
        = [(1, lit "stopped", none), (2, lit "error", none)] ∧
      (fire flakyOps ⟨200, 0⟩ 0 (fire flakyOps ⟨100, 0⟩ 0 usersScheduler)).world
        = [lit "failed users", lit "table users"] ∧
      (fire flakyOps ⟨200, 0⟩ 0 (fire flakyOps ⟨100, 0⟩ 0 usersScheduler)).store.tasks.map
          (fun t => (t.ID, t.Status, t.LastSyncAt))
        = [(1, lit "stopped", none), (2, lit "error", some ⟨200, 0⟩)] := by
  decide

/-- Claim C29, at the failing input: the whole-database task 1 is executed
twice, at the times 100 and 200. The first run syncs both tables and the
objects, and the task saved afterwards names the table `users`; the second run
syncs the table `users` only. The same holds for two firings of its job. -/
theorem SyncTable_overwrites_table_name :
    (ExecuteSyncTask traceOps ⟨100, 0⟩ idleScheduler 1).1 = 200 ∧
      (ExecuteSyncTask traceOps ⟨100, 0⟩ idleScheduler 1).2.world
        = [lit "table orders", lit "table users", lit "objects view", lit "objects procedure",
            lit "objects function", lit "objects trigger"] ∧
      (ExecuteSyncTask traceOps ⟨100, 0⟩ idleScheduler 1).2.store.tasks.map
          (fun t => (t.ID, t.TableName))
        = [(1, lit "users"), (2, lit "users")] ∧
      (ExecuteSyncTask traceOps ⟨200, 0⟩
          { (ExecuteSyncTask traceOps ⟨100, 0⟩ idleScheduler 1).2 with world := [] } 1).2.world
        = [lit "table users"] ∧
      (fire traceOps ⟨200, 0⟩ 0
          { (fire traceOps ⟨100, 0⟩ 0 (StartScheduledSync (fun _ => none) idleScheduler 1).2)
            with world := [] }).world
        = [lit "table users"] := by
  decide

/-! ## Object sync -/

/-- Dropping an object asks the source for nothing and logs nothing; it
removes only objects of the given kind and name. -/
theorem dropObject_frame (env : ObjectEnv) (dbType objType objName tableName : GoString)
    (w : ObjectWorld) :
    (dropObject env dbType objType objName tableName w).2.visited = w.visited ∧
      (dropObject env dbType objType objName tableName w).2.logs = w.logs ∧
      (∀ p, p ∈ (dropObject env dbType objType objName tableName w).2.catalog →
        p ∈ w.catalog) ∧
      (∀ p, p ∈ w.catalog → ¬ (p.1 = objType ∧ p.2.Name = objName) →
        p ∈ (dropObject env dbType objType objName tableName w).2.catalog) := by
  unfold dropObject
  simp only []
  split
  · exact ⟨rfl, rfl, fun _ h => h, fun _ h _ => h⟩
  · split
    · exact ⟨rfl, rfl, fun _ h => h, fun _ h _ => h⟩
    · refine ⟨rfl, rfl, fun p h => (List.mem_filter.mp h).1, fun p h hn => ?_⟩
      exact List.mem_filter.mpr ⟨h, decide_eq_true hn⟩

/-- Creating an object asks the source for nothing, logs nothing and removes
nothing; when it succeeds the target holds the defined object. -/
theorem createObject_frame (env : ObjectEnv) (definition objType : GoString)
    (w : ObjectWorld) :
    (createObject env definition objType w).2.visited = w.visited ∧
      (createObject env definition objType w).2.logs = w.logs ∧
      (∀ p, p ∈ w.catalog → p ∈ (createObject env definition objType w).2.catalog) ∧
      ((createObject env definition objType w).1 = none →
        (objType, env.defined definition) ∈ (createObject env definition objType w).2.catalog) := by
  unfold createObject
  simp only []
  split
  · exact ⟨rfl, rfl, fun _ h => h, fun h => by cases h⟩
  · split
    · rename_i hmem
      exact ⟨rfl, rfl, fun _ h => h, fun _ => hmem⟩
    · exact ⟨rfl, rfl, fun _ h => List.mem_append_left _ h,
        fun _ => List.mem_append_right _ (List.mem_singleton_self _)⟩

/-- The drop of an object that the target listed: what it changes. -/
theorem dropExisting_frame (env : ObjectEnv) (targetType : GoString) (taskID : Nat)
    (objType : GoString) (targetMap : List GoString) (w : ObjectWorld)
    (sourceObj : DatabaseObjectInfo) :
    (dropExisting env targetType taskID objType targetMap w sourceObj).visited = w.visited ∧
      (∃ L, (dropExisting env targetType taskID objType targetMap w sourceObj).logs
          = w.logs ++ L ∧ ∀ e ∈ L, e.Status = lit "failed") ∧
      (∀ p, p ∈ w.catalog → ¬ (p.1 = objType ∧ p.2.Name = sourceObj.Name) →
        p ∈ (dropExisting env targetType taskID objType targetMap w sourceObj).catalog) := by
  unfold dropExisting
  have hd := dropObject_frame env targetType objType sourceObj.Name sourceObj.TableName w
  split
  · rcases hdo : dropObject env targetType objType sourceObj.Name sourceObj.TableName w
      with ⟨r, wd⟩
    rw [hdo] at hd
    cases r with
    | none =>
      exact ⟨hd.1, ⟨[], by rw [List.append_nil]; exact hd.2.1, fun _ h => by cases h⟩, hd.2.2.2⟩
    | some err =>
      refine ⟨hd.1, ⟨[⟨taskID, objType, sourceObj.Name, lit "delete", lit "failed",
        lit "删除旧" ++ sourceObj.Name ++ lit "失败: " ++ err⟩], ?_, ?_⟩, hd.2.2.2⟩
      · show wd.logs ++ _ = w.logs ++ _
        rw [hd.2.1]
      · intro e he
        rw [List.mem_singleton] at he
        rw [he]
  · exact ⟨rfl, ⟨[], by simp, fun _ h => by cases h⟩, fun _ h _ => h⟩

/-- The creation of an object and its log entry: what they change. -/
theorem createAndLog_frame (env : ObjectEnv) (sourceType targetType : GoString) (taskID : Nat)
    (objType : GoString) (targetMap : List GoString) (definition : GoString) (w : ObjectWorld)
    (sourceObj : DatabaseObjectInfo) :
    (createAndLog env sourceType targetType taskID objType targetMap definition w
        sourceObj).visited = w.visited ∧
      (∀ p, p ∈ w.catalog →
        p ∈ (createAndLog env sourceType targetType taskID objType targetMap definition w
          sourceObj).catalog) ∧
      ((createAndLog env sourceType targetType taskID objType targetMap definition w
            sourceObj).logs
          = w.logs ++ [successLog taskID objType sourceObj
              (if ¬ (env.toLower sourceObj.Name ∈ targetMap) then lit "create"
                else lit "update")] ∧
          (objType, env.defined (convertDefinition definition sourceType targetType objType))
            ∈ (createAndLog env sourceType targetType taskID objType targetMap definition w
                sourceObj).catalog ∧
          env.execError (convertDefinition definition sourceType targetType objType) = none
        ∨ ∃ e, (createAndLog env sourceType targetType taskID objType targetMap definition w
            sourceObj).logs = w.logs ++ [e] ∧ e.Status = lit "failed" ∧
          env.execError (convertDefinition definition sourceType targetType objType)
            ≠ none) := by
  unfold createAndLog
  simp only []
  have hc := createObject_frame env
    (convertDefinition definition sourceType targetType objType) objType w
  have herr : (createObject env
      (convertDefinition definition sourceType targetType objType) objType w).1
      = env.execError (convertDefinition definition sourceType targetType objType) := by
    unfold createObject
    simp only []
    split
    · rename_i h
      rw [h]
    · rename_i h
      rw [h]
      split <;> rfl
  rcases hco : createObject env
    (convertDefinition definition sourceType targetType objType) objType w with ⟨r, w2⟩
  rw [hco] at hc herr
  cases r with
  | none =>
    refine ⟨hc.1, hc.2.2.1, Or.inl ⟨?_, hc.2.2.2 rfl, herr.symm⟩⟩
    show w2.logs ++ _ = w.logs ++ _
    rw [hc.2.1]
    rfl
  | some err =>
    refine ⟨hc.1, hc.2.2.1, Or.inr ⟨⟨taskID, objType, sourceObj.Name, lit "create",
      lit "failed", lit "创建" ++ sourceObj.Name ++ lit "失败: " ++ err⟩, ?_, rfl, ?_⟩⟩
    · show w2.logs ++ _ = w.logs ++ _
      rw [hc.2.1]
    · rw [← herr]
      exact fun h => by cases h

/-- The sync of one object does not ask the source for a list. -/
theorem syncObjectStep_visited (env : ObjectEnv) (sourceType targetType : GoString)
    (taskID : Nat) (objType : GoString) (targetMap : List GoString) (w : ObjectWorld)
    (sourceObj : DatabaseObjectInfo) :
    (syncObjectStep env sourceType targetType taskID objType targetMap w sourceObj).visited
      = w.visited := by
  unfold syncObjectStep
  split
  · rfl
  · rw [(createAndLog_frame _ _ _ _ _ _ _ _ _).1, (dropExisting_frame _ _ _ _ _ _ _).1]

theorem syncObjectStep_foldl_visited (env : ObjectEnv) (sourceType targetType : GoString)
    (taskID : Nat) (objType : GoString) (targetMap : List GoString)
    (objs : List DatabaseObjectInfo) (w : ObjectWorld) :
    (objs.foldl (syncObjectStep env sourceType targetType taskID objType targetMap) w).visited
      = w.visited := by
  induction objs generalizing w with
  | nil => rfl
  | cons o os ih => rw [List.foldl_cons, ih, syncObjectStep_visited]

/-- A sync of the objects of one of the four kinds asks the source for its
list exactly once, whatever happens afterwards. -/
theorem syncObjectsByType_visited (env : ObjectEnv) (sourceType targetType : GoString)
    (taskID : Nat) (objType : GoString) (w : ObjectWorld) (hk : objType ∈ objectKinds) :
    (syncObjectsByType env sourceType targetType taskID objType w).2.visited
      = w.visited ++ [objType] := by
  unfold syncObjectsByType getSourceObjects
  simp only [hk, if_true]
  cases env.sourceObjects objType with
  | error e => rfl
  | ok objs =>
    simp only []
    split
    · rfl
    · simp only [syncObjectStep_foldl_visited]

/-- Claim C22, as the code has it: `SyncDatabaseObjects` asks the source for
its procedures, then functions, then views, then triggers, whereas
`syncDatabase` hands the kinds to the object service in the order view,
procedure, function, trigger. -/
theorem SyncDatabaseObjects_order (env : ObjectEnv) (sourceType targetType : GoString)
    (task : SyncTask) (w : ObjectWorld) :
    (SyncDatabaseObjects env sourceType targetType task.ID w).2.visited
        = w.visited ++ [lit "procedure", lit "function", lit "view", lit "trigger"] ∧
      (syncDatabase (objectOps env sourceType targetType) task w).2.2.visited
        = w.visited ++ [lit "view", lit "procedure", lit "function", lit "trigger"] := by
  have hstep : ∀ (kind : GoString) (w0 : ObjectWorld), kind ∈ objectKinds →
      (objectKindStep env sourceType targetType task.ID w0 kind).visited
        = w0.visited ++ [kind] := by
    intro kind w0 hk
    have h := syncObjectsByType_visited env sourceType targetType task.ID kind w0 hk
    unfold objectKindStep
    rcases hr : syncObjectsByType env sourceType targetType task.ID kind w0 with ⟨r, w1⟩
    rw [hr] at h
    cases r <;> exact h
  have hobj : ∀ (kind label : String) (w0 : ObjectWorld), lit kind ∈ objectKinds →
      (objectStep (objectOps env sourceType targetType) task kind label w0).visited
        = w0.visited ++ [lit kind] := by
    intro kind label w0 hk
    have h := syncObjectsByType_visited env sourceType targetType task.ID (lit kind) w0 hk
    unfold objectStep
    simp only [objectOps]
    rcases hr : syncObjectsByType env sourceType targetType task.ID (lit kind) w0 with ⟨r, w1⟩
    rw [hr] at h
    cases r <;> exact h
  constructor
  · simp only [SyncDatabaseObjects, List.foldl_cons, List.foldl_nil]
    rw [hstep (lit "trigger") _ (by decide), hstep (lit "view") _ (by decide),
      hstep (lit "function") _ (by decide), hstep (lit "procedure") _ (by decide)]
    simp
  · simp only [syncDatabase, objectOps, List.foldl_nil]
    have := hobj
    simp only [objectOps] at this
    rw [this "trigger" _ _ (by decide), this "function" _ _ (by decide),
      this "procedure" _ _ (by decide), this "view" _ _ (by decide)]
    simp

/-- The orders of claim C22 on the sample source. -/
theorem SyncDatabaseObjects_order_example :
    (SyncDatabaseObjects sampleObjectEnv (lit "mysql") (lit "postgres") 1 emptyObjects).2.logs.map
        (fun e => (e.ObjectType, e.ObjectName, e.Action, e.Status))
      = [(lit "procedure", lit "refresh", lit "create", lit "success"),
         (lit "view", lit "V_Orders", lit "create", lit "success"),
         (lit "view", lit "v_users", lit "create", lit "success")] ∧
    (syncDatabase (objectOps sampleObjectEnv (lit "mysql") (lit "postgres")) wholeTask
        emptyObjects).2.2.logs.map (fun e => (e.ObjectType, e.ObjectName, e.Action, e.Status))
      = [(lit "view", lit "V_Orders", lit "create", lit "success"),
         (lit "view", lit "v_users", lit "create", lit "success"),
         (lit "procedure", lit "refresh", lit "create", lit "success")] := by
  decide

theorem mem_targetNames (env : ObjectEnv) (objType : GoString) (w : ObjectWorld)
    (n : GoString) :
    n ∈ targetNames env objType w ↔
      ∃ p, p ∈ w.catalog ∧ p.1 = objType ∧ env.toLower p.2.Name = n := by
  unfold targetNames
  simp only [List.mem_map, List.mem_filter, decide_eq_true_eq]
  constructor
  · rintro ⟨obj, ⟨p, ⟨hp, hk⟩, rfl⟩, rfl⟩
    exact ⟨p, hp, hk, rfl⟩
  · rintro ⟨p, hp, hk, rfl⟩
    exact ⟨p.2, ⟨p, ⟨hp, hk⟩, rfl⟩, rfl⟩

/-- The log entries of the sync of one object: those with status `success`
are the entry of the object, with the action that `targetMap` decides. -/
theorem syncObjectStep_logs (env : ObjectEnv) (sourceType targetType : GoString)
    (taskID : Nat) (objType : GoString) (targetMap : List GoString) (w : ObjectWorld)
    (sourceObj : DatabaseObjectInfo) :
    ∃ L, (syncObjectStep env sourceType targetType taskID objType targetMap w sourceObj).logs
        = w.logs ++ L ∧
      ∀ e ∈ L, e.Status = lit "success" →
        e = successLog taskID objType sourceObj
          (if ¬ (env.toLower sourceObj.Name ∈ targetMap) then lit "create" else lit "update") := by
  have hfs : lit "failed" ≠ lit "success" := by decide
  unfold syncObjectStep
  split
  · refine ⟨[_], rfl, ?_⟩
    intro e he hs
    rw [List.mem_singleton] at he
    rw [he] at hs
    exact absurd hs hfs
  · rename_i definition _
    obtain ⟨L1, hL1, hf1⟩ := (dropExisting_frame env targetType taskID objType targetMap w
      sourceObj).2.1
    rcases (createAndLog_frame env sourceType targetType taskID objType targetMap definition
      (dropExisting env targetType taskID objType targetMap w sourceObj) sourceObj).2.2
      with ⟨hl, _, _⟩ | ⟨e0, hl, hs0, _⟩
    · refine ⟨L1 ++ [_], by rw [hl, hL1, List.append_assoc], ?_⟩
      intro e he hs
      rcases List.mem_append.mp he with he | he
      · exact absurd ((hf1 e he).symm.trans hs) hfs
      · exact List.mem_singleton.mp he
    · refine ⟨L1 ++ [e0], by rw [hl, hL1, List.append_assoc], ?_⟩
      intro e he hs
      rcases List.mem_append.mp he with he | he
      · exact absurd ((hf1 e he).symm.trans hs) hfs
      · rw [List.mem_singleton.mp he] at hs
        exact absurd (hs0.symm.trans hs) hfs

/-- The log entries of the loop over the source objects. -/
theorem syncObjectStep_foldl_logs (env : ObjectEnv) (sourceType targetType : GoString)
    (taskID : Nat) (objType : GoString) (targetMap : List GoString)
    (objs : List DatabaseObjectInfo) (w : ObjectWorld) :
    ∃ L, (objs.foldl (syncObjectStep env sourceType targetType taskID objType targetMap)
        w).logs = w.logs ++ L ∧
      ∀ e ∈ L, e.Status = lit "success" → ∃ o ∈ objs,
        e = successLog taskID objType o
          (if ¬ (env.toLower o.Name ∈ targetMap) then lit "create" else lit "update") := by
  induction objs generalizing w with
  | nil => exact ⟨[], by simp, fun _ h => by cases h⟩
  | cons o os ih =>
    obtain ⟨L1, h1, p1⟩ := syncObjectStep_logs env sourceType targetType taskID objType
      targetMap w o
    obtain ⟨L2, h2, p2⟩ := ih
      (syncObjectStep env sourceType targetType taskID objType targetMap w o)
    refine ⟨L1 ++ L2, by rw [List.foldl_cons, h2, h1, List.append_assoc], ?_⟩
    intro e he hs
    rcases List.mem_append.mp he with he | he
    · exact ⟨o, List.mem_cons_self _ _, p1 e he hs⟩
    · obtain ⟨o', ho', heq⟩ := p2 e he hs
      exact ⟨o', List.mem_cons_of_mem _ ho', heq⟩

/-- The statement text of a drop is not empty for the three dialects and the
four kinds. -/
theorem dropStatement_ne_nil (dbType objType objName tableName : GoString)
    (ht : dbType = lit "mysql" ∨ dbType = lit "postgres" ∨ dbType = lit "oracle")
    (hk : objType ∈ objectKinds) : dropStatement dbType objType objName tableName ≠ [] := by
  have hne : ∀ (a b : GoString), a ≠ [] → a ++ b ≠ [] :=
    fun a b h => List.append_ne_nil_of_left_ne_nil h b
  have h1 : lit "DROP " ≠ [] := by decide
  have h2 : lit "DROP VIEW IF EXISTS " ≠ [] := by decide
  have h3 : lit "DROP TRIGGER IF EXISTS " ≠ [] := by decide
  have h4 : lit "DROP VIEW " ≠ [] := by decide
  have h5 : lit "DROP TRIGGER " ≠ [] := by decide
  have n1 : ¬ lit "postgres" = lit "mysql" := by decide
  have n2 : ¬ lit "oracle" = lit "mysql" := by decide
  have n3 : ¬ lit "oracle" = lit "postgres" := by decide
  have k1 : ¬ lit "view" = lit "procedure" := by decide
  have k2 : ¬ lit "view" = lit "function" := by decide
  have k3 : ¬ lit "trigger" = lit "procedure" := by decide
  have k4 : ¬ lit "trigger" = lit "function" := by decide
  have k5 : ¬ lit "trigger" = lit "view" := by decide
  simp only [objectKinds, List.mem_cons, List.mem_nil_iff, or_false] at hk
  rcases ht with rfl | rfl | rfl <;> rcases hk with rfl | rfl | rfl | rfl <;>
    simp only [dropStatement, n1, n2, n3, k1, k2, k3, k4, k5, if_true, if_false, true_or,
      or_true, or_self, List.append_assoc] <;>
    first
      | exact hne _ _ h1
      | exact hne _ _ h2
      | exact hne _ _ h3
      | exact hne _ _ h4
      | exact hne _ _ h5

/-- When the definition of an object can be fetched and executed and defines an
object of the same lower-cased name, the sync of the object leaves that name
listed and keeps every listed name. -/
theorem syncObjectStep_targetNames (env : ObjectEnv) (sourceType targetType : GoString)
    (taskID : Nat) (objType : GoString) (targetMap : List GoString) (w : ObjectWorld)
    (sourceObj : DatabaseObjectInfo) (d : GoString)
    (hd : env.definition objType sourceObj = Except.ok d)
    (hx : env.execError (convertDefinition d sourceType targetType objType) = none)
    (hn : env.toLower (env.defined (convertDefinition d sourceType targetType objType)).Name
      = env.toLower sourceObj.Name) :
    env.toLower sourceObj.Name ∈ targetNames env objType
        (syncObjectStep env sourceType targetType taskID objType targetMap w sourceObj) ∧
      ∀ n, n ∈ targetNames env objType w →
        n ∈ targetNames env objType
          (syncObjectStep env sourceType targetType taskID objType targetMap w sourceObj) := by
  have hstep : syncObjectStep env sourceType targetType taskID objType targetMap w sourceObj
      = createAndLog env sourceType targetType taskID objType targetMap d
          (dropExisting env targetType taskID objType targetMap w sourceObj) sourceObj := by
    unfold syncObjectStep
    rw [hd]
  rw [hstep]
  have hc := createAndLog_frame env sourceType targetType taskID objType targetMap d
    (dropExisting env targetType taskID objType targetMap w sourceObj) sourceObj
  have hdrop := (dropExisting_frame env targetType taskID objType targetMap w sourceObj).2.2
  have hin : (objType, env.defined (convertDefinition d sourceType targetType objType))
      ∈ (createAndLog env sourceType targetType taskID objType targetMap d
          (dropExisting env targetType taskID objType targetMap w sourceObj) sourceObj).catalog := by
    rcases hc.2.2 with ⟨_, h, _⟩ | ⟨_, _, _, h⟩
    · exact h
    · exact absurd hx h
  have hself : env.toLower sourceObj.Name ∈ targetNames env objType
      (createAndLog env sourceType targetType taskID objType targetMap d
        (dropExisting env targetType taskID objType targetMap w sourceObj) sourceObj) :=
    (mem_targetNames _ _ _ _).mpr ⟨_, hin, rfl, hn⟩
  refine ⟨hself, ?_⟩
  intro n hnm
  obtain ⟨p, hp, hk, hl⟩ := (mem_targetNames _ _ _ _).mp hnm
  by_cases hrem : p.1 = objType ∧ p.2.Name = sourceObj.Name
  · rw [← hl, hrem.2]
    exact hself
  · exact (mem_targetNames _ _ _ _).mpr ⟨p, hc.2.1 p (hdrop p hp hrem), hk, hl⟩

/-- After the loop over source objects whose definitions can all be fetched and
executed, the target lists the lower-cased name of every one of them. -/
theorem syncObjectStep_foldl_targetNames (env : ObjectEnv) (sourceType targetType : GoString)
    (taskID : Nat) (objType : GoString) (targetMap : List GoString)
    (objs : List DatabaseObjectInfo) (w : ObjectWorld)
    (hexec : ∀ sql, env.execError sql = none)
    (hdef : ∀ o ∈ objs, ∃ d, env.definition objType o = Except.ok d ∧
      env.toLower (env.defined (convertDefinition d sourceType targetType objType)).Name
        = env.toLower o.Name) :
    (∀ n, n ∈ targetNames env objType w →
        n ∈ targetNames env objType
          (objs.foldl (syncObjectStep env sourceType targetType taskID objType targetMap) w)) ∧
      ∀ o ∈ objs, env.toLower o.Name ∈ targetNames env objType
        (objs.foldl (syncObjectStep env sourceType targetType taskID objType targetMap) w) := by
  induction objs generalizing w with
  | nil => exact ⟨fun _ h => h, fun _ h => by cases h⟩
  | cons o os ih =>
    obtain ⟨d, hd, hn⟩ := hdef o (List.mem_cons_self _ _)
    have hs := syncObjectStep_targetNames env sourceType targetType taskID objType targetMap w
      o d hd (hexec _) hn
    have hrest := ih (syncObjectStep env sourceType targetType taskID objType targetMap w o)
      (fun o' ho' => hdef o' (List.mem_cons_of_mem _ ho'))
    rw [List.foldl_cons]
    refine ⟨fun n h => hrest.1 n (hs.2 n h), ?_⟩
    intro o' ho'
    rcases List.mem_cons.mp ho' with rfl | ho'
    · exact hrest.1 _ hs.1
    · exact hrest.2 o' ho'

/-- When the target listed every source object and every fetch, drop and
create succeeds, the loop logs one entry per source object, with the action
`update` and the status `success`. -/
theorem syncObjectStep_foldl_update (env : ObjectEnv) (sourceType targetType : GoString)
    (taskID : Nat) (objType : GoString) (targetMap : List GoString)
    (objs : List DatabaseObjectInfo) (w : ObjectWorld)
    (ht : targetType = lit "mysql" ∨ targetType = lit "postgres" ∨ targetType = lit "oracle")
    (hk : objType ∈ objectKinds) (hexec : ∀ sql, env.execError sql = none)
    (hdef : ∀ o ∈ objs, ∃ d, env.definition objType o = Except.ok d)
    (hmap : ∀ o ∈ objs, env.toLower o.Name ∈ targetMap) :
    (objs.foldl (syncObjectStep env sourceType targetType taskID objType targetMap) w).logs
      = w.logs ++ objs.map (fun o => successLog taskID objType o (lit "update")) := by
  induction objs generalizing w with
  | nil => simp
  | cons o os ih =>
    obtain ⟨d, hd⟩ := hdef o (List.mem_cons_self _ _)
    have hm := hmap o (List.mem_cons_self _ _)
    have hdropped : (dropExisting env targetType taskID objType targetMap w o).logs
        = w.logs := by
      unfold dropExisting
      rw [if_pos hm]
      unfold dropObject
      simp only [dropStatement_ne_nil targetType objType o.Name o.TableName ht hk, if_false,
        hexec]
    have hstep : (syncObjectStep env sourceType targetType taskID objType targetMap w o).logs
        = w.logs ++ [successLog taskID objType o (lit "update")] := by
      unfold syncObjectStep
      rw [hd]
      rcases (createAndLog_frame env sourceType targetType taskID objType targetMap d
        (dropExisting env targetType taskID objType targetMap w o) o).2.2
        with ⟨hl, _, _⟩ | ⟨_, _, _, h⟩
      · simp only []
        rw [hl, hdropped, if_neg (not_not.mpr hm)]
      · exact absurd (hexec _) h
    rw [List.foldl_cons, ih _ (fun o' ho' => hdef o' (List.mem_cons_of_mem _ ho'))
      (fun o' ho' => hmap o' (List.mem_cons_of_mem _ ho')), hstep, List.map_cons,
      List.append_assoc]
    rfl

/-- The sync of the objects of a kind when both listings succeed: the loop
over the source objects, with the names that the target listed. -/
theorem syncObjectsByType_eq (env : ObjectEnv) (sourceType targetType : GoString)
    (taskID : Nat) (objType : GoString) (w : ObjectWorld) (objs : List DatabaseObjectInfo)
    (hk : objType ∈ objectKinds) (hsrc : env.sourceObjects objType = Except.ok objs)
    (hq : env.targetQueryError objType = none) :
    syncObjectsByType env sourceType targetType taskID objType w
      = (Except.ok (),
          objs.foldl (syncObjectStep env sourceType targetType taskID objType
              (targetNames env objType w))
            { w with visited := w.visited ++ [objType] }) := by
  simp only [syncObjectsByType, getSourceObjects, getTargetObjects, hk, if_true, hsrc, hq,
    targetNames]

/-- Claim C21. The entries that `syncObjectsByType` logs with status `success`
have the action `update` when the target listed an object with the same
lower-cased name before the run, and `create` otherwise. And when the source
list, every definition fetch, every drop and every create succeed, a created
object being listed by the target under the same lower-cased name, the second
of two runs in a row logs exactly one entry per source object, with the action
`update` and the status `success`. -/
theorem syncObjectsByType_actions (env : ObjectEnv) (sourceType targetType : GoString)
    (taskID : Nat) (objType : GoString) (w : ObjectWorld) :
    (∃ L, (syncObjectsByType env sourceType targetType taskID objType w).2.logs = w.logs ++ L ∧
        ∀ e ∈ L, e.Status = lit "success" →
          (e.Action = lit "update" ∧ env.toLower e.ObjectName ∈ targetNames env objType w) ∨
          (e.Action = lit "create" ∧ env.toLower e.ObjectName ∉ targetNames env objType w)) ∧
      (∀ objs : List DatabaseObjectInfo, objType ∈ objectKinds →
        (targetType = lit "mysql" ∨ targetType = lit "postgres" ∨ targetType = lit "oracle") →
        env.sourceObjects objType = Except.ok objs → env.targetQueryError objType = none →
        (∀ sql, env.execError sql = none) →
        (∀ o ∈ objs, ∃ d, env.definition objType o = Except.ok d ∧
          env.toLower (env.defined (convertDefinition d sourceType targetType objType)).Name
            = env.toLower o.Name) →
        (syncObjectsByType env sourceType targetType taskID objType
            (syncObjectsByType env sourceType targetType taskID objType w).2).1
          = Except.ok () ∧
        (syncObjectsByType env sourceType targetType taskID objType
            (syncObjectsByType env sourceType targetType taskID objType w).2).2.logs
          = (syncObjectsByType env sourceType targetType taskID objType w).2.logs
            ++ objs.map (fun o => successLog taskID objType o (lit "update"))) := by
  constructor
  · by_cases hk : objType ∈ objectKinds
    · cases hsrc : env.sourceObjects objType with
      | error e =>
        refine ⟨[], ?_, fun _ h => by cases h⟩
        simp only [syncObjectsByType, getSourceObjects, hk, if_true, hsrc, List.append_nil]
      | ok objs =>
        cases hq : env.targetQueryError objType with
        | some e =>
          refine ⟨[], ?_, fun _ h => by cases h⟩
          simp only [syncObjectsByType, getSourceObjects, getTargetObjects, hk, if_true, hsrc,
            hq, List.append_nil]
        | none =>
          rw [syncObjectsByType_eq env sourceType targetType taskID objType w objs hk hsrc hq]
          obtain ⟨L, hL, hP⟩ := syncObjectStep_foldl_logs env sourceType targetType taskID
            objType (targetNames env objType w) objs
            { w with visited := w.visited ++ [objType] }
          refine ⟨L, hL, ?_⟩
          intro e he hs
          obtain ⟨o, _, heq⟩ := hP e he hs
          rw [heq]
          by_cases hm : env.toLower o.Name ∈ targetNames env objType w
          · left
            rw [if_neg (not_not.mpr hm)]
            exact ⟨rfl, hm⟩
          · right
            rw [if_pos hm]
            exact ⟨rfl, hm⟩
    · refine ⟨[], ?_, fun _ h => by cases h⟩
      simp only [syncObjectsByType, getSourceObjects, hk, if_false, List.append_nil]
  · intro objs hk ht hsrc hq hexec hdef
    rw [syncObjectsByType_eq env sourceType targetType taskID objType w objs hk hsrc hq]
    simp only []
    rw [syncObjectsByType_eq env sourceType targetType taskID objType _ objs hk hsrc hq]
    refine ⟨rfl, ?_⟩
    have hnames := (syncObjectStep_foldl_targetNames env sourceType targetType taskID objType
      (targetNames env objType w) objs { w with visited := w.visited ++ [objType] } hexec
      hdef).2
    exact syncObjectStep_foldl_update env sourceType targetType taskID objType _ objs _ ht hk
      hexec (fun o ho => (hdef o ho).imp (fun _ h => h.1)) hnames

/-- Claim C21 on the sample source, for the views and a PostgreSQL target: the
first run creates both views, the second run updates both. -/
theorem syncObjectsByType_actions_witness :
    ((syncObjectsByType sampleObjectEnv (lit "mysql") (lit "postgres") 1 (lit "view")
        emptyObjects).2.logs.map (fun e => (e.ObjectName, e.Action, e.Status))
        = [(lit "V_Orders", lit "create", lit "success"),
           (lit "v_users", lit "create", lit "success")]) ∧
      (syncObjectsByType sampleObjectEnv (lit "mysql") (lit "postgres") 1 (lit "view")
          (syncObjectsByType sampleObjectEnv (lit "mysql") (lit "postgres") 1 (lit "view")
            emptyObjects).2).2.logs
        = (syncObjectsByType sampleObjectEnv (lit "mysql") (lit "postgres") 1 (lit "view")
            emptyObjects).2.logs
          ++ [successLog 1 (lit "view")
                { Name := lit "V_Orders", TableName := [], Schema := lit "shop" } (lit "update"),
              successLog 1 (lit "view")
                { Name := lit "v_users", TableName := [], Schema := lit "shop" }
                (lit "update")] :=
  ⟨by decide,
    ((syncObjectsByType_actions sampleObjectEnv (lit "mysql") (lit "postgres") 1 (lit "view")
      emptyObjects).2
      [{ Name := lit "V_Orders", TableName := [], Schema := lit "shop" },
       { Name := lit "v_users", TableName := [], Schema := lit "shop" }]
      (by decide) (by decide) (by decide) rfl (fun _ => rfl)
      (fun o ho => ⟨lit "CREATE " ++ lit "view" ++ lit " " ++ o.Name, rfl, by
        simp only [List.mem_cons, List.mem_nil_iff, or_false] at ho
        rcases ho with rfl | rfl <;> decide⟩)).2⟩

theorem digitByte_val (d : Nat) (h : d < 10) : (digitByte d).val = 48 + d := by
  simp only [digitByte, byteOf]
  omega

theorem isDigitByte_digitByte (d : Nat) (h : d < 10) : isDigitByte (digitByte d) = true := by
  simp only [isDigitByte, digitByte_val d h, decide_eq_true_eq]
  omega

theorem getnum_twoDigits (n : Nat) (h : n < 100) (rest : GoString) (isFixed : Bool) :
    getnum (twoDigits n ++ rest) isFixed = some (n, rest) := by
  have h1 : n / 10 % 10 < 10 := Nat.mod_lt _ (by decide)
  have h2 : n % 10 < 10 := Nat.mod_lt _ (by decide)
  simp only [twoDigits, List.cons_append, List.nil_append, getnum, isDigitByte_digitByte _ h1,
    isDigitByte_digitByte _ h2, if_true, digitByte_val _ h1, digitByte_val _ h2,
    Option.some.injEq, Prod.mk.injEq, and_true]
  omega

theorem leadingInt_digits (ds : List Nat) (hd : ∀ d ∈ ds, d < 10) (acc : Nat) :
    ∃ q, leadingInt (ds.map digitByte) acc = (q, []) := by
  induction ds generalizing acc with
  | nil => exact ⟨acc, rfl⟩
  | cons d rest ih =>
    simp only [List.map_cons, leadingInt,
      isDigitByte_digitByte d (hd d (List.mem_cons_self _ _)), if_true]
    exact ih (fun x hx => hd x (List.mem_cons_of_mem _ hx)) _

theorem atoi_digits (ds : List Nat) (hd : ∀ d ∈ ds, d < 10) :
    ∃ q : Nat, atoi (ds.map digitByte) = some (q : Int) := by
  cases ds with
  | nil => exact ⟨0, rfl⟩
  | cons d rest =>
    have hd0 := hd d (List.mem_cons_self _ _)
    have hv := digitByte_val d hd0
    obtain ⟨q, hq⟩ := leadingInt_digits (d :: rest) hd 0
    refine ⟨q, ?_⟩
    have n45 : ¬ (digitByte d).val = 45 := by omega
    have n43 : ¬ (digitByte d).val = 43 := by omega
    simp only [List.map_cons] at hq
    simp only [atoi, List.map_cons, n45, n43, or_self, if_false, decide_False, hq,
      Bool.false_eq_true]

theorem atoi_fourDigits (y : Nat) (h : y ≤ 9999) : atoi (fourDigits y) = some (y : Int) := by
  have h3 : y / 1000 % 10 < 10 := Nat.mod_lt _ (by decide)
  have h2 : y / 100 % 10 < 10 := Nat.mod_lt _ (by decide)
  have h1 : y / 10 % 10 < 10 := Nat.mod_lt _ (by decide)
  have h0 : y % 10 < 10 := Nat.mod_lt _ (by decide)
  have n1 : ¬ (48 + y / 1000 % 10 = 45 ∨ 48 + y / 1000 % 10 = 43) := by omega
  have n2 : ¬ (48 + y / 1000 % 10 = 45) := by omega
  have n3 : ¬ (48 + y / 1000 % 10 = 43) := by omega
  have e1 : y / 100 / 10 = y / 1000 := Nat.div_div_eq_div_mul y 100 10
  have e2 : y / 10 / 10 = y / 100 := Nat.div_div_eq_div_mul y 10 10
  have e3 : y / 1000 / 10 = 0 := by
    rw [Nat.div_div_eq_div_mul]
    exact Nat.div_eq_of_lt (by omega)
  simp only [atoi, fourDigits, digitByte_val _ h3, n1, n2, n3, or_self, if_false, decide_False,
    Bool.false_eq_true, leadingInt,
    isDigitByte_digitByte _ h3, isDigitByte_digitByte _ h2, isDigitByte_digitByte _ h1,
    isDigitByte_digitByte _ h0, if_true, digitByte_val _ h2,
    digitByte_val _ h1, digitByte_val _ h0, Option.some.injEq]
  congr 1
  omega

theorem parseChunk_year (y : Nat) (h : y ≤ 9999) (rest : List Chunk) (v : GoString)
    (f : Fields) :
    parseChunk Chunk.stdLongYear rest (fourDigits y ++ v) f = some (v, { f with year := y }) := by
  have h3 : y / 1000 % 10 < 10 := Nat.mod_lt _ (by decide)
  have ht : (fourDigits y ++ v).take 4 = fourDigits y := by
    simp [fourDigits]
  have hd : (fourDigits y ++ v).drop 4 = v := by
    simp [fourDigits]
  have hl : ¬ (fourDigits y ++ v).length < 4 := by
    simp [fourDigits]
  have hx : fourDigits y ++ v = digitByte (y / 1000 % 10) ::
      ([digitByte (y / 100 % 10), digitByte (y / 10 % 10), digitByte (y % 10)] ++ v) := rfl
  unfold parseChunk
  simp only []
  rw [hx]
  simp only []
  rw [← hx, ht, hd, atoi_fourDigits y h]
  simp only [hl, isDigitByte_digitByte _ h3, not_true_eq_false, or_self, if_false,
    Int.toNat_ofNat]

theorem parseChunk_month (m : Nat) (h1 : 1 ≤ m) (h2 : m ≤ 12) (rest : List Chunk)
    (v : GoString) (f : Fields) :
    parseChunk Chunk.stdZeroMonth rest (twoDigits m ++ v) f
      = some (v, { f with month := m }) := by
  have n : ¬ (m = 0 ∨ 12 < m) := by omega
  simp only [parseChunk, getnum_twoDigits m (by omega), n, if_false]

theorem parseChunk_day (d : Nat) (h : d < 100) (rest : List Chunk) (v : GoString)
    (f : Fields) :
    parseChunk Chunk.stdZeroDay rest (twoDigits d ++ v) f = some (v, { f with day := d }) := by
  simp only [parseChunk, getnum_twoDigits d h]

theorem parseChunk_hour (n : Nat) (h : n < 24) (rest : List Chunk) (v : GoString)
    (f : Fields) :
    parseChunk Chunk.stdHour rest (twoDigits n ++ v) f = some (v, { f with hour := n }) := by
  have n1 : ¬ 24 ≤ n := by omega
  simp only [parseChunk, getnum_twoDigits n (by omega), n1, if_false]

theorem parseChunk_minute (n : Nat) (h : n < 60) (rest : List Chunk) (v : GoString)
    (f : Fields) :
    parseChunk Chunk.stdZeroMinute rest (twoDigits n ++ v) f
      = some (v, { f with min := n }) := by
  have n1 : ¬ 60 ≤ n := by omega
  simp only [parseChunk, getnum_twoDigits n (by omega), n1, if_false]

/-- A literal byte of the layout that is not a space consumes the same byte of
the value and nothing else. -/
theorem parseChunk_byte (c d : Byte) (hc : c.val ≠ 32) (rest : List Chunk) (v : GoString)
    (f : Fields) :
    parseChunk (Chunk.text [c]) rest (d :: v) f = if d = c then some (v, f) else none := by
  simp only [parseChunk, skip, hc, if_false]
  by_cases e : d = c
  · simp only [e, if_true, skip, Option.map_some']
  · simp only [e, if_false, Option.map_none']

/-- A space of the layout consumes a space of the value and the spaces after
it, and nothing else. -/
theorem parseChunk_space (d : Byte) (rest : List Chunk) (v : GoString) (f : Fields) :
    parseChunk (Chunk.text [32]) rest (d :: v) f
      = if d.val = 32 then some (cutspace v, f) else none := by
  have h32 : ((32 : Byte) : Nat) = 32 := rfl
  simp only [parseChunk, skip, h32, if_true, Bool.false_eq_true, if_false]
  by_cases e : d.val = 32
  · simp only [e, if_true, skip, Option.map_some']
  · simp only [e, if_false, Option.map_none']

theorem cutspace_twoDigits (n : Nat) (v : GoString) :
    cutspace (twoDigits n ++ v) = twoDigits n ++ v := by
  have h1 : n / 10 % 10 < 10 := Nat.mod_lt _ (by decide)
  have hv := digitByte_val _ h1
  have n32 : ¬ (digitByte (n / 10 % 10)).val = 32 := by omega
  simp only [twoDigits, List.cons_append, cutspace, n32, if_false]
  rfl

theorem digitRun_digits (ds : List Nat) (hd : ∀ d ∈ ds, d < 10) (z : GoString)
    (hz : ∀ c r, z = c :: r → isDigitByte c = false) :
    digitRun (ds.map digitByte ++ z) = ds.length := by
  induction ds with
  | nil =>
    cases z with
    | nil => rfl
    | cons c r => simp [digitRun, hz c r rfl]
  | cons d rest ih =>
    simp only [List.map_cons, List.cons_append, digitRun,
      isDigitByte_digitByte d (hd d (List.mem_cons_self _ _)), if_true, List.length_cons]
    exact congrArg (fun n => n + 1) (ih (fun x hx => hd x (List.mem_cons_of_mem _ hx)))

/-- The fraction of a second, when it is there, is read whatever the number
of its digits. -/
theorem parseNanoseconds_frac (d : Nat) (ds : List Nat) (hd : ∀ x ∈ d :: ds, x < 10)
    (z : GoString) :
    ∃ ns, parseNanoseconds (46 :: ((d :: ds).map digitByte ++ z)) (2 + ds.length)
      = some ns := by
  have h46 : commaOrPeriod 46 = true := by decide
  have htake : ∀ n, n ≤ 2 + ds.length →
      ((46 :: ((d :: ds).map digitByte ++ z)).take n).drop 1
        = ((d :: ds).take (n - 1)).map digitByte := by
    intro n hn
    cases n with
    | zero => simp
    | succ k =>
      simp only [List.take_succ_cons, List.drop_succ_cons, List.drop_zero, Nat.add_sub_cancel]
      rw [List.take_append_of_le_length (by simp; omega), List.map_take]
  unfold parseNanoseconds
  simp only [h46, if_true]
  by_cases hn : 2 + ds.length > 10
  · simp only [hn, if_true]
    rw [htake 10 (by omega)]
    obtain ⟨q, hq⟩ := atoi_digits ((d :: ds).take 9)
      (fun x hx => hd x (List.mem_of_mem_take hx))
    rw [hq]
    have hneg : ¬ ((q : Int) < 0) := by omega
    simp only [hneg, if_false]
    exact ⟨_, rfl⟩
  · simp only [hn, if_false]
    rw [htake _ (le_refl _)]
    obtain ⟨q, hq⟩ := atoi_digits ((d :: ds).take (2 + ds.length - 1))
      (fun x hx => hd x (List.mem_of_mem_take hx))
    rw [hq]
    have hneg : ¬ ((q : Int) < 0) := by omega
    simp only [hneg, if_false]
    exact ⟨_, rfl⟩

/-- The seconds, followed by text that is not a fraction. -/
theorem parseChunk_second_plain (s : Nat) (h : s < 60) (tail : List Chunk) (z : GoString)
    (hz : ∀ c r, z = c :: r → commaOrPeriod c = false) (f : Fields) :
    parseChunk Chunk.stdZeroSecond tail (twoDigits s ++ z) f = some (z, { f with sec := s }) := by
  have n1 : ¬ 60 ≤ s := by omega
  simp only [parseChunk, getnum_twoDigits s (by omega), n1, if_false]
  cases z with
  | nil => rfl
  | cons c r =>
    cases r with
    | nil => rfl
    | cons c2 r2 =>
      simp only [hz c (c2 :: r2) rfl, Bool.false_eq_true, false_and, if_false]

/-- The seconds, followed by a fraction that the layout does not have: the
fraction is read with the seconds. -/
theorem parseChunk_second_frac (s : Nat) (h : s < 60) (tail : List Chunk)
    (ht : nextIsFrac tail = false) (d : Nat) (ds : List Nat) (hd : ∀ x ∈ d :: ds, x < 10)
    (z : GoString) (hz : ∀ c r, z = c :: r → isDigitByte c = false) (f : Fields) :
    ∃ ns, parseChunk Chunk.stdZeroSecond tail
        (twoDigits s ++ (46 :: ((d :: ds).map digitByte ++ z))) f
      = some (z, { f with sec := s, nsec := ns }) := by
  have n1 : ¬ 60 ≤ s := by omega
  have h46 : commaOrPeriod 46 = true := by decide
  obtain ⟨ns, hns⟩ := parseNanoseconds_frac d ds hd z
  refine ⟨ns, ?_⟩
  have hrun := digitRun_digits ds (fun x hx => hd x (List.mem_cons_of_mem _ hx)) z hz
  have hdrop : (46 :: ((d :: ds).map digitByte ++ z)).drop (2 + ds.length) = z := by
    have : 2 + ds.length = (46 :: (d :: ds).map digitByte).length := by
      simp only [List.length_cons, List.length_map]
      omega
    rw [this, ← List.cons_append, List.drop_left]
  simp only [List.map_cons, List.cons_append] at hns hdrop
  simp only [parseChunk, getnum_twoDigits s (by omega), n1, if_false, List.map_cons,
    List.cons_append, h46, isDigitByte_digitByte d (hd d (List.mem_cons_self _ _)), ht,
    Bool.false_eq_true, not_false_eq_true, and_self, if_true, hrun, hns, hdrop]

/-- The seconds, followed by a fraction that the layout has next: the fraction
is left for the next element. -/
theorem parseChunk_second_left (s : Nat) (h : s < 60) (tail : List Chunk)
    (ht : nextIsFrac tail = true) (v : GoString) (f : Fields) :
    parseChunk Chunk.stdZeroSecond tail (twoDigits s ++ v) f = some (v, { f with sec := s }) := by
  have n1 : ¬ 60 ≤ s := by omega
  simp only [parseChunk, getnum_twoDigits s (by omega), n1, if_false]
  cases v with
  | nil => rfl
  | cons c r =>
    cases r with
    | nil => rfl
    | cons c2 r2 =>
      simp only [ht, not_true_eq_false, and_false, if_false]

/-- The element `.999999999` of the layout reads a fraction at the end of the
value, if there is one. -/
theorem parseChunk_frac9 (frac : List Nat) (hd : ∀ x ∈ frac, x < 10) (n : Nat)
    (tail : List Chunk) (f : Fields) :
    ∃ f1, parseChunk (Chunk.stdFracSecond9 n) tail (fracText frac) f = some ([], f1) ∧
      f1.year = f.year ∧ f1.month = f.month ∧ f1.day = f.day ∧ f1.hour = f.hour ∧
      f1.min = f.min ∧ f1.sec = f.sec ∧ f1.zoneOffset = f.zoneOffset := by
  cases frac with
  | nil => exact ⟨f, rfl, rfl, rfl, rfl, rfl, rfl, rfl, rfl⟩
  | cons d ds =>
    have h46 : commaOrPeriod 46 = true := by decide
    obtain ⟨ns, hns⟩ := parseNanoseconds_frac d ds hd []
    have hrun := digitRun_digits ds (fun x hx => hd x (List.mem_cons_of_mem _ hx)) []
      (fun c r e => by cases e)
    have hdrop : (46 :: ((d :: ds).map digitByte ++ [])).drop (2 + ds.length) = [] := by
      have : 2 + ds.length = (46 :: (d :: ds).map digitByte).length := by
        simp only [List.length_cons, List.length_map]
        omega
      rw [this, ← List.cons_append, List.drop_left]
    have hl : lit "." = [46] := by decide
    simp only [List.map_cons, List.cons_append, List.append_nil] at hns hdrop hrun
    refine ⟨{ f with nsec := ns }, ?_, rfl, rfl, rfl, rfl, rfl, rfl, rfl⟩
    simp only [fracText, List.cons_ne_nil, if_false, hl, List.map_cons, List.cons_append,
      List.nil_append, parseChunk, h46,
      isDigitByte_digitByte d (hd d (List.mem_cons_self _ _)), and_self, if_true, hrun, hns,
      hdrop]

/-- The zone at the end of the value, for the layout element `Z07:00`. -/
theorem parseChunk_zone (z : ZoneText) (hz : z.valid = true) (tail : List Chunk) (f : Fields) :
    parseChunk Chunk.stdISO8601ColonTZ tail z.text f
      = if z = ZoneText.absent then none else some ([], { f with zoneOffset := z.seconds }) := by
  have h58 : ((58 : Byte) : Nat) = 58 := rfl
  have h43 : ((43 : Byte) : Nat) = 43 := rfl
  have h45 : ((45 : Byte) : Nat) = 45 := rfl
  have h90 : ((90 : Byte) : Nat) = 90 := rfl
  have lp : lit "+" = [43] := by decide
  have lm : lit "-" = [45] := by decide
  have lc : lit ":" = [58] := by decide
  have lz : lit "Z" = [90] := by decide
  cases z with
  | absent => rfl
  | utc =>
    simp only [ZoneText.text, lz, parseChunk, h90, if_true, ZoneText.seconds, reduceCtorEq,
      if_false]
  | east hh mm =>
    simp only [ZoneText.valid, decide_eq_true_eq] at hz
    have g1 := getnum_twoDigits hh (by omega) [] true
    have g2 := getnum_twoDigits mm (by omega) [] true
    have n1 : ¬ (hh > 24 ∨ mm > 60) := by omega
    have n2 : ¬ (digitByte (hh / 10 % 10)).val = 90 := by
      have := digitByte_val (hh / 10 % 10) (Nat.mod_lt _ (by decide))
      omega
    simp only [twoDigits, List.cons_append, List.nil_append] at g1 g2
    simp only [ZoneText.text, lp, lc, twoDigits, List.cons_append, List.nil_append,
      List.append_nil, parseChunk, h43, parseNumColonTZ, h58, ne_eq, not_true_eq_false,
      if_false, g1, g2, n1, if_true, ZoneText.seconds, reduceCtorEq]
    simp
  | west hh mm =>
    simp only [ZoneText.valid, decide_eq_true_eq] at hz
    have g1 := getnum_twoDigits hh (by omega) [] true
    have g2 := getnum_twoDigits mm (by omega) [] true
    have n1 : ¬ (hh > 24 ∨ mm > 60) := by omega
    simp only [twoDigits, List.cons_append, List.nil_append] at g1 g2
    simp only [ZoneText.text, lm, lc, twoDigits, List.cons_append, List.nil_append,
      List.append_nil, parseChunk, h45, parseNumColonTZ, h58, ne_eq, not_true_eq_false,
      if_false, g1, g2, n1, if_true, ZoneText.seconds, reduceCtorEq]
    simp

/-- The text of a timestamp, byte by byte. -/
theorem Stamp.text_eq (st : Stamp) :
    st.text = fourDigits st.year ++ (45 :: (twoDigits st.month ++ (45 :: (twoDigits st.day ++
      ((if st.space then 32 else 84) :: (twoDigits st.hour ++ (58 :: (twoDigits st.min ++
        (58 :: (twoDigits st.sec ++ (fracText st.frac ++ st.zone.text))))))))))) := by
  have lm : lit "-" = [45] := by decide
  have lc : lit ":" = [58] := by decide
  have lt : lit "T" = [84] := by decide
  have ls : lit " " = [32] := by decide
  unfold Stamp.text
  cases st.space <;>
    simp only [lm, lc, lt, ls, List.append_assoc, List.cons_append, List.nil_append, if_true,
      if_false, Bool.false_eq_true]

/-- The loop of `time.Parse` over a layout that starts with the date and the
time of day, up to the seconds: on a written timestamp it reaches the seconds
when the separator of the layout is that of the text, and fails otherwise. -/
theorem parseChunks_dateTime (st : Stamp) (hv : st.valid = true) (useSpace : Bool)
    (tail : List Chunk) :
    parseChunks (layoutDateTime (if useSpace then " " else "T") ++ tail) st.text Fields.init
      = if st.space = useSpace then
          match parseChunk Chunk.stdZeroSecond tail
              (twoDigits st.sec ++ (fracText st.frac ++ st.zone.text)) st.beforeSeconds with
          | some (v1, f1) => parseChunks tail v1 f1
          | none => none
        else none := by
  simp only [Stamp.valid, Bool.and_eq_true, decide_eq_true_eq] at hv
  obtain ⟨⟨⟨⟨hy, hm1, hm2, hd1, hd2, hh, hmi, hs⟩, _⟩, _⟩, _⟩ := hv
  have hd3 : st.day < 100 := by
    have : daysIn st.month st.year ≤ 31 := by
      unfold daysIn
      split_ifs <;> decide
    omega
  have lm : lit "-" = [45] := by decide
  have lc : lit ":" = [58] := by decide
  have lt : lit "T" = [84] := by decide
  have ls : lit " " = [32] := by decide
  have h45 : ((45 : Byte) : Nat) ≠ 32 := by decide
  have h58 : ((58 : Byte) : Nat) ≠ 32 := by decide
  have h84 : ((84 : Byte) : Nat) ≠ 32 := by decide
  have h32 : ((32 : Byte) : Nat) = 32 := rfl
  have n1 : ¬ ((32 : Byte) = 84) := by decide
  have n2 : ¬ (((84 : Byte) : Nat) = 32) := by decide
  rw [Stamp.text_eq]
  cases hsp : st.space <;> cases useSpace <;>
    simp only [layoutDateTime, lm, lc, lt, ls, List.cons_append, List.nil_append, parseChunks,
      parseChunk_year st.year hy, parseChunk_month st.month hm1 hm2,
      parseChunk_day st.day hd3, parseChunk_hour st.hour hh, parseChunk_minute st.min hmi,
      parseChunk_byte 45 45 h45, parseChunk_byte 58 58 h58, parseChunk_byte 84 84 h84,
      parseChunk_byte 84 32 h84, parseChunk_space, cutspace_twoDigits, h32, n1, n2,
      if_true, if_false, Bool.false_eq_true, Stamp.beforeSeconds, Fields.init, reduceCtorEq]
  all_goals rfl

theorem ZoneText.text_head (z : ZoneText) (c : Byte) (r : GoString) (h : z.text = c :: r) :
    commaOrPeriod c = false ∧ isDigitByte c = false := by
  have lp : lit "+" = [43] := by decide
  have lm : lit "-" = [45] := by decide
  have lz : lit "Z" = [90] := by decide
  cases z with
  | absent => cases h
  | utc =>
    simp only [ZoneText.text, lz, List.cons.injEq] at h
    rw [← h.1]
    decide
  | east hh mm =>
    simp only [ZoneText.text, lp, List.cons_append, List.nil_append, List.append_assoc,
      List.cons.injEq] at h
    rw [← h.1]
    decide
  | west hh mm =>
    simp only [ZoneText.text, lm, List.cons_append, List.nil_append, List.append_assoc,
      List.cons.injEq] at h
    rw [← h.1]
    decide

theorem Stamp.valid_frac (st : Stamp) (hv : st.valid = true) : ∀ x ∈ st.frac, x < 10 := by
  simp only [Stamp.valid, Bool.and_eq_true, List.all_eq_true, decide_eq_true_eq] at hv
  exact hv.1.1.2

theorem Stamp.valid_sec (st : Stamp) (hv : st.valid = true) : st.sec < 60 := by
  simp only [Stamp.valid, Bool.and_eq_true, decide_eq_true_eq] at hv
  exact hv.1.1.1.2.2.2.2.2.2.2

theorem Stamp.valid_day (st : Stamp) (hv : st.valid = true) :
    ¬ (st.day < 1 ∨ st.day > daysIn st.month st.year) := by
  simp only [Stamp.valid, Bool.and_eq_true, decide_eq_true_eq] at hv
  have h1 := hv.1.1.1.2.2.2.1
  have h2 := hv.1.1.1.2.2.2.2.1
  omega

/-- The seconds of a written timestamp, when the layout has no fraction next:
the fraction, if any, is read with them, up to the zone. -/
theorem parseChunk_second_stamp (st : Stamp) (hv : st.valid = true) (tail : List Chunk)
    (ht : nextIsFrac tail = false) :
    ∃ ns, parseChunk Chunk.stdZeroSecond tail
        (twoDigits st.sec ++ (fracText st.frac ++ st.zone.text)) st.beforeSeconds
      = some (st.zone.text, { st.beforeSeconds with sec := st.sec, nsec := ns }) := by
  have hs := st.valid_sec hv
  have hf := st.valid_frac hv
  cases hfr : st.frac with
  | nil =>
    refine ⟨0, ?_⟩
    simp only [fracText, if_true, List.nil_append]
    exact parseChunk_second_plain st.sec hs tail st.zone.text
      (fun c r e => (st.zone.text_head c r e).1) _
  | cons d ds =>
    have lp : lit "." = [46] := by decide
    rw [hfr] at hf
    obtain ⟨ns, hns⟩ := parseChunk_second_frac st.sec hs tail ht d ds hf st.zone.text
      (fun c r e => (st.zone.text_head c r e).2) st.beforeSeconds
    refine ⟨ns, ?_⟩
    simp only [fracText, List.cons_ne_nil, if_false, lp, List.cons_append, List.nil_append,
      List.append_assoc]
    exact hns

/-- The result of `time.Parse` under the layout `2006-01-02T15:04:05Z07:00` on
a written timestamp: the instant it denotes when it has the separator `T` and
a zone, an error otherwise. -/
theorem timeParse_RFC3339 (st : Stamp) (hv : st.valid = true) :
    (st.space = false ∧ st.zone ≠ ZoneText.absent →
        ∃ t, timeParse RFC3339 st.text = some t ∧ t.unix = st.unix) ∧
      (st.space = true ∨ st.zone = ZoneText.absent → timeParse RFC3339 st.text = none) := by
  have hzv : st.zone.valid = true := by
    simp only [Stamp.valid, Bool.and_eq_true] at hv
    exact hv.1.2
  have hp := parseChunks_dateTime st hv false [Chunk.stdISO8601ColonTZ]
  have hl : layoutDateTime (if false = true then " " else "T") ++ [Chunk.stdISO8601ColonTZ]
      = RFC3339 := rfl
  rw [hl] at hp
  obtain ⟨ns, hns⟩ := parseChunk_second_stamp st hv [Chunk.stdISO8601ColonTZ] rfl
  constructor
  · rintro ⟨hsp, hz⟩
    refine ⟨Fields.toTime { st.beforeSeconds with sec := st.sec, nsec := ns,
                                                   zoneOffset := st.zone.seconds }, ?_, ?_⟩
    · unfold timeParse
      rw [hp, if_pos hsp, hns]
      simp only [parseChunks, parseChunk_zone st.zone hzv, if_neg hz]
      exact if_neg (st.valid_day hv)
    · simp only [Fields.toTime, Stamp.unix, Stamp.beforeSeconds, Fields.init]
  · intro h
    unfold timeParse
    rw [hp]
    by_cases hsp : st.space = false
    · have hz : st.zone = ZoneText.absent := by
        rcases h with h | h
        · rw [hsp] at h
          cases h
        · exact h
      rw [if_pos hsp, hns]
      simp only [parseChunks, parseChunk_zone st.zone hzv, if_pos hz]
    · rw [if_neg hsp]

/-- The layout `2006-01-02T15:04:05.999999999Z07:00` rejects a written
timestamp without zone or with a space. -/
theorem timeParse_RFC3339Nano (st : Stamp) (hv : st.valid = true)
    (h : st.space = true ∨ st.zone = ZoneText.absent) :
    timeParse RFC3339Nano st.text = none := by
  have hsz : st.space = true → st.zone = ZoneText.absent := by
    intro hsp
    simp only [Stamp.valid, Bool.and_eq_true, hsp, Bool.not_true, Bool.false_or,
      decide_eq_true_eq] at hv
    exact hv.2
  have hz : st.zone = ZoneText.absent := by
    rcases h with h | h
    · exact hsz h
    · exact h
  have hp := parseChunks_dateTime st hv false
    [Chunk.stdFracSecond9 9, Chunk.stdISO8601ColonTZ]
  have hl : layoutDateTime (if false = true then " " else "T")
      ++ [Chunk.stdFracSecond9 9, Chunk.stdISO8601ColonTZ] = RFC3339Nano := rfl
  rw [hl] at hp
  unfold timeParse
  rw [hp]
  by_cases hsp : st.space = false
  · obtain ⟨f1, hf1, _⟩ := parseChunk_frac9 st.frac (st.valid_frac hv) 9
      [Chunk.stdISO8601ColonTZ] { st.beforeSeconds with sec := st.sec }
    have hzone := parseChunk_zone ZoneText.absent rfl [] f1
    simp only [ZoneText.text, if_true] at hzone
    rw [if_pos hsp, parseChunk_second_left st.sec (st.valid_sec hv)
      [Chunk.stdFracSecond9 9, Chunk.stdISO8601ColonTZ] rfl]
    simp only [hz, ZoneText.text, List.append_nil, parseChunks, hf1, hzone]
  · rw [if_neg hsp]

/-- The layouts without a zone, `2006-01-02T15:04:05` and
`2006-01-02 15:04:05`, on a written timestamp: the instant it denotes when it
has the separator of the layout and no zone, an error when it has the other
separator. -/
theorem timeParse_plain (st : Stamp) (hv : st.valid = true) (useSpace : Bool) :
    (st.space = useSpace → st.zone = ZoneText.absent →
        ∃ t, timeParse (layoutDateTime (if useSpace then " " else "T")) st.text = some t ∧
          t.unix = st.unix) ∧
      (st.space ≠ useSpace →
        timeParse (layoutDateTime (if useSpace then " " else "T")) st.text = none) := by
  have hp := parseChunks_dateTime st hv useSpace []
  rw [List.append_nil] at hp
  obtain ⟨ns, hns⟩ := parseChunk_second_stamp st hv [] rfl
  constructor
  · intro hsp hz
    refine ⟨Fields.toTime { st.beforeSeconds with sec := st.sec, nsec := ns }, ?_, ?_⟩
    · unfold timeParse
      rw [hp, if_pos hsp, hns]
      simp only [hz, ZoneText.text, parseChunks]
      exact if_neg (st.valid_day hv)
    · simp only [Fields.toTime, Stamp.unix, Stamp.beforeSeconds, Fields.init, hz,
        ZoneText.seconds, sub_zero]
  · intro hsp
    unfold timeParse
    rw [hp, if_neg hsp]

/-- A written timestamp is recognised by `parseTimeValue`, with the instant it
denotes. -/
theorem parseTimeValue_stamp (st : Stamp) (hv : st.valid = true) :
    ∃ t, parseTimeValue (Value.str st.text) = some t ∧ t.unix = st.unix := by
  have hsz : st.space = true → st.zone = ZoneText.absent := by
    intro hsp
    simp only [Stamp.valid, Bool.and_eq_true, hsp, Bool.not_true, Bool.false_or,
      decide_eq_true_eq] at hv
    exact hv.2
  have h1 := timeParse_RFC3339 st hv
  have hT := timeParse_plain st hv false
  have hS := timeParse_plain st hv true
  simp only [Bool.false_eq_true, ↓reduceIte] at hT hS
  by_cases hz : st.zone = ZoneText.absent
  · have e1 := h1.2 (Or.inr hz)
    have e2 := timeParse_RFC3339Nano st hv (Or.inr hz)
    cases hsp : st.space with
    | true =>
      obtain ⟨t, ht, hu⟩ := hS.1 hsp hz
      refine ⟨t, ?_, hu⟩
      simp only [parseTimeValue, timeFormats, List.findSome?_cons, e1, e2, ht]
    | false =>
      obtain ⟨t, ht, hu⟩ := hT.1 hsp hz
      have e3 := hS.2 (by rw [hsp]; decide)
      refine ⟨t, ?_, hu⟩
      simp only [parseTimeValue, timeFormats, List.findSome?_cons, e1, e2, e3, ht]
  · have hsp : st.space = false := by
      cases h : st.space with
      | true => exact absurd (hsz h) hz
      | false => rfl
    obtain ⟨t, ht, hu⟩ := h1.1 ⟨hsp, hz⟩
    refine ⟨t, ?_, hu⟩
    simp only [parseTimeValue, timeFormats, List.findSome?_cons, ht]

/-- Claim C8. Two strings that `parseTimeValue` recognises as timestamps are
compared by their whole-second Unix values alone. A timestamp written in the
ISO form, with any number of fractional digits and with the zone left out,
written `Z` or written as an offset, is recognised with the instant it
denotes; so for two such texts `valuesEqual` is true exactly when they denote
the same instant up to the second, whatever their fractional digits and the
way their zone is written. -/
theorem valuesEqual_timestamps :
    (∀ (s1 s2 : GoString) (t1 t2 : Time),
        parseTimeValue (Value.str s1) = some t1 → parseTimeValue (Value.str s2) = some t2 →
        valuesEqual (Value.str s1) (Value.str s2) = decide (t1.unix = t2.unix)) ∧
      (∀ a : Stamp, a.valid = true →
        ∃ t, parseTimeValue (Value.str a.text) = some t ∧ t.unix = a.unix) ∧
      (∀ a b : Stamp, a.valid = true → b.valid = true →
        valuesEqual (Value.str a.text) (Value.str b.text) = decide (a.unix = b.unix)) := by
  have hgen : ∀ (s1 s2 : GoString) (t1 t2 : Time),
      parseTimeValue (Value.str s1) = some t1 → parseTimeValue (Value.str s2) = some t2 →
      valuesEqual (Value.str s1) (Value.str s2) = decide (t1.unix = t2.unix) := by
    intro s1 s2 t1 t2 h1 h2
    rw [valuesEqual_of_ne_null _ _ (by simp) (by simp), h1, h2]
  refine ⟨hgen, parseTimeValue_stamp, ?_⟩
  intro a b ha hb
  obtain ⟨t1, h1, u1⟩ := parseTimeValue_stamp a ha
  obtain ⟨t2, h2, u2⟩ := parseTimeValue_stamp b hb
  rw [hgen _ _ t1 t2 h1 h2, u1, u2]

set_option maxRecDepth 100000 in
/-- Claim C8 at the pair of the claim, `2024-01-01T10:00:00+08:00` and
`2024-01-01T02:00:00.500Z`, and at the same instant as MySQL writes it,
`2024-01-01 02:00:00.000000`: the three are equal to one another. -/
theorem valuesEqual_timestamps_witness :
    stampEast.text = lit "2024-01-01T10:00:00+08:00" ∧
      stampUtc.text = lit "2024-01-01T02:00:00.500Z" ∧
      stampPlain.text = lit "2024-01-01 02:00:00.000000" ∧
      valuesEqual (Value.str stampEast.text) (Value.str stampUtc.text) = true ∧
      valuesEqual (Value.str stampUtc.text) (Value.str stampPlain.text) = true :=
  ⟨by decide, by decide, by decide,
    (valuesEqual_timestamps.2.2 stampEast stampUtc (by decide) (by decide)).trans (by decide),
    (valuesEqual_timestamps.2.2 stampUtc stampPlain (by decide) (by decide)).trans (by decide)⟩

/-! ## Access token -/

set_option maxRecDepth 100000 in
theorem decodeURL_encodeSymbol_fin : ∀ i : Fin 64, decodeURL (encodeSymbol i.val) = some i.val := by
  decide

theorem decodeURL_encodeSymbol (i : Nat) : decodeURL (encodeSymbol i) = some (i % 64) := by
  have h := decodeURL_encodeSymbol_fin ⟨i % 64, Nat.mod_lt i (by decide)⟩
  have e : encodeSymbol (i % 64) = encodeSymbol i := by
    simp only [encodeSymbol, Nat.mod_mod]
  simpa only [e] using h

set_option maxRecDepth 100000 in
theorem decodeURL_pad : decodeURL 61 = none := by decide

theorem decodeFrom_quantum (s0 s1 s2 s3 : Byte) (v0 v1 v2 v3 : Nat) (t : GoString)
    (h0 : decodeURL s0 = some v0) (h1 : decodeURL s1 = some v1) (h2 : decodeURL s2 = some v2)
    (h3 : decodeURL s3 = some v3) :
    decodeFrom [] (s0 :: s1 :: s2 :: s3 :: t)
      = (decodeFrom [] t).map (fun r => quantumBytes [v0, v1, v2, v3] ++ r) := by
  simp [decodeFrom, h0, h1, h2, h3]

theorem byteOf_val (b : Byte) : byteOf b.val = b := by
  apply Fin.ext
  simp [byteOf, Nat.mod_eq_of_lt b.isLt]

theorem byteOf_eq_of_mod (n : Nat) (b : Byte) (h : n % 256 = b.val) : byteOf n = b := by
  apply Fin.ext
  simpa [byteOf] using h

theorem quantumBytes_three (a b c : Byte) :
    quantumBytes [(a.val * 65536 + b.val * 256 + c.val) / 262144 % 64,
        (a.val * 65536 + b.val * 256 + c.val) / 4096 % 64,
        (a.val * 65536 + b.val * 256 + c.val) / 64 % 64,
        (a.val * 65536 + b.val * 256 + c.val) % 64] = [a, b, c] := by
  have ha := a.isLt
  have hb := b.isLt
  have hc := c.isLt
  simp only [quantumBytes, List.getD_cons_zero, List.getD_cons_succ, List.length_cons,
    List.length_nil]
  have e1 : byteOf (((a.val * 65536 + b.val * 256 + c.val) / 262144 % 64 * 262144
      + (a.val * 65536 + b.val * 256 + c.val) / 4096 % 64 * 4096
      + (a.val * 65536 + b.val * 256 + c.val) / 64 % 64 * 64
      + (a.val * 65536 + b.val * 256 + c.val) % 64) / 65536) = a :=
    byteOf_eq_of_mod _ _ (by omega)
  have e2 : byteOf (((a.val * 65536 + b.val * 256 + c.val) / 262144 % 64 * 262144
      + (a.val * 65536 + b.val * 256 + c.val) / 4096 % 64 * 4096
      + (a.val * 65536 + b.val * 256 + c.val) / 64 % 64 * 64
      + (a.val * 65536 + b.val * 256 + c.val) % 64) / 256) = b :=
    byteOf_eq_of_mod _ _ (by omega)
  have e3 : byteOf ((a.val * 65536 + b.val * 256 + c.val) / 262144 % 64 * 262144
      + (a.val * 65536 + b.val * 256 + c.val) / 4096 % 64 * 4096
      + (a.val * 65536 + b.val * 256 + c.val) / 64 % 64 * 64
      + (a.val * 65536 + b.val * 256 + c.val) % 64) = c :=
    byteOf_eq_of_mod _ _ (by omega)
  rw [e1, e2, e3]
  rfl

theorem quantumBytes_two (a b : Byte) :
    quantumBytes [(a.val * 65536 + b.val * 256) / 262144 % 64,
        (a.val * 65536 + b.val * 256) / 4096 % 64,
        (a.val * 65536 + b.val * 256) / 64 % 64] = [a, b] := by
  have ha := a.isLt
  have hb := b.isLt
  simp only [quantumBytes, List.getD_cons_zero, List.getD_cons_succ, List.length_cons,
    List.length_nil, List.getD_nil]
  have e1 : byteOf (((a.val * 65536 + b.val * 256) / 262144 % 64 * 262144
      + (a.val * 65536 + b.val * 256) / 4096 % 64 * 4096
      + (a.val * 65536 + b.val * 256) / 64 % 64 * 64 + 0) / 65536) = a :=
    byteOf_eq_of_mod _ _ (by omega)
  have e2 : byteOf (((a.val * 65536 + b.val * 256) / 262144 % 64 * 262144
      + (a.val * 65536 + b.val * 256) / 4096 % 64 * 4096
      + (a.val * 65536 + b.val * 256) / 64 % 64 * 64 + 0) / 256) = b :=
    byteOf_eq_of_mod _ _ (by omega)
  rw [e1, e2]
  rfl

theorem quantumBytes_one (a : Byte) :
    quantumBytes [a.val * 65536 / 262144 % 64, a.val * 65536 / 4096 % 64] = [a] := by
  have ha := a.isLt
  simp only [quantumBytes, List.getD_cons_zero, List.getD_cons_succ, List.length_cons,
    List.length_nil, List.getD_nil]
  have e1 : byteOf ((a.val * 65536 / 262144 % 64 * 262144
      + a.val * 65536 / 4096 % 64 * 4096 + 0 * 64 + 0) / 65536) = a :=
    byteOf_eq_of_mod _ _ (by omega)
  rw [e1]
  rfl

/-- Decoding undoes encoding: `DecodeString(EncodeToString(s))` is `s`. -/
theorem base64Decode_base64Encode (s : GoString) : base64Decode (base64Encode s) = some s := by
  unfold base64Decode
  induction s using base64Encode.induct with
  | case1 => rfl
  | case2 a =>
    simp only [base64Encode, decodeFrom, decodeURL_encodeSymbol, decodeURL_pad, List.length_nil,
      List.nil_append, List.length_cons, List.cons_append]
    have h61 : ((61 : Byte) : Nat) = 61 := rfl
    simp [decodePadding, skipNewlines, quantumBytes_one, h61]
  | case3 a b =>
    simp only [base64Encode, decodeFrom, decodeURL_encodeSymbol, decodeURL_pad, List.length_nil,
      List.nil_append, List.length_cons, List.cons_append]
    have h61 : ((61 : Byte) : Nat) = 61 := rfl
    simp [decodePadding, skipNewlines, quantumBytes_two, h61]
  | case4 a b c t ih =>
    rw [base64Encode]
    simp only [List.cons_append, List.nil_append]
    rw [decodeFrom_quantum _ _ _ _ _ _ _ _ _ (decodeURL_encodeSymbol _)
      (decodeURL_encodeSymbol _) (decodeURL_encodeSymbol _) (decodeURL_encodeSymbol _), ih]
    simp only [Option.map_some']
    rw [quantumBytes_three]
    rfl

/-- A generated token is the base64 text of the JSON text of the attributes
with the expiry, and decodes to that text. -/
theorem GenerateConflictViewToken_decodes
    (marshal : GoMap JValue → Except GoString GoString) (issued : Int) (data : GoMap JValue)
    (tok : GoString) (h : GenerateConflictViewToken marshal issued data = Except.ok tok) :
    ∃ text, marshal (GoMap.set data (lit "exp") (JValue.number (issued + 86400)))
        = Except.ok text ∧ tok = base64Encode text ∧ base64Decode tok = some text := by
  unfold GenerateConflictViewToken at h
  cases hm : marshal (GoMap.set data (lit "exp") (JValue.number (issued + 86400))) with
  | error e => rw [hm] at h; cases h
  | ok text =>
    rw [hm] at h
    simp only [Except.ok.injEq] at h
    exact ⟨text, rfl, h.symm, by rw [← h]; exact base64Decode_base64Encode text⟩

theorem GoMap.set_ne_nil {β : Type} (m : GoMap β) (k : GoString) (v : β) :
    GoMap.set m k v ≠ [] := by
  cases m with
  | nil => simp [GoMap.set]
  | cons p rest =>
    obtain ⟨k1, v1⟩ := p
    by_cases h : k1 = k <;> simp [GoMap.set, h]

theorem intercalate_ne_nil (sep x : GoString) (xs : List GoString) (hx : x ≠ []) :
    sep.intercalate (x :: xs) ≠ [] := by
  cases xs with
  | nil => simpa [List.intercalate, List.intersperse] using hx
  | cons y ys =>
    simp [List.intercalate, List.intersperse, hx]

set_option maxRecDepth 100000 in
/-- The token `e30=`, the base64 text of the empty JSON object, is never the
result of `GenerateConflictViewToken`: a generated payload has the member
`exp`. -/
theorem GenerateConflictViewToken_ne_empty_object (issued : Int) (data : GoMap JValue) :
    GenerateConflictViewToken sampleMarshal issued data ≠ Except.ok (lit "e30=") := by
  intro h
  obtain ⟨text, hm, _, hdec⟩ := GenerateConflictViewToken_decodes sampleMarshal issued data _ h
  have hd : base64Decode (lit "e30=") = some [123, 125] := by decide
  rw [hd] at hdec
  simp only [Option.some.injEq] at hdec
  subst hdec
  have hne := GoMap.set_ne_nil data (lit "exp") (JValue.number (issued + 86400))
  generalize GoMap.set data (lit "exp") (JValue.number (issued + 86400)) = m at hm hne
  simp only [sampleMarshal, Except.ok.injEq] at hm
  have hk : (m.map Prod.fst).insertionSort (fun a b => bytesLe a b = true) ≠ [] := by
    intro e
    have hl := congrArg List.length e
    rw [List.length_insertionSort, List.length_map] at hl
    exact hne (List.length_eq_zero.mp hl)
  cases hks : (m.map Prod.fst).insertionSort (fun a b => bytesLe a b = true) with
  | nil => exact hk hks
  | cons k ks =>
    rw [hks] at hm
    have hi := intercalate_ne_nil [44]
      (jsonString k ++ [58] ++ ((GoMap.get? m k).getD JValue.null).text)
      (ks.map (fun k => jsonString k ++ [58] ++ ((GoMap.get? m k).getD JValue.null).text))
      (by simp [jsonString])
    have hl := congrArg List.length hm
    simp only [List.map_cons, List.length_append, List.length_cons, List.length_nil] at hl
    have h0 : ([44] : GoString).intercalate
        ((jsonString k ++ [58] ++ ((GoMap.get? m k).getD JValue.null).text) ::
          ks.map (fun k => jsonString k ++ [58] ++ ((GoMap.get? m k).getD JValue.null).text))
        = [] := by
      apply List.length_eq_zero.mp
      omega
    exact hi h0

set_option maxRecDepth 100000 in
/-- The two kinds of failure on examples: the token generated at time 1000 is
refused with `ErrTokenExpired` at time 90000; a token that is not base64 text,
the base64 text `WzFd` of the array `[1]`, and the base64 text `e2E6MX0=` of
the invalid text `{a:1}` are refused with three other errors. White space
around the object is accepted. -/
theorem ParseConflictViewToken_failures :
    GenerateConflictViewToken sampleMarshal 1000 conflictToken
        = Except.ok (base64Encode (lit
          "\x7b\"conflict_id\":1,\"exp\":87400,\"type\":\"conflict_view\",\"user_id\":7,\"username\":\"ann\"\x7d")) ∧
      ParseConflictViewToken float64Numbers 90000 (base64Encode (lit
          "\x7b\"conflict_id\":1,\"exp\":87400,\"type\":\"conflict_view\",\"user_id\":7,\"username\":\"ann\"\x7d"))
        = Except.error TokenError.ErrTokenExpired ∧
      ParseConflictViewToken float64Numbers 5000 (lit "e30")
        = Except.error TokenError.CorruptInputError ∧
      ParseConflictViewToken float64Numbers 5000 (lit "WzFd")
        = Except.error (TokenError.json JsonError.UnmarshalTypeError) ∧
      ParseConflictViewToken float64Numbers 5000 (lit "e2E6MX0=")
        = Except.error (TokenError.json JsonError.SyntaxError) ∧
      ParseConflictViewToken float64Numbers 5000 (lit "IHsgImV4cCIgOiAxIH0g")
        = Except.error TokenError.ErrTokenExpired ∧
      ParseConflictViewToken float64Numbers 0 (lit "IHsgImV4cCIgOiAxIH0g")
        = Except.ok [(lit "exp", JValue.number 1)] := by
  decide

end DBSync
